import Mathlib

/-!
# Imperative tracer (`paddle/fluid/imperative/tracer.cc`)

A shallow embedding of the tracer: `GetExpectedPlace`, `InitVar`, `CreateGradOp`,
`Tracer::Trace` and `Tracer::PyTrace`.

Pointers (`VarBase*`, `OpBase*`, `framework::Variable*`, `framework::BlockDesc*`) are
identifiers into heaps that are total functions; a nullable pointer is an `Option`.
A `std::map<std::string, T>` is an association list with unique keys that is only
consulted through `StrMap.find`; the maps the tracer iterates over (`inputs`, `outputs`,
the `Inputs()` / `Outputs()` of a descriptor) are given in iteration order.
A C++ exception leaves the mutations done before the throw in place, so every
operation returns the state it reached together with its result.
-/

namespace paddle.imperative

/-! ## Identifiers and string-keyed maps -/

abbrev VarId := Nat
abbrev OpId := Nat
abbrev VariableId := Nat
abbrev BlockId := Nat

/-- A `std::map<std::string, α>`, consulted through `find`. -/
abbrev StrMap (α : Type) := List (String × α)

/-- The `find` member of a map. -/
def StrMap.find {α : Type} : StrMap α → String → Option α
  | [], _ => none
  | (k, v) :: t, key => if k = key then some v else StrMap.find t key

/-- The assignment `m[key] = v`: replaces the mapped value or inserts a new entry. -/
def StrMap.set {α : Type} : StrMap α → String → α → StrMap α
  | [], key, v => [(key, v)]
  | (k, w) :: t, key, v => if k = key then (k, v) :: t else (k, w) :: StrMap.set t key v

/-- The value read by `m[key]` on a map of vectors (a fresh entry is an empty vector). -/
def StrMap.at {α : Type} (m : StrMap (List α)) (key : String) : List α :=
  (m.find key).getD []

/-- The reference `m[key]` taken without writing: the entry exists afterwards. -/
def StrMap.touch {α : Type} (m : StrMap (List α)) (key : String) : StrMap (List α) :=
  m.set key (m.at key)

/-- The statement `m[key].push_back(v)`. -/
def StrMap.push {α : Type} (m : StrMap (List α)) (key : String) (v : α) : StrMap (List α) :=
  m.set key (m.at key ++ [v])

/-- The `resize(n)` member of a vector whose elements default to `d`. -/
def resize {α : Type} (l : List α) (n : Nat) (d : α) : List α :=
  l.take n ++ List.replicate (n - l.length) d

/-! ## Data model -/

/-- Modelled from the spec: `platform::Place` (declared outside this file), "a
device/location abstraction that tensor data is bound to". -/
inductive Place where
  | CPUPlace
  | CUDAPlace (device : Nat)
  | CUDAPinnedPlace
  deriving DecidableEq, Repr

/-- Modelled from the spec: `platform::is_same_place`, two inputs "differ in device
placement" exactly when their places are not the same. -/
def is_same_place (a b : Place) : Bool := decide (a = b)

/-- Element types of a tensor; `mutable_data<float>` allocates `FP32`. -/
inductive DataType where
  | FP32
  | FP64
  | INT32
  | INT64
  deriving DecidableEq, Repr

/-- The memory of a tensor: where it lives, its element type and the raw elements
(bit patterns; the constant `0.0` is the pattern `0`). -/
structure Allocation where
  place : Place
  dtype : DataType
  data : List Nat
  deriving DecidableEq, Repr

/-- A `framework::LoDTensor`: dimensions and, once memory was requested, its allocation. -/
structure LoDTensor where
  dims : List Nat
  holder : Option Allocation
  deriving DecidableEq, Repr

/-- A `framework::Variable`: it holds a tensor or nothing yet. -/
structure Variable where
  holder : Option LoDTensor
  deriving DecidableEq, Repr

/-- The member `Variable::IsInitialized`. -/
def Variable.IsInitialized (v : Variable) : Bool := v.holder.isSome

/-- The member `Variable::GetMutable<LoDTensor>`: a variable that holds nothing gets a
default-constructed tensor, without elements and without memory. -/
def Variable.GetMutable (v : Variable) : Variable :=
  if v.IsInitialized then v else { holder := some { dims := [0], holder := none } }

/-- Number of elements of a tensor of the given dimensions. -/
def numel (dims : List Nat) : Nat := dims.prod

/-- Declared type of a variable in a block (`framework::proto::VarType`). -/
inductive VarType where
  | LOD_TENSOR
  | SELECTED_ROWS
  | LOD_TENSOR_ARRAY
  deriving DecidableEq, Repr

/-- A `framework::BlockDesc`: the declared variables, as `FindVar` sees them. -/
structure BlockDesc where
  vars : String → Option VarType

/-- A `framework::OpDesc`: the type of the operation and its named name lists. -/
structure OpDesc where
  type : String
  inputs : StrMap (List String)
  outputs : StrMap (List String)
  deriving DecidableEq, Repr

/-- A `VarBase`, with the fields the tracer reads and writes. -/
structure VarBase where
  name : String
  var_ : Option VariableId
  grads_ : Option VarId
  pre_op_ : Option OpId
  pre_op_out_name_ : String
  pre_op_out_idx_ : Int
  stop_gradient_ : Bool
  deriving DecidableEq, Repr

/-- A `std::map<std::string, std::vector<VarBase*>>`, in iteration order. -/
abbrev VarBasePtrMap := StrMap (List VarId)

/-- A `framework::VariableValueMap`. -/
abbrev VariableValueMap := StrMap (List (Option VariableId))

/-- An `OpBase`, with the fields the tracer reads and writes. -/
structure OpBase where
  op_desc_ : OpDesc
  forward_id_ : Nat
  input_vars_ : VarBasePtrMap
  output_vars_ : VarBasePtrMap
  pre_ops_ : StrMap (List (Option OpId))
  pre_ops_out_idx_ : StrMap (List Int)
  grad_op_descs_ : List OpDesc
  grad_input_vars_ : List VariableValueMap
  grad_output_vars_ : List VariableValueMap
  place_ : Place
  block_ : Option BlockId
  deriving DecidableEq, Repr

/-- A `platform::DeviceContext`, reduced to what `GetPlace` returns. -/
structure DeviceContext where
  place : Place
  deriving DecidableEq, Repr

/-- One invocation of a forward kernel function `prepared_op.func`. -/
structure KernelRun where
  op_type : String
  place : Place
  ins : VariableValueMap
  outs : VariableValueMap
  deriving DecidableEq, Repr

/-- The heaps reachable from the tracer, and the log of forward kernel invocations. -/
structure State where
  vars : VarId → VarBase
  ops : OpId → OpBase
  store : VariableId → Variable
  blocks : BlockId → BlockDesc
  kernel_log : List KernelRun

/-- Failures of a trace call. -/
inductive TraceError where
  /-- Thrown by `PADDLE_ENFORCE_NOT_NULL(inp->var_, "op %s input %s nullptr", ...)`. -/
  | NullInput (op_type : String) (input : String)
  /-- Thrown by `PADDLE_ENFORCE_NOT_NULL(op_kernel, "only support op with kernel")`. -/
  | UnsupportedOperation
  /-- Thrown by `PADDLE_THROW("Input variable should keep in the same place: ...")`. -/
  | PlaceMismatch (expected got : Place) (input : String)
  /-- Thrown by `PADDLE_ENFORCE(grad_op_descs->empty())`. -/
  | GradOpDescsNotEmpty
  /-- Thrown by `PADDLE_ENFORCE_NOT_NULL(dev_ctx, "Could not get valid device from forward op")`. -/
  | InvalidDevice
  /-- Thrown by `PADDLE_ENFORCE(fwd_var_it != vars.end())`. -/
  | DanglingGradientReference
  /-- Thrown by `PADDLE_ENFORCE(var_it != grad_to_var->end(), "Could not found the grad op output var ...")`. -/
  | MissingGradientMapping (op_type : String)
  /-- Thrown by `Get<LoDTensor>()` on a variable that holds nothing, or `place()` without memory. -/
  | NotInitialized
  /-- Dereference of a null pointer. -/
  | NullDereference
  deriving DecidableEq, Repr

/-- Result of a call: the value returned, or the exception thrown. -/
inductive TraceResult (α : Type) where
  | ok (value : α)
  | error (e : TraceError)
  deriving DecidableEq, Repr

/-- The state reached by a call together with its result. -/
structure Outcome (α : Type) where
  state : State
  result : TraceResult α

/-- The collaborators of the tracer that live outside this file. -/
structure Env where
  /-- The call `OpDesc::InferShape(*block)`. -/
  InferShape : OpDesc → BlockDesc → BlockDesc
  /-- The call `OpDesc::InferVarType(block)`. -/
  InferVarType : OpDesc → BlockDesc → BlockDesc
  /-- Whether `OpRegistry::CreateOp` yields an `OperatorWithKernel` (the `dynamic_cast`). -/
  isOperatorWithKernel : OpDesc → Bool
  /-- The device context chosen by `PreparedOp::Prepare` (null when none). -/
  Prepare : OpDesc → Place → Option DeviceContext
  /-- The call `RuntimeInferShape`: the contents it gives to the variables of the context. -/
  RuntimeInferShape : KernelRun → (VariableId → Variable) → VariableId → Variable
  /-- The forward kernel: the contents it gives to the variables of the context. -/
  func : KernelRun → (VariableId → Variable) → VariableId → Variable
  /-- The call `GradOpMaker()`: the backward descriptors and the filled `grad_to_var`. -/
  GradOpMaker : OpDesc → List OpDesc × StrMap String
  /-- The call `BlockDesc::FindRecursiveOrCreateVar`. -/
  FindRecursiveOrCreateVar : BlockDesc → String → BlockDesc
  /-- The call `DeviceContextPool::Instance().Get(place)`. -/
  DeviceContextPoolGet : Place → Option DeviceContext
  /-- The constant `PyLayer::kFwdInp`. -/
  kFwdInp : String
  /-- The constant `PyLayer::kFwdOut`. -/
  kFwdOut : String
  /-- The function `framework::GradVarName`. -/
  GradVarName : String → String
  /-- The call `PyLayer::Apply(forward_id, inputs)`: the outputs of the callback and the contents
  it leaves in the variables. -/
  PyLayerApply : Nat → List VarId → State → List VarId × (VariableId → Variable)

/-! ## Heap updates -/

/-- Write of a whole `OpBase` through its pointer. -/
def State.setOp (s : State) (op : OpId) (o : OpBase) : State :=
  { s with ops := Function.update s.ops op o }

/-- Write of a whole `VarBase` through its pointer. -/
def State.setVar (s : State) (v : VarId) (vb : VarBase) : State :=
  { s with vars := Function.update s.vars v vb }

/-- Write of a `framework::Variable` through its pointer. -/
def State.setVariable (s : State) (v : VariableId) (x : Variable) : State :=
  { s with store := Function.update s.store v x }

/-- Write of a `framework::BlockDesc` through its pointer. -/
def State.setBlock (s : State) (b : BlockId) (x : BlockDesc) : State :=
  { s with blocks := Function.update s.blocks b x }

/-- Application of `f` to the element at index `i` of a vector (`v[i] = f(v[i])`). -/
def modifyAt {α : Type} (f : α → α) : Nat → List α → List α
  | _, [] => []
  | 0, a :: t => f a :: t
  | i + 1, a :: t => a :: modifyAt f i t

/-- The insertion into a `std::set<std::string>`. -/
def setInsert (saved : List String) (name : String) : List String :=
  if name ∈ saved then saved else saved ++ [name]

/-! ## Members of `VarBase` -/

/-- Modelled from the spec: `VarBase::PreOp` (layer.h), the "back-reference to the
(OperationInstance, output-slot-index) that produced it (absent for leaf/input
variables)". -/
def VarBase.PreOp (vb : VarBase) : Option OpId := vb.pre_op_

/-- Modelled from the spec: `VarBase::PreOpOutIdx` (layer.h), the output slot of the
back-reference. -/
def VarBase.PreOpOutIdx (vb : VarBase) : Int := vb.pre_op_out_idx_

/-- Modelled from the spec: `VarBase::IsStopGradient` (layer.h), the "boolean
stop_gradient flag". -/
def VarBase.IsStopGradient (vb : VarBase) : Bool := vb.stop_gradient_

/-- Modelled from the spec: `VarBase::TrackPreOp` (layer.h): "Record each output's
(OperationInstance, slot) as that Variable's producer, with the given stopGradient flag
attached to the Variable." -/
def VarBase.TrackPreOp (vb : VarBase) (pre_op : OpId) (pre_op_out_name : String)
    (pre_op_out_idx : Int) (pre_op_stop_gradient : Bool) : VarBase :=
  { vb with
    pre_op_ := some pre_op
    pre_op_out_name_ := pre_op_out_name
    pre_op_out_idx_ := pre_op_out_idx
    stop_gradient_ := pre_op_stop_gradient }

/-! ## `InitVar`, `GetExpectedPlace`, `CreateGradOp` -/

/-- The function `InitVar` (lines 42-51): the gradient variable gets a `float` tensor of
the dimensions of `var`, on the place of `dev_ctx`, filled with `0.0`. -/
def InitVar (store : VariableId → Variable) (var grad_var : Option VariableId)
    (dev_ctx : Option DeviceContext) : TraceResult (VariableId → Variable) :=
  match dev_ctx with
  | none => .error .InvalidDevice
  | some ctx =>
    match var with
    | none => .error .NullDereference
    | some v =>
      match (store v).holder with
      | none => .error .NotInitialized
      | some var_t =>
        match grad_var with
        | none => .error .NullDereference
        | some g =>
          .ok (Function.update store g
            { holder := some
                { dims := var_t.dims
                  holder := some
                    { place := ctx.place
                      dtype := DataType.FP32
                      data := List.replicate (numel var_t.dims) 0 } } })

/-- The place read by `var->var_->Get<framework::LoDTensor>().place()`. -/
def tensorPlace (s : State) (var : VarId) : TraceResult Place :=
  match (s.vars var).var_ with
  | none => .error .NullDereference
  | some v =>
    match (s.store v).holder with
    | none => .error .NotInitialized
    | some t =>
      match t.holder with
      | none => .error .NotInitialized
      | some a => .ok a.place

/-- The inner loop of `GetExpectedPlace` (lines 56-65) over the variables of one group. -/
def GetExpectedPlaceGroup (s : State) (result : Place) (first : String) :
    List VarId → TraceResult Unit
  | [] => .ok ()
  | var :: rest =>
    match tensorPlace s var with
    | .error e => .error e
    | .ok tmp_place =>
      if !is_same_place tmp_place result then
        .error (.PlaceMismatch result tmp_place first)
      else GetExpectedPlaceGroup s result first rest

/-- The function `GetExpectedPlace` (lines 53-69). -/
def GetExpectedPlace (s : State) (place : Place) : VarBasePtrMap → TraceResult Place
  | [] => .ok place
  | (first, second) :: rest =>
    match GetExpectedPlaceGroup s place first second with
    | .error e => .error e
    | .ok _ => GetExpectedPlace s place rest

/-- The function `CreateGradOp` (lines 26-40): the descriptors appended to
`grad_op_descs` and the filled `grad_to_var`. -/
def CreateGradOp (env : Env) (op_desc : OpDesc) (grad_op_descs : List OpDesc) :
    TraceResult (List OpDesc × StrMap String) :=
  if grad_op_descs.isEmpty then
    .ok (grad_op_descs ++ (env.GradOpMaker op_desc).1, (env.GradOpMaker op_desc).2)
  else .error .GradOpDescsNotEmpty

/-! ## `Tracer::Trace` -/

/-- The locals `vars`, `invars_map` and `outvars_map` of `Tracer::Trace`. -/
structure Locals where
  vars : StrMap VarId
  invars_map : VariableValueMap
  outvars_map : VariableValueMap
  deriving DecidableEq, Repr

/-- The tape edge recorded for one input (lines 99-104, 214-219). -/
def recordPreOp (o : OpBase) (first : String) (inp : VarBase) : OpBase :=
  if inp.PreOp.isSome && !inp.IsStopGradient then
    { o with
      pre_ops_ := o.pre_ops_.push first inp.PreOp
      pre_ops_out_idx_ := o.pre_ops_out_idx_.push first inp.PreOpOutIdx }
  else
    { o with pre_ops_ := o.pre_ops_.push first none }

/-- The inner loop over the inputs of one group (lines 93-107). -/
def traceInputs (op : OpId) (first : String) : List VarId → State → Locals → Outcome Locals
  | [], s, l => ⟨s, .ok l⟩
  | inp :: rest, s, l =>
    match (s.vars inp).var_ with
    | none => ⟨s, .error (.NullInput (s.ops op).op_desc_.type (s.vars inp).name)⟩
    | some v =>
      traceInputs op first rest
        (s.setOp op (recordPreOp (s.ops op) first (s.vars inp)))
        { l with
          invars_map := l.invars_map.push first (some v)
          vars := l.vars.set (s.vars inp).name inp }

/-- The loop over the input groups (lines 90-108). -/
def traceInputGroups (op : OpId) : VarBasePtrMap → State → Locals → Outcome Locals
  | [], s, l => ⟨s, .ok l⟩
  | (first, second) :: rest, s, l =>
    match traceInputs op first second s { l with invars_map := l.invars_map.touch first } with
    | ⟨s1, .error e⟩ => ⟨s1, .error e⟩
    | ⟨s1, .ok l1⟩ => traceInputGroups op rest s1 l1

/-- The inner loop over the outputs of one group, from index `i` on (lines 115-130). -/
def traceOutputs (op : OpId) (first : String) (block : BlockId) (stop_gradient : Bool) :
    Nat → List VarId → State → Locals → Outcome Locals
  | _, [], s, l => ⟨s, .ok l⟩
  | i, out :: rest, s, l =>
    let l1 : Locals :=
      { l with
        outvars_map := l.outvars_map.push first (s.vars out).var_
        vars := l.vars.set (s.vars out).name out }
    match (s.blocks block).vars (s.vars out).name with
    | none => ⟨s, .error .NullDereference⟩
    | some ty =>
      if ty = VarType.LOD_TENSOR then
        match (s.vars out).var_ with
        | none => ⟨s, .error .NullDereference⟩
        | some v =>
          traceOutputs op first block stop_gradient (i + 1) rest
            ((s.setVariable v (s.store v).GetMutable).setVar out
              ((s.vars out).TrackPreOp op first i stop_gradient)) l1
      else
        traceOutputs op first block stop_gradient (i + 1) rest
          (s.setVar out ((s.vars out).TrackPreOp op first i stop_gradient)) l1

/-- The loop over the output groups (lines 111-131). -/
def traceOutputGroups (op : OpId) (block : BlockId) (stop_gradient : Bool) :
    VarBasePtrMap → State → Locals → Outcome Locals
  | [], s, l => ⟨s, .ok l⟩
  | (first, second) :: rest, s, l =>
    match traceOutputs op first block stop_gradient 0 second s
        { l with outvars_map := l.outvars_map.touch first } with
    | ⟨s1, .error e⟩ => ⟨s1, .error e⟩
    | ⟨s1, .ok l1⟩ => traceOutputGroups op block stop_gradient rest s1 l1

/-- The variables of the execution context that a kernel may write: its outputs. -/
def isOutputOf (outs : VariableValueMap) (v : VariableId) : Bool :=
  outs.any (fun kv => decide (some v ∈ kv.2))

/-- Run of an external routine on the execution context: the outputs take the
contents it computes, every other variable keeps its own. -/
def runOnContext (f : KernelRun → (VariableId → Variable) → VariableId → Variable)
    (run : KernelRun) (store : VariableId → Variable) : VariableId → Variable :=
  fun v => if isOutputOf run.outs v then f run store v else store v

/-- The gradient buffer of the forward variable registered under `fwd_name`, zero-filled
first when it is not initialized (lines 172-178 and 192-197). -/
def gradVarOf (s : State) (vars : StrMap VarId) (fwd_name : String)
    (dev_ctx : Option DeviceContext) : Outcome VariableId :=
  match vars.find fwd_name with
  | none => ⟨s, .error .NullDereference⟩
  | some var =>
    match (s.vars var).grads_ with
    | none => ⟨s, .error .NullDereference⟩
    | some g =>
      match (s.vars g).var_ with
      | none => ⟨s, .error .NullDereference⟩
      | some gv =>
        if !(s.store gv).IsInitialized then
          match InitVar s.store (s.vars var).var_ (some gv) dev_ctx with
          | .error e => ⟨s, .error e⟩
          | .ok store => ⟨{ s with store := store }, .ok gv⟩
        else ⟨s, .ok gv⟩

/-- The statement `op->grad_input_vars_[i][first].push_back(v)`. -/
def pushGradInput (s : State) (op : OpId) (i : Nat) (first : String)
    (v : Option VariableId) : State :=
  s.setOp op { s.ops op with
    grad_input_vars_ := modifyAt (fun m => m.push first v) i (s.ops op).grad_input_vars_ }

/-- The statement `op->grad_output_vars_[i][first].push_back(v)`. -/
def pushGradOutput (s : State) (op : OpId) (i : Nat) (first : String)
    (v : Option VariableId) : State :=
  s.setOp op { s.ops op with
    grad_output_vars_ := modifyAt (fun m => m.push first v) i (s.ops op).grad_output_vars_ }

/-- The loop over the names of one input group of backward descriptor `i`
(lines 162-180); the value is `vars_saved_for_backward`. -/
def gradInputNames (env : Env) (op : OpId) (block : BlockId) (i : Nat) (first : String)
    (grad_to_var : StrMap String) (vars : StrMap VarId) (dev_ctx : Option DeviceContext) :
    List String → State → List String → Outcome (List String)
  | [], s, saved => ⟨s, .ok saved⟩
  | grad_invar :: rest, s, saved =>
    let s1 := s.setBlock block (env.FindRecursiveOrCreateVar (s.blocks block) grad_invar)
    match grad_to_var.find grad_invar with
    | none =>
      match vars.find grad_invar with
      | none => ⟨s1, .error .DanglingGradientReference⟩
      | some fwd =>
        gradInputNames env op block i first grad_to_var vars dev_ctx rest
          (pushGradInput s1 op i first (s1.vars fwd).var_) (setInsert saved first)
    | some fwd_name =>
      match gradVarOf s1 vars fwd_name dev_ctx with
      | ⟨s2, .error e⟩ => ⟨s2, .error e⟩
      | ⟨s2, .ok gv⟩ =>
        gradInputNames env op block i first grad_to_var vars dev_ctx rest
          (pushGradInput s2 op i first (some gv)) saved

/-- The loop over the input groups of backward descriptor `i` (lines 160-181). -/
def gradInputGroups (env : Env) (op : OpId) (block : BlockId) (i : Nat)
    (grad_to_var : StrMap String) (vars : StrMap VarId) (dev_ctx : Option DeviceContext) :
    StrMap (List String) → State → List String → Outcome (List String)
  | [], s, saved => ⟨s, .ok saved⟩
  | (first, second) :: rest, s, saved =>
    match gradInputNames env op block i first grad_to_var vars dev_ctx second
        (s.setOp op { s.ops op with
          grad_input_vars_ := modifyAt (fun m => m.touch first) i (s.ops op).grad_input_vars_ })
        saved with
    | ⟨s1, .error e⟩ => ⟨s1, .error e⟩
    | ⟨s1, .ok saved1⟩ =>
      gradInputGroups env op block i grad_to_var vars dev_ctx rest s1 saved1

/-- The loop over the names of one output group of backward descriptor `i`
(lines 185-198). -/
def gradOutputNames (env : Env) (op : OpId) (block : BlockId) (i : Nat) (first : String)
    (grad_to_var : StrMap String) (vars : StrMap VarId) (dev_ctx : Option DeviceContext) :
    List String → State → Outcome Unit
  | [], s => ⟨s, .ok ()⟩
  | grad_outvar :: rest, s =>
    let s1 := s.setBlock block (env.FindRecursiveOrCreateVar (s.blocks block) grad_outvar)
    match grad_to_var.find grad_outvar with
    | none => ⟨s1, .error (.MissingGradientMapping (s1.ops op).op_desc_.type)⟩
    | some fwd_name =>
      match gradVarOf s1 vars fwd_name dev_ctx with
      | ⟨s2, .error e⟩ => ⟨s2, .error e⟩
      | ⟨s2, .ok gv⟩ =>
        gradOutputNames env op block i first grad_to_var vars dev_ctx rest
          (pushGradOutput s2 op i first (some gv))

/-- The loop over the output groups of backward descriptor `i` (lines 183-199). -/
def gradOutputGroups (env : Env) (op : OpId) (block : BlockId) (i : Nat)
    (grad_to_var : StrMap String) (vars : StrMap VarId) (dev_ctx : Option DeviceContext) :
    StrMap (List String) → State → Outcome Unit
  | [], s => ⟨s, .ok ()⟩
  | (first, second) :: rest, s =>
    match gradOutputNames env op block i first grad_to_var vars dev_ctx second
        (s.setOp op { s.ops op with
          grad_output_vars_ :=
            modifyAt (fun m => m.touch first) i (s.ops op).grad_output_vars_ }) with
    | ⟨s1, .error e⟩ => ⟨s1, .error e⟩
    | ⟨s1, .ok _⟩ => gradOutputGroups env op block i grad_to_var vars dev_ctx rest s1

/-- The loop over the backward descriptors, from index `i` on (lines 158-200). -/
def gradOpDescs (env : Env) (op : OpId) (block : BlockId) (grad_to_var : StrMap String)
    (vars : StrMap VarId) (dev_ctx : Option DeviceContext) :
    Nat → List OpDesc → State → List String → Outcome (List String)
  | _, [], s, saved => ⟨s, .ok saved⟩
  | i, grad_op_desc :: rest, s, saved =>
    match gradInputGroups env op block i grad_to_var vars dev_ctx grad_op_desc.inputs
        s saved with
    | ⟨s1, .error e⟩ => ⟨s1, .error e⟩
    | ⟨s1, .ok saved1⟩ =>
      match gradOutputGroups env op block i grad_to_var vars dev_ctx
          grad_op_desc.outputs s1 with
      | ⟨s2, .error e⟩ => ⟨s2, .error e⟩
      | ⟨s2, .ok _⟩ =>
        gradOpDescs env op block grad_to_var vars dev_ctx (i + 1) rest s2 saved1

/-- The gradient part of `Tracer::Trace` (lines 151-201). -/
def traceGrad (env : Env) (op : OpId) (block : BlockId) (vars : StrMap VarId)
    (dev_ctx : Option DeviceContext) (s : State) : Outcome (List String) :=
  match CreateGradOp env (s.ops op).op_desc_ (s.ops op).grad_op_descs_ with
  | .error e => ⟨s, .error e⟩
  | .ok (descs, grad_to_var) =>
    gradOpDescs env op block grad_to_var vars dev_ctx 0 descs
      (s.setOp op { s.ops op with
        grad_op_descs_ := descs
        grad_input_vars_ := resize (s.ops op).grad_input_vars_ descs.length []
        grad_output_vars_ := resize (s.ops op).grad_output_vars_ descs.length [] })
      []

/-- The kernel preparation and dispatch of `Tracer::Trace` (lines 141-147), after the
place check returned `place`. -/
def dispatch (env : Env) (op : OpId) (place : Place) (l : Locals) (s : State) : State :=
  let run : KernelRun :=
    { op_type := (s.ops op).op_desc_.type
      place := place
      ins := l.invars_map
      outs := l.outvars_map }
  { s.setOp op { s.ops op with place_ := place } with
    store := runOnContext env.func run (runOnContext env.RuntimeInferShape run s.store)
    kernel_log := s.kernel_log ++ [run] }

/-- The function `Tracer::Trace` from the place check on (lines 141-205). -/
def traceRun (env : Env) (op : OpId) (inputs : VarBasePtrMap) (block : BlockId)
    (expected_place : Place) (stop_gradient : Bool) (l : Locals) (s : State) :
    Outcome (List String) :=
  match GetExpectedPlace s expected_place inputs with
  | .error e => ⟨s, .error e⟩
  | .ok place =>
    if stop_gradient then
      ⟨(dispatch env op place l s).setOp op
        { (dispatch env op place l s).ops op with block_ := some block }, .ok []⟩
    else
      match traceGrad env op block l.vars (env.Prepare (s.ops op).op_desc_ place)
          (dispatch env op place l s) with
      | ⟨s1, .error e⟩ => ⟨s1, .error e⟩
      | ⟨s1, .ok saved⟩ => ⟨s1.setOp op { s1.ops op with block_ := some block }, .ok saved⟩

/-- The block as `Tracer::Trace` sees it after shape and type inference (lines 80-81). -/
def inferredBlock (env : Env) (s : State) (op : OpId) (block : BlockId) : BlockDesc :=
  env.InferVarType (s.ops op).op_desc_ (env.InferShape (s.ops op).op_desc_ (s.blocks block))

/-- The state of `Tracer::Trace` when the loop over the inputs starts (lines 78-89). -/
def traceBegin (env : Env) (s : State) (op : OpId) (inputs : VarBasePtrMap)
    (block : BlockId) : State :=
  (s.setBlock block (inferredBlock env s op block)).setOp op
    { s.ops op with input_vars_ := inputs }

/-- The function `Tracer::Trace` from the loop over the outputs on (lines 110-205). -/
def traceFromOutputs (env : Env) (op : OpId) (inputs outputs : VarBasePtrMap)
    (block : BlockId) (expected_place : Place) (stop_gradient : Bool) (l1 : Locals)
    (s1 : State) : Outcome (List String) :=
  match traceOutputGroups op block stop_gradient outputs
      (s1.setOp op { s1.ops op with output_vars_ := outputs }) l1 with
  | ⟨s2, .error e⟩ => ⟨s2, .error e⟩
  | ⟨s2, .ok l2⟩ =>
    if env.isOperatorWithKernel (s2.ops op).op_desc_ then
      traceRun env op inputs block expected_place stop_gradient l2 s2
    else ⟨s2, .error .UnsupportedOperation⟩

/-- The function `Tracer::Trace` (lines 71-205). -/
def Trace (env : Env) (s : State) (op : OpId) (inputs outputs : VarBasePtrMap)
    (block : BlockId) (expected_place : Place) (stop_gradient : Bool) :
    Outcome (List String) :=
  match traceInputGroups op inputs (traceBegin env s op inputs block) ⟨[], [], []⟩ with
  | ⟨s1, .error e⟩ => ⟨s1, .error e⟩
  | ⟨s1, .ok l1⟩ =>
    traceFromOutputs env op inputs outputs block expected_place stop_gradient l1 s1

/-! ## `Tracer::PyTrace` -/

/-- The loop over the inputs of `Tracer::PyTrace` (lines 213-220). -/
def pyTraceInputs (env : Env) (op : OpId) : List VarId → State → State
  | [], s => s
  | inp :: rest, s =>
    pyTraceInputs env op rest (s.setOp op (recordPreOp (s.ops op) env.kFwdInp (s.vars inp)))

/-- The loop over the outputs of `Tracer::PyTrace`, from index `i` on (lines 223-226). -/
def pyTrackOutputs (env : Env) (op : OpId) (stop_gradient : Bool) :
    Nat → List VarId → State → State
  | _, [], s => s
  | i, out :: rest, s =>
    pyTrackOutputs env op stop_gradient (i + 1) rest
      (s.setVar out ((s.vars out).TrackPreOp op env.kFwdOut i stop_gradient))

/-- The loops that push the data handles of the forward inputs and outputs onto
`grad_input_vars` (lines 235-240). -/
def pyPushForward (env : Env) (op : OpId) : List VarId → State → State
  | [], s => s
  | v :: rest, s =>
    pyPushForward env op rest
      (pushGradInput s op 0 (env.GradVarName env.kFwdInp) (s.vars v).var_)

/-- The loop that pushes the gradient buffers of the outputs onto `grad_input_vars`
(lines 243-250). -/
def pyPushOutGrads (env : Env) (op : OpId) : List VarId → State → Outcome Unit
  | [], s => ⟨s, .ok ()⟩
  | out :: rest, s =>
    match (s.vars out).grads_ with
    | none => ⟨s, .error .NullDereference⟩
    | some g =>
      match (s.vars g).var_ with
      | none =>
        ⟨pushGradInput s op 0 (env.GradVarName env.kFwdInp) none, .error .NullDereference⟩
      | some gv =>
        if !(s.store gv).IsInitialized then
          match InitVar s.store (s.vars out).var_ (some gv)
              (env.DeviceContextPoolGet Place.CPUPlace) with
          | .error e =>
            ⟨pushGradInput s op 0 (env.GradVarName env.kFwdInp) (some gv), .error e⟩
          | .ok store =>
            pyPushOutGrads env op rest
              { pushGradInput s op 0 (env.GradVarName env.kFwdInp) (some gv) with
                store := store }
        else
          pyPushOutGrads env op rest
            (pushGradInput s op 0 (env.GradVarName env.kFwdInp) (some gv))

/-- The loop that pushes the gradient buffers of the inputs onto `grad_output_vars`
(lines 252-259). -/
def pyPushInGrads (env : Env) (op : OpId) : List VarId → State → Outcome Unit
  | [], s => ⟨s, .ok ()⟩
  | inp :: rest, s =>
    match (s.vars inp).grads_ with
    | none => ⟨s, .error .NullDereference⟩
    | some g =>
      match (s.vars g).var_ with
      | none =>
        ⟨pushGradOutput s op 0 (env.GradVarName env.kFwdOut) none, .error .NullDereference⟩
      | some gv =>
        if !(s.store gv).IsInitialized then
          match InitVar s.store (s.vars inp).var_ (some gv)
              (env.DeviceContextPoolGet Place.CPUPlace) with
          | .error e =>
            ⟨pushGradOutput s op 0 (env.GradVarName env.kFwdOut) (some gv), .error e⟩
          | .ok store =>
            pyPushInGrads env op rest
              { pushGradOutput s op 0 (env.GradVarName env.kFwdOut) (some gv) with
                store := store }
        else
          pyPushInGrads env op rest
            (pushGradOutput s op 0 (env.GradVarName env.kFwdOut) (some gv))

/-- The gradient part of `Tracer::PyTrace` (lines 228-259). -/
def pyTraceGrad (env : Env) (op : OpId) (inputs outputs : List VarId) (s : State) :
    Outcome Unit :=
  let s1 := s.setOp op { s.ops op with
    grad_input_vars_ :=
      modifyAt (fun m => m.touch (env.GradVarName env.kFwdInp)) 0
        (resize (s.ops op).grad_input_vars_ 1 [])
    grad_output_vars_ :=
      modifyAt (fun m => m.touch (env.GradVarName env.kFwdOut)) 0
        (resize (s.ops op).grad_output_vars_ 1 []) }
  match pyPushOutGrads env op outputs
      (pyPushForward env op outputs (pyPushForward env op inputs s1)) with
  | ⟨s2, .error e⟩ => ⟨s2, .error e⟩
  | ⟨s2, .ok _⟩ => pyPushInGrads env op inputs s2

/-- The outputs of the callback, as `Tracer::PyTrace` returns them (line 212). -/
def pyOutputs (env : Env) (s : State) (op : OpId) (inputs : List VarId) : List VarId :=
  (env.PyLayerApply (s.ops op).forward_id_ inputs
    (s.setOp op { s.ops op with
      input_vars_ := (s.ops op).input_vars_.set env.kFwdInp inputs })).1

/-- The state of `Tracer::PyTrace` after the callback ran (lines 211-212). -/
def pyApplied (env : Env) (s : State) (op : OpId) (inputs : List VarId) : State :=
  State.setOp
    { s with
      store := (env.PyLayerApply (s.ops op).forward_id_ inputs
        (s.setOp op { s.ops op with
          input_vars_ := (s.ops op).input_vars_.set env.kFwdInp inputs })).2 }
    op
    { s.ops op with
      input_vars_ := (s.ops op).input_vars_.set env.kFwdInp inputs
      output_vars_ := (s.ops op).output_vars_.set env.kFwdOut (pyOutputs env s op inputs) }

/-- The state of `Tracer::PyTrace` after the tape linkage (lines 211-226). -/
def pyTraceLink (env : Env) (s : State) (op : OpId) (inputs : List VarId)
    (stop_gradient : Bool) : State :=
  pyTrackOutputs env op stop_gradient 0 (pyOutputs env s op inputs)
    (pyTraceInputs env op inputs (pyApplied env s op inputs))

/-- The function `Tracer::PyTrace` (lines 207-262). -/
def PyTrace (env : Env) (s : State) (op : OpId) (inputs : List VarId)
    (stop_gradient : Bool) : Outcome (List VarId) :=
  if stop_gradient then
    ⟨pyTraceLink env s op inputs stop_gradient, .ok (pyOutputs env s op inputs)⟩
  else
    match pyTraceGrad env op inputs (pyOutputs env s op inputs)
        (pyTraceLink env s op inputs stop_gradient) with
    | ⟨s1, .error e⟩ => ⟨s1, .error e⟩
    | ⟨s1, .ok _⟩ => ⟨s1, .ok (pyOutputs env s op inputs)⟩

/-! ## Sequences of calls -/

/-- One call of the tracer. -/
inductive Call where
  | trace (op : OpId) (inputs outputs : VarBasePtrMap) (block : BlockId)
      (expected_place : Place) (stop_gradient : Bool)
  | pyTrace (op : OpId) (inputs : List VarId) (stop_gradient : Bool)
  deriving DecidableEq, Repr

/-- The operation instance a call traces. -/
def Call.op : Call → OpId
  | .trace op _ _ _ _ _ => op
  | .pyTrace op _ _ => op

/-- The state a call leaves behind, whether it returns or throws. -/
def step (env : Env) (s : State) : Call → State
  | .trace op inputs outputs block expected_place stop_gradient =>
    (Trace env s op inputs outputs block expected_place stop_gradient).state
  | .pyTrace op inputs stop_gradient => (PyTrace env s op inputs stop_gradient).state

/-- The state after a sequence of calls. -/
def runCalls (env : Env) : State → List Call → State
  | s, [] => s
  | s, c :: rest => runCalls env (step env s c) rest

/-! ## A concrete tape for the scenarios -/

/-- A freshly constructed operation instance of the given type. -/
def freshOp (type : String) (inputs outputs : StrMap (List String)) : OpBase :=
  { op_desc_ := { type := type, inputs := inputs, outputs := outputs }
    forward_id_ := 0
    input_vars_ := []
    output_vars_ := []
    pre_ops_ := []
    pre_ops_out_idx_ := []
    grad_op_descs_ := []
    grad_input_vars_ := []
    grad_output_vars_ := []
    place_ := Place.CPUPlace
    block_ := none }

/-- A variable without producer; its data handle is `id`, its gradient is `id + 100`. -/
def leafVar (name : String) (id : Nat) : VarBase :=
  { name := name
    var_ := some id
    grads_ := some (id + 100)
    pre_op_ := none
    pre_op_out_name_ := ""
    pre_op_out_idx_ := -1
    stop_gradient_ := false }

/-- A tensor of two elements on the given place. -/
def demoTensor (place : Place) : Variable :=
  { holder := some
      { dims := [2], holder := some { place := place, dtype := DataType.FP32, data := [3, 4] } } }

/-- The variables `x`, `y`, `z`, `w` (0 to 3), `n` without data handle (4) and their
gradients (100 to 104). -/
def demoVars : VarId → VarBase := fun v =>
  if v = 0 then leafVar "x" 0
  else if v = 1 then leafVar "y" 1
  else if v = 2 then leafVar "z" 2
  else if v = 3 then leafVar "w" 3
  else if v = 4 then { leafVar "n" 4 with var_ := none }
  else { leafVar "g" v with grads_ := none, stop_gradient_ := true }

/-- The operation instances `relu` (0), `add` (1), `sum` (2) and a custom layer (3). -/
def demoOps : OpId → OpBase := fun o =>
  if o = 0 then freshOp "relu" [("X", ["x"])] [("Out", ["y"])]
  else if o = 1 then freshOp "add" [("X", ["x"]), ("Y", ["y"])] [("Out", ["z"])]
  else if o = 2 then freshOp "sum" [("X", ["y", "y"])] [("Out", ["z"])]
  else freshOp "py_layer" [] []

/-- Data of the scenarios: `x` and `y` on the CPU, `w` on GPU 0, the rest holds nothing. -/
def demoStore : VariableId → Variable := fun v =>
  if v = 0 then demoTensor Place.CPUPlace
  else if v = 1 then demoTensor Place.CPUPlace
  else if v = 3 then demoTensor (Place.CUDAPlace 0)
  else { holder := none }

/-- A tape without links. -/
def demoState : State :=
  { vars := demoVars
    ops := demoOps
    store := demoStore
    blocks := fun _ => { vars := fun _ => some VarType.LOD_TENSOR }
    kernel_log := [] }

/-- The backward descriptors of the scenarios: `relu_grad`, `add_grad`, `sum_grad`. -/
def demoGradOpMaker (d : OpDesc) : List OpDesc × StrMap String :=
  if d.type = "relu" then
    ([{ type := "relu_grad"
        inputs := [("Out", ["y"]), ("Out@GRAD", ["y@GRAD"])]
        outputs := [("X@GRAD", ["x@GRAD"])] }],
      [("y@GRAD", "y"), ("x@GRAD", "x")])
  else if d.type = "add" then
    ([{ type := "add_grad"
        inputs := [("Out@GRAD", ["z@GRAD"])]
        outputs := [("X@GRAD", ["x@GRAD"]), ("Y@GRAD", ["y@GRAD"])] }],
      [("z@GRAD", "z"), ("x@GRAD", "x"), ("y@GRAD", "y")])
  else
    ([{ type := "sum_grad"
        inputs := [("Out@GRAD", ["z@GRAD"])]
        outputs := [("X@GRAD", ["y@GRAD", "y@GRAD"])] }],
      [("z@GRAD", "z"), ("y@GRAD", "y")])

/-- Collaborators of the scenarios: every operation has a kernel that fills its outputs
with a tensor on the place it runs on; the callback returns `z`. -/
def demoEnv : Env :=
  { InferShape := fun _ b => b
    InferVarType := fun _ b => b
    isOperatorWithKernel := fun _ => true
    Prepare := fun _ place => some { place := place }
    RuntimeInferShape := fun _ store v => store v
    func := fun run _ _ => demoTensor run.place
    GradOpMaker := demoGradOpMaker
    FindRecursiveOrCreateVar := fun b _ => b
    DeviceContextPoolGet := fun place => some { place := place }
    kFwdInp := "X"
    kFwdOut := "Out"
    GradVarName := fun n => n ++ "@GRAD"
    PyLayerApply := fun _ _ s => ([2], Function.update s.store 2 (demoTensor Place.CPUPlace)) }

/-! ## Auxiliary definitions for the statements -/

/-- All variables of a map of groups, in iteration order. -/
def allVars (m : VarBasePtrMap) : List VarId := (m.map Prod.snd).flatten

/-- The entry the tracer records in `pre_ops_` for an input: its producer when it has
one and is not gradient-stopped, the null marker otherwise. -/
def predOf (vb : VarBase) : Option OpId :=
  if vb.PreOp.isSome && !vb.IsStopGradient then vb.PreOp else none

/-- The entry the tracer records in `pre_ops_out_idx_` for an input, when it records one. -/
def slotOf (vb : VarBase) : Option Int :=
  if vb.PreOp.isSome && !vb.IsStopGradient then some vb.PreOpOutIdx else none

/-- An input carries data: its data handle is set and holds a tensor with memory. -/
def carriesData (s : State) (v : VarId) : Bool :=
  match tensorPlace s v with
  | .ok _ => true
  | .error _ => false

/-- The place of the data of an input, when it carries data. -/
def placeOf (s : State) (v : VarId) : Option Place :=
  match tensorPlace s v with
  | .ok p => some p
  | .error _ => none

/-- A declaration and a data handle that let the loop over the outputs pass: the
variable is declared in the block and, when declared as a dense tensor, its data handle
is set. -/
def readyIn (b : BlockDesc) (vb : VarBase) : Bool :=
  match b.vars vb.name with
  | none => false
  | some ty => if ty = VarType.LOD_TENSOR then vb.var_.isSome else true

/-- An output can be materialised: it is declared in the block and, when it is declared
as a dense tensor, its data handle is set. -/
def outputReady (env : Env) (s : State) (op : OpId) (block : BlockId) (v : VarId) : Bool :=
  readyIn (inferredBlock env s op block) (s.vars v)

/-- The tape edges of the inputs `vs` of group `first`, recorded in order. -/
def recordInputs (vars : VarId → VarBase) (first : String) (vs : List VarId) (o : OpBase) :
    OpBase :=
  vs.foldl (fun o v => recordPreOp o first (vars v)) o

/-- The tape edges of all input groups, recorded in order. -/
def recordGroups (vars : VarId → VarBase) : VarBasePtrMap → OpBase → OpBase
  | [], o => o
  | (first, second) :: rest, o => recordGroups vars rest (recordInputs vars first second o)

/-- The effect of the loops over the outputs on the heaps: `s1` differs from `s` only in
that variables among `vs` may have been given `op` as producer, and in that data handles
may have been created. -/
def Tracked (op : OpId) (stop_gradient : Bool) (vs : List VarId) (s s1 : State) : Prop :=
  s1.ops = s.ops ∧ s1.blocks = s.blocks ∧ s1.kernel_log = s.kernel_log ∧
  (∀ v, s1.vars v = s.vars v ∨
    (v ∈ vs ∧ ∃ first i, s1.vars v = (s.vars v).TrackPreOp op first i stop_gradient)) ∧
  (∀ x, s1.store x = s.store x ∨ s1.store x = (s.store x).GetMutable)

/-- The heaps of `Tracer::Trace` once both loops are done (line 131), relative to the
heaps `s` the call started from. -/
structure Linked (env : Env) (s : State) (op : OpId) (inputs outputs : VarBasePtrMap)
    (block : BlockId) (stop_gradient : Bool) (s2 : State) : Prop where
  log : s2.kernel_log = s.kernel_log
  op_eq : s2.ops op =
    { recordGroups s.vars inputs { s.ops op with input_vars_ := inputs } with
      output_vars_ := outputs }
  ops_other : ∀ o, o ≠ op → s2.ops o = s.ops o
  vars : ∀ v, s2.vars v = s.vars v ∨
    (v ∈ allVars outputs ∧ ∃ first i, s2.vars v = (s.vars v).TrackPreOp op first i stop_gradient)
  exact : ∀ w ∈ allVars outputs, ∃ e ∈ outputs, ∃ j : Nat, e.2[j]? = some w ∧
    s2.vars w = (s.vars w).TrackPreOp op e.1 (j : Int) stop_gradient
  store : ∀ x, s2.store x = s.store x ∨ s2.store x = (s.store x).GetMutable
  blocks : s2.blocks = Function.update s.blocks block (inferredBlock env s op block)

/-- The effect of gradient wiring on the heaps: `s1` differs from `s` only in the
contents of the data store, of the blocks and of the two gradient mappings of `op`,
whose lengths are kept. -/
def GradFrame (op : OpId) (s s1 : State) : Prop :=
  s1.vars = s.vars ∧ s1.kernel_log = s.kernel_log ∧
  (∀ o, o ≠ op → s1.ops o = s.ops o) ∧
  s1.ops op = { s.ops op with
    grad_input_vars_ := (s1.ops op).grad_input_vars_
    grad_output_vars_ := (s1.ops op).grad_output_vars_ } ∧
  (s1.ops op).grad_input_vars_.length = (s.ops op).grad_input_vars_.length ∧
  (s1.ops op).grad_output_vars_.length = (s.ops op).grad_output_vars_.length

/-- The variables a call lists as outputs: the declared outputs of `Tracer::Trace`, the
outputs of the callback of `Tracer::PyTrace`. -/
def Call.outputs (env : Env) (s : State) : Call → List VarId
  | .trace _ _ outputs _ _ _ => allVars outputs
  | .pyTrace op inputs _ => pyOutputs env s op inputs

/-- The part of the heaps that the steps after the two loops leave alone: the variables,
the other operation instances, and the tape edges and descriptor of `op`. -/
def TapeFrame (op : OpId) (s s1 : State) : Prop :=
  s1.vars = s.vars ∧ (∀ o, o ≠ op → s1.ops o = s.ops o) ∧
  (s1.ops op).pre_ops_ = (s.ops op).pre_ops_ ∧
  (s1.ops op).pre_ops_out_idx_ = (s.ops op).pre_ops_out_idx_ ∧
  (s1.ops op).op_desc_ = (s.ops op).op_desc_ ∧
  (s1.ops op).input_vars_ = (s.ops op).input_vars_ ∧
  (s1.ops op).output_vars_ = (s.ops op).output_vars_

/-- The effect of one call on the tape: the other operation instances are untouched,
the tape edges of `op` are those recorded for a prefix of the inputs (all of them when
the call returned), and the variables are untouched except for outputs, which got `op`
as producer. -/
structure TapeEffect (s : State) (op : OpId) (inputs outputs : VarBasePtrMap)
    (stop_gradient : Bool) (s1 : State) (returned : Prop) : Prop where
  ops_other : ∀ o, o ≠ op → s1.ops o = s.ops o
  pre_ops : ∃ done : VarBasePtrMap, allVars done <+: allVars inputs ∧
    (s1.ops op).pre_ops_ = (recordGroups s.vars done (s.ops op)).pre_ops_ ∧
    (s1.ops op).pre_ops_out_idx_ = (recordGroups s.vars done (s.ops op)).pre_ops_out_idx_ ∧
    (returned → done = inputs)
  vars : ∀ v, s1.vars v = s.vars v ∨
    (v ∈ allVars outputs ∧ ∃ first i, s1.vars v = (s.vars v).TrackPreOp op first i stop_gradient)
  exact : returned → ∀ w ∈ allVars outputs, ∃ e ∈ outputs, ∃ j : Nat, e.2[j]? = some w ∧
    s1.vars w = (s.vars w).TrackPreOp op e.1 (j : Int) stop_gradient

/-- The predecessor graph of the tape: `p` is an entry of a predecessor list of `o`. -/
def predEdge (s : State) (o p : OpId) : Prop :=
  ∃ key, some p ∈ (s.ops o).pre_ops_.at key

/-- A tape with no links: no variable has a producer, no instance has a predecessor list. -/
def noLinks (s : State) : Prop :=
  (∀ v, (s.vars v).pre_op_ = none) ∧ ∀ o, (s.ops o).pre_ops_ = []

/-- The links of the tape follow the order `traced` in which the instances were traced:
every producer was traced, and every predecessor of an instance was traced strictly
before it. -/
def TapeOrdered (s : State) (traced : List OpId) : Prop :=
  (∀ v p, (s.vars v).pre_op_ = some p → p ∈ traced) ∧
  ∀ o p, predEdge s o p →
    o ∈ traced ∧ p ∈ traced ∧ traced.indexOf p < traced.indexOf o

/-- The input groups of a call, as the tape linkage sees them. -/
def Call.inputGroups (env : Env) : Call → VarBasePtrMap
  | .trace _ inputs _ _ _ _ => inputs
  | .pyTrace _ inputs _ => [(env.kFwdInp, inputs)]

/-- The stop-gradient flag of a call. -/
def Call.stop_gradient : Call → Bool
  | .trace _ _ _ _ _ stop_gradient => stop_gradient
  | .pyTrace _ _ stop_gradient => stop_gradient

/-- The output groups of a call, as the tape linkage sees them. -/
def Call.outputGroups (env : Env) (s : State) : Call → VarBasePtrMap
  | .trace _ _ outputs _ _ _ => outputs
  | .pyTrace op inputs _ => [(env.kFwdOut, pyOutputs env s op inputs)]

/-- The call returns normally when run from `s`. -/
def returns (env : Env) (s : State) : Call → Prop
  | .trace op inputs outputs block expected_place stop_gradient =>
    ∃ r, (Trace env s op inputs outputs block expected_place stop_gradient).result = .ok r
  | .pyTrace op inputs stop_gradient =>
    ∃ r, (PyTrace env s op inputs stop_gradient).result = .ok r

/-- The data handle of the gradient buffer of a variable (`v->grads_->var_`). -/
def gradHandle (s : State) (v : VarId) : Option VariableId :=
  match (s.vars v).grads_ with
  | none => none
  | some g => (s.vars g).var_

/-- The error is the place-mismatch error. -/
def TraceError.isPlaceMismatch : TraceError → Bool
  | .PlaceMismatch _ _ _ => true
  | _ => false

/-- The result is the place-mismatch error. -/
def TraceResult.isPlaceMismatch {α : Type} : TraceResult α → Bool
  | .error e => e.isPlaceMismatch
  | .ok _ => false

/-- The local map `vars` of `Tracer::Trace` after the assignments `vars[name] = v` for
the variables `vs`, in order. -/
def namedVars (vars : VarId → VarBase) (vs : List VarId) (m : StrMap VarId) : StrMap VarId :=
  vs.foldl (fun m v => m.set (vars v).name v) m

/-- The forward Variable of a call that `vars.find(name)` yields: the last input or output
Variable carrying that name. -/
def forwardVar (s : State) (inputs outputs : VarBasePtrMap) (name : String) : Option VarId :=
  (allVars inputs ++ allVars outputs).reverse.find? (fun v => decide ((s.vars v).name = name))

/-- The gradient inputs stored at index `i` of `grad_input_vars_` under `key`
(`grad_input_vars_[i][key]`, empty when there is no such entry). -/
def OpBase.gradIn (o : OpBase) (i : Nat) (key : String) : List (Option VariableId) :=
  (o.grad_input_vars_[i]?.getD []).at key

/-- The gradient outputs stored at index `i` of `grad_output_vars_` under `key`. -/
def OpBase.gradOut (o : OpBase) (i : Nat) (key : String) : List (Option VariableId) :=
  (o.grad_output_vars_[i]?.getD []).at key

/-- The names a descriptor lists under the group name `key`, in order. -/
def namesUnder : StrMap (List String) → String → List String
  | [], _ => []
  | (first, second) :: rest, key =>
    if first = key then second ++ namesUnder rest key else namesUnder rest key

/-- All names of all groups of a descriptor map, in order. -/
def allNames (m : StrMap (List String)) : List String := (m.map Prod.snd).flatten

/-- All input and output names of a list of backward descriptors. -/
def descNames (descs : List OpDesc) : List String :=
  (descs.map (fun d => allNames d.inputs ++ allNames d.outputs)).flatten

/-- The handle that lines 164-179 push for the backward input name `name`: the gradient
buffer of the registered forward variable for a gradient name, the data handle of the
forward variable of that name otherwise. -/
def resolveInput (s : State) (grad_to_var : StrMap String) (find : String → Option VarId)
    (name : String) : Option VariableId :=
  match grad_to_var.find name with
  | none =>
    match find name with
    | none => none
    | some fwd => (s.vars fwd).var_
  | some fwd_name =>
    match find fwd_name with
    | none => none
    | some var => gradHandle s var

/-- The handle that lines 187-197 push for the backward output name `name`: the gradient
buffer of the registered forward variable. -/
def resolveOutput (s : State) (grad_to_var : StrMap String) (find : String → Option VarId)
    (name : String) : Option VariableId :=
  match grad_to_var.find name with
  | none => none
  | some fwd_name =>
    match find fwd_name with
    | none => none
    | some var => gradHandle s var

/-- The forward variable `X` is the one registered for a gradient name among `names`. -/
def mappedNames (grad_to_var : StrMap String) (find : String → Option VarId)
    (names : List String) (X : VarId) : Prop :=
  ∃ n ∈ names, ∃ fwd, grad_to_var.find n = some fwd ∧ find fwd = some X

/-- Some name among `names` is neither a registered gradient name nor the name of a
forward variable. -/
def danglingIn (grad_to_var : StrMap String) (find : String → Option VarId)
    (names : List String) : Prop :=
  ∃ n ∈ names, grad_to_var.find n = none ∧ find n = none

/-- Some name among `names` is not a registered gradient name. -/
def unregisteredIn (grad_to_var : StrMap String) (names : List String) : Prop :=
  ∃ n ∈ names, grad_to_var.find n = none

/-- The variable `InitVar` leaves behind: a `float` tensor of the given dimensions on the
given place, every element `0.0`. -/
def zeroBuffer (dims : List Nat) (place : Place) : Variable :=
  { holder := some
      { dims := dims
        holder := some
          { place := place
            dtype := DataType.FP32
            data := List.replicate (numel dims) 0 } } }

/-- The effect of gradient wiring on the data store: every variable is as it was, except
that an uninitialized gradient buffer of a mapped forward variable may have become a
zero buffer of the dimensions of that forward variable's data. -/
structure LazyInit (mapped : VarId → Prop) (dev_ctx : Option DeviceContext)
    (s s1 : State) : Prop where
  vars : s1.vars = s.vars
  store : ∀ x, s1.store x = s.store x ∨
    ((s.store x).IsInitialized = false ∧
      ∃ X xv t ctx, mapped X ∧ gradHandle s X = some x ∧ (s.vars X).var_ = some xv ∧
        (s1.store xv).holder = some t ∧ dev_ctx = some ctx ∧
        s1.store x = zeroBuffer t.dims ctx.place)

/-- The lists appended to the gradient mappings of `op` between `s` and `s1`: `ins j key`
to `grad_input_vars_[j][key]` and `outs j key` to `grad_output_vars_[j][key]`. -/
structure Wired (op : OpId) (s s1 : State)
    (ins outs : Nat → String → List (Option VariableId)) : Prop where
  gradIn : ∀ j key, (s1.ops op).gradIn j key = (s.ops op).gradIn j key ++ ins j key
  gradOut : ∀ j key, (s1.ops op).gradOut j key = (s.ops op).gradOut j key ++ outs j key
  lengthIn : (s1.ops op).grad_input_vars_.length = (s.ops op).grad_input_vars_.length
  lengthOut : (s1.ops op).grad_output_vars_.length = (s.ops op).grad_output_vars_.length
  vars : s1.vars = s.vars

/-- Every backward input name among `names` resolves in `s1`: a gradient name to an
initialized gradient buffer of its registered forward variable, any other name to a
forward variable of that name. -/
def inputsResolve (s1 : State) (grad_to_var : StrMap String) (find : String → Option VarId)
    (names : List String) : Prop :=
  ∀ n ∈ names,
    (grad_to_var.find n = none → ∃ X, find n = some X) ∧
    ∀ fwd, grad_to_var.find n = some fwd →
      ∃ X gv, find fwd = some X ∧ gradHandle s1 X = some gv ∧
        (s1.store gv).IsInitialized = true

/-- Every backward output name among `names` resolves in `s1`: it is a registered
gradient name and the gradient buffer of its forward variable is initialized. -/
def outputsResolve (s1 : State) (grad_to_var : StrMap String)
    (find : String → Option VarId) (names : List String) : Prop :=
  ∀ n ∈ names, ∃ fwd X gv, grad_to_var.find n = some fwd ∧ find fwd = some X ∧
    gradHandle s1 X = some gv ∧ (s1.store gv).IsInitialized = true

/-- The handles that gradient wiring appends to `grad_input_vars_[j][key]`: those of the
names that descriptor `j` lists under `key`. -/
def wiredInputs (s : State) (grad_to_var : StrMap String) (find : String → Option VarId)
    (descs : List OpDesc) (j : Nat) (key : String) : List (Option VariableId) :=
  match descs[j]? with
  | none => []
  | some d => (namesUnder d.inputs key).map (resolveInput s grad_to_var find)

/-- The handles that gradient wiring appends to `grad_output_vars_[j][key]`. -/
def wiredOutputs (s : State) (grad_to_var : StrMap String) (find : String → Option VarId)
    (descs : List OpDesc) (j : Nat) (key : String) : List (Option VariableId) :=
  match descs[j]? with
  | none => []
  | some d => (namesUnder d.outputs key).map (resolveOutput s grad_to_var find)

/-- The error is one of the two failures of gradient wiring: a dangling gradient
reference or a missing gradient mapping. -/
def TraceError.isWiring : TraceError → Bool
  | .DanglingGradientReference => true
  | .MissingGradientMapping _ => true
  | _ => false

/-- The result is one of the two failures of gradient wiring. -/
def TraceResult.isWiring {α : Type} : TraceResult α → Bool
  | .error e => e.isWiring
  | .ok _ => false

/-- Backward descriptors of the scenarios of failing or stale gradient wiring. For `relu`:
one descriptor whose input `q` names nothing and whose output `x@GRAD` is not registered.
For `add`: a first descriptor whose output `x@GRAD` is not registered and a second one
whose input `q` names nothing. For `sum`: one descriptor over the input `y` and its
gradient. For any other type: one descriptor whose groups carry the names under which a
custom layer stores its gradient mappings. -/
def oddGradOpMaker (d : OpDesc) : List OpDesc × StrMap String :=
  if d.type = "relu" then
    ([{ type := "relu_grad"
        inputs := [("Out", ["q"])]
        outputs := [("X@GRAD", ["x@GRAD"])] }],
      [])
  else if d.type = "add" then
    ([{ type := "add_grad"
        inputs := [("Out@GRAD", ["z@GRAD"])]
        outputs := [("X@GRAD", ["x@GRAD"])] },
      { type := "add_grad_grad"
        inputs := [("Out", ["q"])]
        outputs := [] }],
      [("z@GRAD", "z")])
  else if d.type = "sum" then
    ([{ type := "sum_grad"
        inputs := [("X", ["y"])]
        outputs := [("X@GRAD", ["y@GRAD"])] }],
      [("y@GRAD", "y")])
  else
    ([{ type := "layer_grad"
        inputs := [("X@GRAD", ["z@GRAD"])]
        outputs := [("Out@GRAD", ["x@GRAD"])] }],
      [("z@GRAD", "z"), ("x@GRAD", "x")])

/-- The collaborators of the scenarios, with the backward descriptors of
`oddGradOpMaker`. -/
def oddEnv : Env := { demoEnv with GradOpMaker := oddGradOpMaker }

/-- The data handles of the output variables of a call. -/
def outHandles (s : State) (outputs : VarBasePtrMap) : List (Option VariableId) :=
  (allVars outputs).map (fun v => (s.vars v).var_)

/-- The element type of the tensor held by a variable (`tensor.type()`), when it holds an
allocated tensor. -/
def dtypeOf (store : VariableId → Variable) (x : VariableId) : Option DataType :=
  match (store x).holder with
  | none => none
  | some t =>
    match t.holder with
    | none => none
    | some a => some a.dtype

/-- The tape of the scenarios with the data of `x` held as `double`. -/
def doubleState : State :=
  { demoState with
    store := Function.update demoStore 0
      { holder := some
          { dims := [2]
            holder := some { place := Place.CPUPlace, dtype := DataType.FP64, data := [3, 4] } } } }

/-- The lookups of lines 172-178 and 192-197 for the forward name `fwd` pass in `s`: the
forward variable is found, its gradient variable and the data handle of the latter are
set, and either the gradient buffer is initialized or `InitVar` can read the forward
data (the data handle of the forward variable is set and initialized). -/
def gradientReady (s : State) (find : String → Option VarId) (fwd : String) : Bool :=
  match find fwd with
  | none => false
  | some X =>
    match gradHandle s X with
    | none => false
    | some gv =>
      (s.store gv).IsInitialized ||
        match (s.vars X).var_ with
        | none => false
        | some xv => (s.store xv).IsInitialized

/-- The same, read off the state in which `Tracer::Trace` is called: the forward
variable is the input or output of that name, and its data is initialized at the latest
by the loop over the outputs, which materialises every output declared as a dense
tensor (line 123). -/
def gradReadyAtStart (env : Env) (s : State) (op : OpId) (inputs outputs : VarBasePtrMap)
    (block : BlockId) (fwd : String) : Bool :=
  match forwardVar s inputs outputs fwd with
  | none => false
  | some X =>
    match gradHandle s X with
    | none => false
    | some gv =>
      (s.store gv).IsInitialized ||
        match (s.vars X).var_ with
        | none => false
        | some xv =>
          (s.store xv).IsInitialized ||
            (decide (X ∈ allVars outputs) &&
              decide ((inferredBlock env s op block).vars (s.vars X).name
                = some VarType.LOD_TENSOR))

/-- The backward input name `n` is wired without failure (lines 164-179): a name that is
not a gradient name is found among the forward variables, a gradient name has the
gradient buffer of its forward variable at hand. -/
def inputWirable (grad_to_var : StrMap String) (find : String → Option VarId)
    (ready : String → Bool) (n : String) : Bool :=
  match grad_to_var.find n with
  | none => (find n).isSome
  | some fwd => ready fwd

/-- The backward output name `n` is wired without failure (lines 187-197): it is a
registered gradient name and the gradient buffer of its forward variable is at hand. -/
def outputWirable (grad_to_var : StrMap String) (ready : String → Bool) (n : String) : Bool :=
  match grad_to_var.find n with
  | none => false
  | some fwd => ready fwd

/-- Every input and output name of the backward descriptor is wired without failure. -/
def descWirable (grad_to_var : StrMap String) (find : String → Option VarId)
    (ready : String → Bool) (d : OpDesc) : Bool :=
  (allNames d.inputs).all (inputWirable grad_to_var find ready) &&
    (allNames d.outputs).all (outputWirable grad_to_var ready)

/-- Every step of `Tracer::Trace` before the gradient wiring passes (lines 78-147) and the
wiring can start (lines 151-157): the inputs carry data on the target place, the outputs
can be materialised, the operation has a kernel, the shape inference and the kernel keep
initialized variables initialized, a device context is prepared, and the instance has no
backward descriptors yet. -/
structure WiringStarts (env : Env) (s : State) (op : OpId) (inputs outputs : VarBasePtrMap)
    (block : BlockId) (expected_place : Place) : Prop where
  inputs_on_place : ∀ v ∈ allVars inputs, tensorPlace s v = .ok expected_place
  outputs_ready : ∀ v ∈ allVars outputs, outputReady env s op block v = true
  kernel : env.isOperatorWithKernel (s.ops op).op_desc_ = true
  keeps : ∀ run store x, (store x).IsInitialized = true →
    (env.RuntimeInferShape run store x).IsInitialized = true ∧
    (env.func run store x).IsInitialized = true
  device : (env.Prepare (s.ops op).op_desc_ expected_place).isSome = true
  fresh : (s.ops op).grad_op_descs_ = []

/-! ## Lemmas on maps and heaps -/

theorem StrMap.find_set_self {α : Type} (m : StrMap α) (k : String) (v : α) :
    (m.set k v).find k = some v := by
  induction m with
  | nil => simp [StrMap.set, StrMap.find]
  | cons e t ih =>
    obtain ⟨k1, w⟩ := e
    by_cases h : k1 = k
    · simp [StrMap.set, StrMap.find, h]
    · simp [StrMap.set, StrMap.find, h, ih]

theorem StrMap.find_set_of_ne {α : Type} (m : StrMap α) {k key : String} (h : k ≠ key)
    (v : α) : (m.set k v).find key = m.find key := by
  induction m with
  | nil => simp [StrMap.set, StrMap.find, h]
  | cons e t ih =>
    obtain ⟨k1, w⟩ := e
    by_cases h1 : k1 = k
    · subst h1
      simp [StrMap.set, StrMap.find, h]
    · by_cases h2 : k1 = key
      · subst h2
        simp [StrMap.set, StrMap.find, h1]
      · simp [StrMap.set, StrMap.find, h1, h2, ih]

theorem StrMap.at_push_self {α : Type} (m : StrMap (List α)) (k : String) (v : α) :
    (m.push k v).at k = m.at k ++ [v] := by
  simp [StrMap.push, StrMap.at, StrMap.find_set_self]

theorem StrMap.at_push_of_ne {α : Type} (m : StrMap (List α)) {k key : String}
    (h : k ≠ key) (v : α) : (m.push k v).at key = m.at key := by
  simp [StrMap.push, StrMap.at, StrMap.find_set_of_ne m h]

theorem StrMap.at_touch {α : Type} (m : StrMap (List α)) (k key : String) :
    (m.touch k).at key = m.at key := by
  by_cases h : k = key
  · subst h
    simp [StrMap.touch, StrMap.at, StrMap.find_set_self]
  · simp [StrMap.touch, StrMap.at, StrMap.find_set_of_ne m h]

@[simp] theorem State.setOp_vars (s : State) (op : OpId) (o : OpBase) :
    (s.setOp op o).vars = s.vars := rfl

@[simp] theorem State.setOp_store (s : State) (op : OpId) (o : OpBase) :
    (s.setOp op o).store = s.store := rfl

@[simp] theorem State.setOp_blocks (s : State) (op : OpId) (o : OpBase) :
    (s.setOp op o).blocks = s.blocks := rfl

@[simp] theorem State.setOp_kernel_log (s : State) (op : OpId) (o : OpBase) :
    (s.setOp op o).kernel_log = s.kernel_log := rfl

@[simp] theorem State.setOp_ops_self (s : State) (op : OpId) (o : OpBase) :
    (s.setOp op o).ops op = o := by
  simp [State.setOp]

theorem State.setOp_ops_of_ne (s : State) {op o1 : OpId} (h : o1 ≠ op) (o : OpBase) :
    (s.setOp op o).ops o1 = s.ops o1 := by
  simp [State.setOp, Function.update_noteq h]

@[simp] theorem State.setOp_setOp (s : State) (op : OpId) (o o1 : OpBase) :
    (s.setOp op o).setOp op o1 = s.setOp op o1 := by
  simp [State.setOp]

@[simp] theorem State.setOp_self (s : State) (op : OpId) : s.setOp op (s.ops op) = s := by
  simp [State.setOp]

@[simp] theorem State.setVar_ops (s : State) (v : VarId) (vb : VarBase) :
    (s.setVar v vb).ops = s.ops := rfl

@[simp] theorem State.setVar_store (s : State) (v : VarId) (vb : VarBase) :
    (s.setVar v vb).store = s.store := rfl

@[simp] theorem State.setVar_blocks (s : State) (v : VarId) (vb : VarBase) :
    (s.setVar v vb).blocks = s.blocks := rfl

@[simp] theorem State.setVar_kernel_log (s : State) (v : VarId) (vb : VarBase) :
    (s.setVar v vb).kernel_log = s.kernel_log := rfl

@[simp] theorem State.setVariable_ops (s : State) (v : VariableId) (x : Variable) :
    (s.setVariable v x).ops = s.ops := rfl

@[simp] theorem State.setVariable_vars (s : State) (v : VariableId) (x : Variable) :
    (s.setVariable v x).vars = s.vars := rfl

@[simp] theorem State.setVariable_blocks (s : State) (v : VariableId) (x : Variable) :
    (s.setVariable v x).blocks = s.blocks := rfl

@[simp] theorem State.setVariable_kernel_log (s : State) (v : VariableId) (x : Variable) :
    (s.setVariable v x).kernel_log = s.kernel_log := rfl

@[simp] theorem State.setBlock_ops (s : State) (b : BlockId) (x : BlockDesc) :
    (s.setBlock b x).ops = s.ops := rfl

@[simp] theorem State.setBlock_vars (s : State) (b : BlockId) (x : BlockDesc) :
    (s.setBlock b x).vars = s.vars := rfl

@[simp] theorem State.setBlock_store (s : State) (b : BlockId) (x : BlockDesc) :
    (s.setBlock b x).store = s.store := rfl

@[simp] theorem State.setBlock_kernel_log (s : State) (b : BlockId) (x : BlockDesc) :
    (s.setBlock b x).kernel_log = s.kernel_log := rfl

@[simp] theorem State.setBlock_blocks_self (s : State) (b : BlockId) (x : BlockDesc) :
    (s.setBlock b x).blocks b = x := by
  simp [State.setBlock]

@[simp] theorem recordPreOp_op_desc (o : OpBase) (first : String) (inp : VarBase) :
    (recordPreOp o first inp).op_desc_ = o.op_desc_ := by
  unfold recordPreOp
  split <;> rfl

@[simp] theorem recordInputs_op_desc (vars : VarId → VarBase) (first : String)
    (vs : List VarId) (o : OpBase) : (recordInputs vars first vs o).op_desc_ = o.op_desc_ := by
  induction vs generalizing o with
  | nil => rfl
  | cons v t ih => simp [recordInputs, List.foldl] at ih ⊢; rw [ih]; simp

/-! ## The input loops -/

theorem traceInputs_state (op : OpId) (first : String) (vs : List VarId) (s : State)
    (l : Locals) :
    ∃ pre, pre <+: vs ∧
      (traceInputs op first vs s l).state
        = s.setOp op (recordInputs s.vars first pre (s.ops op)) ∧
      ((∃ l1, (traceInputs op first vs s l).result = .ok l1) → pre = vs) := by
  induction vs generalizing s l with
  | nil => exact ⟨[], List.prefix_refl _, by simp [traceInputs, recordInputs], fun _ => rfl⟩
  | cons v t ih =>
    unfold traceInputs
    cases hv : (s.vars v).var_ with
    | none =>
      refine ⟨[], List.nil_prefix, by simp [recordInputs], ?_⟩
      rintro ⟨l1, h⟩
      simp at h
    | some x =>
      obtain ⟨pre, hpre, hst, hok⟩ := ih
        (s.setOp op (recordPreOp (s.ops op) first (s.vars v)))
        { l with
          invars_map := l.invars_map.push first (some x)
          vars := l.vars.set (s.vars v).name v }
      refine ⟨v :: pre, ?_, ?_, ?_⟩
      · exact (List.prefix_cons_inj v).2 hpre
      · simp only [hst]
        simp [recordInputs]
      · intro h
        rw [hok h]

theorem traceInputs_log (op : OpId) (first : String) (vs : List VarId) (s : State)
    (l : Locals) :
    (traceInputs op first vs s l).state.kernel_log = s.kernel_log ∧
    (traceInputs op first vs s l).state.vars = s.vars ∧
    (traceInputs op first vs s l).state.store = s.store ∧
    (traceInputs op first vs s l).state.blocks = s.blocks := by
  obtain ⟨pre, -, hst, -⟩ := traceInputs_state op first vs s l
  simp [hst]

theorem traceInputGroups_state (op : OpId) (groups : VarBasePtrMap) (s : State)
    (l : Locals) :
    ∃ done : VarBasePtrMap, allVars done <+: allVars groups ∧
      (traceInputGroups op groups s l).state
        = s.setOp op (recordGroups s.vars done (s.ops op)) ∧
      ((∃ l1, (traceInputGroups op groups s l).result = .ok l1) → done = groups) := by
  induction groups generalizing s l with
  | nil =>
    exact ⟨[], List.prefix_refl _, by simp [traceInputGroups, recordGroups], fun _ => rfl⟩
  | cons g t ih =>
    obtain ⟨first, second⟩ := g
    obtain ⟨pre, hpre, hst, hok⟩ :=
      traceInputs_state op first second s { l with invars_map := l.invars_map.touch first }
    unfold traceInputGroups
    generalize hout :
      traceInputs op first second s { l with invars_map := l.invars_map.touch first } = out
      at hst hok
    obtain ⟨s1, r1⟩ := out
    cases r1 with
    | error e =>
      refine ⟨[(first, pre)], ?_, ?_, ?_⟩
      · obtain ⟨r, hr⟩ := hpre
        exact ⟨r ++ allVars t, by simp [allVars, ← hr]⟩
      · simpa [recordGroups] using hst
      · rintro ⟨l1, h⟩
        simp at h
    | ok l1 =>
      have hpre2 : pre = second := hok ⟨l1, rfl⟩
      subst hpre2
      simp only at hst
      obtain ⟨done, hd, hst2, hok2⟩ := ih s1 l1
      refine ⟨(first, pre) :: done, ?_, ?_, ?_⟩
      · obtain ⟨r, hr⟩ := hd
        exact ⟨r, by simp [allVars] at hr ⊢; rw [hr]⟩
      · subst hst
        simp only [hst2]
        simp [recordGroups]
      · intro h
        rw [hok2 h]

theorem traceInputGroups_frame (op : OpId) (groups : VarBasePtrMap) (s : State)
    (l : Locals) :
    (traceInputGroups op groups s l).state.kernel_log = s.kernel_log ∧
    (traceInputGroups op groups s l).state.vars = s.vars ∧
    (traceInputGroups op groups s l).state.store = s.store ∧
    (traceInputGroups op groups s l).state.blocks = s.blocks := by
  obtain ⟨done, -, hst, -⟩ := traceInputGroups_state op groups s l
  simp [hst]

theorem traceInputs_ok (op : OpId) (first : String) (vs : List VarId) (s : State)
    (l : Locals) (h : ∀ v ∈ vs, (s.vars v).var_ ≠ none) :
    ∃ l1, (traceInputs op first vs s l).result = .ok l1 := by
  induction vs generalizing s l with
  | nil => exact ⟨l, rfl⟩
  | cons v t ih =>
    unfold traceInputs
    cases hv : (s.vars v).var_ with
    | none => exact absurd hv (h v (List.mem_cons_self _ _))
    | some x =>
      exact ih _ _ (fun w hw => by simpa using h w (List.mem_cons_of_mem _ hw))

theorem traceInputs_null (op : OpId) (first : String) (vs : List VarId) (s : State)
    (l : Locals) (h : ∃ v ∈ vs, (s.vars v).var_ = none) :
    ∃ v ∈ vs, (s.vars v).var_ = none ∧
      (traceInputs op first vs s l).result
        = .error (.NullInput (s.ops op).op_desc_.type (s.vars v).name) := by
  induction vs generalizing s l with
  | nil => simp at h
  | cons v t ih =>
    unfold traceInputs
    cases hv : (s.vars v).var_ with
    | none => exact ⟨v, List.mem_cons_self _ _, hv, rfl⟩
    | some x =>
      obtain ⟨w, hw, hnone⟩ := h
      have hwt : w ∈ t := by
        rcases List.mem_cons.1 hw with rfl | h1
        · rw [hv] at hnone; cases hnone
        · exact h1
      obtain ⟨u, hu, hun, hres⟩ := ih
        (s.setOp op (recordPreOp (s.ops op) first (s.vars v)))
        { l with
          invars_map := l.invars_map.push first (some x)
          vars := l.vars.set (s.vars v).name v } ⟨w, hwt, by simpa using hnone⟩
      exact ⟨u, List.mem_cons_of_mem _ hu, by simpa using hun, by simpa using hres⟩

theorem traceInputGroups_ok (op : OpId) (groups : VarBasePtrMap) (s : State) (l : Locals)
    (h : ∀ v ∈ allVars groups, (s.vars v).var_ ≠ none) :
    ∃ l1, (traceInputGroups op groups s l).result = .ok l1 := by
  induction groups generalizing s l with
  | nil => exact ⟨l, rfl⟩
  | cons g t ih =>
    obtain ⟨first, second⟩ := g
    have h1 : ∀ v ∈ second, (s.vars v).var_ ≠ none := fun v hv =>
      h v (by simp [allVars]; exact Or.inl hv)
    obtain ⟨l1, hl1⟩ := traceInputs_ok op first second s
      { l with invars_map := l.invars_map.touch first } h1
    have hfr := traceInputs_log op first second s
      { l with invars_map := l.invars_map.touch first }
    unfold traceInputGroups
    generalize traceInputs op first second s
      { l with invars_map := l.invars_map.touch first } = out at hl1 hfr
    obtain ⟨s1, r1⟩ := out
    simp only at hl1 hfr
    subst hl1
    simp only
    apply ih
    intro v hv
    rw [hfr.2.1]
    exact h v (by simp [allVars] at hv ⊢; exact Or.inr hv)

theorem traceInputGroups_null (op : OpId) (groups : VarBasePtrMap) (s : State)
    (l : Locals) (h : ∃ v ∈ allVars groups, (s.vars v).var_ = none) :
    ∃ v ∈ allVars groups, (s.vars v).var_ = none ∧
      (traceInputGroups op groups s l).result
        = .error (.NullInput (s.ops op).op_desc_.type (s.vars v).name) := by
  induction groups generalizing s l with
  | nil => simp [allVars] at h
  | cons g t ih =>
    obtain ⟨first, second⟩ := g
    by_cases hsec : ∃ v ∈ second, (s.vars v).var_ = none
    · obtain ⟨v, hv, hn, hres⟩ := traceInputs_null op first second s
        { l with invars_map := l.invars_map.touch first } hsec
      refine ⟨v, by simp [allVars]; exact Or.inl hv, hn, ?_⟩
      unfold traceInputGroups
      generalize traceInputs op first second s
        { l with invars_map := l.invars_map.touch first } = out at hres
      obtain ⟨s1, r1⟩ := out
      simp only at hres
      subst hres
      rfl
    · have h1 : ∀ v ∈ second, (s.vars v).var_ ≠ none := fun v hv hn => hsec ⟨v, hv, hn⟩
      obtain ⟨l1, hl1⟩ := traceInputs_ok op first second s
        { l with invars_map := l.invars_map.touch first } h1
      obtain ⟨pre, -, hst, -⟩ := traceInputs_state op first second s
        { l with invars_map := l.invars_map.touch first }
      obtain ⟨w, hw, hnone⟩ := h
      have hwt : w ∈ allVars t := by
        simp [allVars] at hw
        rcases hw with h2 | h2
        · exact absurd hnone (h1 w h2)
        · simpa [allVars] using h2
      unfold traceInputGroups
      generalize traceInputs op first second s
        { l with invars_map := l.invars_map.touch first } = out at hl1 hst
      obtain ⟨s1, r1⟩ := out
      simp only at hl1 hst
      subst hl1
      subst hst
      simp only
      obtain ⟨u, hu, hun, hres⟩ := ih
        (s.setOp op (recordInputs s.vars first pre (s.ops op))) l1
        ⟨w, hwt, by simpa using hnone⟩
      refine ⟨u, by simp [allVars] at hu ⊢; exact Or.inr hu, by simpa using hun, ?_⟩
      simpa using hres

/-! ## Claim C2 -/

theorem traceBegin_frame (env : Env) (s : State) (op : OpId) (inputs : VarBasePtrMap)
    (block : BlockId) :
    (traceBegin env s op inputs block).vars = s.vars ∧
    (traceBegin env s op inputs block).store = s.store ∧
    (traceBegin env s op inputs block).kernel_log = s.kernel_log ∧
    (traceBegin env s op inputs block).blocks block = inferredBlock env s op block ∧
    (traceBegin env s op inputs block).ops op = { s.ops op with input_vars_ := inputs } ∧
    ∀ o, o ≠ op → (traceBegin env s op inputs block).ops o = s.ops o := by
  refine ⟨rfl, rfl, rfl, by simp [traceBegin], by simp [traceBegin], ?_⟩
  intro o ho
  simp [traceBegin, State.setOp_ops_of_ne _ ho]

/-- Claim C2: a Trace call in which some input Variable has an unset data handle fails
with the null-input error (naming the operation type and such an input), and the forward
kernel function is not invoked: the log of kernel invocations is unchanged. -/
theorem C2_null_input (env : Env) (s : State) (op : OpId) (inputs outputs : VarBasePtrMap)
    (block : BlockId) (expected_place : Place) (stop_gradient : Bool)
    (h : ∃ v ∈ allVars inputs, (s.vars v).var_ = none) :
    (∃ v ∈ allVars inputs, (s.vars v).var_ = none ∧
      (Trace env s op inputs outputs block expected_place stop_gradient).result
        = .error (.NullInput (s.ops op).op_desc_.type (s.vars v).name)) ∧
    (Trace env s op inputs outputs block expected_place stop_gradient).state.kernel_log
      = s.kernel_log := by
  obtain ⟨hv0, -, hk0, -, ho0, -⟩ := traceBegin_frame env s op inputs block
  obtain ⟨v, hv, hn, hres⟩ := traceInputGroups_null op inputs
    (traceBegin env s op inputs block) ⟨[], [], []⟩ (by rw [hv0]; exact h)
  have hfr := traceInputGroups_frame op inputs (traceBegin env s op inputs block) ⟨[], [], []⟩
  rw [hv0, ho0] at hres
  rw [hv0] at hn
  rw [hk0] at hfr
  unfold Trace
  generalize traceInputGroups op inputs _ _ = out at hres hfr
  obtain ⟨s1, r1⟩ := out
  simp only at hres hfr
  subst hres
  exact ⟨⟨v, hv, hn, rfl⟩, hfr.1⟩

/-- Scenario C: `add` traced with input `n`, whose data handle is unset. -/
theorem C2_null_input_witness :
    (∃ v ∈ allVars [("X", [0]), ("Y", [4])], (demoState.vars v).var_ = none ∧
      (Trace demoEnv demoState 1 [("X", [0]), ("Y", [4])] [("Out", [2])] 0
        Place.CPUPlace false).result
        = .error (.NullInput (demoState.ops 1).op_desc_.type (demoState.vars v).name)) ∧
    (Trace demoEnv demoState 1 [("X", [0]), ("Y", [4])] [("Out", [2])] 0
      Place.CPUPlace false).state.kernel_log = demoState.kernel_log :=
  C2_null_input demoEnv demoState 1 [("X", [0]), ("Y", [4])] [("Out", [2])] 0
    Place.CPUPlace false ⟨4, by decide, by decide⟩

/-! ## The output loops -/

@[simp] theorem TrackPreOp_TrackPreOp (vb : VarBase) (op1 op2 : OpId) (f1 f2 : String)
    (i1 i2 : Int) (g1 g2 : Bool) :
    (vb.TrackPreOp op1 f1 i1 g1).TrackPreOp op2 f2 i2 g2 = vb.TrackPreOp op2 f2 i2 g2 := rfl

@[simp] theorem TrackPreOp_name (vb : VarBase) (op : OpId) (f : String) (i : Int) (g : Bool) :
    (vb.TrackPreOp op f i g).name = vb.name := rfl

@[simp] theorem TrackPreOp_var (vb : VarBase) (op : OpId) (f : String) (i : Int) (g : Bool) :
    (vb.TrackPreOp op f i g).var_ = vb.var_ := rfl

@[simp] theorem TrackPreOp_grads (vb : VarBase) (op : OpId) (f : String) (i : Int)
    (g : Bool) : (vb.TrackPreOp op f i g).grads_ = vb.grads_ := rfl

@[simp] theorem GetMutable_GetMutable (x : Variable) : x.GetMutable.GetMutable = x.GetMutable := by
  unfold Variable.GetMutable
  split <;> simp [Variable.IsInitialized]

theorem GetMutable_of_initialized (x : Variable) (h : x.IsInitialized = true) :
    x.GetMutable = x := by
  simp [Variable.GetMutable, h]

theorem GetMutable_initialized (x : Variable) : x.GetMutable.IsInitialized = true := by
  unfold Variable.GetMutable
  split
  · assumption
  · rfl

theorem Tracked.refl_tracked (op : OpId) (g : Bool) (vs : List VarId) (s : State) :
    Tracked op g vs s s :=
  ⟨rfl, rfl, rfl, fun _ => Or.inl rfl, fun _ => Or.inl rfl⟩

theorem Tracked.trans_tracked {op : OpId} {g : Bool} (vs ws : List VarId) {us : List VarId}
    {s s1 s2 : State}
    (h1 : Tracked op g vs s s1) (h2 : Tracked op g ws s1 s2)
    (hvs : ∀ v ∈ vs, v ∈ us) (hws : ∀ v ∈ ws, v ∈ us) : Tracked op g us s s2 := by
  obtain ⟨a1, b1, c1, d1, e1⟩ := h1
  obtain ⟨a2, b2, c2, d2, e2⟩ := h2
  refine ⟨a2.trans a1, b2.trans b1, c2.trans c1, ?_, ?_⟩
  · intro v
    rcases d2 v with h | ⟨hm, f, i, h⟩
    · rcases d1 v with h0 | ⟨hm0, f0, i0, h0⟩
      · exact Or.inl (h.trans h0)
      · exact Or.inr ⟨hvs v hm0, f0, i0, h.trans h0⟩
    · refine Or.inr ⟨hws v hm, f, i, ?_⟩
      rcases d1 v with h0 | ⟨_, f0, i0, h0⟩
      · rw [h, h0]
      · rw [h, h0]; rfl
  · intro x
    rcases e2 x with h | h
    · rcases e1 x with h0 | h0
      · exact Or.inl (h.trans h0)
      · exact Or.inr (h.trans h0)
    · rcases e1 x with h0 | h0
      · exact Or.inr (by rw [h, h0])
      · exact Or.inr (by rw [h, h0]; simp)

theorem Tracked.step_var (op : OpId) (g : Bool) (s : State) (out : VarId) (f : String)
    (i : Int) : Tracked op g [out] s (s.setVar out ((s.vars out).TrackPreOp op f i g)) := by
  refine ⟨rfl, rfl, rfl, ?_, fun _ => Or.inl rfl⟩
  intro v
  by_cases h : v = out
  · subst h
    exact Or.inr ⟨List.mem_singleton_self _, f, i, by simp [State.setVar]⟩
  · exact Or.inl (by simp [State.setVar, Function.update_noteq h])

theorem Tracked.step_variable (op : OpId) (g : Bool) (s : State) (x : VariableId) :
    Tracked op g [] s (s.setVariable x (s.store x).GetMutable) := by
  refine ⟨rfl, rfl, rfl, fun _ => Or.inl rfl, ?_⟩
  intro y
  by_cases h : y = x
  · subst h
    exact Or.inr (by simp [State.setVariable])
  · exact Or.inl (by simp [State.setVariable, Function.update_noteq h])

theorem traceOutputs_tracked (op : OpId) (first : String) (block : BlockId) (g : Bool)
    (i : Nat) (vs : List VarId) (s : State) (l : Locals) :
    Tracked op g vs s (traceOutputs op first block g i vs s l).state := by
  induction vs generalizing s l i with
  | nil => exact Tracked.refl_tracked _ _ _ _
  | cons out t ih =>
    unfold traceOutputs
    simp only
    cases hb : (s.blocks block).vars (s.vars out).name with
    | none => exact Tracked.refl_tracked _ _ _ _
    | some ty =>
      simp only
      split
      · cases hv : (s.vars out).var_ with
        | none => exact Tracked.refl_tracked _ _ _ _
        | some x =>
          simp only
          refine Tracked.trans_tracked [out] t ?_ (ih _ _ _) (by simp)
            (fun v hv => List.mem_cons_of_mem _ hv)
          refine Tracked.trans_tracked [] [out] (Tracked.step_variable op g s x) ?_
            (by simp) (by simp)
          exact Tracked.step_var op g _ out first i
      · refine Tracked.trans_tracked [out] t ?_ (ih _ _ _) (by simp)
            (fun v hv => List.mem_cons_of_mem _ hv)
        exact Tracked.step_var op g s out first i

theorem traceOutputGroups_tracked (op : OpId) (block : BlockId) (g : Bool)
    (groups : VarBasePtrMap) (s : State) (l : Locals) :
    Tracked op g (allVars groups) s (traceOutputGroups op block g groups s l).state := by
  induction groups generalizing s l with
  | nil => exact Tracked.refl_tracked _ _ _ _
  | cons e t ih =>
    obtain ⟨first, second⟩ := e
    have h1 := traceOutputs_tracked op first block g 0 second s
      { l with outvars_map := l.outvars_map.touch first }
    unfold traceOutputGroups
    generalize traceOutputs op first block g 0 second s
      { l with outvars_map := l.outvars_map.touch first } = out at h1
    obtain ⟨s1, r1⟩ := out
    cases r1 with
    | error e =>
      exact Tracked.trans_tracked _ _ h1 (Tracked.refl_tracked op g [] s1) (by simp [allVars]; tauto) (by simp)
    | ok l1 =>
      exact Tracked.trans_tracked _ _ h1 (ih s1 l1) (by simp [allVars]; tauto) (by simp [allVars]; tauto)

theorem Tracked.fields {op : OpId} {g : Bool} {vs : List VarId} {s s1 : State}
    (h : Tracked op g vs s s1) (v : VarId) :
    (s1.vars v).name = (s.vars v).name ∧ (s1.vars v).var_ = (s.vars v).var_ ∧
      (s1.vars v).grads_ = (s.vars v).grads_ := by
  rcases h.2.2.2.1 v with h1 | ⟨_, f, i, h1⟩ <;> rw [h1] <;> simp

theorem Tracked.of_not_mem {op : OpId} {g : Bool} {vs : List VarId} {s s1 : State}
    (h : Tracked op g vs s s1) {v : VarId} (hv : v ∉ vs) : s1.vars v = s.vars v := by
  rcases h.2.2.2.1 v with h1 | ⟨hm, _⟩
  · exact h1
  · exact absurd hm hv

theorem Tracked.retrack {op : OpId} {g : Bool} {vs : List VarId} {s s1 : State}
    (h : Tracked op g vs s s1) (v : VarId) (f : String) (i : Int) :
    (s1.vars v).TrackPreOp op f i g = (s.vars v).TrackPreOp op f i g := by
  rcases h.2.2.2.1 v with h1 | ⟨_, f1, i1, h1⟩
  · rw [h1]
  · rw [h1, TrackPreOp_TrackPreOp]

theorem Tracked.store_of_initialized {op : OpId} {g : Bool} {vs : List VarId}
    {s s1 : State} (h : Tracked op g vs s s1) (x : VariableId)
    (hx : (s.store x).IsInitialized = true) : s1.store x = s.store x := by
  rcases h.2.2.2.2 x with h1 | h1
  · exact h1
  · rw [h1, GetMutable_of_initialized _ hx]

theorem traceOutputs_ok (op : OpId) (first : String) (block : BlockId) (g : Bool)
    (i : Nat) (vs : List VarId) (s : State) (l : Locals)
    (h : ∀ v ∈ vs, readyIn (s.blocks block) (s.vars v) = true) :
    ∃ l1, (traceOutputs op first block g i vs s l).result = .ok l1 := by
  induction vs generalizing s l i with
  | nil => exact ⟨l, rfl⟩
  | cons out t ih =>
    have hout := h out (List.mem_cons_self _ _)
    unfold readyIn at hout
    unfold traceOutputs
    simp only
    cases hb : (s.blocks block).vars (s.vars out).name with
    | none => simp [hb] at hout
    | some ty =>
      simp only [hb] at hout
      simp only
      split
      · rename_i hty
        simp only [hty, if_true] at hout
        cases hv : (s.vars out).var_ with
        | none => simp [hv] at hout
        | some x =>
          simp only
          apply ih
          intro v hv1
          have h1 := h v (List.mem_cons_of_mem _ hv1)
          have htr : Tracked op g [out] s
              ((s.setVariable x (s.store x).GetMutable).setVar out
                ((s.vars out).TrackPreOp op first i g)) :=
            Tracked.trans_tracked [] [out] (Tracked.step_variable op g s x)
              (Tracked.step_var op g _ out first i) (by simp) (by simp)
          obtain ⟨hn, hvv, -⟩ := htr.fields v
          unfold readyIn at h1 ⊢
          rw [hn, hvv]
          exact h1
      · apply ih
        intro v hv1
        have h1 := h v (List.mem_cons_of_mem _ hv1)
        obtain ⟨hn, hvv, -⟩ := (Tracked.step_var op g s out first i).fields v
        unfold readyIn at h1 ⊢
        rw [hn, hvv]
        exact h1

theorem traceOutputs_exact (op : OpId) (first : String) (block : BlockId) (g : Bool)
    (i : Nat) (vs : List VarId) (s : State) (l : Locals)
    (h : ∃ l1, (traceOutputs op first block g i vs s l).result = .ok l1) :
    ∀ w ∈ vs, ∃ j : Nat, vs[j]? = some w ∧
      (traceOutputs op first block g i vs s l).state.vars w
        = (s.vars w).TrackPreOp op first ((i + j : Nat) : Int) g := by
  induction vs generalizing s l i with
  | nil => simp
  | cons out t ih =>
    have key : ∀ (S : State) (l1 : Locals), S.vars = s.vars →
        (∃ l2, (traceOutputs op first block g (i + 1) t
          (S.setVar out ((s.vars out).TrackPreOp op first i g)) l1).result = .ok l2) →
        ∀ w ∈ out :: t, ∃ j : Nat, (out :: t)[j]? = some w ∧
          (traceOutputs op first block g (i + 1) t
            (S.setVar out ((s.vars out).TrackPreOp op first i g)) l1).state.vars w
            = (s.vars w).TrackPreOp op first ((i + j : Nat) : Int) g := by
      intro S l1 hS hok w hw
      have hstep : Tracked op g [out] S
          (S.setVar out ((s.vars out).TrackPreOp op first i g)) := by
        have := Tracked.step_var op g S out first i
        rwa [hS] at this
      by_cases hwt : w ∈ t
      · obtain ⟨j, hj, hst⟩ := ih (i + 1) _ l1 hok w hwt
        refine ⟨j + 1, by simpa using hj, ?_⟩
        rw [hst, hstep.retrack w, hS]
        have : i + 1 + j = i + (j + 1) := by omega
        rw [this]
      · have hwo : w = out := by
          rcases List.mem_cons.1 hw with h1 | h1
          · exact h1
          · exact absurd h1 hwt
        subst hwo
        refine ⟨0, by simp, ?_⟩
        rw [(traceOutputs_tracked op first block g (i + 1) t _ l1).of_not_mem hwt]
        simp [State.setVar]
    unfold traceOutputs at h ⊢
    simp only at h ⊢
    cases hb : (s.blocks block).vars (s.vars out).name with
    | none => simp [hb] at h
    | some ty =>
      simp only [hb] at h ⊢
      split at h
      · rename_i hty
        simp only [hty, if_true]
        cases hv : (s.vars out).var_ with
        | none => simp [hv] at h
        | some x =>
          simp only [hv] at h ⊢
          exact key (s.setVariable x (s.store x).GetMutable) _ rfl h
      · rename_i hty
        simp only [hty, if_false]
        exact key s _ rfl h

theorem Tracked.ready {op : OpId} {g : Bool} {vs : List VarId} {s s1 : State}
    (h : Tracked op g vs s s1) (block : BlockId) (v : VarId) :
    readyIn (s1.blocks block) (s1.vars v) = readyIn (s.blocks block) (s.vars v) := by
  obtain ⟨hn, hv, -⟩ := h.fields v
  unfold readyIn
  rw [hn, hv, h.2.1]

theorem traceOutputGroups_ok (op : OpId) (block : BlockId) (g : Bool)
    (groups : VarBasePtrMap) (s : State) (l : Locals)
    (h : ∀ v ∈ allVars groups, readyIn (s.blocks block) (s.vars v) = true) :
    ∃ l1, (traceOutputGroups op block g groups s l).result = .ok l1 := by
  induction groups generalizing s l with
  | nil => exact ⟨l, rfl⟩
  | cons e t ih =>
    obtain ⟨first, second⟩ := e
    obtain ⟨l1, hl1⟩ := traceOutputs_ok op first block g 0 second s
      { l with outvars_map := l.outvars_map.touch first }
      (fun v hv => h v (by simp [allVars]; exact Or.inl hv))
    have htr := traceOutputs_tracked op first block g 0 second s
      { l with outvars_map := l.outvars_map.touch first }
    unfold traceOutputGroups
    generalize traceOutputs op first block g 0 second s
      { l with outvars_map := l.outvars_map.touch first } = out at hl1 htr
    obtain ⟨s1, r1⟩ := out
    simp only at hl1 htr
    subst hl1
    simp only
    apply ih
    intro v hv
    rw [htr.ready]
    exact h v (by simp [allVars] at hv ⊢; exact Or.inr hv)

theorem traceOutputGroups_exact (op : OpId) (block : BlockId) (g : Bool)
    (groups : VarBasePtrMap) (s : State) (l : Locals)
    (h : ∃ l1, (traceOutputGroups op block g groups s l).result = .ok l1) :
    ∀ w ∈ allVars groups, ∃ e ∈ groups, ∃ j : Nat, e.2[j]? = some w ∧
      (traceOutputGroups op block g groups s l).state.vars w
        = (s.vars w).TrackPreOp op e.1 (j : Int) g := by
  induction groups generalizing s l with
  | nil => simp [allVars]
  | cons e t ih =>
    obtain ⟨first, second⟩ := e
    have hex := traceOutputs_exact op first block g 0 second s
      { l with outvars_map := l.outvars_map.touch first }
    have htr := traceOutputs_tracked op first block g 0 second s
      { l with outvars_map := l.outvars_map.touch first }
    unfold traceOutputGroups at h ⊢
    generalize traceOutputs op first block g 0 second s
      { l with outvars_map := l.outvars_map.touch first } = out at hex htr h
    obtain ⟨s1, r1⟩ := out
    cases r1 with
    | error e =>
      obtain ⟨l1, h1⟩ := h
      simp at h1
    | ok l1 =>
      simp only at h hex htr ⊢
      intro w hw
      by_cases hwt : w ∈ allVars t
      · obtain ⟨e, he, j, hj, hst⟩ := ih s1 l1 h w hwt
        refine ⟨e, List.mem_cons_of_mem _ he, j, hj, ?_⟩
        rw [hst, htr.retrack]
      · have hws : w ∈ second := by
          simp [allVars] at hw hwt
          rcases hw with h1 | h1
          · exact h1
          · exact absurd h1 (by simpa using hwt)
        obtain ⟨j, hj, hst⟩ := hex ⟨l1, rfl⟩ w hws
        refine ⟨(first, second), List.mem_cons_self _ _, j, hj, ?_⟩
        rw [(traceOutputGroups_tracked op block g t s1 l1).of_not_mem hwt, hst]
        simp

/-! ## The place check -/

@[simp] theorem recordGroups_op_desc (vars : VarId → VarBase) (groups : VarBasePtrMap)
    (o : OpBase) : (recordGroups vars groups o).op_desc_ = o.op_desc_ := by
  induction groups generalizing o with
  | nil => rfl
  | cons e t ih =>
    obtain ⟨first, second⟩ := e
    simp [recordGroups, ih]

theorem GetExpectedPlaceGroup_congr (s s1 : State) (place : Place) (first : String)
    (vs : List VarId) (h : ∀ v ∈ vs, tensorPlace s1 v = tensorPlace s v) :
    GetExpectedPlaceGroup s1 place first vs = GetExpectedPlaceGroup s place first vs := by
  induction vs with
  | nil => rfl
  | cons v t ih =>
    unfold GetExpectedPlaceGroup
    rw [h v (List.mem_cons_self _ _), ih (fun w hw => h w (List.mem_cons_of_mem _ hw))]

theorem GetExpectedPlace_congr (s s1 : State) (place : Place) (groups : VarBasePtrMap)
    (h : ∀ v ∈ allVars groups, tensorPlace s1 v = tensorPlace s v) :
    GetExpectedPlace s1 place groups = GetExpectedPlace s place groups := by
  induction groups with
  | nil => rfl
  | cons e t ih =>
    obtain ⟨first, second⟩ := e
    unfold GetExpectedPlace
    rw [GetExpectedPlaceGroup_congr s s1 place first second
      (fun v hv => h v (by simp [allVars]; exact Or.inl hv)),
      ih (fun v hv => h v (by simp [allVars] at hv ⊢; exact Or.inr hv))]

theorem GetExpectedPlaceGroup_cases (s : State) (place : Place) (first : String)
    (vs : List VarId) (hdata : ∀ v ∈ vs, carriesData s v = true) :
    (GetExpectedPlaceGroup s place first vs = .ok () ∧
      ∀ v ∈ vs, placeOf s v = some place) ∨
    ∃ v ∈ vs, ∃ got, placeOf s v = some got ∧ got ≠ place ∧
      GetExpectedPlaceGroup s place first vs = .error (.PlaceMismatch place got first) := by
  induction vs with
  | nil => exact Or.inl ⟨rfl, by simp⟩
  | cons v t ih =>
    have hv := hdata v (List.mem_cons_self _ _)
    unfold GetExpectedPlaceGroup
    unfold carriesData at hv
    cases htp : tensorPlace s v with
    | error e => simp [htp] at hv
    | ok p =>
      simp only
      by_cases hp : p = place
      · subst hp
        simp only [is_same_place, decide_True, Bool.not_true, Bool.false_eq_true, if_false]
        rcases ih (fun w hw => hdata w (List.mem_cons_of_mem _ hw)) with ⟨h1, h2⟩ | ⟨w, hw, got, h1, h2, h3⟩
        · refine Or.inl ⟨h1, ?_⟩
          intro w hw
          rcases List.mem_cons.1 hw with rfl | hw
          · simp [placeOf, htp]
          · exact h2 w hw
        · exact Or.inr ⟨w, List.mem_cons_of_mem _ hw, got, h1, h2, h3⟩
      · refine Or.inr ⟨v, List.mem_cons_self _ _, p, by simp [placeOf, htp], hp, ?_⟩
        simp [is_same_place, hp]

theorem GetExpectedPlace_cases (s : State) (place : Place) (groups : VarBasePtrMap)
    (hdata : ∀ v ∈ allVars groups, carriesData s v = true) :
    (GetExpectedPlace s place groups = .ok place ∧
      ∀ v ∈ allVars groups, placeOf s v = some place) ∨
    ∃ e ∈ groups, ∃ v ∈ e.2, ∃ got, placeOf s v = some got ∧ got ≠ place ∧
      GetExpectedPlace s place groups = .error (.PlaceMismatch place got e.1) := by
  induction groups with
  | nil => exact Or.inl ⟨rfl, by simp [allVars]⟩
  | cons e t ih =>
    obtain ⟨first, second⟩ := e
    unfold GetExpectedPlace
    rcases GetExpectedPlaceGroup_cases s place first second
      (fun v hv => hdata v (by simp [allVars]; exact Or.inl hv))
      with ⟨h1, h2⟩ | ⟨v, hv, got, h1, h2, h3⟩
    · rw [h1]
      simp only
      rcases ih (fun v hv => hdata v (by simp [allVars] at hv ⊢; exact Or.inr hv))
        with ⟨h3, h4⟩ | ⟨e, he, v, hv, got, h3, h4, h5⟩
      · refine Or.inl ⟨h3, ?_⟩
        intro v hv
        simp [allVars] at hv
        rcases hv with hv | hv
        · exact h2 v hv
        · exact h4 v (by simpa [allVars] using hv)
      · exact Or.inr ⟨e, List.mem_cons_of_mem _ he, v, hv, got, h3, h4, h5⟩
    · rw [h3]
      exact Or.inr ⟨(first, second), List.mem_cons_self _ _, v, hv, got, h1, h2, rfl⟩

theorem tensorPlace_of_carriesData {s s1 : State} {v : VarId}
    (hvar : (s1.vars v).var_ = (s.vars v).var_)
    (hstore : ∀ x, (s.store x).IsInitialized = true → s1.store x = s.store x)
    (h : carriesData s v = true) : tensorPlace s1 v = tensorPlace s v := by
  unfold carriesData at h
  unfold tensorPlace at h ⊢
  rw [hvar]
  cases hv : (s.vars v).var_ with
  | none => simp [hv] at h
  | some x =>
    simp only [hv] at h ⊢
    cases hx : (s.store x).holder with
    | none => simp [hx] at h
    | some t => rw [hstore x (by simp [Variable.IsInitialized, hx]), hx]

/-! ## The phases of `Tracer::Trace` -/

theorem Trace_linked (env : Env) (s : State) (op : OpId) (inputs outputs : VarBasePtrMap)
    (block : BlockId) (stop_gradient : Bool) (s1 s2 : State) (l1 l2 : Locals)
    (hin : traceInputGroups op inputs (traceBegin env s op inputs block) ⟨[], [], []⟩
      = ⟨s1, .ok l1⟩)
    (hout : traceOutputGroups op block stop_gradient outputs
      (s1.setOp op { s1.ops op with output_vars_ := outputs }) l1 = ⟨s2, .ok l2⟩) :
    Linked env s op inputs outputs block stop_gradient s2 := by
  obtain ⟨hv0, hs0, hk0, -, ho0, hoo0⟩ := traceBegin_frame env s op inputs block
  obtain ⟨done, -, hst, hok⟩ := traceInputGroups_state op inputs
    (traceBegin env s op inputs block) ⟨[], [], []⟩
  rw [hin] at hst hok
  simp only at hst hok
  have hdone : done = inputs := hok ⟨l1, rfl⟩
  subst hdone
  rw [hv0, ho0] at hst
  have htr := traceOutputGroups_tracked op block stop_gradient outputs
    (s1.setOp op { s1.ops op with output_vars_ := outputs }) l1
  have hex := traceOutputGroups_exact op block stop_gradient outputs
    (s1.setOp op { s1.ops op with output_vars_ := outputs }) l1
  rw [hout] at htr hex
  simp only at htr hex
  obtain ⟨t1, t2, t3, t4, t5⟩ := htr
  have hs1v : s1.vars = s.vars := by rw [hst]; exact hv0
  have hs1s : s1.store = s.store := by rw [hst]; exact hs0
  have hs1k : s1.kernel_log = s.kernel_log := by rw [hst]; exact hk0
  refine ⟨?_, ?_, ?_, ?_, ?_, ?_, ?_⟩
  · rw [t3]; exact hs1k
  · rw [t1, State.setOp_ops_self, hst, State.setOp_ops_self]
  · intro o ho
    rw [t1, State.setOp_ops_of_ne _ ho, hst, State.setOp_ops_of_ne _ ho]
    exact hoo0 o ho
  · intro v
    have := t4 v
    simpa [hs1v] using this
  · intro w hw
    have := hex ⟨l2, rfl⟩ w hw
    simpa [hs1v] using this
  · intro x
    have := t5 x
    simpa [hs1s] using this
  · rw [t2, State.setOp_blocks, hst]
    simp [traceBegin, State.setBlock]

theorem Trace_of_phases (env : Env) (s : State) (op : OpId) (inputs outputs : VarBasePtrMap)
    (block : BlockId) (expected_place : Place) (stop_gradient : Bool) (s1 s2 : State)
    (l1 l2 : Locals)
    (hin : traceInputGroups op inputs (traceBegin env s op inputs block) ⟨[], [], []⟩
      = ⟨s1, .ok l1⟩)
    (hout : traceOutputGroups op block stop_gradient outputs
      (s1.setOp op { s1.ops op with output_vars_ := outputs }) l1 = ⟨s2, .ok l2⟩) :
    Trace env s op inputs outputs block expected_place stop_gradient =
      if env.isOperatorWithKernel (s.ops op).op_desc_ then
        traceRun env op inputs block expected_place stop_gradient l2 s2
      else ⟨s2, .error .UnsupportedOperation⟩ := by
  have hl := Trace_linked env s op inputs outputs block stop_gradient s1 s2 l1 l2 hin hout
  unfold Trace
  rw [hin]
  simp only
  unfold traceFromOutputs
  rw [hout]
  simp only
  rw [hl.op_eq]
  simp

theorem Trace_ok_phases (env : Env) (s : State) (op : OpId) (inputs outputs : VarBasePtrMap)
    (block : BlockId) (expected_place : Place) (stop_gradient : Bool) (r : List String)
    (h : (Trace env s op inputs outputs block expected_place stop_gradient).result = .ok r) :
    ∃ s1 s2 l1 l2,
      traceInputGroups op inputs (traceBegin env s op inputs block) ⟨[], [], []⟩
        = ⟨s1, .ok l1⟩ ∧
      traceOutputGroups op block stop_gradient outputs
        (s1.setOp op { s1.ops op with output_vars_ := outputs }) l1 = ⟨s2, .ok l2⟩ ∧
      env.isOperatorWithKernel (s.ops op).op_desc_ = true ∧
      Trace env s op inputs outputs block expected_place stop_gradient
        = traceRun env op inputs block expected_place stop_gradient l2 s2 := by
  cases hin : traceInputGroups op inputs (traceBegin env s op inputs block) ⟨[], [], []⟩ with
  | mk s1 r1 =>
    cases r1 with
    | error e =>
      unfold Trace at h
      rw [hin] at h
      simp at h
    | ok l1 =>
      cases hout : traceOutputGroups op block stop_gradient outputs
          (s1.setOp op { s1.ops op with output_vars_ := outputs }) l1 with
      | mk s2 r2 =>
        cases r2 with
        | error e =>
          unfold Trace at h
          rw [hin] at h
          simp only at h
          unfold traceFromOutputs at h
          rw [hout] at h
          simp at h
        | ok l2 =>
          have heq := Trace_of_phases env s op inputs outputs block expected_place
            stop_gradient s1 s2 l1 l2 hin hout
          by_cases hk : env.isOperatorWithKernel (s.ops op).op_desc_ = true
          · rw [if_pos hk] at heq
            exact ⟨s1, s2, l1, l2, rfl, hout, hk, heq⟩
          · rw [if_neg hk] at heq
            rw [heq] at h
            simp at h

theorem Trace_reaches (env : Env) (s : State) (op : OpId) (inputs outputs : VarBasePtrMap)
    (block : BlockId) (stop_gradient : Bool)
    (hin : ∀ v ∈ allVars inputs, (s.vars v).var_ ≠ none)
    (hout : ∀ v ∈ allVars outputs, outputReady env s op block v = true) :
    ∃ s1 s2 l1 l2,
      traceInputGroups op inputs (traceBegin env s op inputs block) ⟨[], [], []⟩
        = ⟨s1, .ok l1⟩ ∧
      traceOutputGroups op block stop_gradient outputs
        (s1.setOp op { s1.ops op with output_vars_ := outputs }) l1 = ⟨s2, .ok l2⟩ := by
  obtain ⟨hv0, hs0, hk0, hb0, ho0, hoo0⟩ := traceBegin_frame env s op inputs block
  obtain ⟨l1, hl1⟩ := traceInputGroups_ok op inputs (traceBegin env s op inputs block)
    ⟨[], [], []⟩ (by rw [hv0]; exact hin)
  have hfr := traceInputGroups_frame op inputs (traceBegin env s op inputs block) ⟨[], [], []⟩
  cases hin1 : traceInputGroups op inputs (traceBegin env s op inputs block) ⟨[], [], []⟩ with
  | mk s1 r1 =>
    rw [hin1] at hl1 hfr
    simp only at hl1 hfr
    subst hl1
    obtain ⟨l2, hl2⟩ := traceOutputGroups_ok op block stop_gradient outputs
      (s1.setOp op { s1.ops op with output_vars_ := outputs }) l1 (by
        intro v hv
        have := hout v hv
        simp only [State.setOp_blocks, State.setOp_vars]
        rw [hfr.2.1, hfr.2.2.2, hv0, hb0]
        exact this)
    cases hout1 : traceOutputGroups op block stop_gradient outputs
        (s1.setOp op { s1.ops op with output_vars_ := outputs }) l1 with
    | mk s2 r2 =>
      rw [hout1] at hl2
      simp only at hl2
      subst hl2
      exact ⟨s1, s2, l1, l2, rfl, hout1⟩

theorem Linked.tensorPlace_eq {env : Env} {s : State} {op : OpId}
    {inputs outputs : VarBasePtrMap} {block : BlockId} {g : Bool} {s2 : State}
    (h : Linked env s op inputs outputs block g s2) {v : VarId}
    (hv : carriesData s v = true) : tensorPlace s2 v = tensorPlace s v := by
  apply tensorPlace_of_carriesData _ _ hv
  · rcases h.vars v with h1 | ⟨_, f, i, h1⟩
    · rw [h1]
    · rw [h1, TrackPreOp_var]
  · intro x hx
    rcases h.store x with h1 | h1
    · exact h1
    · rw [h1, GetMutable_of_initialized _ hx]

theorem var_ne_none_of_carriesData {s : State} {v : VarId} (h : carriesData s v = true) :
    (s.vars v).var_ ≠ none := by
  intro hn
  simp [carriesData, tensorPlace, hn] at h

/-! ## Claim C1 -/

/-- Claim C1: in a Trace call whose inputs all carry data and whose operation has a
kernel (the outputs being declared and having data handles, so that the loop over the
outputs dereferences no null pointer), if two input Variables, of the same or of
different groups, reside on different places, the call fails with the place-mismatch
error and the forward kernel function is not invoked. -/
theorem C1_place_mismatch (env : Env) (s : State) (op : OpId)
    (inputs outputs : VarBasePtrMap) (block : BlockId) (expected_place : Place)
    (stop_gradient : Bool)
    (hdata : ∀ v ∈ allVars inputs, carriesData s v = true)
    (hkernel : env.isOperatorWithKernel (s.ops op).op_desc_ = true)
    (hout : ∀ v ∈ allVars outputs, outputReady env s op block v = true)
    (hdiff : ∃ v ∈ allVars inputs, ∃ w ∈ allVars inputs, placeOf s v ≠ placeOf s w) :
    (∃ got first, (Trace env s op inputs outputs block expected_place stop_gradient).result
      = .error (.PlaceMismatch expected_place got first)) ∧
    (Trace env s op inputs outputs block expected_place stop_gradient).state.kernel_log
      = s.kernel_log := by
  obtain ⟨s1, s2, l1, l2, hin, hout1⟩ := Trace_reaches env s op inputs outputs block
    stop_gradient (fun v hv => var_ne_none_of_carriesData (hdata v hv)) hout
  have hl := Trace_linked env s op inputs outputs block stop_gradient s1 s2 l1 l2 hin hout1
  have heq := Trace_of_phases env s op inputs outputs block expected_place stop_gradient
    s1 s2 l1 l2 hin hout1
  rw [if_pos hkernel] at heq
  have hgep : GetExpectedPlace s2 expected_place inputs
      = GetExpectedPlace s expected_place inputs :=
    GetExpectedPlace_congr s s2 expected_place inputs
      (fun v hv => hl.tensorPlace_eq (hdata v hv))
  rcases GetExpectedPlace_cases s expected_place inputs hdata
    with ⟨-, hall⟩ | ⟨e, -, v, -, got, -, -, herr⟩
  · obtain ⟨v, hv, w, hw, hne⟩ := hdiff
    rw [hall v hv, hall w hw] at hne
    exact absurd rfl hne
  · rw [heq]
    unfold traceRun
    rw [hgep, herr]
    exact ⟨⟨got, e.1, rfl⟩, hl.log⟩

/-- Scenario D: `add` traced with `x` on the CPU and `w` on GPU 0. -/
theorem C1_place_mismatch_witness :
    (∃ got first, (Trace demoEnv demoState 1 [("X", [0]), ("Y", [3])] [("Out", [2])] 0
      Place.CPUPlace false).result = .error (.PlaceMismatch Place.CPUPlace got first)) ∧
    (Trace demoEnv demoState 1 [("X", [0]), ("Y", [3])] [("Out", [2])] 0
      Place.CPUPlace false).state.kernel_log = demoState.kernel_log :=
  C1_place_mismatch demoEnv demoState 1 [("X", [0]), ("Y", [3])] [("Out", [2])] 0
    Place.CPUPlace false (by decide) (by decide) (by decide) ⟨0, by decide, 3, by decide, by decide⟩

/-! ## Kernel dispatch -/

@[simp] theorem dispatch_vars (env : Env) (op : OpId) (place : Place) (l : Locals)
    (s : State) : (dispatch env op place l s).vars = s.vars := rfl

@[simp] theorem dispatch_blocks (env : Env) (op : OpId) (place : Place) (l : Locals)
    (s : State) : (dispatch env op place l s).blocks = s.blocks := rfl

@[simp] theorem dispatch_ops_self (env : Env) (op : OpId) (place : Place) (l : Locals)
    (s : State) : (dispatch env op place l s).ops op = { s.ops op with place_ := place } := by
  simp [dispatch, State.setOp]

theorem dispatch_ops_of_ne (env : Env) {op o : OpId} (h : o ≠ op) (place : Place)
    (l : Locals) (s : State) : (dispatch env op place l s).ops o = s.ops o := by
  simp [dispatch, State.setOp, Function.update_noteq h]

theorem traceRun_stop (env : Env) (op : OpId) (inputs : VarBasePtrMap) (block : BlockId)
    (expected_place : Place) (l : Locals) (s : State) (r : List String)
    (h : (traceRun env op inputs block expected_place true l s).result = .ok r) :
    r = [] ∧
    (traceRun env op inputs block expected_place true l s).state.vars = s.vars ∧
    ∃ place, (traceRun env op inputs block expected_place true l s).state.ops op
      = { s.ops op with place_ := place, block_ := some block } := by
  unfold traceRun at h ⊢
  cases hg : GetExpectedPlace s expected_place inputs with
  | error e => simp [hg] at h
  | ok place =>
    simp only [hg, if_true] at h ⊢
    refine ⟨?_, rfl, place, by simp⟩
    injection h with h1
    exact h1.symm

/-! ## Claim C3 -/

/-- Claim C3, as the code has it: a Trace call with stopGradient = true that returns, on
an operation instance that starts with no backward descriptors and no gradient
mappings, leaves the instance with zero backward descriptors and zero gradient
input/output mappings, returns the empty retained-name set, and has recorded, for every
output Variable, a producer link to this instance through `TrackPreOp` with
stopGradient = true. -/
theorem C3_no_gradient (env : Env) (s : State) (op : OpId) (inputs outputs : VarBasePtrMap)
    (block : BlockId) (expected_place : Place) (r : List String)
    (hdescs : (s.ops op).grad_op_descs_ = [])
    (hmaps : (s.ops op).grad_input_vars_ = [] ∧ (s.ops op).grad_output_vars_ = [])
    (hok : (Trace env s op inputs outputs block expected_place true).result = .ok r) :
    ((Trace env s op inputs outputs block expected_place true).state.ops op).grad_op_descs_
      = [] ∧
    ((Trace env s op inputs outputs block expected_place true).state.ops op).grad_input_vars_
      = [] ∧
    ((Trace env s op inputs outputs block expected_place true).state.ops op).grad_output_vars_
      = [] ∧
    r = [] ∧
    ∀ v ∈ allVars outputs,
      (∃ e ∈ outputs, ∃ j : Nat, e.2[j]? = some v ∧
        (Trace env s op inputs outputs block expected_place true).state.vars v
          = (s.vars v).TrackPreOp op e.1 (j : Int) true) ∧
      ((Trace env s op inputs outputs block expected_place true).state.vars v).pre_op_
        = some op ∧
      ((Trace env s op inputs outputs block expected_place true).state.vars v).stop_gradient_
        = true := by
  obtain ⟨s1, s2, l1, l2, hin, hout, -, heq⟩ :=
    Trace_ok_phases env s op inputs outputs block expected_place true r hok
  have hl := Trace_linked env s op inputs outputs block true s1 s2 l1 l2 hin hout
  rw [heq] at hok ⊢
  obtain ⟨hr, hvars, place, hop⟩ := traceRun_stop env op inputs block expected_place l2 s2 r hok
  have hfields : ∀ (vars : VarId → VarBase) (groups : VarBasePtrMap) (o : OpBase),
      (recordGroups vars groups o).grad_op_descs_ = o.grad_op_descs_ ∧
      (recordGroups vars groups o).grad_input_vars_ = o.grad_input_vars_ ∧
      (recordGroups vars groups o).grad_output_vars_ = o.grad_output_vars_ := by
    intro vars groups
    induction groups with
    | nil => intro o; exact ⟨rfl, rfl, rfl⟩
    | cons e t ih =>
      intro o
      obtain ⟨first, second⟩ := e
      have hinner : ∀ (vs : List VarId) (o : OpBase),
          (recordInputs vars first vs o).grad_op_descs_ = o.grad_op_descs_ ∧
          (recordInputs vars first vs o).grad_input_vars_ = o.grad_input_vars_ ∧
          (recordInputs vars first vs o).grad_output_vars_ = o.grad_output_vars_ := by
        intro vs
        induction vs with
        | nil => intro o; exact ⟨rfl, rfl, rfl⟩
        | cons v t2 ih2 =>
          intro o
          obtain ⟨a, b, c⟩ := ih2 (recordPreOp o first (vars v))
          have hstep : (recordPreOp o first (vars v)).grad_op_descs_ = o.grad_op_descs_ ∧
              (recordPreOp o first (vars v)).grad_input_vars_ = o.grad_input_vars_ ∧
              (recordPreOp o first (vars v)).grad_output_vars_ = o.grad_output_vars_ := by
            unfold recordPreOp
            split <;> exact ⟨rfl, rfl, rfl⟩
          exact ⟨a.trans hstep.1, b.trans hstep.2.1, c.trans hstep.2.2⟩
      obtain ⟨a, b, c⟩ := ih (recordInputs vars first second o)
      obtain ⟨a1, b1, c1⟩ := hinner second o
      exact ⟨a.trans a1, b.trans b1, c.trans c1⟩
  obtain ⟨f1, f2, f3⟩ := hfields s.vars inputs { s.ops op with input_vars_ := inputs }
  rw [hop, hl.op_eq]
  refine ⟨by simpa [f1] using hdescs, by simpa [f2] using hmaps.1,
    by simpa [f3] using hmaps.2, hr, ?_⟩
  intro v hv
  obtain ⟨e, he, j, hj, hst⟩ := hl.exact v hv
  rw [hvars, hst]
  exact ⟨⟨e, he, j, hj, rfl⟩, rfl, rfl⟩

/-- The operation `relu` traced with stopGradient = true. -/
theorem C3_no_gradient_witness :
    ((Trace demoEnv demoState 0 [("X", [0])] [("Out", [1])] 0 Place.CPUPlace true).state.ops
      0).grad_op_descs_ = [] ∧
    ((Trace demoEnv demoState 0 [("X", [0])] [("Out", [1])] 0 Place.CPUPlace true).state.ops
      0).grad_input_vars_ = [] ∧
    ((Trace demoEnv demoState 0 [("X", [0])] [("Out", [1])] 0 Place.CPUPlace true).state.ops
      0).grad_output_vars_ = [] ∧
    ([] : List String) = [] ∧
    ∀ v ∈ allVars [("Out", [1])],
      (∃ e ∈ [("Out", [1])], ∃ j : Nat, e.2[j]? = some v ∧
        (Trace demoEnv demoState 0 [("X", [0])] [("Out", [1])] 0 Place.CPUPlace true).state.vars v
          = (demoState.vars v).TrackPreOp 0 e.1 (j : Int) true) ∧
      ((Trace demoEnv demoState 0 [("X", [0])] [("Out", [1])] 0 Place.CPUPlace
        true).state.vars v).pre_op_ = some 0 ∧
      ((Trace demoEnv demoState 0 [("X", [0])] [("Out", [1])] 0 Place.CPUPlace
        true).state.vars v).stop_gradient_ = true :=
  C3_no_gradient demoEnv demoState 0 [("X", [0])] [("Out", [1])] 0 Place.CPUPlace []
    (by decide) (by decide) (by decide)

/-- A custom layer traced with gradients has one gradient mapping and no backward
descriptor; a later Trace call with stopGradient = true on the same instance starts
with no backward descriptors, returns, and leaves the gradient mappings in place. -/
theorem C3_counterexample :
    ((PyTrace demoEnv demoState 3 [0, 1] false).state.ops 3).grad_op_descs_ = [] ∧
    (Trace demoEnv (PyTrace demoEnv demoState 3 [0, 1] false).state 3 [("X", [0])]
      [("Out", [1])] 0 Place.CPUPlace true).result = .ok [] ∧
    ((Trace demoEnv (PyTrace demoEnv demoState 3 [0, 1] false).state 3 [("X", [0])]
      [("Out", [1])] 0 Place.CPUPlace true).state.ops 3).grad_input_vars_.length = 1 ∧
    ((Trace demoEnv (PyTrace demoEnv demoState 3 [0, 1] false).state 3 [("X", [0])]
      [("Out", [1])] 0 Place.CPUPlace true).state.ops 3).grad_output_vars_.length = 1 := by
  decide

/-! ## Gradient wiring of `Tracer::Trace` -/

@[simp] theorem length_modifyAt {α : Type} (f : α → α) (i : Nat) (l : List α) :
    (modifyAt f i l).length = l.length := by
  induction l generalizing i with
  | nil => cases i <;> rfl
  | cons a t ih =>
    cases i with
    | zero => rfl
    | succ n => simp [modifyAt, ih]

theorem GradFrame.refl_grad (op : OpId) (s : State) : GradFrame op s s :=
  ⟨rfl, rfl, fun _ _ => rfl, rfl, rfl, rfl⟩

theorem GradFrame.trans_grad {op : OpId} {s s1 s2 : State} (h1 : GradFrame op s s1)
    (h2 : GradFrame op s1 s2) : GradFrame op s s2 := by
  obtain ⟨a1, b1, c1, d1, e1, f1⟩ := h1
  obtain ⟨a2, b2, c2, d2, e2, f2⟩ := h2
  refine ⟨a2.trans a1, b2.trans b1, fun o ho => (c2 o ho).trans (c1 o ho), ?_,
    e2.trans e1, f2.trans f1⟩
  rw [d2, d1]

theorem GradFrame.setBlock (op : OpId) (s : State) (b : BlockId) (x : BlockDesc) :
    GradFrame op s (s.setBlock b x) :=
  ⟨rfl, rfl, fun _ _ => rfl, rfl, rfl, rfl⟩

theorem GradFrame.setStore (op : OpId) (s : State) (store : VariableId → Variable) :
    GradFrame op s { s with store := store } :=
  ⟨rfl, rfl, fun _ _ => rfl, rfl, rfl, rfl⟩

theorem GradFrame.setGradInput (op : OpId) (s : State) (f : VariableValueMap → VariableValueMap)
    (i : Nat) :
    GradFrame op s (s.setOp op { s.ops op with
      grad_input_vars_ := modifyAt f i (s.ops op).grad_input_vars_ }) := by
  refine ⟨rfl, rfl, fun o ho => State.setOp_ops_of_ne _ ho _, ?_, ?_, ?_⟩ <;> simp

theorem GradFrame.setGradOutput (op : OpId) (s : State)
    (f : VariableValueMap → VariableValueMap) (i : Nat) :
    GradFrame op s (s.setOp op { s.ops op with
      grad_output_vars_ := modifyAt f i (s.ops op).grad_output_vars_ }) := by
  refine ⟨rfl, rfl, fun o ho => State.setOp_ops_of_ne _ ho _, ?_, ?_, ?_⟩ <;> simp

theorem gradVarOf_frame (op : OpId) (s : State) (vars : StrMap VarId) (fwd_name : String)
    (dev_ctx : Option DeviceContext) :
    GradFrame op s (gradVarOf s vars fwd_name dev_ctx).state := by
  unfold gradVarOf
  split
  · exact GradFrame.refl_grad _ _
  · split
    · exact GradFrame.refl_grad _ _
    · split
      · exact GradFrame.refl_grad _ _
      · split
        · split
          · exact GradFrame.refl_grad _ _
          · exact GradFrame.setStore _ _ _
        · exact GradFrame.refl_grad _ _

theorem gradInputNames_frame (env : Env) (op : OpId) (block : BlockId) (i : Nat)
    (first : String) (grad_to_var : StrMap String) (vars : StrMap VarId)
    (dev_ctx : Option DeviceContext) (names : List String) (s : State) (saved : List String) :
    GradFrame op s
      (gradInputNames env op block i first grad_to_var vars dev_ctx names s saved).state := by
  induction names generalizing s saved with
  | nil => exact GradFrame.refl_grad _ _
  | cons n t ih =>
    unfold gradInputNames
    simp only
    have hb := GradFrame.setBlock op s block (env.FindRecursiveOrCreateVar (s.blocks block) n)
    split
    · split
      · exact hb
      · exact (hb.trans_grad (GradFrame.setGradInput op _ _ i)).trans_grad (ih _ _)
    · have hg := gradVarOf_frame op
        (s.setBlock block (env.FindRecursiveOrCreateVar (s.blocks block) n)) vars
        (by assumption) dev_ctx
      split
      · rename_i heq
        rw [heq] at hg
        exact hb.trans_grad hg
      · rename_i heq
        rw [heq] at hg
        exact ((hb.trans_grad hg).trans_grad (GradFrame.setGradInput op _ _ i)).trans_grad (ih _ _)

theorem gradInputGroups_frame (env : Env) (op : OpId) (block : BlockId) (i : Nat)
    (grad_to_var : StrMap String) (vars : StrMap VarId) (dev_ctx : Option DeviceContext)
    (groups : StrMap (List String)) (s : State) (saved : List String) :
    GradFrame op s
      (gradInputGroups env op block i grad_to_var vars dev_ctx groups s saved).state := by
  induction groups generalizing s saved with
  | nil => exact GradFrame.refl_grad _ _
  | cons e t ih =>
    obtain ⟨first, second⟩ := e
    unfold gradInputGroups
    have h1 := (GradFrame.setGradInput op s (fun m => m.touch first) i).trans_grad
      (gradInputNames_frame env op block i first grad_to_var vars dev_ctx second
        (s.setOp op { s.ops op with
          grad_input_vars_ := modifyAt (fun m => m.touch first) i (s.ops op).grad_input_vars_ })
        saved)
    split
    · rename_i heq
      rw [heq] at h1
      exact h1
    · rename_i heq
      rw [heq] at h1
      exact h1.trans_grad (ih _ _)

theorem gradOutputNames_frame (env : Env) (op : OpId) (block : BlockId) (i : Nat)
    (first : String) (grad_to_var : StrMap String) (vars : StrMap VarId)
    (dev_ctx : Option DeviceContext) (names : List String) (s : State) :
    GradFrame op s
      (gradOutputNames env op block i first grad_to_var vars dev_ctx names s).state := by
  induction names generalizing s with
  | nil => exact GradFrame.refl_grad _ _
  | cons n t ih =>
    unfold gradOutputNames
    simp only
    have hb := GradFrame.setBlock op s block (env.FindRecursiveOrCreateVar (s.blocks block) n)
    split
    · exact hb
    · have hg := gradVarOf_frame op
        (s.setBlock block (env.FindRecursiveOrCreateVar (s.blocks block) n)) vars
        (by assumption) dev_ctx
      split
      · rename_i heq
        rw [heq] at hg
        exact hb.trans_grad hg
      · rename_i heq
        rw [heq] at hg
        exact ((hb.trans_grad hg).trans_grad (GradFrame.setGradOutput op _ _ i)).trans_grad (ih _)

theorem gradOutputGroups_frame (env : Env) (op : OpId) (block : BlockId) (i : Nat)
    (grad_to_var : StrMap String) (vars : StrMap VarId) (dev_ctx : Option DeviceContext)
    (groups : StrMap (List String)) (s : State) :
    GradFrame op s
      (gradOutputGroups env op block i grad_to_var vars dev_ctx groups s).state := by
  induction groups generalizing s with
  | nil => exact GradFrame.refl_grad _ _
  | cons e t ih =>
    obtain ⟨first, second⟩ := e
    unfold gradOutputGroups
    have h1 := (GradFrame.setGradOutput op s (fun m => m.touch first) i).trans_grad
      (gradOutputNames_frame env op block i first grad_to_var vars dev_ctx second
        (s.setOp op { s.ops op with
          grad_output_vars_ :=
            modifyAt (fun m => m.touch first) i (s.ops op).grad_output_vars_ }))
    split
    · rename_i heq
      rw [heq] at h1
      exact h1
    · rename_i heq
      rw [heq] at h1
      exact h1.trans_grad (ih _)

theorem gradOpDescs_frame (env : Env) (op : OpId) (block : BlockId)
    (grad_to_var : StrMap String) (vars : StrMap VarId) (dev_ctx : Option DeviceContext)
    (i : Nat) (descs : List OpDesc) (s : State) (saved : List String) :
    GradFrame op s
      (gradOpDescs env op block grad_to_var vars dev_ctx i descs s saved).state := by
  induction descs generalizing s saved i with
  | nil => exact GradFrame.refl_grad _ _
  | cons d t ih =>
    unfold gradOpDescs
    have h1 := gradInputGroups_frame env op block i grad_to_var vars dev_ctx d.inputs s saved
    split
    · rename_i heq
      rw [heq] at h1
      exact h1
    · rename_i heq
      rw [heq] at h1
      have h2 := gradOutputGroups_frame env op block i grad_to_var vars dev_ctx d.outputs
        (by assumption)
      split
      · rename_i heq2
        rw [heq2] at h2
        exact h1.trans_grad h2
      · rename_i heq2
        rw [heq2] at h2
        exact (h1.trans_grad h2).trans_grad (ih _ _ _)

/-! ## The recorded tape edges -/

theorem recordPreOp_pre_ops (o : OpBase) (first : String) (inp : VarBase) :
    (recordPreOp o first inp).pre_ops_ = o.pre_ops_.push first (predOf inp) := by
  unfold recordPreOp predOf
  split <;> rfl

theorem recordPreOp_out_idx_at (o : OpBase) (first key : String) (inp : VarBase) :
    (recordPreOp o first inp).pre_ops_out_idx_.at key =
      if first = key then o.pre_ops_out_idx_.at key ++ (slotOf inp).toList
      else o.pre_ops_out_idx_.at key := by
  unfold recordPreOp slotOf
  by_cases hk : first = key
  · subst hk
    split <;> simp [StrMap.at_push_self]
  · split <;> simp [hk, StrMap.at_push_of_ne]

theorem recordInputs_pre_ops_at (vars : VarId → VarBase) (first key : String)
    (vs : List VarId) (o : OpBase) :
    (recordInputs vars first vs o).pre_ops_.at key =
      if first = key then o.pre_ops_.at key ++ vs.map (fun v => predOf (vars v))
      else o.pre_ops_.at key := by
  induction vs generalizing o with
  | nil => simp [recordInputs]
  | cons v t ih =>
    have := ih (recordPreOp o first (vars v))
    simp only [recordInputs, List.foldl] at this ⊢
    rw [this, recordPreOp_pre_ops]
    by_cases hk : first = key
    · subst hk
      simp [StrMap.at_push_self]
    · simp [hk, StrMap.at_push_of_ne]

theorem recordInputs_out_idx_at (vars : VarId → VarBase) (first key : String)
    (vs : List VarId) (o : OpBase) :
    (recordInputs vars first vs o).pre_ops_out_idx_.at key =
      if first = key then
        o.pre_ops_out_idx_.at key ++ vs.filterMap (fun v => slotOf (vars v))
      else o.pre_ops_out_idx_.at key := by
  induction vs generalizing o with
  | nil => simp [recordInputs]
  | cons v t ih =>
    have := ih (recordPreOp o first (vars v))
    simp only [recordInputs, List.foldl] at this ⊢
    rw [this, recordPreOp_out_idx_at]
    by_cases hk : first = key
    · subst hk
      cases hs : slotOf (vars v) <;> simp [List.filterMap_cons, hs]
    · simp [hk]

theorem recordGroups_pre_ops_at_of_not_mem (vars : VarId → VarBase)
    (groups : VarBasePtrMap) (o : OpBase) (key : String)
    (h : key ∉ groups.map Prod.fst) :
    (recordGroups vars groups o).pre_ops_.at key = o.pre_ops_.at key ∧
    (recordGroups vars groups o).pre_ops_out_idx_.at key = o.pre_ops_out_idx_.at key := by
  induction groups generalizing o with
  | nil => exact ⟨rfl, rfl⟩
  | cons e t ih =>
    obtain ⟨first, second⟩ := e
    simp only [List.map_cons, List.mem_cons, not_or] at h
    obtain ⟨a, b⟩ := ih (recordInputs vars first second o) h.2
    have hne : ¬ first = key := fun hh => h.1 hh.symm
    simp only [recordGroups]
    rw [a, b, recordInputs_pre_ops_at, recordInputs_out_idx_at]
    simp [hne]

theorem recordGroups_at (vars : VarId → VarBase) (groups : VarBasePtrMap) (o : OpBase)
    (hnodup : (groups.map Prod.fst).Nodup) (first : String) (second : List VarId)
    (hmem : (first, second) ∈ groups) :
    (recordGroups vars groups o).pre_ops_.at first
      = o.pre_ops_.at first ++ second.map (fun v => predOf (vars v)) ∧
    (recordGroups vars groups o).pre_ops_out_idx_.at first
      = o.pre_ops_out_idx_.at first ++ second.filterMap (fun v => slotOf (vars v)) := by
  induction groups generalizing o with
  | nil => simp at hmem
  | cons e t ih =>
    obtain ⟨k, vs⟩ := e
    simp only [List.map_cons, List.nodup_cons] at hnodup
    rcases List.mem_cons.1 hmem with heq | hin
    · injection heq with h1 h2
      subst h1
      subst h2
      obtain ⟨a, b⟩ := recordGroups_pre_ops_at_of_not_mem vars t
        (recordInputs vars first second o) first hnodup.1
      simp only [recordGroups]
      rw [a, b, recordInputs_pre_ops_at, recordInputs_out_idx_at]
      simp
    · have hne : ¬ k = first := by
        intro hh
        subst hh
        exact hnodup.1 (List.mem_map.2 ⟨(k, second), hin, rfl⟩)
      obtain ⟨a, b⟩ := ih (recordInputs vars k vs o) hnodup.2 hin
      simp only [recordGroups]
      rw [a, b, recordInputs_pre_ops_at, recordInputs_out_idx_at]
      simp [hne]

theorem recordGroups_mem (vars : VarId → VarBase) (groups : VarBasePtrMap) (o : OpBase)
    (key : String) (p : OpId)
    (h : some p ∈ (recordGroups vars groups o).pre_ops_.at key) :
    some p ∈ o.pre_ops_.at key ∨ ∃ v ∈ allVars groups, predOf (vars v) = some p := by
  induction groups generalizing o with
  | nil => exact Or.inl h
  | cons e t ih =>
    obtain ⟨first, second⟩ := e
    simp only [recordGroups] at h
    rcases ih (recordInputs vars first second o) h with h1 | ⟨v, hv, hp⟩
    · rw [recordInputs_pre_ops_at] at h1
      by_cases hk : first = key
      · simp only [hk, if_true, List.mem_append, List.mem_map] at h1
        rcases h1 with h2 | ⟨v, hv, hp⟩
        · exact Or.inl h2
        · exact Or.inr ⟨v, by simp [allVars]; exact Or.inl hv, hp⟩
      · simp only [hk, if_false] at h1
        exact Or.inl h1
    · exact Or.inr ⟨v, by simp [allVars] at hv ⊢; exact Or.inr hv, hp⟩

/-! ## The steps of `Tracer::Trace` after the two loops -/

theorem TapeFrame.refl_tape (op : OpId) (s : State) : TapeFrame op s s :=
  ⟨rfl, fun _ _ => rfl, rfl, rfl, rfl, rfl, rfl⟩

theorem TapeFrame.trans_tape {op : OpId} {s s1 s2 : State} (h1 : TapeFrame op s s1)
    (h2 : TapeFrame op s1 s2) : TapeFrame op s s2 := by
  obtain ⟨a1, b1, c1, d1, e1, f1, g1⟩ := h1
  obtain ⟨a2, b2, c2, d2, e2, f2, g2⟩ := h2
  exact ⟨a2.trans a1, fun o ho => (b2 o ho).trans (b1 o ho), c2.trans c1, d2.trans d1,
    e2.trans e1, f2.trans f1, g2.trans g1⟩

theorem GradFrame.tape {op : OpId} {s s1 : State} (h : GradFrame op s s1) :
    TapeFrame op s s1 := by
  obtain ⟨a, -, c, d, -, -⟩ := h
  refine ⟨a, c, ?_, ?_, ?_, ?_, ?_⟩ <;> rw [d]

theorem TapeFrame.dispatch (env : Env) (op : OpId) (place : Place) (l : Locals) (s : State) :
    TapeFrame op s (dispatch env op place l s) := by
  refine ⟨rfl, fun o ho => dispatch_ops_of_ne env ho place l s, ?_, ?_, ?_, ?_, ?_⟩ <;> simp

theorem TapeFrame.setBlockField (op : OpId) (s : State) (b : Option BlockId) :
    TapeFrame op s (s.setOp op { s.ops op with block_ := b }) := by
  refine ⟨rfl, fun o ho => State.setOp_ops_of_ne _ ho _, ?_, ?_, ?_, ?_, ?_⟩ <;> simp

theorem TapeFrame.setGrads (op : OpId) (s : State) (descs : List OpDesc)
    (gi go : List VariableValueMap) :
    TapeFrame op s (s.setOp op { s.ops op with
      grad_op_descs_ := descs, grad_input_vars_ := gi, grad_output_vars_ := go }) := by
  refine ⟨rfl, fun o ho => State.setOp_ops_of_ne _ ho _, ?_, ?_, ?_, ?_, ?_⟩ <;> simp

theorem traceGrad_tape (env : Env) (op : OpId) (block : BlockId) (vars : StrMap VarId)
    (dev_ctx : Option DeviceContext) (s : State) :
    TapeFrame op s (traceGrad env op block vars dev_ctx s).state := by
  unfold traceGrad
  split
  · exact TapeFrame.refl_tape _ _
  · exact (TapeFrame.setGrads op s _ _ _).trans_tape (gradOpDescs_frame _ _ _ _ _ _ _ _ _ _).tape

theorem traceRun_tape (env : Env) (op : OpId) (inputs : VarBasePtrMap) (block : BlockId)
    (expected_place : Place) (stop_gradient : Bool) (l : Locals) (s : State) :
    TapeFrame op s
      (traceRun env op inputs block expected_place stop_gradient l s).state := by
  unfold traceRun
  split
  · exact TapeFrame.refl_tape _ _
  · rename_i place _
    split
    · exact (TapeFrame.dispatch env op place l s).trans_tape (TapeFrame.setBlockField _ _ _)
    · have h1 := (TapeFrame.dispatch env op place l s).trans_tape
        (traceGrad_tape env op block l.vars (env.Prepare (s.ops op).op_desc_ place)
          (paddle.imperative.dispatch env op place l s))
      split
      · rename_i heq
        rw [heq] at h1
        exact h1
      · rename_i heq
        rw [heq] at h1
        exact h1.trans_tape (TapeFrame.setBlockField _ _ _)

theorem recordPreOp_input_vars (o : OpBase) (first : String) (inp : VarBase)
    (x : VarBasePtrMap) :
    recordPreOp { o with input_vars_ := x } first inp
      = { recordPreOp o first inp with input_vars_ := x } := by
  unfold recordPreOp
  split <;> rfl

theorem recordInputs_input_vars (vars : VarId → VarBase) (first : String) (vs : List VarId)
    (o : OpBase) (x : VarBasePtrMap) :
    recordInputs vars first vs { o with input_vars_ := x }
      = { recordInputs vars first vs o with input_vars_ := x } := by
  induction vs generalizing o with
  | nil => rfl
  | cons v t ih =>
    have := ih (recordPreOp o first (vars v))
    simp only [recordInputs, List.foldl] at this ⊢
    rw [recordPreOp_input_vars, this]

theorem recordGroups_input_vars (vars : VarId → VarBase) (groups : VarBasePtrMap)
    (o : OpBase) (x : VarBasePtrMap) :
    recordGroups vars groups { o with input_vars_ := x }
      = { recordGroups vars groups o with input_vars_ := x } := by
  induction groups generalizing o with
  | nil => rfl
  | cons e t ih =>
    obtain ⟨first, second⟩ := e
    simp only [recordGroups]
    rw [recordInputs_input_vars, ih]

/-- The effect of a `Tracer::Trace` call on the tape, whether it returns or throws. -/
theorem Trace_effect (env : Env) (s : State) (op : OpId) (inputs outputs : VarBasePtrMap)
    (block : BlockId) (expected_place : Place) (stop_gradient : Bool) :
    TapeEffect s op inputs outputs stop_gradient
      (Trace env s op inputs outputs block expected_place stop_gradient).state
      (∃ r, (Trace env s op inputs outputs block expected_place stop_gradient).result
        = .ok r) := by
  obtain ⟨hv0, hs0, hk0, -, ho0, hoo0⟩ := traceBegin_frame env s op inputs block
  obtain ⟨done, hpre, hst, hok⟩ := traceInputGroups_state op inputs
    (traceBegin env s op inputs block) ⟨[], [], []⟩
  rw [hv0, ho0, recordGroups_input_vars] at hst
  cases hin : traceInputGroups op inputs (traceBegin env s op inputs block) ⟨[], [], []⟩ with
  | mk s1 r1 =>
    rw [hin] at hst hok
    simp only at hst hok
    have hs1o : ∀ o, o ≠ op → s1.ops o = s.ops o := fun o ho => by
      rw [hst, State.setOp_ops_of_ne _ ho]; exact hoo0 o ho
    have hs1v : s1.vars = s.vars := by rw [hst]; exact hv0
    cases r1 with
    | error e =>
      have heq : Trace env s op inputs outputs block expected_place stop_gradient
          = ⟨s1, .error e⟩ := by
        unfold Trace
        rw [hin]
      rw [heq]
      refine ⟨hs1o, ⟨done, hpre, ?_, ?_, ?_⟩, fun v => Or.inl (by rw [hs1v]), ?_⟩
      · rw [hst]; simp
      · rw [hst]; simp
      · rintro ⟨r, hr⟩; simp at hr
      · rintro ⟨r, hr⟩; simp at hr
    | ok l1 =>
      have hdone : done = inputs := hok ⟨l1, rfl⟩
      have htr := traceOutputGroups_tracked op block stop_gradient outputs
        (s1.setOp op { s1.ops op with output_vars_ := outputs }) l1
      have hex := traceOutputGroups_exact op block stop_gradient outputs
        (s1.setOp op { s1.ops op with output_vars_ := outputs }) l1
      cases hout : traceOutputGroups op block stop_gradient outputs
          (s1.setOp op { s1.ops op with output_vars_ := outputs }) l1 with
      | mk s2 r2 =>
        rw [hout] at htr hex
        simp only at htr hex
        obtain ⟨t1, -, -, t4, -⟩ := htr
        have hs2o : ∀ o, o ≠ op → s2.ops o = s.ops o := fun o ho => by
          rw [t1, State.setOp_ops_of_ne _ ho]; exact hs1o o ho
        have hs2p : (s2.ops op).pre_ops_ = (recordGroups s.vars done (s.ops op)).pre_ops_ := by
          rw [t1, State.setOp_ops_self, hst]; simp
        have hs2i : (s2.ops op).pre_ops_out_idx_
            = (recordGroups s.vars done (s.ops op)).pre_ops_out_idx_ := by
          rw [t1, State.setOp_ops_self, hst]; simp
        have hs2v : ∀ v, s2.vars v = s.vars v ∨
            (v ∈ allVars outputs ∧ ∃ first i,
              s2.vars v = (s.vars v).TrackPreOp op first i stop_gradient) := by
          intro v
          have := t4 v
          simpa [hs1v] using this
        have hfinal : ∀ (s3 : State) (res : TraceResult (List String)),
            TapeFrame op s2 s3 → ((∃ r, res = .ok r) → ∃ l2, r2 = .ok l2) →
            TapeEffect s op inputs outputs stop_gradient s3 (∃ r, res = .ok r) := by
          intro s3 res htape hres
          obtain ⟨a, b, c, d, -, -, -⟩ := htape
          refine ⟨fun o ho => (b o ho).trans (hs2o o ho),
            ⟨done, hpre, c.trans hs2p, d.trans hs2i, fun _ => hdone⟩, ?_, ?_⟩
          · intro v
            simp only [a]
            exact hs2v v
          · intro hr w hw
            have := hex (hres hr) w hw
            simpa [a, hs1v] using this
        cases r2 with
        | error e =>
          have heq : Trace env s op inputs outputs block expected_place stop_gradient
              = ⟨s2, .error e⟩ := by
            unfold Trace
            rw [hin]
            simp only
            unfold traceFromOutputs
            rw [hout]
          rw [heq]
          exact hfinal s2 (.error e) (TapeFrame.refl_tape _ _) (by rintro ⟨r, hr⟩; simp at hr)
        | ok l2 =>
          have heq := Trace_of_phases env s op inputs outputs block expected_place
            stop_gradient s1 s2 l1 l2 hin hout
          by_cases hk : env.isOperatorWithKernel (s.ops op).op_desc_ = true
          · rw [if_pos hk] at heq
            rw [heq]
            exact hfinal _ _
              (traceRun_tape env op inputs block expected_place stop_gradient l2 s2)
              (fun _ => ⟨l2, rfl⟩)
          · rw [if_neg hk] at heq
            rw [heq]
            exact hfinal s2 _ (TapeFrame.refl_tape _ _) (by rintro ⟨r, hr⟩; simp at hr)

/-! ## The tape linkage of `Tracer::PyTrace` -/

theorem recordPreOp_out_idx (o : OpBase) (first : String) (inp : VarBase) :
    (recordPreOp o first inp).pre_ops_out_idx_ =
      match slotOf inp with
      | some i => o.pre_ops_out_idx_.push first i
      | none => o.pre_ops_out_idx_ := by
  unfold recordPreOp slotOf
  split <;> rfl

theorem recordInputs_congr (vars : VarId → VarBase) (first : String) (vs : List VarId)
    (o o1 : OpBase) (h1 : o.pre_ops_ = o1.pre_ops_)
    (h2 : o.pre_ops_out_idx_ = o1.pre_ops_out_idx_) :
    (recordInputs vars first vs o).pre_ops_ = (recordInputs vars first vs o1).pre_ops_ ∧
    (recordInputs vars first vs o).pre_ops_out_idx_
      = (recordInputs vars first vs o1).pre_ops_out_idx_ := by
  induction vs generalizing o o1 with
  | nil => exact ⟨h1, h2⟩
  | cons v t ih =>
    have := ih (recordPreOp o first (vars v)) (recordPreOp o1 first (vars v))
      (by rw [recordPreOp_pre_ops, recordPreOp_pre_ops, h1])
      (by rw [recordPreOp_out_idx, recordPreOp_out_idx, h2])
    simpa [recordInputs] using this

theorem pyTraceInputs_state (env : Env) (op : OpId) (inputs : List VarId) (s : State) :
    pyTraceInputs env op inputs s
      = s.setOp op (recordInputs s.vars env.kFwdInp inputs (s.ops op)) := by
  induction inputs generalizing s with
  | nil => simp [pyTraceInputs, recordInputs]
  | cons v t ih =>
    unfold pyTraceInputs
    rw [ih]
    simp [recordInputs]

theorem pyTrackOutputs_tracked (env : Env) (op : OpId) (g : Bool) (i : Nat)
    (vs : List VarId) (s : State) :
    Tracked op g vs s (pyTrackOutputs env op g i vs s) ∧
    (pyTrackOutputs env op g i vs s).store = s.store := by
  induction vs generalizing s i with
  | nil => exact ⟨Tracked.refl_tracked _ _ _ _, rfl⟩
  | cons out t ih =>
    unfold pyTrackOutputs
    obtain ⟨a, b⟩ := ih (i + 1) (s.setVar out ((s.vars out).TrackPreOp op env.kFwdOut i g))
    exact ⟨Tracked.trans_tracked [out] t (Tracked.step_var op g s out env.kFwdOut i) a (by simp)
      (fun v hv => List.mem_cons_of_mem _ hv), b⟩

theorem pyTrackOutputs_exact (env : Env) (op : OpId) (g : Bool) (i : Nat)
    (vs : List VarId) (s : State) :
    ∀ w ∈ vs, ∃ j : Nat, vs[j]? = some w ∧
      (pyTrackOutputs env op g i vs s).vars w
        = (s.vars w).TrackPreOp op env.kFwdOut ((i + j : Nat) : Int) g := by
  induction vs generalizing s i with
  | nil => simp
  | cons out t ih =>
    intro w hw
    have hstep := Tracked.step_var op g s out env.kFwdOut i
    unfold pyTrackOutputs
    by_cases hwt : w ∈ t
    · obtain ⟨j, hj, hst⟩ := ih (i + 1)
        (s.setVar out ((s.vars out).TrackPreOp op env.kFwdOut i g)) w hwt
      refine ⟨j + 1, by simpa using hj, ?_⟩
      rw [hst, hstep.retrack w]
      have : i + 1 + j = i + (j + 1) := by omega
      rw [this]
    · have hwo : w = out := by
        rcases List.mem_cons.1 hw with h1 | h1
        · exact h1
        · exact absurd h1 hwt
      subst hwo
      refine ⟨0, by simp, ?_⟩
      rw [(pyTrackOutputs_tracked env op g (i + 1) t _).1.of_not_mem hwt]
      simp [State.setVar]

theorem pyApplied_frame (env : Env) (s : State) (op : OpId) (inputs : List VarId) :
    (pyApplied env s op inputs).vars = s.vars ∧
    (pyApplied env s op inputs).kernel_log = s.kernel_log ∧
    (pyApplied env s op inputs).blocks = s.blocks ∧
    (pyApplied env s op inputs).ops op =
      { s.ops op with
        input_vars_ := (s.ops op).input_vars_.set env.kFwdInp inputs
        output_vars_ := (s.ops op).output_vars_.set env.kFwdOut (pyOutputs env s op inputs) } ∧
    ∀ o, o ≠ op → (pyApplied env s op inputs).ops o = s.ops o := by
  refine ⟨rfl, rfl, rfl, by simp [pyApplied], ?_⟩
  intro o ho
  simp [pyApplied, State.setOp_ops_of_ne _ ho]

theorem pyTraceLink_effect (env : Env) (s : State) (op : OpId) (inputs : List VarId)
    (stop_gradient : Bool) :
    TapeEffect s op [(env.kFwdInp, inputs)] [(env.kFwdOut, pyOutputs env s op inputs)]
      stop_gradient (pyTraceLink env s op inputs stop_gradient) True := by
  obtain ⟨a1, -, -, a4, a5⟩ := pyApplied_frame env s op inputs
  unfold pyTraceLink
  rw [pyTraceInputs_state, a1, a4]
  obtain ⟨c1, c2⟩ := recordInputs_congr s.vars env.kFwdInp inputs
    { s.ops op with
      input_vars_ := (s.ops op).input_vars_.set env.kFwdInp inputs
      output_vars_ := (s.ops op).output_vars_.set env.kFwdOut (pyOutputs env s op inputs) }
    (s.ops op) rfl rfl
  generalize hmid : (pyApplied env s op inputs).setOp op
    (recordInputs s.vars env.kFwdInp inputs
      { s.ops op with
        input_vars_ := (s.ops op).input_vars_.set env.kFwdInp inputs
        output_vars_ := (s.ops op).output_vars_.set env.kFwdOut (pyOutputs env s op inputs) })
    = mid
  have hm1 : mid.vars = s.vars := by rw [← hmid]; exact a1
  have hm2 : (mid.ops op).pre_ops_
      = (recordInputs s.vars env.kFwdInp inputs (s.ops op)).pre_ops_ := by
    rw [← hmid, State.setOp_ops_self]; exact c1
  have hm2i : (mid.ops op).pre_ops_out_idx_
      = (recordInputs s.vars env.kFwdInp inputs (s.ops op)).pre_ops_out_idx_ := by
    rw [← hmid, State.setOp_ops_self]; exact c2
  have hm3 : ∀ o, o ≠ op → mid.ops o = s.ops o := fun o ho => by
    rw [← hmid, State.setOp_ops_of_ne _ ho]; exact a5 o ho
  obtain ⟨⟨t1, -, -, t4, -⟩, -⟩ := pyTrackOutputs_tracked env op stop_gradient 0
    (pyOutputs env s op inputs) mid
  have hex := pyTrackOutputs_exact env op stop_gradient 0 (pyOutputs env s op inputs) mid
  have hall : allVars [(env.kFwdOut, pyOutputs env s op inputs)]
      = pyOutputs env s op inputs := by simp [allVars]
  refine ⟨?_, ⟨[(env.kFwdInp, inputs)], List.prefix_refl _, ?_, ?_, fun _ => rfl⟩, ?_, ?_⟩
  · intro o ho
    rw [t1]
    exact hm3 o ho
  · rw [t1, hm2]
    rfl
  · rw [t1, hm2i]
    rfl
  · intro v
    rw [hall]
    have := t4 v
    simpa [hm1] using this
  · intro _ w hw
    rw [hall] at hw
    obtain ⟨j, hj, hst⟩ := hex w hw
    refine ⟨(env.kFwdOut, pyOutputs env s op inputs), List.mem_singleton_self _, j, hj, ?_⟩
    simpa [hm1] using hst

/-! ## The gradient wiring of `Tracer::PyTrace` -/

theorem GradFrame.pushGradInput (s : State) (op : OpId) (i : Nat) (first : String)
    (v : Option VariableId) : GradFrame op s (pushGradInput s op i first v) :=
  GradFrame.setGradInput op s (fun m => m.push first v) i

theorem GradFrame.pushGradOutput (s : State) (op : OpId) (i : Nat) (first : String)
    (v : Option VariableId) : GradFrame op s (pushGradOutput s op i first v) :=
  GradFrame.setGradOutput op s (fun m => m.push first v) i

theorem pyPushForward_frame (env : Env) (op : OpId) (vs : List VarId) (s : State) :
    GradFrame op s (pyPushForward env op vs s) ∧
    (pyPushForward env op vs s).store = s.store := by
  induction vs generalizing s with
  | nil => exact ⟨GradFrame.refl_grad _ _, rfl⟩
  | cons v t ih =>
    unfold pyPushForward
    obtain ⟨a, b⟩ := ih (pushGradInput s op 0 (env.GradVarName env.kFwdInp) (s.vars v).var_)
    exact ⟨(GradFrame.pushGradInput s op 0 _ _).trans_grad a, b⟩

theorem pyPushOutGrads_frame (env : Env) (op : OpId) (vs : List VarId) (s : State) :
    GradFrame op s (pyPushOutGrads env op vs s).state := by
  induction vs generalizing s with
  | nil => exact GradFrame.refl_grad _ _
  | cons v t ih =>
    unfold pyPushOutGrads
    split
    · exact GradFrame.refl_grad _ _
    · split
      · exact GradFrame.pushGradInput s op 0 _ _
      · split
        · split
          · exact GradFrame.pushGradInput s op 0 _ _
          · exact ((GradFrame.pushGradInput s op 0 _ _).trans_grad
              (GradFrame.setStore op _ _)).trans_grad (ih _)
        · exact (GradFrame.pushGradInput s op 0 _ _).trans_grad (ih _)

theorem pyPushInGrads_frame (env : Env) (op : OpId) (vs : List VarId) (s : State) :
    GradFrame op s (pyPushInGrads env op vs s).state := by
  induction vs generalizing s with
  | nil => exact GradFrame.refl_grad _ _
  | cons v t ih =>
    unfold pyPushInGrads
    split
    · exact GradFrame.refl_grad _ _
    · split
      · exact GradFrame.pushGradOutput s op 0 _ _
      · split
        · split
          · exact GradFrame.pushGradOutput s op 0 _ _
          · exact ((GradFrame.pushGradOutput s op 0 _ _).trans_grad
              (GradFrame.setStore op _ _)).trans_grad (ih _)
        · exact (GradFrame.pushGradOutput s op 0 _ _).trans_grad (ih _)

theorem pyTraceGrad_frame (env : Env) (op : OpId) (inputs outputs : List VarId) (s : State) :
    GradFrame op
      (s.setOp op { s.ops op with
        grad_input_vars_ :=
          modifyAt (fun m => m.touch (env.GradVarName env.kFwdInp)) 0
            (resize (s.ops op).grad_input_vars_ 1 [])
        grad_output_vars_ :=
          modifyAt (fun m => m.touch (env.GradVarName env.kFwdOut)) 0
            (resize (s.ops op).grad_output_vars_ 1 []) })
      (pyTraceGrad env op inputs outputs s).state := by
  unfold pyTraceGrad
  simp only
  have h1 := ((pyPushForward_frame env op inputs _).1.trans_grad
    (pyPushForward_frame env op outputs _).1).trans_grad
    (pyPushOutGrads_frame env op outputs
      (pyPushForward env op outputs (pyPushForward env op inputs
        (s.setOp op { s.ops op with
          grad_input_vars_ :=
            modifyAt (fun m => m.touch (env.GradVarName env.kFwdInp)) 0
              (resize (s.ops op).grad_input_vars_ 1 [])
          grad_output_vars_ :=
            modifyAt (fun m => m.touch (env.GradVarName env.kFwdOut)) 0
              (resize (s.ops op).grad_output_vars_ 1 []) }))))
  split
  · rename_i heq
    rw [heq] at h1
    exact h1
  · rename_i heq
    rw [heq] at h1
    exact h1.trans_grad (pyPushInGrads_frame env op inputs _)

theorem pyTraceGrad_tape (env : Env) (op : OpId) (inputs outputs : List VarId) (s : State) :
    TapeFrame op s (pyTraceGrad env op inputs outputs s).state :=
  (TapeFrame.setGrads op s (s.ops op).grad_op_descs_ _ _).trans_tape
    (pyTraceGrad_frame env op inputs outputs s).tape

theorem TapeEffect.of_tape {s : State} {op : OpId} {inputs outputs : VarBasePtrMap}
    {g : Bool} {s1 s2 : State} {p q : Prop} (h : TapeEffect s op inputs outputs g s1 p)
    (ht : TapeFrame op s1 s2) (hq : q → p) : TapeEffect s op inputs outputs g s2 q := by
  obtain ⟨a, b, c, d, -, -, -⟩ := ht
  obtain ⟨done, h1, h2, h3, h4⟩ := h.pre_ops
  refine ⟨fun o ho => (b o ho).trans (h.ops_other o ho),
    ⟨done, h1, c.trans h2, d.trans h3, fun hh => h4 (hq hh)⟩, ?_, ?_⟩
  · intro v
    rw [a]
    exact h.vars v
  · intro hh w hw
    rw [a]
    exact h.exact (hq hh) w hw

/-- The effect of a `Tracer::PyTrace` call on the tape, whether it returns or throws. -/
theorem PyTrace_effect (env : Env) (s : State) (op : OpId) (inputs : List VarId)
    (stop_gradient : Bool) :
    TapeEffect s op [(env.kFwdInp, inputs)] [(env.kFwdOut, pyOutputs env s op inputs)]
      stop_gradient (PyTrace env s op inputs stop_gradient).state True := by
  have hl := pyTraceLink_effect env s op inputs stop_gradient
  unfold PyTrace
  split
  · exact hl
  · have ht := pyTraceGrad_tape env op inputs (pyOutputs env s op inputs)
      (pyTraceLink env s op inputs stop_gradient)
    split
    · rename_i heq
      rw [heq] at ht
      exact hl.of_tape ht id
    · rename_i heq
      rw [heq] at ht
      exact hl.of_tape ht id

/-! ## Claim C4 -/

theorem predOf_eq_some {vb : VarBase} {p : OpId} (h : predOf vb = some p) :
    vb.pre_op_ = some p := by
  unfold predOf at h
  split at h
  · exact h
  · cases h

theorem step_effect (env : Env) (s : State) (c : Call) :
    ∃ (outputs : VarBasePtrMap) (returned : Prop),
      TapeEffect s c.op (c.inputGroups env) outputs c.stop_gradient (step env s c) returned := by
  cases c with
  | trace op inputs outputs block expected_place stop_gradient =>
    exact ⟨outputs, _, Trace_effect env s op inputs outputs block expected_place stop_gradient⟩
  | pyTrace op inputs stop_gradient =>
    exact ⟨_, _, PyTrace_effect env s op inputs stop_gradient⟩

theorem TapeOrdered.step (env : Env) (s : State) (c : Call) (traced : List OpId)
    (h : TapeOrdered s traced) (hfresh : c.op ∉ traced) :
    TapeOrdered (step env s c) (traced ++ [c.op]) := by
  obtain ⟨outputs, returned, he⟩ := step_effect env s c
  obtain ⟨h1, h2⟩ := h
  constructor
  · intro v p hp
    rcases he.vars v with hv | ⟨-, f, i, hv⟩
    · rw [hv] at hp
      exact List.mem_append_left _ (h1 v p hp)
    · rw [hv] at hp
      have : c.op = p := by
        simpa [VarBase.TrackPreOp] using hp
      subst this
      simp
  · rintro o p ⟨key, hkey⟩
    by_cases ho : o = c.op
    · subst ho
      obtain ⟨done, hpre, hp1, -, -⟩ := he.pre_ops
      rw [hp1] at hkey
      rcases recordGroups_mem s.vars done (s.ops c.op) key p hkey with hold | ⟨v, -, hv⟩
      · exact absurd (h2 c.op p ⟨key, hold⟩).1 hfresh
      · have hpm : p ∈ traced := h1 v p (predOf_eq_some hv)
        refine ⟨by simp, List.mem_append_left _ hpm, ?_⟩
        rw [List.indexOf_append_of_mem hpm, List.indexOf_append_of_not_mem hfresh]
        have := List.indexOf_lt_length.2 hpm
        omega
    · rw [he.ops_other o ho] at hkey
      obtain ⟨a, b, c1⟩ := h2 o p ⟨key, hkey⟩
      refine ⟨List.mem_append_left _ a, List.mem_append_left _ b, ?_⟩
      rw [List.indexOf_append_of_mem a, List.indexOf_append_of_mem b]
      exact c1

theorem TapeOrdered.runCalls (env : Env) (cs : List Call) (s : State) (traced : List OpId)
    (h : TapeOrdered s traced) (hnodup : (traced ++ cs.map Call.op).Nodup) :
    TapeOrdered (runCalls env s cs) (traced ++ cs.map Call.op) := by
  induction cs generalizing s traced with
  | nil => simpa [paddle.imperative.runCalls] using h
  | cons c t ih =>
    have hfresh : c.op ∉ traced := by
      intro hm
      have := List.nodup_append.1 hnodup
      exact this.2.2 hm (by simp)
    have := ih (paddle.imperative.step env s c) (traced ++ [c.op])
      (h.step env s c traced hfresh)
      (by simpa using hnodup)
    simpa [paddle.imperative.runCalls] using this

theorem TapeOrdered.of_noLinks (s : State) (h : noLinks s) : TapeOrdered s [] := by
  constructor
  · intro v p hp
    rw [h.1 v] at hp
    cases hp
  · rintro o p ⟨key, hkey⟩
    rw [h.2 o] at hkey
    simp [StrMap.at, StrMap.find] at hkey

theorem TapeOrdered.acyclic {s : State} {traced : List OpId} (h : TapeOrdered s traced)
    (o : OpId) : ¬ Relation.TransGen (predEdge s) o o := by
  have key : ∀ a b, Relation.TransGen (predEdge s) a b →
      traced.indexOf b < traced.indexOf a := by
    intro a b hab
    induction hab with
    | single h1 => exact (h.2 _ _ h1).2.2
    | tail _ h2 ih => exact lt_trans (h.2 _ _ h2).2.2 ih
  intro hoo
  exact lt_irrefl _ (key o o hoo)

/-- Claim C5, as the code has it: for every finite sequence of Trace / TraceCustom calls
that starts from a tape with no links and in which every call traces an operation
instance of its own (no instance is traced twice), every non-marker predecessor
recorded for an instance was traced by a strictly earlier call of the sequence, so the
predecessor graph has no cycle and no instance is its own predecessor, also when a
Variable is both input and output of one call and when calls throw. -/
theorem C5_acyclic (env : Env) (s : State) (cs : List Call)
    (hstart : noLinks s) (hdistinct : (cs.map Call.op).Nodup) :
    (∀ o p, predEdge (runCalls env s cs) o p →
      o ∈ cs.map Call.op ∧ p ∈ cs.map Call.op ∧
      (cs.map Call.op).indexOf p < (cs.map Call.op).indexOf o) ∧
    (∀ o, ¬ Relation.TransGen (predEdge (runCalls env s cs)) o o) ∧
    ∀ o, ¬ predEdge (runCalls env s cs) o o := by
  have h := TapeOrdered.runCalls env cs s [] (TapeOrdered.of_noLinks s hstart)
    (by simpa using hdistinct)
  simp only [List.nil_append] at h
  refine ⟨h.2, h.acyclic, ?_⟩
  intro o ho
  exact h.acyclic o (Relation.TransGen.single ho)

/-- Scenario B run from the tape without links: `relu(x) -> y`, then `sum(y, y) -> z`. -/
theorem C5_acyclic_witness :
    (∀ o p, predEdge (runCalls demoEnv demoState
        [Call.trace 0 [("X", [0])] [("Out", [1])] 0 Place.CPUPlace false,
          Call.trace 2 [("X", [1, 1])] [("Out", [2])] 0 Place.CPUPlace false]) o p →
      o ∈ [0, 2] ∧ p ∈ [0, 2] ∧ [0, 2].indexOf p < [0, 2].indexOf o) ∧
    (∀ o, ¬ Relation.TransGen (predEdge (runCalls demoEnv demoState
        [Call.trace 0 [("X", [0])] [("Out", [1])] 0 Place.CPUPlace false,
          Call.trace 2 [("X", [1, 1])] [("Out", [2])] 0 Place.CPUPlace false])) o o) ∧
    ∀ o, ¬ predEdge (runCalls demoEnv demoState
        [Call.trace 0 [("X", [0])] [("Out", [1])] 0 Place.CPUPlace false,
          Call.trace 2 [("X", [1, 1])] [("Out", [2])] 0 Place.CPUPlace false]) o o :=
  C5_acyclic demoEnv demoState
    [Call.trace 0 [("X", [0])] [("Out", [1])] 0 Place.CPUPlace false,
      Call.trace 2 [("X", [1, 1])] [("Out", [2])] 0 Place.CPUPlace false]
    ⟨fun v => by simp only [demoState, demoVars, leafVar]; split_ifs <;> rfl,
      fun o => by simp only [demoState, demoOps, freshOp]; split_ifs <;> rfl⟩
    (by decide)

/-- The instance `relu` traced twice, the second time on its own output `y`: the second
call returns, and the instance is recorded as its own predecessor. -/
theorem C5_counterexample :
    noLinks demoState ∧
    (Trace demoEnv
      (Trace demoEnv demoState 0 [("X", [0])] [("Out", [1])] 0 Place.CPUPlace false).state
      0 [("X", [1])] [("Out", [2])] 0 Place.CPUPlace true).result = .ok [] ∧
    predEdge (runCalls demoEnv demoState
      [Call.trace 0 [("X", [0])] [("Out", [1])] 0 Place.CPUPlace false,
        Call.trace 0 [("X", [1])] [("Out", [2])] 0 Place.CPUPlace true]) 0 0 :=
  ⟨⟨fun v => by simp only [demoState, demoVars, leafVar]; split_ifs <;> rfl,
      fun o => by simp only [demoState, demoOps, freshOp]; split_ifs <;> rfl⟩,
    by decide, ⟨"X", by decide⟩⟩

/-! ## Claims C6 and C7 -/

theorem step_effect_returns (env : Env) (s : State) (c : Call) :
    TapeEffect s c.op (c.inputGroups env) (c.outputGroups env s) c.stop_gradient
      (step env s c) (returns env s c) := by
  cases c with
  | trace op inputs outputs block expected_place stop_gradient =>
    exact Trace_effect env s op inputs outputs block expected_place stop_gradient
  | pyTrace op inputs stop_gradient =>
    exact (PyTrace_effect env s op inputs stop_gradient).of_tape (TapeFrame.refl_tape _ _)
      (fun _ => trivial)

/-- Claim C6: after a Trace or TraceCustom call that returns, on an operation instance
without predecessor lists, the predecessor list recorded for every input group has one
entry per input occurrence, in order: the producing operation of the input when it has
a producer and is not gradient-stopped, the no-predecessor marker otherwise. -/
theorem C6_predecessor_list (env : Env) (s : State) (c : Call)
    (hfresh : (s.ops c.op).pre_ops_ = [])
    (hkeys : ((c.inputGroups env).map Prod.fst).Nodup)
    (hret : returns env s c)
    (g : String) (vs : List VarId) (hg : (g, vs) ∈ c.inputGroups env) :
    ((step env s c).ops c.op).pre_ops_.at g = vs.map (fun v => predOf (s.vars v)) ∧
    (((step env s c).ops c.op).pre_ops_.at g).length = vs.length ∧
    ∀ i (hi : i < vs.length),
      (((step env s c).ops c.op).pre_ops_.at g)[i]? =
        some (if (s.vars (vs.get ⟨i, hi⟩)).PreOp.isSome
            && !(s.vars (vs.get ⟨i, hi⟩)).IsStopGradient
          then (s.vars (vs.get ⟨i, hi⟩)).PreOp else none) := by
  obtain ⟨done, -, hp, -, hd⟩ := (step_effect_returns env s c).pre_ops
  have hdone := hd hret
  subst hdone
  have h1 := (recordGroups_at s.vars (c.inputGroups env) (s.ops c.op) hkeys g vs hg).1
  rw [hfresh] at h1
  have h2 : ((step env s c).ops c.op).pre_ops_.at g = vs.map (fun v => predOf (s.vars v)) := by
    rw [hp, h1]
    simp [StrMap.at, StrMap.find]
  refine ⟨h2, by rw [h2, List.length_map], ?_⟩
  intro i hi
  rw [h2, List.getElem?_map, List.getElem?_eq_getElem hi]
  rfl

/-- Scenario B: `relu(x) -> y`, then `sum(y, y) -> z` with both occurrences of `y` in
group `X`: the predecessor list of `X` is the `relu` instance, twice. -/
theorem C6_predecessor_list_witness :
    (((step demoEnv
        (Trace demoEnv demoState 0 [("X", [0])] [("Out", [1])] 0 Place.CPUPlace false).state
        (Call.trace 2 [("X", [1, 1])] [("Out", [2])] 0 Place.CPUPlace false)).ops
          2).pre_ops_.at "X"
      = [1, 1].map (fun v => predOf
          ((Trace demoEnv demoState 0 [("X", [0])] [("Out", [1])] 0 Place.CPUPlace
            false).state.vars v))) ∧
    ((step demoEnv
        (Trace demoEnv demoState 0 [("X", [0])] [("Out", [1])] 0 Place.CPUPlace false).state
        (Call.trace 2 [("X", [1, 1])] [("Out", [2])] 0 Place.CPUPlace false)).ops
          2).pre_ops_.at "X" = [some 0, some 0] ∧
    ((step demoEnv
        (Trace demoEnv demoState 0 [("X", [0])] [("Out", [1])] 0 Place.CPUPlace false).state
        (Call.trace 2 [("X", [1, 1])] [("Out", [2])] 0 Place.CPUPlace false)).ops
          2).pre_ops_out_idx_.at "X" = [0, 0] :=
  ⟨(C6_predecessor_list demoEnv
      (Trace demoEnv demoState 0 [("X", [0])] [("Out", [1])] 0 Place.CPUPlace false).state
      (Call.trace 2 [("X", [1, 1])] [("Out", [2])] 0 Place.CPUPlace false)
      (by decide) (by decide) ⟨[], by decide⟩ "X" [1, 1] (by decide)).1,
    by decide, by decide⟩

/-- Claim C7, as the code has it: after a Trace or TraceCustom call that returns, on an
operation instance without predecessor and slot lists, the slot list of an input group
has one entry per input whose predecessor entry is an operation, in input order, each
being the output slot of that input's producer; an input without predecessor gets a
marker in the predecessor list only, so the slot list is as long as the number of
non-marker entries of the predecessor list. -/
theorem C7_slot_list (env : Env) (s : State) (c : Call)
    (hfresh : (s.ops c.op).pre_ops_ = [] ∧ (s.ops c.op).pre_ops_out_idx_ = [])
    (hkeys : ((c.inputGroups env).map Prod.fst).Nodup)
    (hret : returns env s c)
    (g : String) (vs : List VarId) (hg : (g, vs) ∈ c.inputGroups env) :
    ((step env s c).ops c.op).pre_ops_out_idx_.at g
      = vs.filterMap (fun v => slotOf (s.vars v)) ∧
    (((step env s c).ops c.op).pre_ops_out_idx_.at g).length
      = ((((step env s c).ops c.op).pre_ops_.at g).filter Option.isSome).length := by
  obtain ⟨done, -, hp, hq, hd⟩ := (step_effect_returns env s c).pre_ops
  have hdone := hd hret
  subst hdone
  obtain ⟨h1, h2⟩ := recordGroups_at s.vars (c.inputGroups env) (s.ops c.op) hkeys g vs hg
  rw [hfresh.1] at h1
  rw [hfresh.2] at h2
  have e1 : ((step env s c).ops c.op).pre_ops_.at g = vs.map (fun v => predOf (s.vars v)) := by
    rw [hp, h1]
    simp [StrMap.at, StrMap.find]
  have e2 : ((step env s c).ops c.op).pre_ops_out_idx_.at g
      = vs.filterMap (fun v => slotOf (s.vars v)) := by
    rw [hq, h2]
    simp [StrMap.at, StrMap.find]
  refine ⟨e2, ?_⟩
  rw [e1, e2]
  clear e1 e2 h1 h2 hg
  induction vs with
  | nil => rfl
  | cons v t ih =>
    by_cases hv : ((s.vars v).PreOp.isSome && !(s.vars v).IsStopGradient) = true
    · have hs : slotOf (s.vars v) = some (s.vars v).PreOpOutIdx := by simp [slotOf, hv]
      have hpd : predOf (s.vars v) = (s.vars v).PreOp := by simp [predOf, hv]
      have hsome : (s.vars v).PreOp.isSome = true := by
        simp only [Bool.and_eq_true] at hv
        exact hv.1
      simp [List.filterMap_cons, hs, hpd, List.filter_cons, hsome, ih]
    · have hs : slotOf (s.vars v) = none := by simp [slotOf, hv]
      have hpd : predOf (s.vars v) = none := by simp [predOf, hv]
      simp [List.filterMap_cons, hs, hpd, List.filter_cons, ih]

/-- The operation `sum(x, y) -> z` traced after `relu(x) -> y`: the slot list of group `X`
holds the slot of `y` only. -/
theorem C7_slot_list_witness :
    ((step demoEnv
        (Trace demoEnv demoState 0 [("X", [0])] [("Out", [1])] 0 Place.CPUPlace false).state
        (Call.trace 2 [("X", [0, 1])] [("Out", [2])] 0 Place.CPUPlace true)).ops
          2).pre_ops_out_idx_.at "X"
      = [0, 1].filterMap (fun v => slotOf
          ((Trace demoEnv demoState 0 [("X", [0])] [("Out", [1])] 0 Place.CPUPlace
            false).state.vars v)) ∧
    (((step demoEnv
        (Trace demoEnv demoState 0 [("X", [0])] [("Out", [1])] 0 Place.CPUPlace false).state
        (Call.trace 2 [("X", [0, 1])] [("Out", [2])] 0 Place.CPUPlace true)).ops
          2).pre_ops_out_idx_.at "X").length
      = ((((step demoEnv
        (Trace demoEnv demoState 0 [("X", [0])] [("Out", [1])] 0 Place.CPUPlace false).state
        (Call.trace 2 [("X", [0, 1])] [("Out", [2])] 0 Place.CPUPlace true)).ops
          2).pre_ops_.at "X").filter Option.isSome).length :=
  C7_slot_list demoEnv
    (Trace demoEnv demoState 0 [("X", [0])] [("Out", [1])] 0 Place.CPUPlace false).state
    (Call.trace 2 [("X", [0, 1])] [("Out", [2])] 0 Place.CPUPlace true)
    (by decide) (by decide) ⟨[], by decide⟩ "X" [0, 1] (by decide)

/-- The operation `sum(x, y) -> z` traced on a fresh instance after `relu(x) -> y`: the
call returns, the predecessor list of group `X` is the marker for `x` and `relu` for `y`,
and the slot list has the single entry 0, so position 1, whose predecessor entry is an
operation, has no slot entry. -/
theorem C7_counterexample :
    (Trace demoEnv
      (Trace demoEnv demoState 0 [("X", [0])] [("Out", [1])] 0 Place.CPUPlace false).state
      2 [("X", [0, 1])] [("Out", [2])] 0 Place.CPUPlace true).result = .ok [] ∧
    ((Trace demoEnv
      (Trace demoEnv demoState 0 [("X", [0])] [("Out", [1])] 0 Place.CPUPlace false).state
      2 [("X", [0, 1])] [("Out", [2])] 0 Place.CPUPlace true).state.ops 2).pre_ops_.at "X"
      = [none, some 0] ∧
    ((Trace demoEnv
      (Trace demoEnv demoState 0 [("X", [0])] [("Out", [1])] 0 Place.CPUPlace false).state
      2 [("X", [0, 1])] [("Out", [2])] 0 Place.CPUPlace true).state.ops
        2).pre_ops_out_idx_.at "X" = [0] ∧
    (((Trace demoEnv
      (Trace demoEnv demoState 0 [("X", [0])] [("Out", [1])] 0 Place.CPUPlace false).state
      2 [("X", [0, 1])] [("Out", [2])] 0 Place.CPUPlace true).state.ops
        2).pre_ops_out_idx_.at "X")[1]? = none := by
  decide

/-! ## Claim C8 -/

theorem mem_setInsert (saved : List String) (first n : String) :
    n ∈ setInsert saved first ↔ n ∈ saved ∨ n = first := by
  unfold setInsert
  split
  · constructor
    · exact Or.inl
    · rintro (h | h)
      · exact h
      · subst h; assumption
  · simp

theorem gradInputNames_saved (env : Env) (op : OpId) (block : BlockId) (i : Nat)
    (first : String) (grad_to_var : StrMap String) (vars : StrMap VarId)
    (dev_ctx : Option DeviceContext) (names : List String) (s : State) (saved r : List String)
    (h : (gradInputNames env op block i first grad_to_var vars dev_ctx names s saved).result
      = .ok r) (n : String) :
    n ∈ r ↔ n ∈ saved ∨ (n = first ∧ ∃ name ∈ names, grad_to_var.find name = none) := by
  induction names generalizing s saved with
  | nil =>
    simp only [gradInputNames] at h
    injection h with h1
    subst h1
    simp
  | cons a t ih =>
    unfold gradInputNames at h
    simp only at h
    cases hf : grad_to_var.find a with
    | none =>
      simp only [hf] at h
      cases hv : vars.find a with
      | none => simp [hv] at h
      | some fwd =>
        simp only [hv] at h
        rw [ih _ _ h, mem_setInsert]
        constructor
        · rintro ((h1 | h1) | ⟨h1, name, hm, hn⟩)
          · exact Or.inl h1
          · exact Or.inr ⟨h1, a, List.mem_cons_self _ _, hf⟩
          · exact Or.inr ⟨h1, name, List.mem_cons_of_mem _ hm, hn⟩
        · rintro (h1 | ⟨h1, name, hm, hn⟩)
          · exact Or.inl (Or.inl h1)
          · rcases List.mem_cons.1 hm with h2 | h2
            · exact Or.inl (Or.inr h1)
            · exact Or.inr ⟨h1, name, h2, hn⟩
    | some fwd_name =>
      simp only [hf] at h
      split at h
      · simp at h
      · rw [ih _ _ h]
        constructor
        · rintro (h1 | ⟨h1, name, hm, hn⟩)
          · exact Or.inl h1
          · exact Or.inr ⟨h1, name, List.mem_cons_of_mem _ hm, hn⟩
        · rintro (h1 | ⟨h1, name, hm, hn⟩)
          · exact Or.inl h1
          · rcases List.mem_cons.1 hm with h2 | h2
            · subst h2
              rw [hf] at hn
              cases hn
            · exact Or.inr ⟨h1, name, h2, hn⟩

theorem gradInputGroups_saved (env : Env) (op : OpId) (block : BlockId) (i : Nat)
    (grad_to_var : StrMap String) (vars : StrMap VarId) (dev_ctx : Option DeviceContext)
    (groups : StrMap (List String)) (s : State) (saved r : List String)
    (h : (gradInputGroups env op block i grad_to_var vars dev_ctx groups s saved).result
      = .ok r) (n : String) :
    n ∈ r ↔ n ∈ saved ∨
      ∃ e ∈ groups, e.1 = n ∧ ∃ name ∈ e.2, grad_to_var.find name = none := by
  induction groups generalizing s saved with
  | nil =>
    simp only [gradInputGroups] at h
    injection h with h1
    subst h1
    simp
  | cons e t ih =>
    obtain ⟨first, second⟩ := e
    unfold gradInputGroups at h
    split at h
    · simp at h
    · rename_i s1 saved1 heq
      have h1 := gradInputNames_saved env op block i first grad_to_var vars dev_ctx second _
        saved saved1 (by rw [heq]) n
      rw [ih _ _ h, h1]
      constructor
      · rintro ((h2 | ⟨h2, hex⟩) | ⟨e, he, h2, hex⟩)
        · exact Or.inl h2
        · exact Or.inr ⟨(first, second), List.mem_cons_self _ _, h2.symm, hex⟩
        · exact Or.inr ⟨e, List.mem_cons_of_mem _ he, h2, hex⟩
      · rintro (h2 | ⟨e, he, h2, hex⟩)
        · exact Or.inl (Or.inl h2)
        · rcases List.mem_cons.1 he with h3 | h3
          · subst h3
            exact Or.inl (Or.inr ⟨h2.symm, hex⟩)
          · exact Or.inr ⟨e, h3, h2, hex⟩

theorem gradOpDescs_saved (env : Env) (op : OpId) (block : BlockId)
    (grad_to_var : StrMap String) (vars : StrMap VarId) (dev_ctx : Option DeviceContext)
    (i : Nat) (descs : List OpDesc) (s : State) (saved r : List String)
    (h : (gradOpDescs env op block grad_to_var vars dev_ctx i descs s saved).result = .ok r)
    (n : String) :
    n ∈ r ↔ n ∈ saved ∨
      ∃ d ∈ descs, ∃ e ∈ d.inputs, e.1 = n ∧ ∃ name ∈ e.2, grad_to_var.find name = none := by
  induction descs generalizing s saved i with
  | nil =>
    simp only [gradOpDescs] at h
    injection h with h1
    subst h1
    simp
  | cons d t ih =>
    unfold gradOpDescs at h
    split at h
    · simp at h
    · rename_i s1 saved1 heq
      have h1 := gradInputGroups_saved env op block i grad_to_var vars dev_ctx d.inputs s
        saved saved1 (by rw [heq]) n
      split at h
      · simp at h
      · rw [ih _ _ _ h, h1]
        constructor
        · rintro ((h2 | hex) | ⟨d1, hd1, hex⟩)
          · exact Or.inl h2
          · exact Or.inr ⟨d, List.mem_cons_self _ _, hex⟩
          · exact Or.inr ⟨d1, List.mem_cons_of_mem _ hd1, hex⟩
        · rintro (h2 | ⟨d1, hd1, hex⟩)
          · exact Or.inl (Or.inl h2)
          · rcases List.mem_cons.1 hd1 with h3 | h3
            · subst h3
              exact Or.inl (Or.inr hex)
            · exact Or.inr ⟨d1, h3, hex⟩

theorem traceGrad_saved (env : Env) (op : OpId) (block : BlockId) (vars : StrMap VarId)
    (dev_ctx : Option DeviceContext) (s : State) (r : List String)
    (h : (traceGrad env op block vars dev_ctx s).result = .ok r) (n : String) :
    n ∈ r ↔ ∃ d ∈ (env.GradOpMaker (s.ops op).op_desc_).1, ∃ e ∈ d.inputs, e.1 = n ∧
      ∃ name ∈ e.2, (env.GradOpMaker (s.ops op).op_desc_).2.find name = none := by
  unfold traceGrad CreateGradOp at h
  by_cases he : (s.ops op).grad_op_descs_.isEmpty = true
  · simp only [he, if_true] at h
    have hnil : (s.ops op).grad_op_descs_ = [] := List.isEmpty_iff.1 he
    rw [hnil, List.nil_append] at h
    rw [gradOpDescs_saved env op block _ vars dev_ctx 0 _ _ [] r h n]
    simp
  · simp [he] at h

/-- Claim C8, as the code has it: the set returned by a Trace call with
stopGradient = false that returns is exactly the set of input group names (the keys of
`Inputs()`) of the generated backward descriptors under which some name is not
registered as a gradient name; the names of the forward Variables themselves are not
what is inserted. -/
theorem C8_saved_for_backward (env : Env) (s : State) (op : OpId)
    (inputs outputs : VarBasePtrMap) (block : BlockId) (expected_place : Place)
    (r : List String)
    (hok : (Trace env s op inputs outputs block expected_place false).result = .ok r)
    (n : String) :
    n ∈ r ↔ ∃ d ∈ (env.GradOpMaker (s.ops op).op_desc_).1, ∃ e ∈ d.inputs, e.1 = n ∧
      ∃ name ∈ e.2, (env.GradOpMaker (s.ops op).op_desc_).2.find name = none := by
  obtain ⟨s1, s2, l1, l2, hin, hout, -, heq⟩ :=
    Trace_ok_phases env s op inputs outputs block expected_place false r hok
  have hl := Trace_linked env s op inputs outputs block false s1 s2 l1 l2 hin hout
  rw [heq] at hok
  unfold traceRun at hok
  cases hg : GetExpectedPlace s2 expected_place inputs with
  | error e => simp [hg] at hok
  | ok place =>
    simp only [hg, Bool.false_eq_true, if_false] at hok
    split at hok
    · simp at hok
    · rename_i s3 saved heq3
      simp only at hok
      injection hok with hr
      subst hr
      have := traceGrad_saved env op block l2.vars (env.Prepare (s2.ops op).op_desc_ place)
        (dispatch env op place l2 s2) saved (by rw [heq3]) n
      rw [this, dispatch_ops_self, hl.op_eq]
      simp

/-- Scenario: `relu(x) -> y`, whose backward descriptor reads the forward output `y` under
the group name `Out`. -/
theorem C8_saved_for_backward_witness :
    "Out" ∈ ["Out"] ↔
      ∃ d ∈ (demoEnv.GradOpMaker (demoState.ops 0).op_desc_).1, ∃ e ∈ d.inputs, e.1 = "Out" ∧
        ∃ name ∈ e.2, (demoEnv.GradOpMaker (demoState.ops 0).op_desc_).2.find name = none :=
  C8_saved_for_backward demoEnv demoState 0 [("X", [0])] [("Out", [1])] 0 Place.CPUPlace
    ["Out"] (by decide) "Out"

/-- Scenario: `relu(x) -> y` returns the set holding the group name `Out`, which is the
name of no input or output Variable of the call, and does not hold the forward name `y`
that the backward descriptor consumes without its being a gradient name. -/
theorem C8_counterexample :
    (Trace demoEnv demoState 0 [("X", [0])] [("Out", [1])] 0 Place.CPUPlace false).result
      = .ok ["Out"] ∧
    (∀ v ∈ allVars [("X", [0])] ++ allVars [("Out", [1])], (demoState.vars v).name ≠ "Out") ∧
    (demoState.vars 1).name = "y" ∧
    (∃ d ∈ (demoEnv.GradOpMaker (demoState.ops 0).op_desc_).1, ∃ e ∈ d.inputs,
      "y" ∈ e.2 ∧ (demoEnv.GradOpMaker (demoState.ops 0).op_desc_).2.find "y" = none) ∧
    "y" ∉ ["Out"] := by
  refine ⟨by decide, by decide, by decide, ?_, by decide⟩
  exact ⟨_, List.mem_cons_self _ _, ("Out", ["y"]), by decide, by decide, by decide⟩

/-! ## Claim C9 -/

theorem InitVar_ok {store store1 : VariableId → Variable} {var : Option VariableId}
    {gv : VariableId} {dev_ctx : Option DeviceContext}
    (h : InitVar store var (some gv) dev_ctx = .ok store1) :
    (store1 gv).IsInitialized = true ∧
    (∀ x, (store x).IsInitialized = true → (store1 x).IsInitialized = true) ∧
    ∀ x, x ≠ gv → store1 x = store x := by
  unfold InitVar at h
  cases dev_ctx with
  | none => simp at h
  | some ctx =>
    cases var with
    | none => simp at h
    | some v =>
      simp only at h
      cases hv : (store v).holder with
      | none => simp [hv] at h
      | some t =>
        simp only [hv] at h
        injection h with h1
        subst h1
        refine ⟨by simp [Variable.IsInitialized], ?_, ?_⟩
        · intro x hx
          by_cases hxg : x = gv
          · subst hxg
            simp [Variable.IsInitialized]
          · simpa [Function.update_noteq hxg] using hx
        · intro x hxg
          simp [Function.update_noteq hxg]

theorem pushGradInput_single (s : State) (op : OpId) (key : String)
    (l : List (Option VariableId)) (v : Option VariableId)
    (h : (s.ops op).grad_input_vars_ = [[(key, l)]]) :
    ((pushGradInput s op 0 key v).ops op).grad_input_vars_ = [[(key, l ++ [v])]] ∧
    ((pushGradInput s op 0 key v).ops op).grad_output_vars_ = (s.ops op).grad_output_vars_ ∧
    (pushGradInput s op 0 key v).vars = s.vars ∧
    (pushGradInput s op 0 key v).store = s.store := by
  refine ⟨?_, by simp [pushGradInput], rfl, rfl⟩
  simp [pushGradInput, h, modifyAt, StrMap.push, StrMap.set, StrMap.at, StrMap.find]

theorem pushGradOutput_single (s : State) (op : OpId) (key : String)
    (l : List (Option VariableId)) (v : Option VariableId)
    (h : (s.ops op).grad_output_vars_ = [[(key, l)]]) :
    ((pushGradOutput s op 0 key v).ops op).grad_output_vars_ = [[(key, l ++ [v])]] ∧
    ((pushGradOutput s op 0 key v).ops op).grad_input_vars_ = (s.ops op).grad_input_vars_ ∧
    (pushGradOutput s op 0 key v).vars = s.vars ∧
    (pushGradOutput s op 0 key v).store = s.store := by
  refine ⟨?_, by simp [pushGradOutput], rfl, rfl⟩
  simp [pushGradOutput, h, modifyAt, StrMap.push, StrMap.set, StrMap.at, StrMap.find]

theorem pyPushForward_single (env : Env) (op : OpId) (vs : List VarId) (s : State)
    (l : List (Option VariableId))
    (h : (s.ops op).grad_input_vars_ = [[(env.GradVarName env.kFwdInp, l)]]) :
    ((pyPushForward env op vs s).ops op).grad_input_vars_
      = [[(env.GradVarName env.kFwdInp, l ++ vs.map (fun v => (s.vars v).var_))]] ∧
    ((pyPushForward env op vs s).ops op).grad_output_vars_ = (s.ops op).grad_output_vars_ ∧
    (pyPushForward env op vs s).vars = s.vars ∧
    (pyPushForward env op vs s).store = s.store := by
  induction vs generalizing s l with
  | nil => simpa [pyPushForward] using h
  | cons v t ih =>
    obtain ⟨a, b, c, d⟩ := pushGradInput_single s op _ l (s.vars v).var_ h
    obtain ⟨a1, b1, c1, d1⟩ := ih _ _ a
    unfold pyPushForward
    refine ⟨?_, b1.trans b, c1.trans c, d1.trans d⟩
    rw [a1, c]
    simp

theorem pyPushOutGrads_single (env : Env) (op : OpId) (vs : List VarId) (s : State)
    (l : List (Option VariableId))
    (h : (s.ops op).grad_input_vars_ = [[(env.GradVarName env.kFwdInp, l)]])
    (hok : (pyPushOutGrads env op vs s).result = .ok ()) :
    ((pyPushOutGrads env op vs s).state.ops op).grad_input_vars_
      = [[(env.GradVarName env.kFwdInp, l ++ vs.map (fun v => gradHandle s v))]] ∧
    ((pyPushOutGrads env op vs s).state.ops op).grad_output_vars_
      = (s.ops op).grad_output_vars_ ∧
    (pyPushOutGrads env op vs s).state.vars = s.vars ∧
    (∀ x, (s.store x).IsInitialized = true →
      ((pyPushOutGrads env op vs s).state.store x).IsInitialized = true) ∧
    ∀ v ∈ vs, ∃ gv, gradHandle s v = some gv ∧
      ((pyPushOutGrads env op vs s).state.store gv).IsInitialized = true := by
  induction vs generalizing s l with
  | nil => simpa [pyPushOutGrads] using h
  | cons v t ih =>
    unfold pyPushOutGrads at hok ⊢
    cases hg : (s.vars v).grads_ with
    | none => simp [hg] at hok
    | some g =>
      simp only [hg] at hok ⊢
      cases hgv : (s.vars g).var_ with
      | none => simp [hgv] at hok
      | some gv =>
        simp only [hgv] at hok ⊢
        have hgh : gradHandle s v = some gv := by simp [gradHandle, hg, hgv]
        obtain ⟨a, b, c, d⟩ := pushGradInput_single s op _ l (some gv) h
        have hsame : ∀ (s1 : State), s1.vars = s.vars →
            (fun w => gradHandle s1 w) = fun w => gradHandle s w := by
          intro s1 h1
          funext w
          simp [gradHandle, h1]
        by_cases hinit : (s.store gv).IsInitialized = true
        · simp only [hinit, Bool.not_true, Bool.false_eq_true, if_false] at hok ⊢
          obtain ⟨a1, b1, c1, d1, e1⟩ := ih _ _ a hok
          refine ⟨?_, b1.trans b, c1.trans c, ?_, ?_⟩
          · rw [a1, hsame _ c]
            simp [hgh]
          · intro x hx
            exact d1 x (by rw [d]; exact hx)
          · intro w hw
            rcases List.mem_cons.1 hw with rfl | hw
            · exact ⟨gv, hgh, d1 gv (by rw [d]; exact hinit)⟩
            · obtain ⟨gw, h1, h2⟩ := e1 w hw
              exact ⟨gw, by rw [← h1, ← congrFun (hsame _ c) w], h2⟩
        · simp only [hinit, Bool.not_false, if_true] at hok ⊢
          cases hiv : InitVar s.store (s.vars v).var_ (some gv)
              (env.DeviceContextPoolGet Place.CPUPlace) with
          | error e => simp [hiv] at hok
          | ok store =>
            simp only [hiv] at hok ⊢
            obtain ⟨i1, i2, -⟩ := InitVar_ok hiv
            obtain ⟨a1, b1, c1, d1, e1⟩ := ih
              { pushGradInput s op 0 (env.GradVarName env.kFwdInp) (some gv) with
                store := store } _ a hok
            refine ⟨?_, b1.trans b, c1.trans c, ?_, ?_⟩
            · rw [a1, hsame { pushGradInput s op 0 (env.GradVarName env.kFwdInp) (some gv) with
                store := store } c]
              simp [hgh]
            · intro x hx
              exact d1 x (i2 x hx)
            · intro w hw
              rcases List.mem_cons.1 hw with rfl | hw
              · exact ⟨gv, hgh, d1 gv i1⟩
              · obtain ⟨gw, h1, h2⟩ := e1 w hw
                exact ⟨gw, by
                  rw [← h1, ← congrFun (hsame
                    { pushGradInput s op 0 (env.GradVarName env.kFwdInp) (some gv) with
                      store := store } c) w], h2⟩

theorem pyPushInGrads_single (env : Env) (op : OpId) (vs : List VarId) (s : State)
    (l : List (Option VariableId))
    (h : (s.ops op).grad_output_vars_ = [[(env.GradVarName env.kFwdOut, l)]])
    (hok : (pyPushInGrads env op vs s).result = .ok ()) :
    ((pyPushInGrads env op vs s).state.ops op).grad_output_vars_
      = [[(env.GradVarName env.kFwdOut, l ++ vs.map (fun v => gradHandle s v))]] ∧
    ((pyPushInGrads env op vs s).state.ops op).grad_input_vars_
      = (s.ops op).grad_input_vars_ ∧
    (pyPushInGrads env op vs s).state.vars = s.vars ∧
    (∀ x, (s.store x).IsInitialized = true →
      ((pyPushInGrads env op vs s).state.store x).IsInitialized = true) ∧
    ∀ v ∈ vs, ∃ gv, gradHandle s v = some gv ∧
      ((pyPushInGrads env op vs s).state.store gv).IsInitialized = true := by
  induction vs generalizing s l with
  | nil => simpa [pyPushInGrads] using h
  | cons v t ih =>
    unfold pyPushInGrads at hok ⊢
    cases hg : (s.vars v).grads_ with
    | none => simp [hg] at hok
    | some g =>
      simp only [hg] at hok ⊢
      cases hgv : (s.vars g).var_ with
      | none => simp [hgv] at hok
      | some gv =>
        simp only [hgv] at hok ⊢
        have hgh : gradHandle s v = some gv := by simp [gradHandle, hg, hgv]
        obtain ⟨a, b, c, d⟩ := pushGradOutput_single s op _ l (some gv) h
        have hsame : ∀ (s1 : State), s1.vars = s.vars →
            (fun w => gradHandle s1 w) = fun w => gradHandle s w := by
          intro s1 h1
          funext w
          simp [gradHandle, h1]
        by_cases hinit : (s.store gv).IsInitialized = true
        · simp only [hinit, Bool.not_true, Bool.false_eq_true, if_false] at hok ⊢
          obtain ⟨a1, b1, c1, d1, e1⟩ := ih _ _ a hok
          refine ⟨?_, b1.trans b, c1.trans c, ?_, ?_⟩
          · rw [a1, hsame _ c]
            simp [hgh]
          · intro x hx
            exact d1 x (by rw [d]; exact hx)
          · intro w hw
            rcases List.mem_cons.1 hw with rfl | hw
            · exact ⟨gv, hgh, d1 gv (by rw [d]; exact hinit)⟩
            · obtain ⟨gw, h1, h2⟩ := e1 w hw
              exact ⟨gw, by rw [← h1, ← congrFun (hsame _ c) w], h2⟩
        · simp only [hinit, Bool.not_false, if_true] at hok ⊢
          cases hiv : InitVar s.store (s.vars v).var_ (some gv)
              (env.DeviceContextPoolGet Place.CPUPlace) with
          | error e => simp [hiv] at hok
          | ok store =>
            simp only [hiv] at hok ⊢
            obtain ⟨i1, i2, -⟩ := InitVar_ok hiv
            obtain ⟨a1, b1, c1, d1, e1⟩ := ih
              { pushGradOutput s op 0 (env.GradVarName env.kFwdOut) (some gv) with
                store := store } _ a hok
            refine ⟨?_, b1.trans b, c1.trans c, ?_, ?_⟩
            · rw [a1, hsame { pushGradOutput s op 0 (env.GradVarName env.kFwdOut) (some gv) with
                store := store } c]
              simp [hgh]
            · intro x hx
              exact d1 x (i2 x hx)
            · intro w hw
              rcases List.mem_cons.1 hw with rfl | hw
              · exact ⟨gv, hgh, d1 gv i1⟩
              · obtain ⟨gw, h1, h2⟩ := e1 w hw
                exact ⟨gw, by
                  rw [← h1, ← congrFun (hsame
                    { pushGradOutput s op 0 (env.GradVarName env.kFwdOut) (some gv) with
                      store := store } c) w], h2⟩

theorem recordPreOp_grads (o : OpBase) (first : String) (inp : VarBase) :
    (recordPreOp o first inp).grad_op_descs_ = o.grad_op_descs_ ∧
    (recordPreOp o first inp).grad_input_vars_ = o.grad_input_vars_ ∧
    (recordPreOp o first inp).grad_output_vars_ = o.grad_output_vars_ := by
  unfold recordPreOp
  split <;> exact ⟨rfl, rfl, rfl⟩

theorem recordInputs_grads (vars : VarId → VarBase) (first : String) (vs : List VarId)
    (o : OpBase) :
    (recordInputs vars first vs o).grad_op_descs_ = o.grad_op_descs_ ∧
    (recordInputs vars first vs o).grad_input_vars_ = o.grad_input_vars_ ∧
    (recordInputs vars first vs o).grad_output_vars_ = o.grad_output_vars_ := by
  induction vs generalizing o with
  | nil => exact ⟨rfl, rfl, rfl⟩
  | cons v t ih =>
    obtain ⟨a, b, c⟩ := ih (recordPreOp o first (vars v))
    obtain ⟨a1, b1, c1⟩ := recordPreOp_grads o first (vars v)
    exact ⟨a.trans a1, b.trans b1, c.trans c1⟩

theorem recordGroups_grads (vars : VarId → VarBase) (groups : VarBasePtrMap) (o : OpBase) :
    (recordGroups vars groups o).grad_op_descs_ = o.grad_op_descs_ ∧
    (recordGroups vars groups o).grad_input_vars_ = o.grad_input_vars_ ∧
    (recordGroups vars groups o).grad_output_vars_ = o.grad_output_vars_ := by
  induction groups generalizing o with
  | nil => exact ⟨rfl, rfl, rfl⟩
  | cons e t ih =>
    obtain ⟨first, second⟩ := e
    obtain ⟨a, b, c⟩ := ih (recordInputs vars first second o)
    obtain ⟨a1, b1, c1⟩ := recordInputs_grads vars first second o
    exact ⟨a.trans a1, b.trans b1, c.trans c1⟩

theorem pyTraceLink_grads (env : Env) (s : State) (op : OpId) (inputs : List VarId)
    (stop_gradient : Bool) :
    ((pyTraceLink env s op inputs stop_gradient).ops op).grad_op_descs_
      = (s.ops op).grad_op_descs_ ∧
    ((pyTraceLink env s op inputs stop_gradient).ops op).grad_input_vars_
      = (s.ops op).grad_input_vars_ ∧
    ((pyTraceLink env s op inputs stop_gradient).ops op).grad_output_vars_
      = (s.ops op).grad_output_vars_ := by
  obtain ⟨-, -, -, a4, -⟩ := pyApplied_frame env s op inputs
  unfold pyTraceLink
  rw [(pyTrackOutputs_tracked env op stop_gradient 0 _ _).1.1, pyTraceInputs_state,
    State.setOp_ops_self, a4]
  exact recordInputs_grads _ _ _ _

theorem pyTraceLink_fields (env : Env) (s : State) (op : OpId) (inputs : List VarId)
    (stop_gradient : Bool) (v : VarId) :
    ((pyTraceLink env s op inputs stop_gradient).vars v).var_ = (s.vars v).var_ ∧
    ((pyTraceLink env s op inputs stop_gradient).vars v).grads_ = (s.vars v).grads_ := by
  rcases (pyTraceLink_effect env s op inputs stop_gradient).vars v with h | ⟨-, f, i, h⟩ <;>
    rw [h] <;> exact ⟨rfl, rfl⟩

theorem pyTraceGrad_fresh (env : Env) (op : OpId) (inputs outputs : List VarId) (s : State)
    (hfresh : (s.ops op).grad_input_vars_ = [] ∧ (s.ops op).grad_output_vars_ = [])
    (hok : (pyTraceGrad env op inputs outputs s).result = .ok ()) :
    ((pyTraceGrad env op inputs outputs s).state.ops op).grad_input_vars_
      = [[(env.GradVarName env.kFwdInp,
          inputs.map (fun v => (s.vars v).var_) ++ outputs.map (fun v => (s.vars v).var_)
            ++ outputs.map (fun v => gradHandle s v))]] ∧
    ((pyTraceGrad env op inputs outputs s).state.ops op).grad_output_vars_
      = [[(env.GradVarName env.kFwdOut, inputs.map (fun v => gradHandle s v))]] ∧
    ∀ v ∈ outputs ++ inputs, ∃ gv, gradHandle s v = some gv ∧
      ((pyTraceGrad env op inputs outputs s).state.store gv).IsInitialized = true := by
  have hsame : ∀ (s1 : State), s1.vars = s.vars →
      (fun w => gradHandle s1 w) = fun w => gradHandle s w := by
    intro s1 h1
    funext w
    simp [gradHandle, h1]
  generalize hs1 : s.setOp op { s.ops op with
    grad_input_vars_ :=
      modifyAt (fun m => m.touch (env.GradVarName env.kFwdInp)) 0
        (resize (s.ops op).grad_input_vars_ 1 [])
    grad_output_vars_ :=
      modifyAt (fun m => m.touch (env.GradVarName env.kFwdOut)) 0
        (resize (s.ops op).grad_output_vars_ 1 []) } = s1
  have h1i : (s1.ops op).grad_input_vars_ = [[(env.GradVarName env.kFwdInp, [])]] := by
    rw [← hs1, State.setOp_ops_self, hfresh.1]
    simp [resize, modifyAt, StrMap.touch, StrMap.set, StrMap.at, StrMap.find]
  have h1o : (s1.ops op).grad_output_vars_ = [[(env.GradVarName env.kFwdOut, [])]] := by
    rw [← hs1, State.setOp_ops_self, hfresh.2]
    simp [resize, modifyAt, StrMap.touch, StrMap.set, StrMap.at, StrMap.find]
  have h1v : s1.vars = s.vars := by rw [← hs1]; rfl
  obtain ⟨a2, b2, c2, -⟩ := pyPushForward_single env op inputs s1 [] h1i
  obtain ⟨a3, b3, c3, -⟩ := pyPushForward_single env op outputs
    (pyPushForward env op inputs s1) _ a2
  have hdef : pyTraceGrad env op inputs outputs s =
      match pyPushOutGrads env op outputs
          (pyPushForward env op outputs (pyPushForward env op inputs s1)) with
      | ⟨s2, .error e⟩ => ⟨s2, .error e⟩
      | ⟨s2, .ok _⟩ => pyPushInGrads env op inputs s2 := by
    rw [← hs1]
    rfl
  rw [hdef] at hok ⊢
  have hspec := pyPushOutGrads_single env op outputs
    (pyPushForward env op outputs (pyPushForward env op inputs s1)) _ a3
  generalize pyPushOutGrads env op outputs
      (pyPushForward env op outputs (pyPushForward env op inputs s1)) = out at hok hspec ⊢
  cases out with
  | mk s4 r4 =>
    cases r4 with
    | error e => simp at hok
    | ok u =>
      simp only at hok hspec ⊢
      obtain ⟨a4, b4, c4, d4, e4⟩ := hspec trivial
      have hv4 : s4.vars = s.vars := by rw [c4, c3, c2, h1v]
      obtain ⟨a5, b5, c5, d5, e5⟩ := pyPushInGrads_single env op inputs s4 []
        (by rw [b4, b3, b2, h1o]) hok
      have hv3 : (pyPushForward env op inputs s1).vars = s.vars := by rw [c2, h1v]
      have hv3b : (pyPushForward env op outputs (pyPushForward env op inputs s1)).vars
          = s.vars := by rw [c3, hv3]
      refine ⟨?_, ?_, ?_⟩
      · rw [b5, a4, hsame _ hv3b, hv3, h1v]
        simp
      · rw [a5, hsame _ hv4]
        simp
      · intro v hv
        rcases List.mem_append.1 hv with h | h
        · obtain ⟨gv, g1, g2⟩ := e4 v h
          exact ⟨gv, by rw [← g1, ← congrFun (hsame _ hv3b) v], d5 gv g2⟩
        · obtain ⟨gv, g1, g2⟩ := e5 v h
          exact ⟨gv, by rw [← g1, ← congrFun (hsame _ hv4) v], g2⟩

/-- Claim C9: a TraceCustom call with stopGradient = false that returns, on an instance
without gradient mappings, leaves one backward mapping whose input list is the data
handles of the inputs, then those of the callback outputs, then the gradient buffers of
the outputs (length m + 2k), and whose output list is the gradient buffers of the inputs
(length m); every gradient buffer in both lists is initialized when the call returns. -/
theorem C9_custom_gradient (env : Env) (s : State) (op : OpId) (inputs r : List VarId)
    (hfresh : (s.ops op).grad_input_vars_ = [] ∧ (s.ops op).grad_output_vars_ = [])
    (hok : (PyTrace env s op inputs false).result = .ok r) :
    r = pyOutputs env s op inputs ∧
    ((PyTrace env s op inputs false).state.ops op).grad_input_vars_
      = [[(env.GradVarName env.kFwdInp,
          inputs.map (fun v => (s.vars v).var_) ++ r.map (fun v => (s.vars v).var_)
            ++ r.map (fun v => gradHandle s v))]] ∧
    ((PyTrace env s op inputs false).state.ops op).grad_output_vars_
      = [[(env.GradVarName env.kFwdOut, inputs.map (fun v => gradHandle s v))]] ∧
    (inputs.map (fun v => (s.vars v).var_) ++ r.map (fun v => (s.vars v).var_)
      ++ r.map (fun v => gradHandle s v)).length = inputs.length + 2 * r.length ∧
    (inputs.map (fun v => gradHandle s v)).length = inputs.length ∧
    ∀ v ∈ r ++ inputs, ∃ gv, gradHandle s v = some gv ∧
      ((PyTrace env s op inputs false).state.store gv).IsInitialized = true := by
  have hg := pyTraceLink_grads env s op inputs false
  have hf := pyTraceLink_fields env s op inputs false
  have hvar : (fun v => ((pyTraceLink env s op inputs false).vars v).var_)
      = fun v => (s.vars v).var_ := funext fun v => (hf v).1
  have hgh : (fun v => gradHandle (pyTraceLink env s op inputs false) v)
      = fun v => gradHandle s v := by
    funext v
    unfold gradHandle
    rw [(hf v).2]
    cases (s.vars v).grads_ with
    | none => rfl
    | some g => exact (hf g).1
  have hspec := pyTraceGrad_fresh env op inputs (pyOutputs env s op inputs)
    (pyTraceLink env s op inputs false) ⟨by rw [hg.2.1, hfresh.1], by rw [hg.2.2, hfresh.2]⟩
  unfold PyTrace at hok ⊢
  simp only [Bool.false_eq_true, if_false] at hok ⊢
  generalize pyTraceGrad env op inputs (pyOutputs env s op inputs)
      (pyTraceLink env s op inputs false) = out at hok hspec ⊢
  cases out with
  | mk s1 r1 =>
    cases r1 with
    | error e => simp at hok
    | ok u =>
      simp only at hok hspec ⊢
      injection hok with hr
      subst hr
      obtain ⟨a, b, c⟩ := hspec trivial
      rw [hvar, hgh] at a
      rw [hgh] at b
      refine ⟨rfl, a, b, by simp; omega, by simp, ?_⟩
      intro v hv
      obtain ⟨gv, g1, g2⟩ := c v hv
      exact ⟨gv, by rw [← g1, ← congrFun hgh v], g2⟩

/-- Scenario E: a custom layer over `x` and `y` whose callback returns `z`. -/
theorem C9_custom_gradient_witness :
    [2] = pyOutputs demoEnv demoState 3 [0, 1] ∧
    ((PyTrace demoEnv demoState 3 [0, 1] false).state.ops 3).grad_input_vars_
      = [[(demoEnv.GradVarName demoEnv.kFwdInp,
          [0, 1].map (fun v => (demoState.vars v).var_)
            ++ [2].map (fun v => (demoState.vars v).var_)
            ++ [2].map (fun v => gradHandle demoState v))]] ∧
    ((PyTrace demoEnv demoState 3 [0, 1] false).state.ops 3).grad_output_vars_
      = [[(demoEnv.GradVarName demoEnv.kFwdOut,
          [0, 1].map (fun v => gradHandle demoState v))]] ∧
    ([0, 1].map (fun v => (demoState.vars v).var_)
      ++ [2].map (fun v => (demoState.vars v).var_)
      ++ [2].map (fun v => gradHandle demoState v)).length = [0, 1].length + 2 * [2].length ∧
    ([0, 1].map (fun v => gradHandle demoState v)).length = [0, 1].length ∧
    ∀ v ∈ [2] ++ [0, 1], ∃ gv, gradHandle demoState v = some gv ∧
      ((PyTrace demoEnv demoState 3 [0, 1] false).state.store gv).IsInitialized = true :=
  C9_custom_gradient demoEnv demoState 3 [0, 1] [2] (by decide) (by decide)

/-! ## Claim C10 -/

@[simp] theorem length_resize {α : Type} (l : List α) (n : Nat) (d : α) :
    (resize l n d).length = n := by
  simp [resize]
  omega

theorem traceGrad_lengths (env : Env) (op : OpId) (block : BlockId) (vars : StrMap VarId)
    (dev_ctx : Option DeviceContext) (s : State) (r : List String)
    (h : (traceGrad env op block vars dev_ctx s).result = .ok r) :
    ((traceGrad env op block vars dev_ctx s).state.ops op).grad_op_descs_
      = (env.GradOpMaker (s.ops op).op_desc_).1 ∧
    ((traceGrad env op block vars dev_ctx s).state.ops op).grad_input_vars_.length
      = (env.GradOpMaker (s.ops op).op_desc_).1.length ∧
    ((traceGrad env op block vars dev_ctx s).state.ops op).grad_output_vars_.length
      = (env.GradOpMaker (s.ops op).op_desc_).1.length := by
  unfold traceGrad CreateGradOp at h ⊢
  by_cases he : (s.ops op).grad_op_descs_.isEmpty = true
  · simp only [he, if_true] at h ⊢
    have hnil : (s.ops op).grad_op_descs_ = [] := List.isEmpty_iff.1 he
    rw [hnil, List.nil_append]
    obtain ⟨-, -, -, d, e, f⟩ := gradOpDescs_frame env op block
      (env.GradOpMaker (s.ops op).op_desc_).2 vars dev_ctx 0
      (env.GradOpMaker (s.ops op).op_desc_).1
      (s.setOp op { s.ops op with
        grad_op_descs_ := (env.GradOpMaker (s.ops op).op_desc_).1
        grad_input_vars_ := resize (s.ops op).grad_input_vars_
          (env.GradOpMaker (s.ops op).op_desc_).1.length []
        grad_output_vars_ := resize (s.ops op).grad_output_vars_
          (env.GradOpMaker (s.ops op).op_desc_).1.length [] }) []
    refine ⟨?_, ?_, ?_⟩
    · rw [d]; simp
    · rw [e]; simp
    · rw [f]; simp
  · simp [he] at h

/-- Claim C10, as the code has it: after a Trace call that returns (on an instance
whose three lists had the same length before, when stopGradient = true) the gradient
input mapping list, the gradient output mapping list and the backward descriptor list
of the instance have the same length; after a TraceCustom call with
stopGradient = false that returns, both mapping lists have length exactly 1 and the
descriptor list is as it was before the call: TraceCustom creates no backward
descriptor. -/
theorem C10_gradient_lists (env : Env) (s : State) :
    (∀ (op : OpId) (inputs outputs : VarBasePtrMap) (block : BlockId) (expected_place : Place)
        (stop_gradient : Bool) (r : List String),
      (Trace env s op inputs outputs block expected_place stop_gradient).result = .ok r →
      (stop_gradient = true →
        (s.ops op).grad_input_vars_.length = (s.ops op).grad_op_descs_.length ∧
        (s.ops op).grad_output_vars_.length = (s.ops op).grad_op_descs_.length) →
      ((Trace env s op inputs outputs block expected_place stop_gradient).state.ops
          op).grad_input_vars_.length
        = ((Trace env s op inputs outputs block expected_place stop_gradient).state.ops
          op).grad_op_descs_.length ∧
      ((Trace env s op inputs outputs block expected_place stop_gradient).state.ops
          op).grad_output_vars_.length
        = ((Trace env s op inputs outputs block expected_place stop_gradient).state.ops
          op).grad_op_descs_.length) ∧
    (∀ (op : OpId) (inputs r : List VarId),
      (PyTrace env s op inputs false).result = .ok r →
      ((PyTrace env s op inputs false).state.ops op).grad_input_vars_.length = 1 ∧
      ((PyTrace env s op inputs false).state.ops op).grad_output_vars_.length = 1 ∧
      ((PyTrace env s op inputs false).state.ops op).grad_op_descs_
        = (s.ops op).grad_op_descs_) := by
  constructor
  · intro op inputs outputs block expected_place stop_gradient r hok hbefore
    obtain ⟨s1, s2, l1, l2, hin, hout, -, heq⟩ :=
      Trace_ok_phases env s op inputs outputs block expected_place stop_gradient r hok
    have hl := Trace_linked env s op inputs outputs block stop_gradient s1 s2 l1 l2 hin hout
    obtain ⟨f1, f2, f3⟩ := recordGroups_grads s.vars inputs
      { s.ops op with input_vars_ := inputs }
    rw [heq] at hok ⊢
    cases stop_gradient with
    | true =>
      obtain ⟨-, -, place, hop⟩ := traceRun_stop env op inputs block expected_place l2 s2 r hok
      obtain ⟨hb1, hb2⟩ := hbefore rfl
      rw [hop, hl.op_eq]
      simp only [f1, f2, f3]
      exact ⟨hb1, hb2⟩
    | false =>
      unfold traceRun at hok ⊢
      cases hg : GetExpectedPlace s2 expected_place inputs with
      | error e => simp [hg] at hok
      | ok place =>
        simp only [hg, Bool.false_eq_true, if_false] at hok ⊢
        have hlen := traceGrad_lengths env op block l2.vars
          (env.Prepare (s2.ops op).op_desc_ place) (dispatch env op place l2 s2)
        generalize traceGrad env op block l2.vars (env.Prepare (s2.ops op).op_desc_ place)
          (dispatch env op place l2 s2) = out at hok hlen ⊢
        cases out with
        | mk s3 r3 =>
          cases r3 with
          | error e => simp at hok
          | ok saved =>
            obtain ⟨a, b, c⟩ := hlen saved rfl
            simp only at a b c ⊢
            simp only [State.setOp_ops_self]
            rw [a, b, c]
            exact ⟨rfl, rfl⟩
  · intro op inputs r hok
    obtain ⟨g1, -, -⟩ := pyTraceLink_grads env s op inputs false
    obtain ⟨-, -, -, d, e, f⟩ := pyTraceGrad_frame env op inputs (pyOutputs env s op inputs)
      (pyTraceLink env s op inputs false)
    unfold PyTrace at hok ⊢
    simp only [Bool.false_eq_true, if_false] at hok ⊢
    generalize pyTraceGrad env op inputs (pyOutputs env s op inputs)
      (pyTraceLink env s op inputs false) = out at hok d e f ⊢
    cases out with
    | mk s1 r1 =>
      cases r1 with
      | error e1 => simp at hok
      | ok u =>
        simp only at d e f ⊢
        refine ⟨?_, ?_, ?_⟩
        · rw [e]; simp
        · rw [f]; simp
        · rw [d]; simpa using g1

/-- Scenario A (`add(x, y) -> z` with gradients) for Trace, scenario E for TraceCustom. -/
theorem C10_gradient_lists_witness :
    (((Trace demoEnv demoState 1 [("X", [0]), ("Y", [1])] [("Out", [2])] 0 Place.CPUPlace
        false).state.ops 1).grad_input_vars_.length
      = ((Trace demoEnv demoState 1 [("X", [0]), ("Y", [1])] [("Out", [2])] 0 Place.CPUPlace
        false).state.ops 1).grad_op_descs_.length ∧
    ((Trace demoEnv demoState 1 [("X", [0]), ("Y", [1])] [("Out", [2])] 0 Place.CPUPlace
        false).state.ops 1).grad_output_vars_.length
      = ((Trace demoEnv demoState 1 [("X", [0]), ("Y", [1])] [("Out", [2])] 0 Place.CPUPlace
        false).state.ops 1).grad_op_descs_.length) ∧
    (((PyTrace demoEnv demoState 3 [0, 1] false).state.ops 3).grad_input_vars_.length = 1 ∧
    ((PyTrace demoEnv demoState 3 [0, 1] false).state.ops 3).grad_output_vars_.length = 1 ∧
    ((PyTrace demoEnv demoState 3 [0, 1] false).state.ops 3).grad_op_descs_
      = (demoState.ops 3).grad_op_descs_) :=
  ⟨(C10_gradient_lists demoEnv demoState).1 1 [("X", [0]), ("Y", [1])] [("Out", [2])] 0
      Place.CPUPlace false [] (by decide) (by decide),
    (C10_gradient_lists demoEnv demoState).2 3 [0, 1] [2] (by decide)⟩

/-- Scenario E: the custom layer over `x` and `y` returns, both gradient mapping lists of
the instance have length 1, and its list of backward descriptors is empty. -/
theorem C10_counterexample :
    (PyTrace demoEnv demoState 3 [0, 1] false).result = .ok [2] ∧
    ((PyTrace demoEnv demoState 3 [0, 1] false).state.ops 3).grad_input_vars_.length = 1 ∧
    ((PyTrace demoEnv demoState 3 [0, 1] false).state.ops 3).grad_output_vars_.length = 1 ∧
    ((PyTrace demoEnv demoState 3 [0, 1] false).state.ops 3).grad_op_descs_.length = 0 := by
  decide

/-! ## Claim C14 -/

theorem getElem?_inj_of_nodup {α : Type} {l : List α} (h : l.Nodup) {i j : Nat} {a : α}
    (hi : l[i]? = some a) (hj : l[j]? = some a) : i = j := by
  obtain ⟨hi1, hi2⟩ := List.getElem?_eq_some.1 hi
  obtain ⟨hj1, hj2⟩ := List.getElem?_eq_some.1 hj
  exact (List.Nodup.getElem_inj_iff h).1 (hi2.trans hj2.symm)

theorem unique_position (groups : VarBasePtrMap) (h : (allVars groups).Nodup)
    {e e1 : String × List VarId} (he : e ∈ groups) (he1 : e1 ∈ groups) {i j : Nat} {v : VarId}
    (hi : e.2[i]? = some v) (hj : e1.2[j]? = some v) : e = e1 ∧ i = j := by
  induction groups with
  | nil => simp at he
  | cons g t ih =>
    have hsplit : (g.2 ++ allVars t).Nodup := by simpa [allVars] using h
    obtain ⟨h1, h2, h3⟩ := List.nodup_append.1 hsplit
    have hmem : ∀ {x : String × List VarId} {k : Nat}, x ∈ t → x.2[k]? = some v →
        v ∈ allVars t := by
      intro x k hx hk
      simp only [allVars, List.mem_flatten, List.mem_map]
      exact ⟨x.2, ⟨x, hx, rfl⟩, List.getElem?_mem hk⟩
    rcases List.mem_cons.1 he with rfl | het
    · rcases List.mem_cons.1 he1 with rfl | het1
      · exact ⟨rfl, getElem?_inj_of_nodup h1 hi hj⟩
      · exact absurd (hmem het1 hj) (fun hm => h3 (List.getElem?_mem hi) hm)
    · rcases List.mem_cons.1 he1 with rfl | het1
      · exact absurd (hmem het hi) (fun hm => h3 (List.getElem?_mem hj) hm)
      · exact ih h2 het het1

/-- Claim C14: after a Trace or TraceCustom call that returns, whose outputs are pairwise
distinct, the output Variable at position i of every output group has been given, through
`TrackPreOp`, the producer link (this operation instance, slot i) with the stopGradient
flag of the call; and the list a TraceCustom call returns is the output list of the
callback, in order. -/
theorem C14_producer_recorded (env : Env) (s : State) (c : Call)
    (hret : returns env s c)
    (hdistinct : (allVars (c.outputGroups env s)).Nodup)
    (e : String × List VarId) (he : e ∈ c.outputGroups env s) (i : Nat) (v : VarId)
    (hv : e.2[i]? = some v) :
    (step env s c).vars v = (s.vars v).TrackPreOp c.op e.1 (i : Int) c.stop_gradient ∧
    ((step env s c).vars v).pre_op_ = some c.op ∧
    ((step env s c).vars v).pre_op_out_idx_ = (i : Int) ∧
    ((step env s c).vars v).stop_gradient_ = c.stop_gradient ∧
    ∀ op inputs stop_gradient r, c = Call.pyTrace op inputs stop_gradient →
      (PyTrace env s op inputs stop_gradient).result = .ok r →
      r = pyOutputs env s op inputs := by
  have hmem : v ∈ allVars (c.outputGroups env s) := by
    simp only [allVars, List.mem_flatten, List.mem_map]
    exact ⟨e.2, ⟨e, he, rfl⟩, List.getElem?_mem hv⟩
  obtain ⟨e1, he1, j, hj, hst⟩ := (step_effect_returns env s c).exact hret v hmem
  obtain ⟨h1, h2⟩ := unique_position _ hdistinct he he1 hv hj
  subst h1
  subst h2
  refine ⟨hst, by rw [hst]; rfl, by rw [hst]; rfl, by rw [hst]; rfl, ?_⟩
  intro op inputs stop_gradient r _ hok
  unfold PyTrace at hok
  split at hok
  · injection hok with h3
    exact h3.symm
  · split at hok
    · simp at hok
    · injection hok with h3
      exact h3.symm

/-- Scenario A: `add(x, y) -> z` gives `z` the producer link (`add`, slot 0). -/
theorem C14_producer_recorded_witness :
    (step demoEnv demoState
      (Call.trace 1 [("X", [0]), ("Y", [1])] [("Out", [2])] 0 Place.CPUPlace false)).vars 2
      = (demoState.vars 2).TrackPreOp 1 "Out" ((0 : Nat) : Int) false ∧
    ((step demoEnv demoState
      (Call.trace 1 [("X", [0]), ("Y", [1])] [("Out", [2])] 0 Place.CPUPlace
        false)).vars 2).pre_op_ = some 1 ∧
    ((step demoEnv demoState
      (Call.trace 1 [("X", [0]), ("Y", [1])] [("Out", [2])] 0 Place.CPUPlace
        false)).vars 2).pre_op_out_idx_ = ((0 : Nat) : Int) ∧
    ((step demoEnv demoState
      (Call.trace 1 [("X", [0]), ("Y", [1])] [("Out", [2])] 0 Place.CPUPlace
        false)).vars 2).stop_gradient_ = false ∧
    ∀ op inputs stop_gradient r,
      Call.trace 1 [("X", [0]), ("Y", [1])] [("Out", [2])] 0 Place.CPUPlace false
        = Call.pyTrace op inputs stop_gradient →
      (PyTrace demoEnv demoState op inputs stop_gradient).result = .ok r →
      r = pyOutputs demoEnv demoState op inputs :=
  C14_producer_recorded demoEnv demoState
    (Call.trace 1 [("X", [0]), ("Y", [1])] [("Out", [2])] 0 Place.CPUPlace false)
    ⟨[], by decide⟩ (by decide) ("Out", [2]) (by decide) 0 2 (by decide)

/-! ## Where the place-mismatch error can come from -/

theorem InitVar_isPlaceMismatch (store : VariableId → Variable) (var grad_var : Option VariableId)
    (dev_ctx : Option DeviceContext) :
    (InitVar store var grad_var dev_ctx).isPlaceMismatch = false := by
  unfold InitVar
  repeat' split
  all_goals rfl

theorem gradVarOf_isPlaceMismatch (s : State) (vars : StrMap VarId) (fwd_name : String)
    (dev_ctx : Option DeviceContext) :
    (gradVarOf s vars fwd_name dev_ctx).result.isPlaceMismatch = false := by
  unfold gradVarOf
  cases vars.find fwd_name with
  | none => rfl
  | some var =>
    simp only
    cases (s.vars var).grads_ with
    | none => rfl
    | some g =>
      simp only
      cases (s.vars g).var_ with
      | none => rfl
      | some gv =>
        simp only
        split
        · have h := InitVar_isPlaceMismatch s.store (s.vars var).var_ (some gv) dev_ctx
          cases hiv : InitVar s.store (s.vars var).var_ (some gv) dev_ctx with
          | error e =>
            rw [hiv] at h
            exact h
          | ok st => rfl
        · rfl

theorem gradInputNames_isPlaceMismatch (env : Env) (op : OpId) (block : BlockId) (i : Nat)
    (first : String) (grad_to_var : StrMap String) (vars : StrMap VarId)
    (dev_ctx : Option DeviceContext) (names : List String) (s : State) (saved : List String) :
    (gradInputNames env op block i first grad_to_var vars dev_ctx names s
      saved).result.isPlaceMismatch = false := by
  induction names generalizing s saved with
  | nil => rfl
  | cons n t ih =>
    unfold gradInputNames
    simp only
    split
    · split
      · rfl
      · exact ih _ _
    · have hg := gradVarOf_isPlaceMismatch
        (s.setBlock block (env.FindRecursiveOrCreateVar (s.blocks block) n)) vars
        (by assumption) dev_ctx
      split
      · rename_i heq
        rw [heq] at hg
        exact hg
      · exact ih _ _

theorem gradInputGroups_isPlaceMismatch (env : Env) (op : OpId) (block : BlockId) (i : Nat)
    (grad_to_var : StrMap String) (vars : StrMap VarId) (dev_ctx : Option DeviceContext)
    (groups : StrMap (List String)) (s : State) (saved : List String) :
    (gradInputGroups env op block i grad_to_var vars dev_ctx groups s
      saved).result.isPlaceMismatch = false := by
  induction groups generalizing s saved with
  | nil => rfl
  | cons e t ih =>
    obtain ⟨first, second⟩ := e
    unfold gradInputGroups
    have h1 := gradInputNames_isPlaceMismatch env op block i first grad_to_var vars dev_ctx
      second (s.setOp op { s.ops op with
        grad_input_vars_ := modifyAt (fun m => m.touch first) i (s.ops op).grad_input_vars_ })
      saved
    split
    · rename_i heq
      rw [heq] at h1
      exact h1
    · exact ih _ _

theorem gradOutputNames_isPlaceMismatch (env : Env) (op : OpId) (block : BlockId) (i : Nat)
    (first : String) (grad_to_var : StrMap String) (vars : StrMap VarId)
    (dev_ctx : Option DeviceContext) (names : List String) (s : State) :
    (gradOutputNames env op block i first grad_to_var vars dev_ctx names
      s).result.isPlaceMismatch = false := by
  induction names generalizing s with
  | nil => rfl
  | cons n t ih =>
    unfold gradOutputNames
    simp only
    split
    · rfl
    · have hg := gradVarOf_isPlaceMismatch
        (s.setBlock block (env.FindRecursiveOrCreateVar (s.blocks block) n)) vars
        (by assumption) dev_ctx
      split
      · rename_i heq
        rw [heq] at hg
        exact hg
      · exact ih _

theorem gradOutputGroups_isPlaceMismatch (env : Env) (op : OpId) (block : BlockId) (i : Nat)
    (grad_to_var : StrMap String) (vars : StrMap VarId) (dev_ctx : Option DeviceContext)
    (groups : StrMap (List String)) (s : State) :
    (gradOutputGroups env op block i grad_to_var vars dev_ctx groups
      s).result.isPlaceMismatch = false := by
  induction groups generalizing s with
  | nil => rfl
  | cons e t ih =>
    obtain ⟨first, second⟩ := e
    unfold gradOutputGroups
    have h1 := gradOutputNames_isPlaceMismatch env op block i first grad_to_var vars dev_ctx
      second (s.setOp op { s.ops op with
        grad_output_vars_ :=
          modifyAt (fun m => m.touch first) i (s.ops op).grad_output_vars_ })
    split
    · rename_i heq
      rw [heq] at h1
      exact h1
    · exact ih _

theorem gradOpDescs_isPlaceMismatch (env : Env) (op : OpId) (block : BlockId)
    (grad_to_var : StrMap String) (vars : StrMap VarId) (dev_ctx : Option DeviceContext)
    (i : Nat) (descs : List OpDesc) (s : State) (saved : List String) :
    (gradOpDescs env op block grad_to_var vars dev_ctx i descs s
      saved).result.isPlaceMismatch = false := by
  induction descs generalizing s saved i with
  | nil => rfl
  | cons d t ih =>
    unfold gradOpDescs
    have h1 := gradInputGroups_isPlaceMismatch env op block i grad_to_var vars dev_ctx
      d.inputs s saved
    split
    · rename_i heq
      rw [heq] at h1
      exact h1
    · have h2 := gradOutputGroups_isPlaceMismatch env op block i grad_to_var vars dev_ctx
        d.outputs (by assumption)
      split
      · rename_i heq2
        rw [heq2] at h2
        exact h2
      · exact ih _ _ _

theorem traceGrad_isPlaceMismatch (env : Env) (op : OpId) (block : BlockId)
    (vars : StrMap VarId) (dev_ctx : Option DeviceContext) (s : State) :
    (traceGrad env op block vars dev_ctx s).result.isPlaceMismatch = false := by
  unfold traceGrad CreateGradOp
  split
  · rename_i heq
    split at heq
    · cases heq
    · injection heq with h1
      subst h1
      rfl
  · exact gradOpDescs_isPlaceMismatch _ _ _ _ _ _ _ _ _ _

theorem traceInputs_isPlaceMismatch (op : OpId) (first : String) (vs : List VarId)
    (s : State) (l : Locals) :
    (traceInputs op first vs s l).result.isPlaceMismatch = false := by
  induction vs generalizing s l with
  | nil => rfl
  | cons v t ih =>
    unfold traceInputs
    split
    · rfl
    · exact ih _ _

theorem traceInputGroups_isPlaceMismatch (op : OpId) (groups : VarBasePtrMap) (s : State)
    (l : Locals) : (traceInputGroups op groups s l).result.isPlaceMismatch = false := by
  induction groups generalizing s l with
  | nil => rfl
  | cons e t ih =>
    obtain ⟨first, second⟩ := e
    unfold traceInputGroups
    have h1 := traceInputs_isPlaceMismatch op first second s
      { l with invars_map := l.invars_map.touch first }
    split
    · rename_i heq
      rw [heq] at h1
      exact h1
    · exact ih _ _

theorem traceOutputs_isPlaceMismatch (op : OpId) (first : String) (block : BlockId) (g : Bool)
    (i : Nat) (vs : List VarId) (s : State) (l : Locals) :
    (traceOutputs op first block g i vs s l).result.isPlaceMismatch = false := by
  induction vs generalizing s l i with
  | nil => rfl
  | cons v t ih =>
    unfold traceOutputs
    simp only
    split
    · rfl
    · split
      · split
        · rfl
        · exact ih _ _ _
      · exact ih _ _ _

theorem traceOutputGroups_isPlaceMismatch (op : OpId) (block : BlockId) (g : Bool)
    (groups : VarBasePtrMap) (s : State) (l : Locals) :
    (traceOutputGroups op block g groups s l).result.isPlaceMismatch = false := by
  induction groups generalizing s l with
  | nil => rfl
  | cons e t ih =>
    obtain ⟨first, second⟩ := e
    unfold traceOutputGroups
    have h1 := traceOutputs_isPlaceMismatch op first block g 0 second s
      { l with outvars_map := l.outvars_map.touch first }
    split
    · rename_i heq
      rw [heq] at h1
      exact h1
    · exact ih _ _

/-! ## Claims C15 and C16 -/

theorem GetExpectedPlaceGroup_ok_iff (s : State) (place : Place) (first : String)
    (vs : List VarId) :
    GetExpectedPlaceGroup s place first vs = .ok () ↔
      ∀ v ∈ vs, tensorPlace s v = .ok place := by
  induction vs with
  | nil => simp [GetExpectedPlaceGroup]
  | cons v t ih =>
    unfold GetExpectedPlaceGroup
    cases htp : tensorPlace s v with
    | error e => simp [htp]
    | ok p =>
      by_cases hp : p = place
      · subst hp
        simp [htp, is_same_place, ih]
      · simp [htp, is_same_place, hp]

theorem GetExpectedPlace_ok_iff (s : State) (place p : Place) (groups : VarBasePtrMap) :
    GetExpectedPlace s place groups = .ok p ↔
      (p = place ∧ ∀ v ∈ allVars groups, tensorPlace s v = .ok place) := by
  induction groups with
  | nil =>
    simp only [GetExpectedPlace, allVars, List.map_nil, List.flatten_nil, List.not_mem_nil,
      false_implies, implies_true, and_true]
    constructor
    · intro h; injection h with h1; exact h1.symm
    · intro h; rw [h]
  | cons e t ih =>
    obtain ⟨first, second⟩ := e
    unfold GetExpectedPlace
    have hg := GetExpectedPlaceGroup_ok_iff s place first second
    cases hgr : GetExpectedPlaceGroup s place first second with
    | error e =>
      rw [hgr] at hg
      simp only [false_iff, reduceCtorEq] at hg ⊢
      rintro ⟨-, hall⟩
      exact hg (fun v hv => hall v (by simp [allVars]; exact Or.inl hv))
    | ok u =>
      rw [hgr] at hg
      simp only [true_iff] at hg
      simp only [ih]
      constructor
      · rintro ⟨h1, h2⟩
        refine ⟨h1, ?_⟩
        intro v hv
        simp [allVars] at hv
        rcases hv with hv | hv
        · exact hg v hv
        · exact h2 v (by simpa [allVars] using hv)
      · rintro ⟨h1, h2⟩
        exact ⟨h1, fun v hv => h2 v (by simp [allVars] at hv ⊢; exact Or.inr hv)⟩

theorem GetExpectedPlaceGroup_mismatch (s : State) (place : Place) (first : String)
    (vs : List VarId) (a b : Place) (c : String)
    (h : GetExpectedPlaceGroup s place first vs = .error (.PlaceMismatch a b c)) :
    a = place ∧ c = first ∧ ∃ vpre v vpost, vs = vpre ++ v :: vpost ∧
      (∀ w ∈ vpre, tensorPlace s w = .ok place) ∧ tensorPlace s v = .ok b ∧ b ≠ place := by
  induction vs with
  | nil => simp [GetExpectedPlaceGroup] at h
  | cons v t ih =>
    unfold GetExpectedPlaceGroup at h
    cases htp : tensorPlace s v with
    | error e =>
      rw [htp] at h
      simp only at h
      injection h with h1
      subst h1
      have := htp
      unfold tensorPlace at this
      repeat' split at this
      all_goals cases this
    | ok p =>
      rw [htp] at h
      simp only at h
      by_cases hp : p = place
      · subst hp
        simp only [is_same_place, decide_True, Bool.not_true, Bool.false_eq_true,
          if_false] at h
        obtain ⟨h1, h2, vpre, w, vpost, h3, h4, h5, h6⟩ := ih h
        refine ⟨h1, h2, v :: vpre, w, vpost, by rw [h3]; rfl, ?_, h5, h6⟩
        intro x hx
        rcases List.mem_cons.1 hx with rfl | hx
        · exact htp
        · exact h4 x hx
      · simp only [is_same_place, hp, decide_False, Bool.not_false, if_true] at h
        injection h with h1
        injection h1 with h2 h3 h4
        subst h2
        subst h3
        subst h4
        exact ⟨rfl, rfl, [], v, t, rfl, by simp, htp, hp⟩

theorem GetExpectedPlace_mismatch (s : State) (place : Place) (groups : VarBasePtrMap)
    (a b : Place) (c : String)
    (h : GetExpectedPlace s place groups = .error (.PlaceMismatch a b c)) :
    a = place ∧ ∃ pre e post vpre v vpost, groups = pre ++ e :: post ∧
      e.2 = vpre ++ v :: vpost ∧
      (∀ w ∈ allVars pre, tensorPlace s w = .ok place) ∧
      (∀ w ∈ vpre, tensorPlace s w = .ok place) ∧
      tensorPlace s v = .ok b ∧ b ≠ place ∧ c = e.1 := by
  induction groups with
  | nil => simp [GetExpectedPlace] at h
  | cons e t ih =>
    obtain ⟨first, second⟩ := e
    unfold GetExpectedPlace at h
    cases hgr : GetExpectedPlaceGroup s place first second with
    | error e =>
      rw [hgr] at h
      simp only at h
      injection h with h1
      subst h1
      obtain ⟨h1, h2, vpre, v, vpost, h3, h4, h5, h6⟩ :=
        GetExpectedPlaceGroup_mismatch s place first second a b c hgr
      exact ⟨h1, [], (first, second), t, vpre, v, vpost, rfl, h3, by simp [allVars], h4, h5,
        h6, h2⟩
    | ok u =>
      rw [hgr] at h
      simp only at h
      obtain ⟨h1, pre, e, post, vpre, v, vpost, h2, h3, h4, h5, h6, h7, h8⟩ := ih h
      refine ⟨h1, (first, second) :: pre, e, post, vpre, v, vpost, by rw [h2]; rfl, h3, ?_,
        h5, h6, h7, h8⟩
      intro w hw
      simp [allVars] at hw
      rcases hw with hw | hw
      · exact (GetExpectedPlaceGroup_ok_iff s place first second).1 hgr w hw
      · exact h4 w (by simpa [allVars] using hw)

theorem Linked.tensorPlace_all {env : Env} {s : State} {op : OpId}
    {inputs outputs : VarBasePtrMap} {block : BlockId} {g : Bool} {s2 : State}
    (h : Linked env s op inputs outputs block g s2) (v : VarId) :
    tensorPlace s2 v = tensorPlace s v := by
  have hvar : (s2.vars v).var_ = (s.vars v).var_ := by
    rcases h.vars v with h1 | ⟨_, f, i, h1⟩
    · rw [h1]
    · rw [h1, TrackPreOp_var]
  unfold tensorPlace
  rw [hvar]
  cases (s.vars v).var_ with
  | none => rfl
  | some x =>
    simp only
    rcases h.store x with h1 | h1
    · rw [h1]
    · rw [h1]
      cases hx : (s.store x).holder with
      | none => simp [Variable.GetMutable, Variable.IsInitialized, hx]
      | some t =>
        rw [GetMutable_of_initialized _ (by simp [Variable.IsInitialized, hx]), hx]

theorem Trace_placeMismatch_source (env : Env) (s : State) (op : OpId)
    (inputs outputs : VarBasePtrMap) (block : BlockId) (expected_place : Place)
    (stop_gradient : Bool) (e : TraceError)
    (h : (Trace env s op inputs outputs block expected_place stop_gradient).result = .error e)
    (he : e.isPlaceMismatch = true) :
    GetExpectedPlace s expected_place inputs = .error e := by
  have hi := traceInputGroups_isPlaceMismatch op inputs (traceBegin env s op inputs block)
    ⟨[], [], []⟩
  cases hin : traceInputGroups op inputs (traceBegin env s op inputs block) ⟨[], [], []⟩ with
  | mk s1 r1 =>
    rw [hin] at hi
    cases r1 with
    | error e1 =>
      have heq : Trace env s op inputs outputs block expected_place stop_gradient
          = ⟨s1, .error e1⟩ := by
        unfold Trace
        rw [hin]
      rw [heq] at h
      injection h with h1
      subst h1
      rw [show (TraceResult.error e1 : TraceResult Locals).isPlaceMismatch
        = e1.isPlaceMismatch from rfl, he] at hi
      cases hi
    | ok l1 =>
      have ho := traceOutputGroups_isPlaceMismatch op block stop_gradient outputs
        (s1.setOp op { s1.ops op with output_vars_ := outputs }) l1
      cases hout : traceOutputGroups op block stop_gradient outputs
          (s1.setOp op { s1.ops op with output_vars_ := outputs }) l1 with
      | mk s2 r2 =>
        rw [hout] at ho
        cases r2 with
        | error e2 =>
          have heq : Trace env s op inputs outputs block expected_place stop_gradient
              = ⟨s2, .error e2⟩ := by
            unfold Trace
            rw [hin]
            simp only
            unfold traceFromOutputs
            rw [hout]
          rw [heq] at h
          injection h with h1
          subst h1
          rw [show (TraceResult.error e2 : TraceResult Locals).isPlaceMismatch
            = e2.isPlaceMismatch from rfl, he] at ho
          cases ho
        | ok l2 =>
          have hl := Trace_linked env s op inputs outputs block stop_gradient s1 s2 l1 l2
            hin hout
          have heq := Trace_of_phases env s op inputs outputs block expected_place
            stop_gradient s1 s2 l1 l2 hin hout
          have hgep : GetExpectedPlace s2 expected_place inputs
              = GetExpectedPlace s expected_place inputs :=
            GetExpectedPlace_congr s s2 expected_place inputs
              (fun v _ => hl.tensorPlace_all v)
          by_cases hk : env.isOperatorWithKernel (s.ops op).op_desc_ = true
          · rw [if_pos hk] at heq
            rw [heq] at h
            unfold traceRun at h
            rw [hgep] at h
            cases hg : GetExpectedPlace s expected_place inputs with
            | error e3 =>
              rw [hg] at h
              simp only at h
              injection h with h1
              rw [h1]
            | ok place =>
              rw [hg] at h
              simp only at h
              split at h
              · simp at h
              · have htg := traceGrad_isPlaceMismatch env op block l2.vars
                  (env.Prepare (s2.ops op).op_desc_ place) (dispatch env op place l2 s2)
                split at h
                · rename_i s3 e3 heq3
                  rw [heq3] at htg
                  simp only at h
                  injection h with h1
                  subst h1
                  rw [show (TraceResult.error e3 : TraceResult (List String)).isPlaceMismatch
                    = e3.isPlaceMismatch from rfl, he] at htg
                  cases htg
                · simp at h
          · rw [if_neg hk] at heq
            rw [heq] at h
            injection h with h1
            subst h1
            cases he

theorem traceGrad_place (env : Env) (op : OpId) (block : BlockId) (vars : StrMap VarId)
    (dev_ctx : Option DeviceContext) (s : State) :
    ((traceGrad env op block vars dev_ctx s).state.ops op).place_ = (s.ops op).place_ := by
  unfold traceGrad
  split
  · rfl
  · rename_i descs grad_to_var _
    obtain ⟨-, -, -, d, -, -⟩ := gradOpDescs_frame env op block grad_to_var vars dev_ctx 0
      descs
      (s.setOp op { s.ops op with
        grad_op_descs_ := descs
        grad_input_vars_ := resize (s.ops op).grad_input_vars_ descs.length []
        grad_output_vars_ := resize (s.ops op).grad_output_vars_ descs.length [] }) []
    rw [d]
    simp

theorem traceRun_place (env : Env) (op : OpId) (inputs : VarBasePtrMap) (block : BlockId)
    (expected_place : Place) (stop_gradient : Bool) (l : Locals) (s : State) (r : List String)
    (h : (traceRun env op inputs block expected_place stop_gradient l s).result = .ok r) :
    ((traceRun env op inputs block expected_place stop_gradient l s).state.ops op).place_
      = expected_place := by
  unfold traceRun at h ⊢
  cases hg : GetExpectedPlace s expected_place inputs with
  | error e => simp [hg] at h
  | ok place =>
    have hp : place = expected_place := ((GetExpectedPlace_ok_iff s _ _ _).1 hg).1
    subst hp
    simp only [hg] at h ⊢
    cases stop_gradient with
    | true => simp
    | false =>
      simp only [Bool.false_eq_true, if_false] at h ⊢
      have htg := traceGrad_place env op block l.vars (env.Prepare (s.ops op).op_desc_ place)
        (dispatch env op place l s)
      generalize traceGrad env op block l.vars (env.Prepare (s.ops op).op_desc_ place)
        (dispatch env op place l s) = out at h htg ⊢
      cases out with
      | mk s1 r1 =>
        cases r1 with
        | error e => simp at h
        | ok saved =>
          simp only at htg ⊢
          simp only [State.setOp_ops_self]
          rw [htg]
          simp

/-- Claim C15: `GetExpectedPlace` returns normally if and only if every input Variable of
every group resides on the target place, and its result is then the target place; a Trace
call whose inputs all reside on the target place never fails with the place-mismatch
error, and when it returns the place stored on the operation instance is the target
place. -/
theorem C15_expected_place (env : Env) (s : State) (op : OpId)
    (inputs outputs : VarBasePtrMap) (block : BlockId) (expected_place : Place)
    (stop_gradient : Bool) :
    (∀ p, GetExpectedPlace s expected_place inputs = .ok p ↔
      (p = expected_place ∧ ∀ v ∈ allVars inputs, tensorPlace s v = .ok expected_place)) ∧
    ((∀ v ∈ allVars inputs, tensorPlace s v = .ok expected_place) →
      ∀ a b c, (Trace env s op inputs outputs block expected_place stop_gradient).result
        ≠ .error (.PlaceMismatch a b c)) ∧
    (∀ r, (Trace env s op inputs outputs block expected_place stop_gradient).result = .ok r →
      ((Trace env s op inputs outputs block expected_place stop_gradient).state.ops op).place_
        = expected_place) := by
  refine ⟨fun p => GetExpectedPlace_ok_iff s expected_place p inputs, ?_, ?_⟩
  · intro hall a b c hres
    have hsrc := Trace_placeMismatch_source env s op inputs outputs block expected_place
      stop_gradient _ hres rfl
    rw [(GetExpectedPlace_ok_iff s expected_place expected_place inputs).2 ⟨rfl, hall⟩] at hsrc
    cases hsrc
  · intro r hok
    obtain ⟨s1, s2, l1, l2, -, -, -, heq⟩ :=
      Trace_ok_phases env s op inputs outputs block expected_place stop_gradient r hok
    rw [heq] at hok ⊢
    exact traceRun_place env op inputs block expected_place stop_gradient l2 s2 r hok

/-- Scenario A: `add(x, y) -> z` with both inputs on the CPU, the target place. -/
theorem C15_expected_place_witness :
    (∀ a b c, (Trace demoEnv demoState 1 [("X", [0]), ("Y", [1])] [("Out", [2])] 0
      Place.CPUPlace false).result ≠ .error (.PlaceMismatch a b c)) ∧
    ((Trace demoEnv demoState 1 [("X", [0]), ("Y", [1])] [("Out", [2])] 0
      Place.CPUPlace false).state.ops 1).place_ = Place.CPUPlace :=
  ⟨(C15_expected_place demoEnv demoState 1 [("X", [0]), ("Y", [1])] [("Out", [2])] 0
      Place.CPUPlace false).2.1 (by decide),
    (C15_expected_place demoEnv demoState 1 [("X", [0]), ("Y", [1])] [("Out", [2])] 0
      Place.CPUPlace false).2.2 [] (by decide)⟩

/-- Claim C16, as the code has it: when a Trace call fails with the place-mismatch error,
the error comes from `GetExpectedPlace` and carries the target place, the place of the
first input Variable (in group order, then position order) whose place differs from the
target, and the key of the input group that holds this Variable; the name of the Variable
itself is not carried. -/
theorem C16_mismatch_names_group (env : Env) (s : State) (op : OpId)
    (inputs outputs : VarBasePtrMap) (block : BlockId) (expected_place : Place)
    (stop_gradient : Bool) (a b : Place) (c : String)
    (h : (Trace env s op inputs outputs block expected_place stop_gradient).result
      = .error (.PlaceMismatch a b c)) :
    GetExpectedPlace s expected_place inputs = .error (.PlaceMismatch a b c) ∧
    a = expected_place ∧
    ∃ pre e post vpre v vpost, inputs = pre ++ e :: post ∧ e.2 = vpre ++ v :: vpost ∧
      (∀ w ∈ allVars pre, tensorPlace s w = .ok expected_place) ∧
      (∀ w ∈ vpre, tensorPlace s w = .ok expected_place) ∧
      tensorPlace s v = .ok b ∧ b ≠ expected_place ∧ c = e.1 := by
  have hsrc := Trace_placeMismatch_source env s op inputs outputs block expected_place
    stop_gradient _ h rfl
  exact ⟨hsrc, GetExpectedPlace_mismatch s expected_place inputs a b c hsrc⟩

/-- Scenario D: `add` traced with `x` on the CPU under key `X` and `w` on GPU 0 under key
`Y`, the target being the CPU. -/
theorem C16_mismatch_names_group_witness :
    GetExpectedPlace demoState Place.CPUPlace [("X", [0]), ("Y", [3])]
      = .error (.PlaceMismatch Place.CPUPlace (Place.CUDAPlace 0) "Y") ∧
    Place.CPUPlace = Place.CPUPlace ∧
    ∃ pre e post vpre v vpost, [("X", [0]), ("Y", [3])] = pre ++ e :: post ∧
      e.2 = vpre ++ v :: vpost ∧
      (∀ w ∈ allVars pre, tensorPlace demoState w = .ok Place.CPUPlace) ∧
      (∀ w ∈ vpre, tensorPlace demoState w = .ok Place.CPUPlace) ∧
      tensorPlace demoState v = .ok (Place.CUDAPlace 0) ∧
      Place.CUDAPlace 0 ≠ Place.CPUPlace ∧ "Y" = e.1 :=
  C16_mismatch_names_group demoEnv demoState 1 [("X", [0]), ("Y", [3])] [("Out", [2])] 0
    Place.CPUPlace false Place.CPUPlace (Place.CUDAPlace 0) "Y" (by decide)

/-- Scenario D: the inputs `x` (on the CPU, under key `X`) and `w` (on GPU 0, under key
`Y`): the error carries the key `Y`, while the conflicting Variable is named `w`. -/
theorem C16_counterexample :
    (Trace demoEnv demoState 1 [("X", [0]), ("Y", [3])] [("Out", [2])] 0 Place.CPUPlace
      false).result = .error (.PlaceMismatch Place.CPUPlace (Place.CUDAPlace 0) "Y") ∧
    tensorPlace demoState 0 = .ok Place.CPUPlace ∧
    tensorPlace demoState 3 = .ok (Place.CUDAPlace 0) ∧
    (demoState.vars 3).name = "w" ∧
    (demoState.vars 3).name ≠ "Y" := by
  decide

/-! ## The local map `vars` of `Tracer::Trace` -/

theorem namedVars_find (vars : VarId → VarBase) (vs : List VarId) (m : StrMap VarId)
    (name : String) :
    (namedVars vars vs m).find name =
      match vs.reverse.find? (fun v => decide ((vars v).name = name)) with
      | some v => some v
      | none => m.find name := by
  induction vs generalizing m with
  | nil => simp [namedVars]
  | cons v t ih =>
    have := ih (m.set (vars v).name v)
    simp only [namedVars, List.foldl] at this ⊢
    rw [this]
    simp only [List.reverse_cons, List.find?_append]
    cases ht : t.reverse.find? (fun v => decide ((vars v).name = name)) with
    | some w => simp
    | none =>
      by_cases hn : (vars v).name = name
      · subst hn
        simp [StrMap.find_set_self]
      · simp [hn, StrMap.find_set_of_ne m hn]

theorem namedVars_append (vars : VarId → VarBase) (vs ws : List VarId) (m : StrMap VarId) :
    namedVars vars (vs ++ ws) m = namedVars vars ws (namedVars vars vs m) := by
  simp [namedVars, List.foldl_append]

theorem namedVars_congr (f g : VarId → VarBase) (h : ∀ v, (f v).name = (g v).name)
    (vs : List VarId) (m : StrMap VarId) : namedVars f vs m = namedVars g vs m := by
  induction vs generalizing m with
  | nil => rfl
  | cons w t ih =>
    simp only [namedVars, List.foldl] at ih ⊢
    rw [h w]
    exact ih _

theorem traceInputs_vars (op : OpId) (first : String) (vs : List VarId) (s : State)
    (l l1 : Locals) (h : (traceInputs op first vs s l).result = .ok l1) :
    l1.vars = namedVars s.vars vs l.vars := by
  induction vs generalizing s l with
  | nil =>
    simp only [traceInputs] at h
    injection h with h1
    rw [← h1]
    rfl
  | cons v t ih =>
    unfold traceInputs at h
    cases hv : (s.vars v).var_ with
    | none => simp [hv] at h
    | some x =>
      simp only [hv] at h
      have := ih _ _ h
      simpa [namedVars] using this

theorem traceInputGroups_vars (op : OpId) (groups : VarBasePtrMap) (s : State)
    (l l1 : Locals) (h : (traceInputGroups op groups s l).result = .ok l1) :
    l1.vars = namedVars s.vars (allVars groups) l.vars := by
  induction groups generalizing s l with
  | nil =>
    simp only [traceInputGroups] at h
    injection h with h1
    rw [← h1]
    rfl
  | cons e t ih =>
    obtain ⟨first, second⟩ := e
    unfold traceInputGroups at h
    have h1 := traceInputs_vars op first second s
      { l with invars_map := l.invars_map.touch first }
    have hfr := traceInputs_log op first second s
      { l with invars_map := l.invars_map.touch first }
    generalize traceInputs op first second s
      { l with invars_map := l.invars_map.touch first } = out at h h1 hfr
    cases out with
    | mk s1 r1 =>
      cases r1 with
      | error e => simp at h
      | ok l2 =>
        simp only at h h1 hfr
        have h2 := ih s1 l2 h
        rw [h2, h1 l2 rfl, hfr.2.1]
        simp [allVars, namedVars_append]

theorem traceOutputs_vars (op : OpId) (first : String) (block : BlockId) (g : Bool) (i : Nat)
    (vs : List VarId) (s : State) (l l1 : Locals)
    (h : (traceOutputs op first block g i vs s l).result = .ok l1) :
    l1.vars = namedVars (fun v => (s.vars v)) vs l.vars := by
  induction vs generalizing s l i with
  | nil =>
    simp only [traceOutputs] at h
    injection h with h1
    rw [← h1]
    rfl
  | cons out t ih =>
    have hname : ∀ (S : State), S.vars = s.vars →
        namedVars (fun v => (S.setVar out ((s.vars out).TrackPreOp op first i g)).vars v) t
          = namedVars (fun v => s.vars v) t := by
      intro S hS
      funext m
      apply namedVars_congr
      intro v
      have := (Tracked.step_var op g S out first i).fields v
      rw [hS] at this
      exact this.1
    unfold traceOutputs at h
    simp only at h
    cases hb : (s.blocks block).vars (s.vars out).name with
    | none => simp [hb] at h
    | some ty =>
      simp only [hb] at h
      split at h
      · cases hv : (s.vars out).var_ with
        | none => simp [hv] at h
        | some x =>
          simp only [hv] at h
          have := ih _ _ _ h
          rw [hname (s.setVariable x (s.store x).GetMutable) rfl] at this
          simpa [namedVars] using this
      · have := ih _ _ _ h
        rw [hname s rfl] at this
        simpa [namedVars] using this

theorem traceOutputGroups_vars (op : OpId) (block : BlockId) (g : Bool)
    (groups : VarBasePtrMap) (s : State) (l l1 : Locals)
    (h : (traceOutputGroups op block g groups s l).result = .ok l1) :
    l1.vars = namedVars (fun v => s.vars v) (allVars groups) l.vars := by
  induction groups generalizing s l with
  | nil =>
    simp only [traceOutputGroups] at h
    injection h with h1
    rw [← h1]
    rfl
  | cons e t ih =>
    obtain ⟨first, second⟩ := e
    unfold traceOutputGroups at h
    have h1 := traceOutputs_vars op first block g 0 second s
      { l with outvars_map := l.outvars_map.touch first }
    have htr := traceOutputs_tracked op first block g 0 second s
      { l with outvars_map := l.outvars_map.touch first }
    generalize traceOutputs op first block g 0 second s
      { l with outvars_map := l.outvars_map.touch first } = out at h h1 htr
    cases out with
    | mk s1 r1 =>
      cases r1 with
      | error e => simp at h
      | ok l2 =>
        simp only at h h1 htr
        have h2 := ih s1 l2 h
        have hnm : ∀ (vs : List VarId) (m : StrMap VarId),
            namedVars (fun v => s1.vars v) vs m = namedVars (fun v => s.vars v) vs m :=
          fun vs m => namedVars_congr _ _ (fun v => (htr.fields v).1) vs m
        rw [h2, hnm, h1 l2 rfl]
        simp [allVars, namedVars_append]

theorem Trace_vars (env : Env) (s : State) (op : OpId) (inputs outputs : VarBasePtrMap)
    (block : BlockId) (stop_gradient : Bool) (s1 s2 : State) (l1 l2 : Locals)
    (hin : traceInputGroups op inputs (traceBegin env s op inputs block) ⟨[], [], []⟩
      = ⟨s1, .ok l1⟩)
    (hout : traceOutputGroups op block stop_gradient outputs
      (s1.setOp op { s1.ops op with output_vars_ := outputs }) l1 = ⟨s2, .ok l2⟩)
    (name : String) : l2.vars.find name = forwardVar s inputs outputs name := by
  have h1 := traceInputGroups_vars op inputs (traceBegin env s op inputs block) ⟨[], [], []⟩
    l1 (by rw [hin])
  have h2 := traceOutputGroups_vars op block stop_gradient outputs
    (s1.setOp op { s1.ops op with output_vars_ := outputs }) l1 l2 (by rw [hout])
  have hfr := traceInputGroups_frame op inputs (traceBegin env s op inputs block) ⟨[], [], []⟩
  rw [hin] at hfr
  have hv1 : s1.vars = s.vars := hfr.2.1
  have hv : (fun v => (s1.setOp op { s1.ops op with output_vars_ := outputs }).vars v)
      = s.vars := by
    funext v
    simp [hv1]
  rw [h2, hv, h1]
  have hv0 : (traceBegin env s op inputs block).vars = s.vars := rfl
  rw [hv0, ← namedVars_append, namedVars_find]
  unfold forwardVar
  cases (allVars inputs ++ allVars outputs).reverse.find?
    (fun v => decide ((s.vars v).name = name)) <;> simp [StrMap.find]

/-! ## The gradient mappings and the data store under gradient wiring -/

theorem getElem?_modifyAt {α : Type} (f : α → α) (i j : Nat) (l : List α) :
    (modifyAt f i l)[j]? = if j = i then (l[j]?).map f else l[j]? := by
  induction l generalizing i j with
  | nil => cases i <;> simp [modifyAt]
  | cons a t ih =>
    cases i with
    | zero =>
      cases j with
      | zero => simp [modifyAt]
      | succ m => simp [modifyAt]
    | succ n =>
      cases j with
      | zero => simp [modifyAt]
      | succ m => simp [modifyAt, ih]

theorem gradIn_pushGradInput (s : State) (op : OpId) (i : Nat) (first : String)
    (v : Option VariableId) (hi : i < (s.ops op).grad_input_vars_.length) (j : Nat)
    (key : String) :
    ((pushGradInput s op i first v).ops op).gradIn j key
      = (s.ops op).gradIn j key ++ (if j = i ∧ key = first then [v] else []) := by
  simp only [pushGradInput, State.setOp_ops_self, OpBase.gradIn, getElem?_modifyAt]
  by_cases hj : j = i
  · subst hj
    rw [List.getElem?_eq_getElem hi]
    by_cases hk : key = first
    · subst hk
      simp [StrMap.at_push_self]
    · simp [hk, StrMap.at_push_of_ne _ (Ne.symm hk)]
  · simp [hj]

theorem gradOut_pushGradInput (s : State) (op : OpId) (i : Nat) (first : String)
    (v : Option VariableId) (j : Nat) (key : String) :
    ((pushGradInput s op i first v).ops op).gradOut j key = (s.ops op).gradOut j key := by
  simp [pushGradInput, OpBase.gradOut]

theorem gradOut_pushGradOutput (s : State) (op : OpId) (i : Nat) (first : String)
    (v : Option VariableId) (hi : i < (s.ops op).grad_output_vars_.length) (j : Nat)
    (key : String) :
    ((pushGradOutput s op i first v).ops op).gradOut j key
      = (s.ops op).gradOut j key ++ (if j = i ∧ key = first then [v] else []) := by
  simp only [pushGradOutput, State.setOp_ops_self, OpBase.gradOut, getElem?_modifyAt]
  by_cases hj : j = i
  · subst hj
    rw [List.getElem?_eq_getElem hi]
    by_cases hk : key = first
    · subst hk
      simp [StrMap.at_push_self]
    · simp [hk, StrMap.at_push_of_ne _ (Ne.symm hk)]
  · simp [hj]

theorem gradIn_pushGradOutput (s : State) (op : OpId) (i : Nat) (first : String)
    (v : Option VariableId) (j : Nat) (key : String) :
    ((pushGradOutput s op i first v).ops op).gradIn j key = (s.ops op).gradIn j key := by
  simp [pushGradOutput, OpBase.gradIn]

theorem gradIn_touch (o : OpBase) (first : String) (i j : Nat) (key : String) :
    OpBase.gradIn { o with
      grad_input_vars_ := modifyAt (fun m => m.touch first) i o.grad_input_vars_ } j key
      = o.gradIn j key := by
  simp only [OpBase.gradIn, getElem?_modifyAt]
  by_cases hj : j = i
  · subst hj
    cases o.grad_input_vars_[j]? with
    | none => simp
    | some m => simp [StrMap.at_touch]
  · simp [hj]

theorem gradOut_touch (o : OpBase) (first : String) (i j : Nat) (key : String) :
    OpBase.gradOut { o with
      grad_output_vars_ := modifyAt (fun m => m.touch first) i o.grad_output_vars_ } j key
      = o.gradOut j key := by
  simp only [OpBase.gradOut, getElem?_modifyAt]
  by_cases hj : j = i
  · subst hj
    cases o.grad_output_vars_[j]? with
    | none => simp
    | some m => simp [StrMap.at_touch]
  · simp [hj]

theorem Wired.refl_wired (op : OpId) (s : State) :
    Wired op s s (fun _ _ => []) (fun _ _ => []) :=
  ⟨fun _ _ => by simp, fun _ _ => by simp, rfl, rfl, rfl⟩

theorem Wired.trans_wired {op : OpId} {s s1 s2 : State}
    {a b a1 b1 : Nat → String → List (Option VariableId)}
    (h1 : Wired op s s1 a b) (h2 : Wired op s1 s2 a1 b1) :
    Wired op s s2 (fun j key => a j key ++ a1 j key) (fun j key => b j key ++ b1 j key) :=
  ⟨fun j key => by rw [h2.gradIn, h1.gradIn, List.append_assoc],
    fun j key => by rw [h2.gradOut, h1.gradOut, List.append_assoc],
    h2.lengthIn.trans h1.lengthIn, h2.lengthOut.trans h1.lengthOut, h2.vars.trans h1.vars⟩

theorem Wired.congr_wired {op : OpId} {s s1 : State}
    {a b a1 b1 : Nat → String → List (Option VariableId)}
    (h : Wired op s s1 a b) (ha : ∀ j key, a j key = a1 j key)
    (hb : ∀ j key, b j key = b1 j key) : Wired op s s1 a1 b1 := by
  have e1 : a = a1 := funext fun j => funext fun key => ha j key
  have e2 : b = b1 := funext fun j => funext fun key => hb j key
  rw [← e1, ← e2]
  exact h

theorem Wired.of_ops {op : OpId} {s s1 : State} (h : s1.ops op = s.ops op)
    (hv : s1.vars = s.vars) : Wired op s s1 (fun _ _ => []) (fun _ _ => []) :=
  ⟨fun _ _ => by simp [h], fun _ _ => by simp [h], by rw [h], by rw [h], hv⟩

theorem Wired.pushIn (s : State) (op : OpId) (i : Nat) (first : String)
    (v : Option VariableId) (hi : i < (s.ops op).grad_input_vars_.length) :
    Wired op s (pushGradInput s op i first v)
      (fun j key => if j = i ∧ key = first then [v] else []) (fun _ _ => []) :=
  ⟨fun j key => gradIn_pushGradInput s op i first v hi j key,
    fun j key => by simp [gradOut_pushGradInput],
    by simp [pushGradInput], by simp [pushGradInput], rfl⟩

theorem Wired.pushOut (s : State) (op : OpId) (i : Nat) (first : String)
    (v : Option VariableId) (hi : i < (s.ops op).grad_output_vars_.length) :
    Wired op s (pushGradOutput s op i first v)
      (fun _ _ => []) (fun j key => if j = i ∧ key = first then [v] else []) :=
  ⟨fun j key => by simp [gradIn_pushGradOutput],
    fun j key => gradOut_pushGradOutput s op i first v hi j key,
    by simp [pushGradOutput], by simp [pushGradOutput], rfl⟩

theorem Wired.touchIn (s : State) (op : OpId) (i : Nat) (first : String) :
    Wired op s (s.setOp op { s.ops op with
      grad_input_vars_ := modifyAt (fun m => m.touch first) i (s.ops op).grad_input_vars_ })
      (fun _ _ => []) (fun _ _ => []) :=
  ⟨fun j key => by simp [gradIn_touch], fun j key => by simp [OpBase.gradOut],
    by simp, by simp, rfl⟩

theorem Wired.touchOut (s : State) (op : OpId) (i : Nat) (first : String) :
    Wired op s (s.setOp op { s.ops op with
      grad_output_vars_ := modifyAt (fun m => m.touch first) i (s.ops op).grad_output_vars_ })
      (fun _ _ => []) (fun _ _ => []) :=
  ⟨fun j key => by simp [OpBase.gradIn], fun j key => by simp [gradOut_touch],
    by simp, by simp, rfl⟩

theorem gradHandle_congr {s s1 : State} (h : s1.vars = s.vars) (v : VarId) :
    gradHandle s1 v = gradHandle s v := by
  simp [gradHandle, h]

theorem resolveInput_congr {s s1 : State} (h : s1.vars = s.vars) (g : StrMap String)
    (vars : String → Option VarId) (n : String) :
    resolveInput s1 g vars n = resolveInput s g vars n := by
  simp [resolveInput, h, gradHandle]

theorem resolveOutput_congr {s s1 : State} (h : s1.vars = s.vars) (g : StrMap String)
    (vars : String → Option VarId) (n : String) :
    resolveOutput s1 g vars n = resolveOutput s g vars n := by
  simp [resolveOutput, h, gradHandle]

theorem LazyInit.refl_lazy (mapped : VarId → Prop) (dev_ctx : Option DeviceContext)
    (s : State) : LazyInit mapped dev_ctx s s :=
  ⟨rfl, fun _ => Or.inl rfl⟩

theorem LazyInit.of_store {mapped : VarId → Prop} {dev_ctx : Option DeviceContext}
    {s s1 : State} (hv : s1.vars = s.vars) (hs : s1.store = s.store) :
    LazyInit mapped dev_ctx s s1 :=
  ⟨hv, fun x => Or.inl (by rw [hs])⟩

theorem LazyInit.mono {mapped mapped1 : VarId → Prop} {dev_ctx : Option DeviceContext}
    {s s1 : State} (h : LazyInit mapped dev_ctx s s1) (hm : ∀ X, mapped X → mapped1 X) :
    LazyInit mapped1 dev_ctx s s1 := by
  refine ⟨h.vars, fun x => ?_⟩
  rcases h.store x with h1 | ⟨hu, X, xv, t, ctx, h2, h3, h4, h5, h6, h7⟩
  · exact Or.inl h1
  · exact Or.inr ⟨hu, X, xv, t, ctx, hm X h2, h3, h4, h5, h6, h7⟩

theorem LazyInit.initialized {mapped : VarId → Prop} {dev_ctx : Option DeviceContext}
    {s s1 : State} (h : LazyInit mapped dev_ctx s s1) {x : VariableId}
    (hx : (s.store x).IsInitialized = true) : s1.store x = s.store x := by
  rcases h.store x with h1 | ⟨hu, -⟩
  · exact h1
  · rw [hx] at hu
    cases hu

theorem LazyInit.stays {mapped : VarId → Prop} {dev_ctx : Option DeviceContext}
    {s s1 : State} (h : LazyInit mapped dev_ctx s s1) {x : VariableId}
    (hx : (s.store x).IsInitialized = true) : (s1.store x).IsInitialized = true := by
  rw [h.initialized hx]
  exact hx

theorem LazyInit.trans_lazy {mapped : VarId → Prop} {dev_ctx : Option DeviceContext}
    {s s1 s2 : State} (h1 : LazyInit mapped dev_ctx s s1) (h2 : LazyInit mapped dev_ctx s1 s2) :
    LazyInit mapped dev_ctx s s2 := by
  refine ⟨h2.vars.trans h1.vars, fun x => ?_⟩
  rcases h1.store x with e1 | ⟨hu, X, xv, t, ctx, m1, m2, m3, m4, m5, m6⟩
  · rcases h2.store x with e2 | ⟨hu, X, xv, t, ctx, m1, m2, m3, m4, m5, m6⟩
    · exact Or.inl (e2.trans e1)
    · refine Or.inr ⟨by rw [← e1]; exact hu, X, xv, t, ctx, m1, ?_, ?_, m4, m5, m6⟩
      · rw [← gradHandle_congr h1.vars]
        exact m2
      · rw [← h1.vars]
        exact m3
  · have hinit : (s1.store x).IsInitialized = true := by
      rw [m6]
      rfl
    have hxv : (s1.store xv).IsInitialized = true := by
      simp [Variable.IsInitialized, m4]
    refine Or.inr ⟨hu, X, xv, t, ctx, m1, m2, m3, ?_, m5, ?_⟩
    · rw [h2.initialized hxv]
      exact m4
    · rw [h2.initialized hinit]
      exact m6

theorem LazyInit.initVar {mapped : VarId → Prop} {dev_ctx : Option DeviceContext}
    {s s1 : State} {X : VarId} {gv : VariableId} (hv : s1.vars = s.vars) (hm : mapped X)
    (hg : gradHandle s X = some gv) (hu : (s.store gv).IsInitialized = false)
    (h : InitVar s.store (s.vars X).var_ (some gv) dev_ctx = .ok s1.store) :
    LazyInit mapped dev_ctx s s1 := by
  refine ⟨hv, fun x => ?_⟩
  unfold InitVar at h
  cases dev_ctx with
  | none => simp at h
  | some ctx =>
    cases hxv : (s.vars X).var_ with
    | none => simp [hxv] at h
    | some xv =>
      simp only [hxv] at h
      cases ht : (s.store xv).holder with
      | none => simp [ht] at h
      | some t =>
        simp only [ht] at h
        injection h with h1
        have hne : xv ≠ gv := by
          intro e
          rw [← e] at hu
          simp [Variable.IsInitialized, ht] at hu
        by_cases hx : x = gv
        · subst hx
          refine Or.inr ⟨hu, X, xv, t, ctx, hm, hg, hxv, ?_, rfl, ?_⟩
          · rw [← h1, Function.update_noteq hne]
            exact ht
          · rw [← h1]
            simp [zeroBuffer]
        · left
          rw [← h1, Function.update_noteq hx]

theorem gradVarOf_lazy (s : State) (vars : StrMap VarId) (fwd_name : String)
    (dev_ctx : Option DeviceContext) :
    LazyInit (fun X => vars.find fwd_name = some X) dev_ctx s
      (gradVarOf s vars fwd_name dev_ctx).state := by
  unfold gradVarOf
  cases hf : vars.find fwd_name with
  | none => exact LazyInit.refl_lazy _ _ _
  | some X =>
    simp only
    cases hgr : (s.vars X).grads_ with
    | none => exact LazyInit.refl_lazy _ _ _
    | some g =>
      simp only
      cases hgv : (s.vars g).var_ with
      | none => exact LazyInit.refl_lazy _ _ _
      | some gv =>
        simp only
        cases hin : (s.store gv).IsInitialized with
        | true => exact LazyInit.refl_lazy _ _ _
        | false =>
          simp only [Bool.not_false, if_true]
          cases hiv : InitVar s.store (s.vars X).var_ (some gv) dev_ctx with
          | error e => exact LazyInit.refl_lazy _ _ _
          | ok store =>
            exact LazyInit.initVar rfl rfl (by simp [gradHandle, hgr, hgv]) hin hiv

theorem gradVarOf_ok {s s1 : State} {vars : StrMap VarId} {fwd_name : String}
    {dev_ctx : Option DeviceContext} {gv : VariableId}
    (h : gradVarOf s vars fwd_name dev_ctx = ⟨s1, .ok gv⟩) :
    ∃ X, vars.find fwd_name = some X ∧ gradHandle s X = some gv ∧
      (s1.store gv).IsInitialized = true ∧ s1.ops = s.ops ∧ s1.vars = s.vars := by
  unfold gradVarOf at h
  cases hf : vars.find fwd_name with
  | none => simp [hf] at h
  | some X =>
    simp only [hf] at h
    cases hgr : (s.vars X).grads_ with
    | none => simp [hgr] at h
    | some g =>
      simp only [hgr] at h
      cases hgv : (s.vars g).var_ with
      | none => simp [hgv] at h
      | some gv1 =>
        simp only [hgv] at h
        cases hin : (s.store gv1).IsInitialized with
        | true =>
          simp only [hin, Bool.not_true, Bool.false_eq_true, if_false] at h
          injection h with h1 h2
          injection h2 with h3
          subst h1
          subst h3
          exact ⟨X, rfl, by simp [gradHandle, hgr, hgv], hin, rfl, rfl⟩
        | false =>
          simp only [hin, Bool.not_false, if_true] at h
          cases hiv : InitVar s.store (s.vars X).var_ (some gv1) dev_ctx with
          | error e => simp [hiv] at h
          | ok store =>
            simp only [hiv] at h
            injection h with h1 h2
            injection h2 with h3
            subst h1
            subst h3
            exact ⟨X, rfl, by simp [gradHandle, hgr, hgv], (InitVar_ok hiv).1, rfl, rfl⟩

/-! ## Lazy zero-initialisation through the loops of `Tracer::Trace` -/

theorem mappedNames_mono {g : StrMap String} {vars : String → Option VarId}
    {names names1 : List String}
    (h : ∀ n ∈ names, n ∈ names1) (X : VarId) (hm : mappedNames g vars names X) :
    mappedNames g vars names1 X := by
  obtain ⟨n, hn, fwd, h1, h2⟩ := hm
  exact ⟨n, h n hn, fwd, h1, h2⟩

theorem gradInputNames_lazy (env : Env) (op : OpId) (block : BlockId) (i : Nat)
    (first : String) (grad_to_var : StrMap String) (vars : StrMap VarId)
    (dev_ctx : Option DeviceContext) (names : List String) (s : State) (saved : List String) :
    LazyInit (mappedNames grad_to_var vars.find names) dev_ctx s
      (gradInputNames env op block i first grad_to_var vars dev_ctx names s saved).state := by
  induction names generalizing s saved with
  | nil => exact LazyInit.refl_lazy _ _ _
  | cons n t ih =>
    have htl : ∀ X, mappedNames grad_to_var vars.find t X → mappedNames grad_to_var vars.find (n :: t) X :=
      mappedNames_mono (fun m hm => List.mem_cons_of_mem _ hm)
    unfold gradInputNames
    simp only
    cases hf : grad_to_var.find n with
    | none =>
      simp only
      cases hv : vars.find n with
      | none => exact LazyInit.of_store rfl rfl
      | some fwd =>
        simp only
        have hp : LazyInit (mappedNames grad_to_var vars.find (n :: t)) dev_ctx s
            (pushGradInput (s.setBlock block (env.FindRecursiveOrCreateVar (s.blocks block) n))
              op i first
              ((s.setBlock block (env.FindRecursiveOrCreateVar (s.blocks block) n)).vars
                fwd).var_) := LazyInit.of_store rfl rfl
        exact hp.trans_lazy ((ih _ _).mono htl)
    | some fwd_name =>
      simp only
      have hg := gradVarOf_lazy
        (s.setBlock block (env.FindRecursiveOrCreateVar (s.blocks block) n)) vars fwd_name
        dev_ctx
      have hhd : ∀ X, vars.find fwd_name = some X → mappedNames grad_to_var vars.find (n :: t) X :=
        fun X hX => ⟨n, List.mem_cons_self _ _, fwd_name, hf, hX⟩
      generalize gradVarOf
        (s.setBlock block (env.FindRecursiveOrCreateVar (s.blocks block) n)) vars fwd_name
        dev_ctx = out at hg ⊢
      cases out with
      | mk s2 r2 =>
        simp only at hg
        have hb : LazyInit (mappedNames grad_to_var vars.find (n :: t)) dev_ctx s
            (s.setBlock block (env.FindRecursiveOrCreateVar (s.blocks block) n)) :=
          LazyInit.of_store rfl rfl
        have h2 : LazyInit (mappedNames grad_to_var vars.find (n :: t)) dev_ctx s s2 :=
          hb.trans_lazy (hg.mono hhd)
        cases r2 with
        | error e => exact h2
        | ok gv =>
          simp only
          have hp : LazyInit (mappedNames grad_to_var vars.find (n :: t)) dev_ctx s2
              (pushGradInput s2 op i first (some gv)) := LazyInit.of_store rfl rfl
          exact (h2.trans_lazy hp).trans_lazy ((ih _ _).mono htl)

theorem gradInputGroups_lazy (env : Env) (op : OpId) (block : BlockId) (i : Nat)
    (grad_to_var : StrMap String) (vars : StrMap VarId) (dev_ctx : Option DeviceContext)
    (groups : StrMap (List String)) (s : State) (saved : List String) :
    LazyInit (mappedNames grad_to_var vars.find (allNames groups)) dev_ctx s
      (gradInputGroups env op block i grad_to_var vars dev_ctx groups s saved).state := by
  induction groups generalizing s saved with
  | nil => exact LazyInit.refl_lazy _ _ _
  | cons e t ih =>
    obtain ⟨first, second⟩ := e
    have hhd : ∀ X, mappedNames grad_to_var vars.find second X →
        mappedNames grad_to_var vars.find (allNames ((first, second) :: t)) X :=
      mappedNames_mono (fun m hm => by simp [allNames, hm])
    have htl : ∀ X, mappedNames grad_to_var vars.find (allNames t) X →
        mappedNames grad_to_var vars.find (allNames ((first, second) :: t)) X :=
      mappedNames_mono (fun m hm => by
        simp only [allNames, List.map_cons, List.flatten_cons, List.mem_append]
        exact Or.inr hm)
    unfold gradInputGroups
    have h1 := gradInputNames_lazy env op block i first grad_to_var vars dev_ctx second
      (s.setOp op { s.ops op with
        grad_input_vars_ := modifyAt (fun m => m.touch first) i (s.ops op).grad_input_vars_ })
      saved
    generalize gradInputNames env op block i first grad_to_var vars dev_ctx second
      (s.setOp op { s.ops op with
        grad_input_vars_ := modifyAt (fun m => m.touch first) i (s.ops op).grad_input_vars_ })
      saved = out at h1 ⊢
    cases out with
    | mk s1 r1 =>
      simp only at h1
      have hb : LazyInit (mappedNames grad_to_var vars.find (allNames ((first, second) :: t)))
          dev_ctx s (s.setOp op { s.ops op with
            grad_input_vars_ :=
              modifyAt (fun m => m.touch first) i (s.ops op).grad_input_vars_ }) :=
        LazyInit.of_store rfl rfl
      have h2 : LazyInit (mappedNames grad_to_var vars.find (allNames ((first, second) :: t)))
          dev_ctx s s1 := hb.trans_lazy (h1.mono hhd)
      cases r1 with
      | error e => exact h2
      | ok saved1 => exact h2.trans_lazy ((ih _ _).mono htl)

theorem gradOutputNames_lazy (env : Env) (op : OpId) (block : BlockId) (i : Nat)
    (first : String) (grad_to_var : StrMap String) (vars : StrMap VarId)
    (dev_ctx : Option DeviceContext) (names : List String) (s : State) :
    LazyInit (mappedNames grad_to_var vars.find names) dev_ctx s
      (gradOutputNames env op block i first grad_to_var vars dev_ctx names s).state := by
  induction names generalizing s with
  | nil => exact LazyInit.refl_lazy _ _ _
  | cons n t ih =>
    have htl : ∀ X, mappedNames grad_to_var vars.find t X → mappedNames grad_to_var vars.find (n :: t) X :=
      mappedNames_mono (fun m hm => List.mem_cons_of_mem _ hm)
    unfold gradOutputNames
    simp only
    cases hf : grad_to_var.find n with
    | none => exact LazyInit.of_store rfl rfl
    | some fwd_name =>
      simp only
      have hg := gradVarOf_lazy
        (s.setBlock block (env.FindRecursiveOrCreateVar (s.blocks block) n)) vars fwd_name
        dev_ctx
      have hhd : ∀ X, vars.find fwd_name = some X → mappedNames grad_to_var vars.find (n :: t) X :=
        fun X hX => ⟨n, List.mem_cons_self _ _, fwd_name, hf, hX⟩
      generalize gradVarOf
        (s.setBlock block (env.FindRecursiveOrCreateVar (s.blocks block) n)) vars fwd_name
        dev_ctx = out at hg ⊢
      cases out with
      | mk s2 r2 =>
        simp only at hg
        have hb : LazyInit (mappedNames grad_to_var vars.find (n :: t)) dev_ctx s
            (s.setBlock block (env.FindRecursiveOrCreateVar (s.blocks block) n)) :=
          LazyInit.of_store rfl rfl
        have h2 : LazyInit (mappedNames grad_to_var vars.find (n :: t)) dev_ctx s s2 :=
          hb.trans_lazy (hg.mono hhd)
        cases r2 with
        | error e => exact h2
        | ok gv =>
          simp only
          have hp : LazyInit (mappedNames grad_to_var vars.find (n :: t)) dev_ctx s2
              (pushGradOutput s2 op i first (some gv)) := LazyInit.of_store rfl rfl
          exact (h2.trans_lazy hp).trans_lazy ((ih _).mono htl)

theorem gradOutputGroups_lazy (env : Env) (op : OpId) (block : BlockId) (i : Nat)
    (grad_to_var : StrMap String) (vars : StrMap VarId) (dev_ctx : Option DeviceContext)
    (groups : StrMap (List String)) (s : State) :
    LazyInit (mappedNames grad_to_var vars.find (allNames groups)) dev_ctx s
      (gradOutputGroups env op block i grad_to_var vars dev_ctx groups s).state := by
  induction groups generalizing s with
  | nil => exact LazyInit.refl_lazy _ _ _
  | cons e t ih =>
    obtain ⟨first, second⟩ := e
    have hhd : ∀ X, mappedNames grad_to_var vars.find second X →
        mappedNames grad_to_var vars.find (allNames ((first, second) :: t)) X :=
      mappedNames_mono (fun m hm => by simp [allNames, hm])
    have htl : ∀ X, mappedNames grad_to_var vars.find (allNames t) X →
        mappedNames grad_to_var vars.find (allNames ((first, second) :: t)) X :=
      mappedNames_mono (fun m hm => by
        simp only [allNames, List.map_cons, List.flatten_cons, List.mem_append]
        exact Or.inr hm)
    unfold gradOutputGroups
    have h1 := gradOutputNames_lazy env op block i first grad_to_var vars dev_ctx second
      (s.setOp op { s.ops op with
        grad_output_vars_ :=
          modifyAt (fun m => m.touch first) i (s.ops op).grad_output_vars_ })
    generalize gradOutputNames env op block i first grad_to_var vars dev_ctx second
      (s.setOp op { s.ops op with
        grad_output_vars_ :=
          modifyAt (fun m => m.touch first) i (s.ops op).grad_output_vars_ }) = out at h1 ⊢
    cases out with
    | mk s1 r1 =>
      simp only at h1
      have hb : LazyInit (mappedNames grad_to_var vars.find (allNames ((first, second) :: t)))
          dev_ctx s (s.setOp op { s.ops op with
            grad_output_vars_ :=
              modifyAt (fun m => m.touch first) i (s.ops op).grad_output_vars_ }) :=
        LazyInit.of_store rfl rfl
      have h2 : LazyInit (mappedNames grad_to_var vars.find (allNames ((first, second) :: t)))
          dev_ctx s s1 := hb.trans_lazy (h1.mono hhd)
      cases r1 with
      | error e => exact h2
      | ok u => exact h2.trans_lazy ((ih _).mono htl)

theorem gradOpDescs_lazy (env : Env) (op : OpId) (block : BlockId)
    (grad_to_var : StrMap String) (vars : StrMap VarId) (dev_ctx : Option DeviceContext)
    (i : Nat) (descs : List OpDesc) (s : State) (saved : List String) :
    LazyInit (mappedNames grad_to_var vars.find (descNames descs)) dev_ctx s
      (gradOpDescs env op block grad_to_var vars dev_ctx i descs s saved).state := by
  induction descs generalizing s saved i with
  | nil => exact LazyInit.refl_lazy _ _ _
  | cons d t ih =>
    have hin : ∀ X, mappedNames grad_to_var vars.find (allNames d.inputs) X →
        mappedNames grad_to_var vars.find (descNames (d :: t)) X :=
      mappedNames_mono (fun m hm => by simp [descNames, hm])
    have hout : ∀ X, mappedNames grad_to_var vars.find (allNames d.outputs) X →
        mappedNames grad_to_var vars.find (descNames (d :: t)) X :=
      mappedNames_mono (fun m hm => by simp [descNames, hm])
    have htl : ∀ X, mappedNames grad_to_var vars.find (descNames t) X →
        mappedNames grad_to_var vars.find (descNames (d :: t)) X :=
      mappedNames_mono (fun m hm => by
        simp only [descNames, List.map_cons, List.flatten_cons, List.mem_append]
        exact Or.inr hm)
    unfold gradOpDescs
    have h1 := gradInputGroups_lazy env op block i grad_to_var vars dev_ctx d.inputs s saved
    generalize gradInputGroups env op block i grad_to_var vars dev_ctx d.inputs s saved
      = out at h1 ⊢
    cases out with
    | mk s1 r1 =>
      cases r1 with
      | error e => exact h1.mono hin
      | ok saved1 =>
        simp only
        have h2 := gradOutputGroups_lazy env op block i grad_to_var vars dev_ctx d.outputs s1
        generalize gradOutputGroups env op block i grad_to_var vars dev_ctx d.outputs s1
          = out2 at h2 ⊢
        cases out2 with
        | mk s2 r2 =>
          have h3 := (h1.mono hin).trans_lazy (h2.mono hout)
          cases r2 with
          | error e => exact h3
          | ok u => exact h3.trans_lazy ((ih _ _ _).mono htl)

theorem traceGrad_lazy (env : Env) (op : OpId) (block : BlockId) (vars : StrMap VarId)
    (dev_ctx : Option DeviceContext) (s : State) :
    LazyInit (mappedNames (env.GradOpMaker (s.ops op).op_desc_).2 vars.find
        (descNames (env.GradOpMaker (s.ops op).op_desc_).1)) dev_ctx s
      (traceGrad env op block vars dev_ctx s).state := by
  unfold traceGrad CreateGradOp
  by_cases he : (s.ops op).grad_op_descs_.isEmpty = true
  · simp only [he, if_true]
    have hnil : (s.ops op).grad_op_descs_ = [] := List.isEmpty_iff.1 he
    rw [hnil, List.nil_append]
    refine LazyInit.trans_lazy ?_ (gradOpDescs_lazy _ _ _ _ _ _ _ _ _ _)
    exact LazyInit.of_store rfl rfl
  · simp only [he]
    exact LazyInit.refl_lazy _ _ _

/-! ## What a successful gradient wiring of `Tracer::Trace` establishes -/

theorem inputsResolve_lift {mapped : VarId → Prop} {dev_ctx : Option DeviceContext}
    {s s1 : State} (hl : LazyInit mapped dev_ctx s s1) {g : StrMap String}
    {find : String → Option VarId} {names : List String} (h : inputsResolve s g find names) :
    inputsResolve s1 g find names := by
  intro n hn
  obtain ⟨h1, h2⟩ := h n hn
  refine ⟨h1, fun fwd hf => ?_⟩
  obtain ⟨X, gv, a, b, c⟩ := h2 fwd hf
  exact ⟨X, gv, a, by rw [gradHandle_congr hl.vars]; exact b, hl.stays c⟩

theorem outputsResolve_lift {mapped : VarId → Prop} {dev_ctx : Option DeviceContext}
    {s s1 : State} (hl : LazyInit mapped dev_ctx s s1) {g : StrMap String}
    {find : String → Option VarId} {names : List String} (h : outputsResolve s g find names) :
    outputsResolve s1 g find names := by
  intro n hn
  obtain ⟨fwd, X, gv, a0, a, b, c⟩ := h n hn
  exact ⟨fwd, X, gv, a0, a, by rw [gradHandle_congr hl.vars]; exact b, hl.stays c⟩

theorem inputsResolve_append {s : State} {g : StrMap String} {find : String → Option VarId}
    {a b : List String} (ha : inputsResolve s g find a) (hb : inputsResolve s g find b) :
    inputsResolve s g find (a ++ b) := by
  intro n hn
  rcases List.mem_append.1 hn with h | h
  · exact ha n h
  · exact hb n h

theorem outputsResolve_append {s : State} {g : StrMap String} {find : String → Option VarId}
    {a b : List String} (ha : outputsResolve s g find a) (hb : outputsResolve s g find b) :
    outputsResolve s g find (a ++ b) := by
  intro n hn
  rcases List.mem_append.1 hn with h | h
  · exact ha n h
  · exact hb n h

theorem gradInputNames_wired (env : Env) (op : OpId) (block : BlockId) (i : Nat)
    (first : String) (grad_to_var : StrMap String) (vars : StrMap VarId)
    (dev_ctx : Option DeviceContext) (names : List String) (s s1 : State)
    (saved r : List String) (hi : i < (s.ops op).grad_input_vars_.length)
    (h : gradInputNames env op block i first grad_to_var vars dev_ctx names s saved
      = ⟨s1, .ok r⟩) :
    Wired op s s1
      (fun j key => if j = i ∧ key = first
        then names.map (resolveInput s grad_to_var vars.find) else [])
      (fun _ _ => []) ∧
    inputsResolve s1 grad_to_var vars.find names := by
  induction names generalizing s saved with
  | nil =>
    simp only [gradInputNames] at h
    injection h with h1 h2
    subst h1
    refine ⟨(Wired.refl_wired op s).congr_wired (fun j key => by simp) (fun _ _ => rfl), ?_⟩
    intro n hn
    cases hn
  | cons n t ih =>
    unfold gradInputNames at h
    simp only at h
    have hb : Wired op s (s.setBlock block (env.FindRecursiveOrCreateVar (s.blocks block) n))
        (fun _ _ => []) (fun _ _ => []) := Wired.of_ops rfl rfl
    cases hf : grad_to_var.find n with
    | none =>
      simp only [hf] at h
      cases hv : vars.find n with
      | none => simp [hv] at h
      | some fwd =>
        simp only [hv] at h
        have hp := Wired.pushIn
          (s.setBlock block (env.FindRecursiveOrCreateVar (s.blocks block) n)) op i first
          (s.vars fwd).var_ hi
        obtain ⟨hw, hr⟩ := ih _ _ (by simpa [pushGradInput] using hi) h
        have e : resolveInput (pushGradInput
            (s.setBlock block (env.FindRecursiveOrCreateVar (s.blocks block) n)) op i first
            (s.vars fwd).var_) grad_to_var vars.find = resolveInput s grad_to_var vars.find :=
          funext (resolveInput_congr rfl grad_to_var vars.find)
        constructor
        · refine ((hb.trans_wired hp).trans_wired hw).congr_wired (fun j key => ?_)
            (fun j key => by simp)
          have e1 : ((pushGradInput
              (s.setBlock block (env.FindRecursiveOrCreateVar (s.blocks block) n)) op i first
              (s.vars fwd).var_).setBlock block
                (env.FindRecursiveOrCreateVar (s.blocks block) n)).vars = s.vars := rfl
          simp only [State.setBlock, pushGradInput, State.setOp_vars] at e ⊢
          rw [e]
          by_cases c : j = i ∧ key = first
          · simp [c, resolveInput, hf, hv]
          · simp [c]
        · intro m hm
          rcases List.mem_cons.1 hm with h1 | h1
          · subst h1
            exact ⟨fun _ => ⟨fwd, hv⟩, fun fwd1 h2 => by rw [hf] at h2; cases h2⟩
          · exact hr m h1
    | some fwd_name =>
      simp only [hf] at h
      cases hg : gradVarOf
          (s.setBlock block (env.FindRecursiveOrCreateVar (s.blocks block) n)) vars fwd_name
          dev_ctx with
      | mk s2 r2 =>
        rw [hg] at h
        cases r2 with
        | error e => simp at h
        | ok gv =>
          simp only at h
          obtain ⟨X, hX, hgh, hinit, hops, hvars⟩ := gradVarOf_ok hg
          have hs2 : Wired op
              (s.setBlock block (env.FindRecursiveOrCreateVar (s.blocks block) n)) s2
              (fun _ _ => []) (fun _ _ => []) := Wired.of_ops (congrFun hops op) hvars
          have hi2 : i < (s2.ops op).grad_input_vars_.length := by
            rw [hops]
            exact hi
          have hp := Wired.pushIn s2 op i first (some gv) hi2
          obtain ⟨hw, hr⟩ := ih _ _ (by simpa [pushGradInput] using hi2) h
          have hl := gradInputNames_lazy env op block i first grad_to_var vars dev_ctx t
            (pushGradInput s2 op i first (some gv)) saved
          rw [h] at hl
          have e : resolveInput (pushGradInput s2 op i first (some gv)) grad_to_var vars.find
              = resolveInput s grad_to_var vars.find :=
            funext (resolveInput_congr hvars grad_to_var vars.find)
          constructor
          · refine (((hb.trans_wired hs2).trans_wired hp).trans_wired hw).congr_wired
              (fun j key => ?_) (fun j key => by simp)
            rw [e]
            have hgs : gradHandle s X = some gv := hgh
            by_cases c : j = i ∧ key = first
            · simp [c, resolveInput, hf, hX, hgs]
            · simp [c]
          · intro m hm
            rcases List.mem_cons.1 hm with h1 | h1
            · subst h1
              refine ⟨fun h2 => (by rw [hf] at h2; cases h2), fun fwd1 h2 => ?_⟩
              rw [hf] at h2
              injection h2 with h3
              subst h3
              refine ⟨X, gv, hX, ?_, hl.stays hinit⟩
              have hv1 : s1.vars = s.vars := hl.vars.trans hvars
              rw [gradHandle_congr hv1]
              exact hgh
            · exact hr m h1

theorem gradOutputNames_wired (env : Env) (op : OpId) (block : BlockId) (i : Nat)
    (first : String) (grad_to_var : StrMap String) (vars : StrMap VarId)
    (dev_ctx : Option DeviceContext) (names : List String) (s s1 : State) (r : Unit)
    (hi : i < (s.ops op).grad_output_vars_.length)
    (h : gradOutputNames env op block i first grad_to_var vars dev_ctx names s
      = ⟨s1, .ok r⟩) :
    Wired op s s1 (fun _ _ => [])
      (fun j key => if j = i ∧ key = first
        then names.map (resolveOutput s grad_to_var vars.find) else []) ∧
    outputsResolve s1 grad_to_var vars.find names := by
  induction names generalizing s with
  | nil =>
    simp only [gradOutputNames] at h
    injection h with h1 h2
    subst h1
    refine ⟨(Wired.refl_wired op s).congr_wired (fun _ _ => rfl) (fun j key => by simp), ?_⟩
    intro n hn
    cases hn
  | cons n t ih =>
    unfold gradOutputNames at h
    simp only at h
    have hb : Wired op s (s.setBlock block (env.FindRecursiveOrCreateVar (s.blocks block) n))
        (fun _ _ => []) (fun _ _ => []) := Wired.of_ops rfl rfl
    cases hf : grad_to_var.find n with
    | none => simp [hf] at h
    | some fwd_name =>
      simp only [hf] at h
      cases hg : gradVarOf
          (s.setBlock block (env.FindRecursiveOrCreateVar (s.blocks block) n)) vars fwd_name
          dev_ctx with
      | mk s2 r2 =>
        rw [hg] at h
        cases r2 with
        | error e => simp at h
        | ok gv =>
          simp only at h
          obtain ⟨X, hX, hgh, hinit, hops, hvars⟩ := gradVarOf_ok hg
          have hs2 : Wired op
              (s.setBlock block (env.FindRecursiveOrCreateVar (s.blocks block) n)) s2
              (fun _ _ => []) (fun _ _ => []) := Wired.of_ops (congrFun hops op) hvars
          have hi2 : i < (s2.ops op).grad_output_vars_.length := by
            rw [hops]
            exact hi
          have hp := Wired.pushOut s2 op i first (some gv) hi2
          obtain ⟨hw, hr⟩ := ih _ (by simpa [pushGradOutput] using hi2) h
          have hl := gradOutputNames_lazy env op block i first grad_to_var vars dev_ctx t
            (pushGradOutput s2 op i first (some gv))
          rw [h] at hl
          have e : resolveOutput (pushGradOutput s2 op i first (some gv)) grad_to_var vars.find
              = resolveOutput s grad_to_var vars.find :=
            funext (resolveOutput_congr hvars grad_to_var vars.find)
          constructor
          · refine (((hb.trans_wired hs2).trans_wired hp).trans_wired hw).congr_wired
              (fun j key => by simp) (fun j key => ?_)
            rw [e]
            have hgs : gradHandle s X = some gv := hgh
            by_cases c : j = i ∧ key = first
            · simp [c, resolveOutput, hf, hX, hgs]
            · simp [c]
          · intro m hm
            rcases List.mem_cons.1 hm with h1 | h1
            · subst h1
              refine ⟨fwd_name, X, gv, hf, hX, ?_, hl.stays hinit⟩
              have hv1 : s1.vars = s.vars := hl.vars.trans hvars
              rw [gradHandle_congr hv1]
              exact hgh
            · exact hr m h1

theorem gradInputGroups_wired (env : Env) (op : OpId) (block : BlockId) (i : Nat)
    (grad_to_var : StrMap String) (vars : StrMap VarId) (dev_ctx : Option DeviceContext)
    (groups : StrMap (List String)) (s s1 : State) (saved r : List String)
    (hi : i < (s.ops op).grad_input_vars_.length)
    (h : gradInputGroups env op block i grad_to_var vars dev_ctx groups s saved
      = ⟨s1, .ok r⟩) :
    Wired op s s1
      (fun j key => if j = i
        then (namesUnder groups key).map (resolveInput s grad_to_var vars.find) else [])
      (fun _ _ => []) ∧
    inputsResolve s1 grad_to_var vars.find (allNames groups) := by
  induction groups generalizing s saved with
  | nil =>
    simp only [gradInputGroups] at h
    injection h with h1 h2
    subst h1
    refine ⟨(Wired.refl_wired op s).congr_wired (fun j key => by simp [namesUnder])
      (fun _ _ => rfl), ?_⟩
    intro n hn
    cases hn
  | cons e t ih =>
    obtain ⟨first, second⟩ := e
    unfold gradInputGroups at h
    have ht := Wired.touchIn s op i first
    cases hn : gradInputNames env op block i first grad_to_var vars dev_ctx second
        (s.setOp op { s.ops op with
          grad_input_vars_ := modifyAt (fun m => m.touch first) i (s.ops op).grad_input_vars_ })
        saved with
    | mk s2 r2 =>
      rw [hn] at h
      cases r2 with
      | error e => simp at h
      | ok saved1 =>
        simp only at h
        obtain ⟨hw1, hr1⟩ := gradInputNames_wired env op block i first grad_to_var vars
          dev_ctx second _ s2 saved saved1 (by simpa using hi) hn
        have hi2 : i < (s2.ops op).grad_input_vars_.length := by
          rw [hw1.lengthIn]
          simpa using hi
        obtain ⟨hw2, hr2⟩ := ih s2 saved1 hi2 h
        have hl := gradInputGroups_lazy env op block i grad_to_var vars dev_ctx t s2 saved1
        rw [h] at hl
        have e : resolveInput s2 grad_to_var vars.find = resolveInput s grad_to_var vars.find :=
          funext (resolveInput_congr hw1.vars grad_to_var vars.find)
        constructor
        · refine ((ht.trans_wired hw1).trans_wired hw2).congr_wired (fun j key => ?_)
            (fun j key => by simp)
          rw [e]
          have e0 : resolveInput (s.setOp op { s.ops op with
              grad_input_vars_ :=
                modifyAt (fun m => m.touch first) i (s.ops op).grad_input_vars_ })
              grad_to_var vars.find = resolveInput s grad_to_var vars.find :=
            funext (resolveInput_congr rfl grad_to_var vars.find)
          rw [e0]
          by_cases hj : j = i
          · by_cases hk : first = key
            · subst hk
              simp [hj, namesUnder]
            · have hk1 : ¬ key = first := fun c => hk c.symm
              simp [hj, namesUnder, hk, hk1]
          · simp [hj]
        · have : allNames ((first, second) :: t) = second ++ allNames t := by
            simp [allNames]
          rw [this]
          exact inputsResolve_append (inputsResolve_lift hl hr1) hr2

theorem gradOutputGroups_wired (env : Env) (op : OpId) (block : BlockId) (i : Nat)
    (grad_to_var : StrMap String) (vars : StrMap VarId) (dev_ctx : Option DeviceContext)
    (groups : StrMap (List String)) (s s1 : State) (r : Unit)
    (hi : i < (s.ops op).grad_output_vars_.length)
    (h : gradOutputGroups env op block i grad_to_var vars dev_ctx groups s = ⟨s1, .ok r⟩) :
    Wired op s s1 (fun _ _ => [])
      (fun j key => if j = i
        then (namesUnder groups key).map (resolveOutput s grad_to_var vars.find) else []) ∧
    outputsResolve s1 grad_to_var vars.find (allNames groups) := by
  induction groups generalizing s with
  | nil =>
    simp only [gradOutputGroups] at h
    injection h with h1 h2
    subst h1
    refine ⟨(Wired.refl_wired op s).congr_wired (fun _ _ => rfl)
      (fun j key => by simp [namesUnder]), ?_⟩
    intro n hn
    cases hn
  | cons e t ih =>
    obtain ⟨first, second⟩ := e
    unfold gradOutputGroups at h
    have ht := Wired.touchOut s op i first
    cases hn : gradOutputNames env op block i first grad_to_var vars dev_ctx second
        (s.setOp op { s.ops op with
          grad_output_vars_ :=
            modifyAt (fun m => m.touch first) i (s.ops op).grad_output_vars_ }) with
    | mk s2 r2 =>
      rw [hn] at h
      cases r2 with
      | error e => simp at h
      | ok u =>
        simp only at h
        obtain ⟨hw1, hr1⟩ := gradOutputNames_wired env op block i first grad_to_var vars
          dev_ctx second _ s2 u (by simpa using hi) hn
        have hi2 : i < (s2.ops op).grad_output_vars_.length := by
          rw [hw1.lengthOut]
          simpa using hi
        obtain ⟨hw2, hr2⟩ := ih s2 hi2 h
        have hl := gradOutputGroups_lazy env op block i grad_to_var vars dev_ctx t s2
        rw [h] at hl
        have e : resolveOutput s2 grad_to_var vars.find
            = resolveOutput s grad_to_var vars.find :=
          funext (resolveOutput_congr hw1.vars grad_to_var vars.find)
        constructor
        · refine ((ht.trans_wired hw1).trans_wired hw2).congr_wired (fun j key => by simp)
            (fun j key => ?_)
          rw [e]
          have e0 : resolveOutput (s.setOp op { s.ops op with
              grad_output_vars_ :=
                modifyAt (fun m => m.touch first) i (s.ops op).grad_output_vars_ })
              grad_to_var vars.find = resolveOutput s grad_to_var vars.find :=
            funext (resolveOutput_congr rfl grad_to_var vars.find)
          rw [e0]
          by_cases hj : j = i
          · by_cases hk : first = key
            · subst hk
              simp [hj, namesUnder]
            · have hk1 : ¬ key = first := fun c => hk c.symm
              simp [hj, namesUnder, hk, hk1]
          · simp [hj]
        · have : allNames ((first, second) :: t) = second ++ allNames t := by
            simp [allNames]
          rw [this]
          exact outputsResolve_append (outputsResolve_lift hl hr1) hr2


theorem wiredInputs_congr {s s1 : State} (h : s1.vars = s.vars) (g : StrMap String)
    (find : String → Option VarId) (descs : List OpDesc) (j : Nat) (key : String) :
    wiredInputs s1 g find descs j key = wiredInputs s g find descs j key := by
  have e : resolveInput s1 g find = resolveInput s g find :=
    funext (resolveInput_congr h g find)
  simp [wiredInputs, e]

theorem wiredOutputs_congr {s s1 : State} (h : s1.vars = s.vars) (g : StrMap String)
    (find : String → Option VarId) (descs : List OpDesc) (j : Nat) (key : String) :
    wiredOutputs s1 g find descs j key = wiredOutputs s g find descs j key := by
  have e : resolveOutput s1 g find = resolveOutput s g find :=
    funext (resolveOutput_congr h g find)
  simp [wiredOutputs, e]

theorem gradOpDescs_wired (env : Env) (op : OpId) (block : BlockId)
    (grad_to_var : StrMap String) (vars : StrMap VarId) (dev_ctx : Option DeviceContext)
    (i : Nat) (descs : List OpDesc) (s s1 : State) (saved r : List String)
    (hi : i + descs.length ≤ (s.ops op).grad_input_vars_.length)
    (ho : i + descs.length ≤ (s.ops op).grad_output_vars_.length)
    (h : gradOpDescs env op block grad_to_var vars dev_ctx i descs s saved = ⟨s1, .ok r⟩) :
    Wired op s s1
      (fun j key => if i ≤ j then wiredInputs s grad_to_var vars.find descs (j - i) key else [])
      (fun j key =>
        if i ≤ j then wiredOutputs s grad_to_var vars.find descs (j - i) key else []) ∧
    ∀ d ∈ descs, inputsResolve s1 grad_to_var vars.find (allNames d.inputs) ∧
      outputsResolve s1 grad_to_var vars.find (allNames d.outputs) := by
  induction descs generalizing s saved i with
  | nil =>
    simp only [gradOpDescs] at h
    injection h with h1 h2
    subst h1
    refine ⟨(Wired.refl_wired op s).congr_wired (fun j key => by simp [wiredInputs])
      (fun j key => by simp [wiredOutputs]), ?_⟩
    intro d hd
    cases hd
  | cons d t ih =>
    unfold gradOpDescs at h
    simp only [List.length_cons] at hi ho
    cases hin : gradInputGroups env op block i grad_to_var vars dev_ctx d.inputs s saved with
    | mk sa ra =>
      rw [hin] at h
      cases ra with
      | error e => simp at h
      | ok saved1 =>
        simp only at h
        cases hout : gradOutputGroups env op block i grad_to_var vars dev_ctx d.outputs sa with
        | mk sb rb =>
          rw [hout] at h
          cases rb with
          | error e => simp at h
          | ok u =>
            simp only at h
            obtain ⟨hw1, hr1⟩ := gradInputGroups_wired env op block i grad_to_var vars dev_ctx
              d.inputs s sa saved saved1 (by omega) hin
            obtain ⟨hw2, hr2⟩ := gradOutputGroups_wired env op block i grad_to_var vars
              dev_ctx d.outputs sa sb u (by rw [hw1.lengthOut]; omega) hout
            obtain ⟨hw3, hr3⟩ := ih (i + 1) sb saved1
              (by rw [hw2.lengthIn, hw1.lengthIn]; omega)
              (by rw [hw2.lengthOut, hw1.lengthOut]; omega) h
            have hl2 := gradOutputGroups_lazy env op block i grad_to_var vars dev_ctx
              d.outputs sa
            rw [hout] at hl2
            have hl3 := gradOpDescs_lazy env op block grad_to_var vars dev_ctx (i + 1) t sb
              saved1
            rw [h] at hl3
            simp only at hl2 hl3
            have hvb : sb.vars = s.vars := hw2.vars.trans hw1.vars
            constructor
            · refine ((hw1.trans_wired hw2).trans_wired hw3).congr_wired (fun j key => ?_)
                (fun j key => ?_)
              · rw [wiredInputs_congr hvb]
                rcases Nat.lt_trichotomy j i with hlt | heq | hgt
                · have h1 : ¬ j = i := by omega
                  have h2 : ¬ i + 1 ≤ j := by omega
                  have h3 : ¬ i ≤ j := by omega
                  simp [h1, h2, h3]
                · subst heq
                  simp [wiredInputs]
                · have h1 : ¬ j = i := by omega
                  have h2 : i + 1 ≤ j := by omega
                  have h3 : i ≤ j := by omega
                  have h4 : j - i = (j - (i + 1)) + 1 := by omega
                  simp [h1, h2, h3, wiredInputs, h4]
              · have e : resolveOutput sa grad_to_var vars.find
                    = resolveOutput s grad_to_var vars.find :=
                  funext (resolveOutput_congr hw1.vars grad_to_var vars.find)
                rw [wiredOutputs_congr hvb, e]
                rcases Nat.lt_trichotomy j i with hlt | heq | hgt
                · have h1 : ¬ j = i := by omega
                  have h2 : ¬ i + 1 ≤ j := by omega
                  have h3 : ¬ i ≤ j := by omega
                  simp [h1, h2, h3]
                · subst heq
                  simp [wiredOutputs]
                · have h1 : ¬ j = i := by omega
                  have h2 : i + 1 ≤ j := by omega
                  have h3 : i ≤ j := by omega
                  have h4 : j - i = (j - (i + 1)) + 1 := by omega
                  simp [h1, h2, h3, wiredOutputs, h4]
            · intro d1 hd1
              rcases List.mem_cons.1 hd1 with e | e
              · subst e
                exact ⟨inputsResolve_lift hl3 (inputsResolve_lift hl2 hr1),
                  outputsResolve_lift hl3 hr2⟩
              · exact hr3 d1 e

theorem at_resize_nil (n j : Nat) (key : String) :
    ((resize ([] : List VariableValueMap) n [])[j]?.getD []).at key = [] := by
  simp only [resize, List.take_nil, List.nil_append, List.length_nil, Nat.sub_zero]
  by_cases hj : j < n
  · rw [List.getElem?_eq_getElem (by simpa using hj)]
    simp [StrMap.at, StrMap.find]
  · rw [List.getElem?_eq_none (by simpa using hj)]
    simp [StrMap.at, StrMap.find]

theorem traceGrad_wired (env : Env) (op : OpId) (block : BlockId) (vars : StrMap VarId)
    (dev_ctx : Option DeviceContext) (s s1 : State) (r : List String)
    (h : traceGrad env op block vars dev_ctx s = ⟨s1, .ok r⟩) :
    (s.ops op).grad_op_descs_ = [] ∧
    (∀ j key, (s1.ops op).gradIn j key
      = ((resize (s.ops op).grad_input_vars_
          (env.GradOpMaker (s.ops op).op_desc_).1.length [])[j]?.getD []).at key
        ++ wiredInputs s (env.GradOpMaker (s.ops op).op_desc_).2 vars.find
          (env.GradOpMaker (s.ops op).op_desc_).1 j key) ∧
    (∀ j key, (s1.ops op).gradOut j key
      = ((resize (s.ops op).grad_output_vars_
          (env.GradOpMaker (s.ops op).op_desc_).1.length [])[j]?.getD []).at key
        ++ wiredOutputs s (env.GradOpMaker (s.ops op).op_desc_).2 vars.find
          (env.GradOpMaker (s.ops op).op_desc_).1 j key) ∧
    s1.vars = s.vars ∧
    ∀ d ∈ (env.GradOpMaker (s.ops op).op_desc_).1,
      inputsResolve s1 (env.GradOpMaker (s.ops op).op_desc_).2 vars.find (allNames d.inputs) ∧
      outputsResolve s1 (env.GradOpMaker (s.ops op).op_desc_).2 vars.find
        (allNames d.outputs) := by
  unfold traceGrad CreateGradOp at h
  by_cases he : (s.ops op).grad_op_descs_.isEmpty = true
  · simp only [he, if_true] at h
    have hnil : (s.ops op).grad_op_descs_ = [] := List.isEmpty_iff.1 he
    rw [hnil, List.nil_append] at h
    obtain ⟨hw, hr⟩ := gradOpDescs_wired env op block _ vars dev_ctx 0 _ _ s1 [] r
      (by simp) (by simp) h
    refine ⟨hnil, fun j key => ?_, fun j key => ?_, hw.vars, hr⟩
    · rw [hw.gradIn]
      simp only [Nat.zero_le, if_true, Nat.sub_zero, State.setOp_ops_self, OpBase.gradIn]
      rw [wiredInputs_congr]
      rfl
    · rw [hw.gradOut]
      simp only [Nat.zero_le, if_true, Nat.sub_zero, State.setOp_ops_self, OpBase.gradOut]
      rw [wiredOutputs_congr]
      rfl
  · simp [he] at h

/-! ## Where the two failures of gradient wiring can come from -/

theorem InitVar_isWiring (store : VariableId → Variable) (var grad_var : Option VariableId)
    (dev_ctx : Option DeviceContext) :
    (InitVar store var grad_var dev_ctx).isWiring = false := by
  unfold InitVar
  cases dev_ctx with
  | none => rfl
  | some ctx =>
    cases var with
    | none => rfl
    | some v =>
      simp only
      cases (store v).holder with
      | none => rfl
      | some t =>
        cases grad_var with
        | none => rfl
        | some g => rfl

theorem gradVarOf_isWiring (s : State) (vars : StrMap VarId) (fwd_name : String)
    (dev_ctx : Option DeviceContext) :
    (gradVarOf s vars fwd_name dev_ctx).result.isWiring = false := by
  unfold gradVarOf
  cases vars.find fwd_name with
  | none => rfl
  | some X =>
    simp only
    cases (s.vars X).grads_ with
    | none => rfl
    | some g =>
      simp only
      cases (s.vars g).var_ with
      | none => rfl
      | some gv =>
        simp only
        cases (s.store gv).IsInitialized with
        | true => rfl
        | false =>
          simp only [Bool.not_false, if_true]
          have h := InitVar_isWiring s.store (s.vars X).var_ (some gv) dev_ctx
          cases hiv : InitVar s.store (s.vars X).var_ (some gv) dev_ctx with
          | error e =>
            rw [hiv] at h
            exact h
          | ok store => rfl

theorem traceInputs_isWiring (op : OpId) (first : String) (vs : List VarId)
    (s : State) (l : Locals) :
    (traceInputs op first vs s l).result.isWiring = false := by
  induction vs generalizing s l with
  | nil => rfl
  | cons v t ih =>
    unfold traceInputs
    split
    · rfl
    · exact ih _ _

theorem traceInputGroups_isWiring (op : OpId) (groups : VarBasePtrMap) (s : State)
    (l : Locals) : (traceInputGroups op groups s l).result.isWiring = false := by
  induction groups generalizing s l with
  | nil => rfl
  | cons e t ih =>
    obtain ⟨first, second⟩ := e
    unfold traceInputGroups
    have h1 := traceInputs_isWiring op first second s
      { l with invars_map := l.invars_map.touch first }
    split
    · rename_i heq
      rw [heq] at h1
      exact h1
    · exact ih _ _

theorem traceOutputs_isWiring (op : OpId) (first : String) (block : BlockId) (g : Bool)
    (i : Nat) (vs : List VarId) (s : State) (l : Locals) :
    (traceOutputs op first block g i vs s l).result.isWiring = false := by
  induction vs generalizing s l i with
  | nil => rfl
  | cons v t ih =>
    unfold traceOutputs
    simp only
    split
    · rfl
    · split
      · split
        · rfl
        · exact ih _ _ _
      · exact ih _ _ _

theorem traceOutputGroups_isWiring (op : OpId) (block : BlockId) (g : Bool)
    (groups : VarBasePtrMap) (s : State) (l : Locals) :
    (traceOutputGroups op block g groups s l).result.isWiring = false := by
  induction groups generalizing s l with
  | nil => rfl
  | cons e t ih =>
    obtain ⟨first, second⟩ := e
    unfold traceOutputGroups
    have h1 := traceOutputs_isWiring op first block g 0 second s
      { l with outvars_map := l.outvars_map.touch first }
    split
    · rename_i heq
      rw [heq] at h1
      exact h1
    · exact ih _ _

theorem GetExpectedPlaceGroup_isWiring (s : State) (result : Place) (first : String)
    (vs : List VarId) : (GetExpectedPlaceGroup s result first vs).isWiring = false := by
  induction vs with
  | nil => rfl
  | cons v t ih =>
    unfold GetExpectedPlaceGroup
    unfold tensorPlace
    cases (s.vars v).var_ with
    | none => rfl
    | some x =>
      simp only
      cases (s.store x).holder with
      | none => rfl
      | some t1 =>
        simp only
        cases t1.holder with
        | none => rfl
        | some a =>
          simp only
          split
          · rfl
          · exact ih

theorem GetExpectedPlace_isWiring (s : State) (place : Place) (groups : VarBasePtrMap) :
    (GetExpectedPlace s place groups).isWiring = false := by
  induction groups with
  | nil => rfl
  | cons e t ih =>
    obtain ⟨first, second⟩ := e
    unfold GetExpectedPlace
    have h1 := GetExpectedPlaceGroup_isWiring s place first second
    cases hg : GetExpectedPlaceGroup s place first second with
    | error e1 =>
      rw [hg] at h1
      exact h1
    | ok u => exact ih

theorem GradFrame.op_desc {op : OpId} {s s1 : State} (h : GradFrame op s s1) :
    (s1.ops op).op_desc_ = (s.ops op).op_desc_ := by
  rw [h.2.2.2.1]

theorem gradInputNames_source (env : Env) (op : OpId) (block : BlockId) (i : Nat)
    (first : String) (grad_to_var : StrMap String) (vars : StrMap VarId)
    (dev_ctx : Option DeviceContext) (names : List String) (s : State) (saved : List String)
    (e : TraceError)
    (h : (gradInputNames env op block i first grad_to_var vars dev_ctx names s saved).result
      = .error e) (he : e.isWiring = true) :
    e = .DanglingGradientReference ∧ danglingIn grad_to_var vars.find names := by
  induction names generalizing s saved with
  | nil => simp [gradInputNames] at h
  | cons n t ih =>
    have htl : danglingIn grad_to_var vars.find t → danglingIn grad_to_var vars.find (n :: t) :=
      fun ⟨m, hm, h1, h2⟩ => ⟨m, List.mem_cons_of_mem _ hm, h1, h2⟩
    unfold gradInputNames at h
    simp only at h
    cases hf : grad_to_var.find n with
    | none =>
      simp only [hf] at h
      cases hv : vars.find n with
      | none =>
        simp only [hv] at h
        injection h with h1
        exact ⟨h1.symm, n, List.mem_cons_self _ _, hf, hv⟩
      | some fwd =>
        simp only [hv] at h
        obtain ⟨h1, h2⟩ := ih _ _ h
        exact ⟨h1, htl h2⟩
    | some fwd_name =>
      simp only [hf] at h
      have hg := gradVarOf_isWiring
        (s.setBlock block (env.FindRecursiveOrCreateVar (s.blocks block) n)) vars fwd_name
        dev_ctx
      generalize gradVarOf
        (s.setBlock block (env.FindRecursiveOrCreateVar (s.blocks block) n)) vars fwd_name
        dev_ctx = out at hg h
      cases out with
      | mk s2 r2 =>
        cases r2 with
        | error e1 =>
          simp only at h
          injection h with h1
          subst h1
          rw [show (TraceResult.error e1 : TraceResult VariableId).isWiring
            = e1.isWiring from rfl, he] at hg
          cases hg
        | ok gv =>
          simp only at h
          obtain ⟨h1, h2⟩ := ih _ _ h
          exact ⟨h1, htl h2⟩

theorem gradInputGroups_source (env : Env) (op : OpId) (block : BlockId) (i : Nat)
    (grad_to_var : StrMap String) (vars : StrMap VarId) (dev_ctx : Option DeviceContext)
    (groups : StrMap (List String)) (s : State) (saved : List String) (e : TraceError)
    (h : (gradInputGroups env op block i grad_to_var vars dev_ctx groups s saved).result
      = .error e) (he : e.isWiring = true) :
    e = .DanglingGradientReference ∧ danglingIn grad_to_var vars.find (allNames groups) := by
  induction groups generalizing s saved with
  | nil => simp [gradInputGroups] at h
  | cons g t ih =>
    obtain ⟨first, second⟩ := g
    unfold gradInputGroups at h
    have h1 := gradInputNames_source env op block i first grad_to_var vars dev_ctx second
      (s.setOp op { s.ops op with
        grad_input_vars_ := modifyAt (fun m => m.touch first) i (s.ops op).grad_input_vars_ })
      saved
    generalize gradInputNames env op block i first grad_to_var vars dev_ctx second
      (s.setOp op { s.ops op with
        grad_input_vars_ := modifyAt (fun m => m.touch first) i (s.ops op).grad_input_vars_ })
      saved = out at h1 h
    cases out with
    | mk s1 r1 =>
      cases r1 with
      | error e1 =>
        simp only at h h1
        injection h with h2
        subst h2
        obtain ⟨a, m, hm, b, c⟩ := h1 e1 rfl he
        exact ⟨a, m, by simp [allNames, hm], b, c⟩
      | ok saved1 =>
        simp only at h
        obtain ⟨a, m, hm, b, c⟩ := ih _ _ h
        refine ⟨a, m, ?_, b, c⟩
        simp only [allNames, List.map_cons, List.flatten_cons, List.mem_append]
        exact Or.inr hm

theorem gradOutputNames_source (env : Env) (op : OpId) (block : BlockId) (i : Nat)
    (first : String) (grad_to_var : StrMap String) (vars : StrMap VarId)
    (dev_ctx : Option DeviceContext) (names : List String) (s : State) (e : TraceError)
    (h : (gradOutputNames env op block i first grad_to_var vars dev_ctx names s).result
      = .error e) (he : e.isWiring = true) :
    e = .MissingGradientMapping (s.ops op).op_desc_.type ∧
      unregisteredIn grad_to_var names := by
  induction names generalizing s with
  | nil => simp [gradOutputNames] at h
  | cons n t ih =>
    have htl : unregisteredIn grad_to_var t → unregisteredIn grad_to_var (n :: t) :=
      fun ⟨m, hm, h1⟩ => ⟨m, List.mem_cons_of_mem _ hm, h1⟩
    unfold gradOutputNames at h
    simp only at h
    cases hf : grad_to_var.find n with
    | none =>
      simp only [hf] at h
      injection h with h1
      exact ⟨h1.symm, n, List.mem_cons_self _ _, hf⟩
    | some fwd_name =>
      simp only [hf] at h
      have hg := gradVarOf_isWiring
        (s.setBlock block (env.FindRecursiveOrCreateVar (s.blocks block) n)) vars fwd_name
        dev_ctx
      have hfr := gradVarOf_frame op
        (s.setBlock block (env.FindRecursiveOrCreateVar (s.blocks block) n)) vars fwd_name
        dev_ctx
      generalize gradVarOf
        (s.setBlock block (env.FindRecursiveOrCreateVar (s.blocks block) n)) vars fwd_name
        dev_ctx = out at hg hfr h
      cases out with
      | mk s2 r2 =>
        cases r2 with
        | error e1 =>
          simp only at h
          injection h with h1
          subst h1
          rw [show (TraceResult.error e1 : TraceResult VariableId).isWiring
            = e1.isWiring from rfl, he] at hg
          cases hg
        | ok gv =>
          simp only at h hfr
          obtain ⟨h1, h2⟩ := ih _ h
          refine ⟨?_, htl h2⟩
          rw [h1]
          have h3 : ((pushGradOutput s2 op i first (some gv)).ops op).op_desc_
              = (s2.ops op).op_desc_ := by simp [pushGradOutput]
          rw [h3, hfr.op_desc]
          rfl

theorem gradOutputGroups_source (env : Env) (op : OpId) (block : BlockId) (i : Nat)
    (grad_to_var : StrMap String) (vars : StrMap VarId) (dev_ctx : Option DeviceContext)
    (groups : StrMap (List String)) (s : State) (e : TraceError)
    (h : (gradOutputGroups env op block i grad_to_var vars dev_ctx groups s).result
      = .error e) (he : e.isWiring = true) :
    e = .MissingGradientMapping (s.ops op).op_desc_.type ∧
      unregisteredIn grad_to_var (allNames groups) := by
  induction groups generalizing s with
  | nil => simp [gradOutputGroups] at h
  | cons g t ih =>
    obtain ⟨first, second⟩ := g
    unfold gradOutputGroups at h
    have h1 := gradOutputNames_source env op block i first grad_to_var vars dev_ctx second
      (s.setOp op { s.ops op with
        grad_output_vars_ :=
          modifyAt (fun m => m.touch first) i (s.ops op).grad_output_vars_ })
    have hfr := gradOutputNames_frame env op block i first grad_to_var vars dev_ctx second
      (s.setOp op { s.ops op with
        grad_output_vars_ :=
          modifyAt (fun m => m.touch first) i (s.ops op).grad_output_vars_ })
    generalize gradOutputNames env op block i first grad_to_var vars dev_ctx second
      (s.setOp op { s.ops op with
        grad_output_vars_ :=
          modifyAt (fun m => m.touch first) i (s.ops op).grad_output_vars_ }) = out at h1 hfr h
    cases out with
    | mk s1 r1 =>
      cases r1 with
      | error e1 =>
        simp only at h h1
        injection h with h2
        subst h2
        obtain ⟨a, m, hm, b⟩ := h1 e1 rfl he
        refine ⟨?_, m, by simp [allNames, hm], b⟩
        rw [a]
        simp
      | ok u =>
        simp only at h hfr
        obtain ⟨a, m, hm, b⟩ := ih _ h
        refine ⟨?_, m, ?_, b⟩
        · rw [a, hfr.op_desc]
          simp
        · simp only [allNames, List.map_cons, List.flatten_cons, List.mem_append]
          exact Or.inr hm

theorem gradOpDescs_source (env : Env) (op : OpId) (block : BlockId)
    (grad_to_var : StrMap String) (vars : StrMap VarId) (dev_ctx : Option DeviceContext)
    (i : Nat) (descs : List OpDesc) (s : State) (saved : List String) (e : TraceError)
    (h : (gradOpDescs env op block grad_to_var vars dev_ctx i descs s saved).result = .error e)
    (he : e.isWiring = true) :
    (e = .DanglingGradientReference ∧
      ∃ d ∈ descs, danglingIn grad_to_var vars.find (allNames d.inputs)) ∨
    (e = .MissingGradientMapping (s.ops op).op_desc_.type ∧
      ∃ d ∈ descs, unregisteredIn grad_to_var (allNames d.outputs)) := by
  induction descs generalizing s saved i with
  | nil => simp [gradOpDescs] at h
  | cons d t ih =>
    unfold gradOpDescs at h
    have h1 := gradInputGroups_source env op block i grad_to_var vars dev_ctx d.inputs s saved
    have hf1 := gradInputGroups_frame env op block i grad_to_var vars dev_ctx d.inputs s saved
    generalize gradInputGroups env op block i grad_to_var vars dev_ctx d.inputs s saved
      = out at h1 hf1 h
    cases out with
    | mk sa ra =>
      cases ra with
      | error e1 =>
        simp only at h h1
        injection h with h2
        subst h2
        obtain ⟨a, b⟩ := h1 e1 rfl he
        exact Or.inl ⟨a, d, List.mem_cons_self _ _, b⟩
      | ok saved1 =>
        simp only at h hf1
        have h2 := gradOutputGroups_source env op block i grad_to_var vars dev_ctx d.outputs sa
        have hf2 := gradOutputGroups_frame env op block i grad_to_var vars dev_ctx d.outputs sa
        generalize gradOutputGroups env op block i grad_to_var vars dev_ctx d.outputs sa
          = out2 at h2 hf2 h
        cases out2 with
        | mk sb rb =>
          cases rb with
          | error e2 =>
            simp only at h h2
            injection h with h3
            subst h3
            obtain ⟨a, b⟩ := h2 e2 rfl he
            refine Or.inr ⟨?_, d, List.mem_cons_self _ _, b⟩
            rw [a, hf1.op_desc]
          | ok u =>
            simp only at h hf2
            rcases ih _ _ _ h with ⟨a, d1, hd1, b⟩ | ⟨a, d1, hd1, b⟩
            · exact Or.inl ⟨a, d1, List.mem_cons_of_mem _ hd1, b⟩
            · refine Or.inr ⟨?_, d1, List.mem_cons_of_mem _ hd1, b⟩
              rw [a, hf2.op_desc, hf1.op_desc]

theorem traceGrad_source (env : Env) (op : OpId) (block : BlockId) (vars : StrMap VarId)
    (dev_ctx : Option DeviceContext) (s : State) (e : TraceError)
    (h : (traceGrad env op block vars dev_ctx s).result = .error e) (he : e.isWiring = true) :
    (e = .DanglingGradientReference ∧
      ∃ d ∈ (env.GradOpMaker (s.ops op).op_desc_).1,
        danglingIn (env.GradOpMaker (s.ops op).op_desc_).2 vars.find (allNames d.inputs)) ∨
    (e = .MissingGradientMapping (s.ops op).op_desc_.type ∧
      ∃ d ∈ (env.GradOpMaker (s.ops op).op_desc_).1,
        unregisteredIn (env.GradOpMaker (s.ops op).op_desc_).2 (allNames d.outputs)) := by
  unfold traceGrad CreateGradOp at h
  by_cases hemp : (s.ops op).grad_op_descs_.isEmpty = true
  · simp only [hemp, if_true] at h
    have hnil : (s.ops op).grad_op_descs_ = [] := List.isEmpty_iff.1 hemp
    rw [hnil, List.nil_append] at h
    have := gradOpDescs_source env op block _ vars dev_ctx 0 _ _ [] e h he
    simpa using this
  · simp only [hemp] at h
    injection h with h1
    subst h1
    cases he

/-! ## Gradient wiring seen from the call of `Tracer::Trace` -/

theorem gradHandle_of_fields {s s1 : State}
    (h : ∀ v, (s1.vars v).var_ = (s.vars v).var_ ∧ (s1.vars v).grads_ = (s.vars v).grads_)
    (v : VarId) : gradHandle s1 v = gradHandle s v := by
  unfold gradHandle
  rw [(h v).2]
  cases (s.vars v).grads_ with
  | none => rfl
  | some g => exact (h g).1

theorem resolveInput_of_fields {s s1 : State}
    (h : ∀ v, (s1.vars v).var_ = (s.vars v).var_ ∧ (s1.vars v).grads_ = (s.vars v).grads_)
    (g : StrMap String) (find : String → Option VarId) :
    resolveInput s1 g find = resolveInput s g find := by
  funext n
  unfold resolveInput
  cases g.find n with
  | none =>
    simp only
    cases find n with
    | none => rfl
    | some X => exact (h X).1
  | some fwd =>
    simp only
    cases find fwd with
    | none => rfl
    | some X => exact gradHandle_of_fields h X

theorem resolveOutput_of_fields {s s1 : State}
    (h : ∀ v, (s1.vars v).var_ = (s.vars v).var_ ∧ (s1.vars v).grads_ = (s.vars v).grads_)
    (g : StrMap String) (find : String → Option VarId) :
    resolveOutput s1 g find = resolveOutput s g find := by
  funext n
  unfold resolveOutput
  cases g.find n with
  | none => rfl
  | some fwd =>
    simp only
    cases find fwd with
    | none => rfl
    | some X => exact gradHandle_of_fields h X

theorem Linked.handle_fields {env : Env} {s : State} {op : OpId} {inputs outputs : VarBasePtrMap}
    {block : BlockId} {g : Bool} {s2 : State} (hl : Linked env s op inputs outputs block g s2)
    (v : VarId) :
    (s2.vars v).var_ = (s.vars v).var_ ∧ (s2.vars v).grads_ = (s.vars v).grads_ := by
  rcases hl.vars v with h | ⟨-, first, i, h⟩
  · rw [h]
    exact ⟨rfl, rfl⟩
  · rw [h]
    exact ⟨rfl, rfl⟩

/-- The decomposition of a `Tracer::Trace` call with gradients that passed the place
check: the state and the result are those of the gradient wiring, run on the state that
the kernel dispatch left. -/
theorem Trace_grad_phases (env : Env) (s : State) (op : OpId)
    (inputs outputs : VarBasePtrMap) (block : BlockId) (expected_place : Place)
    (s1 s2 : State) (l1 l2 : Locals) (place : Place)
    (hin : traceInputGroups op inputs (traceBegin env s op inputs block) ⟨[], [], []⟩
      = ⟨s1, .ok l1⟩)
    (hout : traceOutputGroups op block false outputs
      (s1.setOp op { s1.ops op with output_vars_ := outputs }) l1 = ⟨s2, .ok l2⟩)
    (hk : env.isOperatorWithKernel (s.ops op).op_desc_ = true)
    (hg : GetExpectedPlace s2 expected_place inputs = .ok place) :
    (Trace env s op inputs outputs block expected_place false).result
      = (traceGrad env op block l2.vars (env.Prepare (s2.ops op).op_desc_ place)
          (dispatch env op place l2 s2)).result ∧
    (Trace env s op inputs outputs block expected_place false).state.vars
      = (traceGrad env op block l2.vars (env.Prepare (s2.ops op).op_desc_ place)
          (dispatch env op place l2 s2)).state.vars ∧
    (Trace env s op inputs outputs block expected_place false).state.store
      = (traceGrad env op block l2.vars (env.Prepare (s2.ops op).op_desc_ place)
          (dispatch env op place l2 s2)).state.store ∧
    (∀ j key,
      ((Trace env s op inputs outputs block expected_place false).state.ops op).gradIn j key
      = ((traceGrad env op block l2.vars (env.Prepare (s2.ops op).op_desc_ place)
          (dispatch env op place l2 s2)).state.ops op).gradIn j key) ∧
    (∀ j key,
      ((Trace env s op inputs outputs block expected_place false).state.ops op).gradOut j key
      = ((traceGrad env op block l2.vars (env.Prepare (s2.ops op).op_desc_ place)
          (dispatch env op place l2 s2)).state.ops op).gradOut j key) := by
  have heq := Trace_of_phases env s op inputs outputs block expected_place false
    s1 s2 l1 l2 hin hout
  rw [if_pos hk] at heq
  rw [heq]
  unfold traceRun
  simp only [hg, Bool.false_eq_true, if_false]
  generalize traceGrad env op block l2.vars (env.Prepare (s2.ops op).op_desc_ place)
    (dispatch env op place l2 s2) = out
  cases out with
  | mk s3 r3 =>
    cases r3 with
    | error e => exact ⟨rfl, rfl, rfl, fun _ _ => rfl, fun _ _ => rfl⟩
    | ok saved =>
      refine ⟨rfl, rfl, rfl, fun j key => ?_, fun j key => ?_⟩
      · simp [OpBase.gradIn]
      · simp [OpBase.gradOut]

/-- The state in which the gradient wiring of a `Tracer::Trace` call starts, relative to
the state `s` the call started from. -/
theorem Trace_wiring_start (env : Env) (s : State) (op : OpId)
    (inputs outputs : VarBasePtrMap) (block : BlockId) (g : Bool)
    (s1 s2 : State) (l1 l2 : Locals) (place : Place)
    (hin : traceInputGroups op inputs (traceBegin env s op inputs block) ⟨[], [], []⟩
      = ⟨s1, .ok l1⟩)
    (hout : traceOutputGroups op block g outputs
      (s1.setOp op { s1.ops op with output_vars_ := outputs }) l1 = ⟨s2, .ok l2⟩) :
    ((dispatch env op place l2 s2).ops op).op_desc_ = (s.ops op).op_desc_ ∧
    ((dispatch env op place l2 s2).ops op).grad_op_descs_ = (s.ops op).grad_op_descs_ ∧
    ((dispatch env op place l2 s2).ops op).grad_input_vars_ = (s.ops op).grad_input_vars_ ∧
    ((dispatch env op place l2 s2).ops op).grad_output_vars_ = (s.ops op).grad_output_vars_ ∧
    (∀ v, ((dispatch env op place l2 s2).vars v).var_ = (s.vars v).var_ ∧
      ((dispatch env op place l2 s2).vars v).grads_ = (s.vars v).grads_) ∧
    l2.vars.find = forwardVar s inputs outputs := by
  have hl := Trace_linked env s op inputs outputs block g s1 s2 l1 l2 hin hout
  obtain ⟨f1, f2, f3⟩ := recordGroups_grads s.vars inputs
    { s.ops op with input_vars_ := inputs }
  refine ⟨?_, ?_, ?_, ?_, fun v => hl.handle_fields v, ?_⟩
  · rw [dispatch_ops_self, hl.op_eq]
    simp
  · rw [dispatch_ops_self, hl.op_eq]
    simp [f1]
  · rw [dispatch_ops_self, hl.op_eq]
    simp [f2]
  · rw [dispatch_ops_self, hl.op_eq]
    simp [f3]
  · funext name
    exact Trace_vars env s op inputs outputs block g s1 s2 l1 l2 hin hout name

theorem Trace_wired (env : Env) (s : State) (op : OpId) (inputs outputs : VarBasePtrMap)
    (block : BlockId) (expected_place : Place) (r : List String)
    (h : (Trace env s op inputs outputs block expected_place false).result = .ok r) :
    (s.ops op).grad_op_descs_ = [] ∧
    (∀ j key,
      ((Trace env s op inputs outputs block expected_place false).state.ops op).gradIn j key
      = ((resize (s.ops op).grad_input_vars_
          (env.GradOpMaker (s.ops op).op_desc_).1.length [])[j]?.getD []).at key
        ++ wiredInputs s (env.GradOpMaker (s.ops op).op_desc_).2
          (forwardVar s inputs outputs) (env.GradOpMaker (s.ops op).op_desc_).1 j key) ∧
    (∀ j key,
      ((Trace env s op inputs outputs block expected_place false).state.ops op).gradOut j key
      = ((resize (s.ops op).grad_output_vars_
          (env.GradOpMaker (s.ops op).op_desc_).1.length [])[j]?.getD []).at key
        ++ wiredOutputs s (env.GradOpMaker (s.ops op).op_desc_).2
          (forwardVar s inputs outputs) (env.GradOpMaker (s.ops op).op_desc_).1 j key) ∧
    (∀ v, gradHandle (Trace env s op inputs outputs block expected_place false).state v
      = gradHandle s v) ∧
    ∀ d ∈ (env.GradOpMaker (s.ops op).op_desc_).1,
      inputsResolve (Trace env s op inputs outputs block expected_place false).state
        (env.GradOpMaker (s.ops op).op_desc_).2 (forwardVar s inputs outputs)
        (allNames d.inputs) ∧
      outputsResolve (Trace env s op inputs outputs block expected_place false).state
        (env.GradOpMaker (s.ops op).op_desc_).2 (forwardVar s inputs outputs)
        (allNames d.outputs) := by
  obtain ⟨s1, s2, l1, l2, hin, hout, hk, heq⟩ :=
    Trace_ok_phases env s op inputs outputs block expected_place false r h
  have hg : ∃ place, GetExpectedPlace s2 expected_place inputs = .ok place := by
    rw [heq] at h
    unfold traceRun at h
    cases hg : GetExpectedPlace s2 expected_place inputs with
    | error e => simp [hg] at h
    | ok place => exact ⟨place, rfl⟩
  obtain ⟨place, hg⟩ := hg
  obtain ⟨p1, p2, p3, p4, p5⟩ := Trace_grad_phases env s op inputs outputs block
    expected_place s1 s2 l1 l2 place hin hout hk hg
  obtain ⟨q1, q2, q3, q4, q5, q6⟩ := Trace_wiring_start env s op inputs outputs block false
    s1 s2 l1 l2 place hin hout
  rw [p1] at h
  cases htg : traceGrad env op block l2.vars (env.Prepare (s2.ops op).op_desc_ place)
      (dispatch env op place l2 s2) with
  | mk s3 r3 =>
    rw [htg] at h p2 p3 p4 p5
    simp only at h p2 p3 p4 p5
    subst h
    obtain ⟨w1, w2, w3, w4, w5⟩ := traceGrad_wired env op block l2.vars _ _ s3 r htg
    rw [q1, q6] at w2 w3 w5
    rw [q3] at w2
    rw [q4] at w3
    have hfields : ∀ v,
        ((Trace env s op inputs outputs block expected_place false).state.vars v).var_
          = (s.vars v).var_ ∧
        ((Trace env s op inputs outputs block expected_place false).state.vars v).grads_
          = (s.vars v).grads_ := by
      intro v
      rw [p2, w4]
      exact q5 v
    have hgh : ∀ v, gradHandle (Trace env s op inputs outputs block expected_place false).state v
        = gradHandle s v := gradHandle_of_fields hfields
    have hgh3 : ∀ v, gradHandle (Trace env s op inputs outputs block expected_place false).state v
        = gradHandle s3 v := fun v => gradHandle_congr p2 v
    refine ⟨by rw [← q2]; exact w1, fun j key => ?_, fun j key => ?_, hgh, fun d hd => ?_⟩
    · rw [p4, w2]
      simp only [wiredInputs, resolveInput_of_fields q5]
    · rw [p5, w3]
      simp only [wiredOutputs, resolveOutput_of_fields q5]
    · obtain ⟨a, b⟩ := w5 d hd
      constructor
      · intro n hn
        obtain ⟨a1, a2⟩ := a n hn
        refine ⟨a1, fun fwd hf => ?_⟩
        obtain ⟨X, gv, x1, x2, x3⟩ := a2 fwd hf
        exact ⟨X, gv, x1, by rw [hgh3]; exact x2, by rw [p3]; exact x3⟩
      · intro n hn
        obtain ⟨fwd, X, gv, x0, x1, x2, x3⟩ := b n hn
        exact ⟨fwd, X, gv, x0, x1, by rw [hgh3]; exact x2, by rw [p3]; exact x3⟩

theorem Trace_wiring_source (env : Env) (s : State) (op : OpId)
    (inputs outputs : VarBasePtrMap) (block : BlockId) (expected_place : Place)
    (stop_gradient : Bool) (e : TraceError)
    (h : (Trace env s op inputs outputs block expected_place stop_gradient).result = .error e)
    (he : e.isWiring = true) :
    stop_gradient = false ∧
    ((e = .DanglingGradientReference ∧
      ∃ d ∈ (env.GradOpMaker (s.ops op).op_desc_).1,
        danglingIn (env.GradOpMaker (s.ops op).op_desc_).2 (forwardVar s inputs outputs)
          (allNames d.inputs)) ∨
    (e = .MissingGradientMapping (s.ops op).op_desc_.type ∧
      ∃ d ∈ (env.GradOpMaker (s.ops op).op_desc_).1,
        unregisteredIn (env.GradOpMaker (s.ops op).op_desc_).2 (allNames d.outputs))) := by
  have hi := traceInputGroups_isWiring op inputs (traceBegin env s op inputs block)
    ⟨[], [], []⟩
  cases hin : traceInputGroups op inputs (traceBegin env s op inputs block) ⟨[], [], []⟩ with
  | mk s1 r1 =>
    rw [hin] at hi
    cases r1 with
    | error e1 =>
      have heq : Trace env s op inputs outputs block expected_place stop_gradient
          = ⟨s1, .error e1⟩ := by
        unfold Trace
        rw [hin]
      rw [heq] at h
      injection h with h1
      subst h1
      rw [show (TraceResult.error e1 : TraceResult Locals).isWiring
        = e1.isWiring from rfl, he] at hi
      cases hi
    | ok l1 =>
      have ho := traceOutputGroups_isWiring op block stop_gradient outputs
        (s1.setOp op { s1.ops op with output_vars_ := outputs }) l1
      cases hout : traceOutputGroups op block stop_gradient outputs
          (s1.setOp op { s1.ops op with output_vars_ := outputs }) l1 with
      | mk s2 r2 =>
        rw [hout] at ho
        cases r2 with
        | error e2 =>
          have heq : Trace env s op inputs outputs block expected_place stop_gradient
              = ⟨s2, .error e2⟩ := by
            unfold Trace
            rw [hin]
            simp only
            unfold traceFromOutputs
            rw [hout]
          rw [heq] at h
          injection h with h1
          subst h1
          rw [show (TraceResult.error e2 : TraceResult Locals).isWiring
            = e2.isWiring from rfl, he] at ho
          cases ho
        | ok l2 =>
          have heq := Trace_of_phases env s op inputs outputs block expected_place
            stop_gradient s1 s2 l1 l2 hin hout
          by_cases hk : env.isOperatorWithKernel (s.ops op).op_desc_ = true
          · rw [if_pos hk] at heq
            rw [heq] at h
            unfold traceRun at h
            have hgw := GetExpectedPlace_isWiring s2 expected_place inputs
            cases hg : GetExpectedPlace s2 expected_place inputs with
            | error e3 =>
              rw [hg] at h hgw
              simp only at h
              injection h with h1
              subst h1
              rw [show (TraceResult.error e3 : TraceResult Place).isWiring
                = e3.isWiring from rfl, he] at hgw
              cases hgw
            | ok place =>
              rw [hg] at h
              simp only at h
              cases stop_gradient with
              | true => simp at h
              | false =>
                simp only [Bool.false_eq_true, if_false] at h
                obtain ⟨q1, -, -, -, -, q6⟩ := Trace_wiring_start env s op inputs outputs
                  block false s1 s2 l1 l2 place hin hout
                have hsrc := traceGrad_source env op block l2.vars
                  (env.Prepare (s2.ops op).op_desc_ place) (dispatch env op place l2 s2) e
                rw [q1, q6] at hsrc
                refine ⟨rfl, hsrc ?_ he⟩
                generalize traceGrad env op block l2.vars
                  (env.Prepare (s2.ops op).op_desc_ place) (dispatch env op place l2 s2)
                  = out at h ⊢
                cases out with
                | mk s3 r3 =>
                  cases r3 with
                  | error e4 => exact h
                  | ok saved => simp at h
          · rw [if_neg hk] at heq
            rw [heq] at h
            injection h with h1
            subst h1
            cases he

/-! ## The names of the backward descriptors, and claim C18 -/

theorem mem_allNames {groups : StrMap (List String)} {n : String} :
    n ∈ allNames groups ↔ ∃ e ∈ groups, n ∈ e.2 := by
  simp only [allNames, List.mem_flatten, List.mem_map]
  constructor
  · rintro ⟨l, ⟨e, he, rfl⟩, hn⟩
    exact ⟨e, he, hn⟩
  · rintro ⟨e, he, hn⟩
    exact ⟨e.2, ⟨e, he, rfl⟩, hn⟩

theorem namesUnder_of_not_mem {groups : StrMap (List String)} {key : String}
    (h : key ∉ groups.map Prod.fst) : namesUnder groups key = [] := by
  induction groups with
  | nil => rfl
  | cons e t ih =>
    obtain ⟨first, second⟩ := e
    simp only [List.map_cons, List.mem_cons, not_or] at h
    have hne : ¬ first = key := fun c => h.1 c.symm
    simp [namesUnder, hne, ih h.2]

theorem namesUnder_of_nodup {groups : StrMap (List String)} {key : String}
    {names : List String} (hn : (groups.map Prod.fst).Nodup) (h : (key, names) ∈ groups) :
    namesUnder groups key = names := by
  induction groups with
  | nil => cases h
  | cons e t ih =>
    obtain ⟨first, second⟩ := e
    simp only [List.map_cons, List.nodup_cons] at hn
    rcases List.mem_cons.1 h with h1 | h1
    · injection h1 with h2 h3
      subst h2
      subst h3
      simp [namesUnder, namesUnder_of_not_mem hn.1]
    · have hk : key ∈ t.map Prod.fst := List.mem_map.2 ⟨(key, names), h1, rfl⟩
      have hne : ¬ first = key := by
        intro c
        rw [c] at hn
        exact hn.1 hk
      simp [namesUnder, hne, ih hn.2 h1]

theorem mem_namesUnder {groups : StrMap (List String)} {e : String × List String}
    {n : String} (he : e ∈ groups) (hn : n ∈ e.2) : n ∈ namesUnder groups e.1 := by
  induction groups with
  | nil => cases he
  | cons g t ih =>
    obtain ⟨first, second⟩ := g
    by_cases hk : first = e.1
    · rcases List.mem_cons.1 he with h1 | h1
      · subst h1
        simp [namesUnder, hn]
      · simp [namesUnder, hk, ih h1]
    · rcases List.mem_cons.1 he with h1 | h1
      · subst h1
        exact absurd rfl hk
      · simp [namesUnder, hk, ih h1]

theorem forwardVar_some {s : State} {inputs outputs : VarBasePtrMap} {n : String} {X : VarId}
    (h : forwardVar s inputs outputs n = some X) :
    X ∈ allVars inputs ++ allVars outputs ∧ (s.vars X).name = n := by
  unfold forwardVar at h
  have h1 := List.mem_of_find?_eq_some h
  have h2 := List.find?_some h
  exact ⟨List.mem_reverse.1 h1, by simpa using h2⟩

theorem forwardVar_none {s : State} {inputs outputs : VarBasePtrMap} {n : String} :
    forwardVar s inputs outputs n = none ↔
      ∀ v ∈ allVars inputs ++ allVars outputs, (s.vars v).name ≠ n := by
  unfold forwardVar
  rw [List.find?_eq_none]
  constructor
  · intro h v hv
    simpa using h v (List.mem_reverse.2 hv)
  · intro h v hv
    simpa using h v (List.mem_reverse.1 hv)

/-- Claim C18, as the code has it: after a Trace call with stopGradient = false that
returns, on an operation instance that starts with no gradient input/output mappings, for
every backward descriptor `i`: the list stored at index `i` under the name of an input
group has the length and the order of the names of that group, a name that is not a
gradient name being mapped to the data handle of the input or output Variable of that
name and a gradient name to the gradient buffer of its registered forward Variable; the
list stored under the name of an output group likewise maps each name to the gradient
buffer of its registered forward Variable. No lookup misses. -/
theorem C18_wired_lists (env : Env) (s : State) (op : OpId)
    (inputs outputs : VarBasePtrMap) (block : BlockId) (expected_place : Place)
    (r : List String)
    (hok : (Trace env s op inputs outputs block expected_place false).result = .ok r)
    (hfin : (s.ops op).grad_input_vars_ = []) (hfout : (s.ops op).grad_output_vars_ = [])
    (i : Nat) (d : OpDesc) (hd : (env.GradOpMaker (s.ops op).op_desc_).1[i]? = some d) :
    (∀ key names, (key, names) ∈ d.inputs → (d.inputs.map Prod.fst).Nodup →
      (((Trace env s op inputs outputs block expected_place false).state.ops op).gradIn
        i key).length = names.length ∧
      ∀ (k : Nat) (n : String), names[k]? = some n →
        ((env.GradOpMaker (s.ops op).op_desc_).2.find n = none →
          ∃ X, forwardVar s inputs outputs n = some X ∧
            (((Trace env s op inputs outputs block expected_place false).state.ops
              op).gradIn i key)[k]? = some (s.vars X).var_) ∧
        ∀ fwd, (env.GradOpMaker (s.ops op).op_desc_).2.find n = some fwd →
          ∃ X gv, forwardVar s inputs outputs fwd = some X ∧ gradHandle s X = some gv ∧
            (((Trace env s op inputs outputs block expected_place false).state.ops
              op).gradIn i key)[k]? = some (some gv)) ∧
    (∀ key names, (key, names) ∈ d.outputs → (d.outputs.map Prod.fst).Nodup →
      (((Trace env s op inputs outputs block expected_place false).state.ops op).gradOut
        i key).length = names.length ∧
      ∀ (k : Nat) (n : String), names[k]? = some n →
        ∃ fwd X gv, (env.GradOpMaker (s.ops op).op_desc_).2.find n = some fwd ∧
          forwardVar s inputs outputs fwd = some X ∧ gradHandle s X = some gv ∧
          (((Trace env s op inputs outputs block expected_place false).state.ops
            op).gradOut i key)[k]? = some (some gv)) := by
  obtain ⟨-, w2, w3, w4, w⟩ := Trace_wired env s op inputs outputs block expected_place r hok
  obtain ⟨wi, wo⟩ := w d (List.getElem?_mem hd)
  constructor
  · intro key names hmem hnd
    have hlist : ((Trace env s op inputs outputs block expected_place false).state.ops
        op).gradIn i key = names.map (resolveInput s (env.GradOpMaker (s.ops op).op_desc_).2
          (forwardVar s inputs outputs)) := by
      rw [w2, hfin, at_resize_nil]
      simp [wiredInputs, hd, namesUnder_of_nodup hnd hmem]
    rw [hlist]
    refine ⟨by simp, fun k n hk => ?_⟩
    have hn : n ∈ allNames d.inputs := mem_allNames.2 ⟨(key, names), hmem, List.getElem?_mem hk⟩
    obtain ⟨a1, a2⟩ := wi n hn
    constructor
    · intro hf
      obtain ⟨X, hX⟩ := a1 hf
      refine ⟨X, hX, ?_⟩
      rw [List.getElem?_map, hk]
      simp [resolveInput, hf, hX]
    · intro fwd hf
      obtain ⟨X, gv, h1, h2, -⟩ := a2 fwd hf
      rw [w4] at h2
      refine ⟨X, gv, h1, h2, ?_⟩
      rw [List.getElem?_map, hk]
      simp [resolveInput, hf, h1, h2]
  · intro key names hmem hnd
    have hlist : ((Trace env s op inputs outputs block expected_place false).state.ops
        op).gradOut i key = names.map (resolveOutput s (env.GradOpMaker (s.ops op).op_desc_).2
          (forwardVar s inputs outputs)) := by
      rw [w3, hfout, at_resize_nil]
      simp [wiredOutputs, hd, namesUnder_of_nodup hnd hmem]
    rw [hlist]
    refine ⟨by simp, fun k n hk => ?_⟩
    have hn : n ∈ allNames d.outputs :=
      mem_allNames.2 ⟨(key, names), hmem, List.getElem?_mem hk⟩
    obtain ⟨fwd, X, gv, h0, h1, h2, -⟩ := wo n hn
    rw [w4] at h2
    refine ⟨fwd, X, gv, h0, h1, h2, ?_⟩
    rw [List.getElem?_map, hk]
    simp [resolveOutput, h0, h1, h2]

/-- Scenario B, `relu(x) -> y` with gradients: the input group `Out@GRAD` of the backward
descriptor lists `y@GRAD`, which is mapped to the gradient buffer of `y`, and its output
group `X@GRAD` lists `x@GRAD`, which is mapped to the gradient buffer of `x`. -/
theorem C18_wired_lists_witness :
    ((((Trace demoEnv demoState 0 [("X", [0])] [("Out", [1])] 0 Place.CPUPlace
        false).state.ops 0).gradIn 0 "Out@GRAD").length = ["y@GRAD"].length ∧
      ∃ X gv, forwardVar demoState [("X", [0])] [("Out", [1])] "y" = some X ∧
        gradHandle demoState X = some gv ∧
        (((Trace demoEnv demoState 0 [("X", [0])] [("Out", [1])] 0 Place.CPUPlace
          false).state.ops 0).gradIn 0 "Out@GRAD")[0]? = some (some gv)) ∧
    ((((Trace demoEnv demoState 0 [("X", [0])] [("Out", [1])] 0 Place.CPUPlace
        false).state.ops 0).gradOut 0 "X@GRAD").length = ["x@GRAD"].length ∧
      ∃ fwd X gv, (demoEnv.GradOpMaker (demoState.ops 0).op_desc_).2.find "x@GRAD" = some fwd ∧
        forwardVar demoState [("X", [0])] [("Out", [1])] fwd = some X ∧
        gradHandle demoState X = some gv ∧
        (((Trace demoEnv demoState 0 [("X", [0])] [("Out", [1])] 0 Place.CPUPlace
          false).state.ops 0).gradOut 0 "X@GRAD")[0]? = some (some gv)) :=
  ⟨⟨((C18_wired_lists demoEnv demoState 0 [("X", [0])] [("Out", [1])] 0 Place.CPUPlace
        ["Out"] (by decide) (by decide) (by decide) 0 _ rfl).1 "Out@GRAD" ["y@GRAD"]
        (by decide) (by decide)).1,
      (((C18_wired_lists demoEnv demoState 0 [("X", [0])] [("Out", [1])] 0 Place.CPUPlace
        ["Out"] (by decide) (by decide) (by decide) 0 _ rfl).1 "Out@GRAD" ["y@GRAD"]
        (by decide) (by decide)).2 0 "y@GRAD" rfl).2 "y" (by decide)⟩,
    ⟨((C18_wired_lists demoEnv demoState 0 [("X", [0])] [("Out", [1])] 0 Place.CPUPlace
        ["Out"] (by decide) (by decide) (by decide) 0 _ rfl).2 "X@GRAD" ["x@GRAD"]
        (by decide) (by decide)).1,
      ((C18_wired_lists demoEnv demoState 0 [("X", [0])] [("Out", [1])] 0 Place.CPUPlace
        ["Out"] (by decide) (by decide) (by decide) 0 _ rfl).2 "X@GRAD" ["x@GRAD"]
        (by decide) (by decide)).2 0 "x@GRAD" rfl⟩⟩

/-- Scenario E first: a custom layer traced with gradients leaves four handles under `X@GRAD`
in the gradient input mapping of its instance and no backward descriptor. A later Trace
call on the same instance returns; every forward name of the gradient map (`z`, `x`) is
the name of an output or input Variable of the call, the input group `X@GRAD` of the
backward descriptor lists one name, and the list stored under `X@GRAD` has five entries. -/
theorem C18_counterexample :
    (Trace oddEnv (PyTrace oddEnv demoState 3 [0, 1] false).state 3 [("X", [0])]
      [("Out", [2])] 0 Place.CPUPlace false).result = .ok [] ∧
    (oddEnv.GradOpMaker
      ((PyTrace oddEnv demoState 3 [0, 1] false).state.ops 3).op_desc_).1.map OpDesc.inputs
      = [[("X@GRAD", ["z@GRAD"])]] ∧
    (∀ e ∈ (oddEnv.GradOpMaker
        ((PyTrace oddEnv demoState 3 [0, 1] false).state.ops 3).op_desc_).2,
      ∃ v ∈ allVars [("X", [0])] ++ allVars [("Out", [2])],
        ((PyTrace oddEnv demoState 3 [0, 1] false).state.vars v).name = e.2) ∧
    (((Trace oddEnv (PyTrace oddEnv demoState 3 [0, 1] false).state 3 [("X", [0])]
      [("Out", [2])] 0 Place.CPUPlace false).state.ops 3).gradIn 0 "X@GRAD").length = 5 := by
  decide

/-! ## The data store under the forward part of `Tracer::Trace` -/

theorem isOutputOf_iff (outs : VariableValueMap) (v : VariableId) :
    isOutputOf outs v = true ↔ ∃ kv ∈ outs, some v ∈ kv.2 := by
  simp [isOutputOf, List.any_eq_true]

theorem StrMap.mem_set {α : Type} (m : StrMap α) (k : String) (x : α) (kv : String × α)
    (h : kv ∈ m.set k x) : kv = (k, x) ∨ kv ∈ m := by
  induction m with
  | nil =>
    simp only [StrMap.set, List.mem_singleton] at h
    exact Or.inl h
  | cons e t ih =>
    obtain ⟨k1, w⟩ := e
    unfold StrMap.set at h
    by_cases hk : k1 = k
    · simp only [hk, if_true] at h
      rcases List.mem_cons.1 h with h1 | h1
      · exact Or.inl h1
      · exact Or.inr (List.mem_cons_of_mem _ h1)
    · simp only [hk, if_false] at h
      rcases List.mem_cons.1 h with h1 | h1
      · exact Or.inr (by rw [h1]; exact List.mem_cons_self _ _)
      · rcases ih h1 with h2 | h2
        · exact Or.inl h2
        · exact Or.inr (List.mem_cons_of_mem _ h2)

theorem StrMap.find_mem {α : Type} (m : StrMap α) (k : String) (x : α)
    (h : m.find k = some x) : (k, x) ∈ m := by
  induction m with
  | nil => simp [StrMap.find] at h
  | cons e t ih =>
    obtain ⟨k1, w⟩ := e
    unfold StrMap.find at h
    by_cases hk : k1 = k
    · simp only [hk, if_true] at h
      injection h with h1
      rw [hk, h1]
      exact List.mem_cons_self _ _
    · simp only [hk, if_false] at h
      exact List.mem_cons_of_mem _ (ih h)

theorem StrMap.mem_at {α : Type} (m : StrMap (List α)) (k : String) (a : α)
    (h : a ∈ m.at k) : ∃ kv ∈ m, a ∈ kv.2 := by
  unfold StrMap.at at h
  cases hf : m.find k with
  | none => simp [hf] at h
  | some l =>
    rw [hf] at h
    exact ⟨(k, l), StrMap.find_mem m k l hf, h⟩

theorem handles_push {α : Type} (m : StrMap (List α)) (k : String) (v a : α)
    (h : ∃ kv ∈ m.push k v, a ∈ kv.2) : a = v ∨ ∃ kv ∈ m, a ∈ kv.2 := by
  obtain ⟨kv, hkv, ha⟩ := h
  rcases StrMap.mem_set m k _ kv hkv with h1 | h1
  · rw [h1] at ha
    rcases List.mem_append.1 ha with h2 | h2
    · exact Or.inr (StrMap.mem_at m k a h2)
    · exact Or.inl (List.mem_singleton.1 h2)
  · exact Or.inr ⟨kv, h1, ha⟩

theorem handles_touch {α : Type} (m : StrMap (List α)) (k : String) (a : α)
    (h : ∃ kv ∈ m.touch k, a ∈ kv.2) : ∃ kv ∈ m, a ∈ kv.2 := by
  obtain ⟨kv, hkv, ha⟩ := h
  rcases StrMap.mem_set m k _ kv hkv with h1 | h1
  · rw [h1] at ha
    exact StrMap.mem_at m k a ha
  · exact ⟨kv, h1, ha⟩

theorem traceInputs_outvars (op : OpId) (first : String) (vs : List VarId) (s : State)
    (l l1 : Locals) (h : (traceInputs op first vs s l).result = .ok l1) :
    l1.outvars_map = l.outvars_map := by
  induction vs generalizing s l with
  | nil =>
    simp only [traceInputs] at h
    injection h with h1
    rw [← h1]
  | cons v t ih =>
    unfold traceInputs at h
    cases hv : (s.vars v).var_ with
    | none => simp [hv] at h
    | some x =>
      simp only [hv] at h
      exact (ih _ _ h).trans rfl

theorem traceInputGroups_outvars (op : OpId) (groups : VarBasePtrMap) (s : State)
    (l l1 : Locals) (h : (traceInputGroups op groups s l).result = .ok l1) :
    l1.outvars_map = l.outvars_map := by
  induction groups generalizing s l with
  | nil =>
    simp only [traceInputGroups] at h
    injection h with h1
    rw [← h1]
  | cons e t ih =>
    obtain ⟨first, second⟩ := e
    unfold traceInputGroups at h
    have h1 := traceInputs_outvars op first second s
      { l with invars_map := l.invars_map.touch first }
    generalize traceInputs op first second s
      { l with invars_map := l.invars_map.touch first } = out at h h1
    cases out with
    | mk s1 r1 =>
      cases r1 with
      | error e => simp at h
      | ok l2 =>
        simp only at h h1
        rw [ih s1 l2 h, h1 l2 rfl]

theorem traceOutputs_handles (op : OpId) (first : String) (block : BlockId) (g : Bool)
    (i : Nat) (vs : List VarId) (s : State) (l : Locals) :
    (∀ x, (traceOutputs op first block g i vs s l).state.store x = s.store x ∨
      ∃ out ∈ vs, (s.vars out).var_ = some x) ∧
    ∀ l1, (traceOutputs op first block g i vs s l).result = .ok l1 →
      ∀ a, (∃ kv ∈ l1.outvars_map, a ∈ kv.2) →
        (∃ kv ∈ l.outvars_map, a ∈ kv.2) ∨ ∃ out ∈ vs, a = (s.vars out).var_ := by
  induction vs generalizing s l i with
  | nil =>
    refine ⟨fun x => Or.inl rfl, fun l1 h a ha => ?_⟩
    simp only [traceOutputs] at h
    injection h with h1
    rw [← h1] at ha
    exact Or.inl ha
  | cons out t ih =>
    have hfield : ∀ (S : State), S.vars = s.vars → ∀ w,
        ((S.setVar out ((s.vars out).TrackPreOp op first i g)).vars w).var_
          = (s.vars w).var_ := by
      intro S hS w
      by_cases hw : w = out
      · subst hw
        simp [State.setVar, VarBase.TrackPreOp]
      · simp [State.setVar, Function.update_noteq hw, hS]
    have hstep : ∀ (S : State), S.vars = s.vars →
        (∀ x, S.store x = s.store x ∨ (s.vars out).var_ = some x) →
        ((∀ x, (traceOutputs op first block g (i + 1) t
            (S.setVar out ((s.vars out).TrackPreOp op first i g))
            { l with
              outvars_map := l.outvars_map.push first (s.vars out).var_
              vars := l.vars.set (s.vars out).name out }).state.store x = s.store x ∨
          ∃ o ∈ out :: t, (s.vars o).var_ = some x) ∧
        ∀ l1, (traceOutputs op first block g (i + 1) t
            (S.setVar out ((s.vars out).TrackPreOp op first i g))
            { l with
              outvars_map := l.outvars_map.push first (s.vars out).var_
              vars := l.vars.set (s.vars out).name out }).result = .ok l1 →
          ∀ a, (∃ kv ∈ l1.outvars_map, a ∈ kv.2) →
            (∃ kv ∈ l.outvars_map, a ∈ kv.2) ∨ ∃ o ∈ out :: t, a = (s.vars o).var_) := by
      intro S hS hst
      obtain ⟨i1, i2⟩ := ih (i + 1) (S.setVar out ((s.vars out).TrackPreOp op first i g))
        { l with
          outvars_map := l.outvars_map.push first (s.vars out).var_
          vars := l.vars.set (s.vars out).name out }
      constructor
      · intro x
        rcases i1 x with h1 | ⟨o, ho, h1⟩
        · rw [h1]
          rcases hst x with h2 | h2
          · exact Or.inl h2
          · exact Or.inr ⟨out, List.mem_cons_self _ _, h2⟩
        · rw [hfield S hS o] at h1
          exact Or.inr ⟨o, List.mem_cons_of_mem _ ho, h1⟩
      · intro l1 h a ha
        rcases i2 l1 h a ha with h1 | ⟨o, ho, h1⟩
        · rcases handles_push _ _ _ _ h1 with h2 | h2
          · exact Or.inr ⟨out, List.mem_cons_self _ _, h2⟩
          · exact Or.inl h2
        · rw [hfield S hS o] at h1
          exact Or.inr ⟨o, List.mem_cons_of_mem _ ho, h1⟩
    unfold traceOutputs
    simp only
    cases hb : (s.blocks block).vars (s.vars out).name with
    | none => exact ⟨fun x => Or.inl rfl, fun l1 h => by simp at h⟩
    | some ty =>
      simp only
      by_cases hty : ty = VarType.LOD_TENSOR
      · simp only [hty, if_true]
        cases hv : (s.vars out).var_ with
        | none => exact ⟨fun x => Or.inl rfl, fun l1 h => by simp at h⟩
        | some v =>
          simp only
          have := hstep (s.setVariable v (s.store v).GetMutable) rfl (fun x => by
            by_cases hx : x = v
            · exact Or.inr (by rw [hx, hv])
            · exact Or.inl (by simp [State.setVariable, Function.update_noteq hx]))
          rw [hv] at this
          exact this
      · simp only [hty, if_false]
        exact hstep s rfl (fun x => Or.inl rfl)

theorem traceOutputGroups_handles (op : OpId) (block : BlockId) (g : Bool)
    (groups : VarBasePtrMap) (s : State) (l : Locals) :
    (∀ x, (traceOutputGroups op block g groups s l).state.store x = s.store x ∨
      some x ∈ outHandles s groups) ∧
    ∀ l1, (traceOutputGroups op block g groups s l).result = .ok l1 →
      ∀ a, (∃ kv ∈ l1.outvars_map, a ∈ kv.2) →
        (∃ kv ∈ l.outvars_map, a ∈ kv.2) ∨ a ∈ outHandles s groups := by
  induction groups generalizing s l with
  | nil =>
    refine ⟨fun x => Or.inl rfl, fun l1 h a ha => ?_⟩
    simp only [traceOutputGroups] at h
    injection h with h1
    rw [← h1] at ha
    exact Or.inl ha
  | cons e t ih =>
    obtain ⟨first, second⟩ := e
    have hmem1 : ∀ a, (∃ o ∈ second, a = (s.vars o).var_) →
        a ∈ outHandles s ((first, second) :: t) := by
      rintro a ⟨o, ho, rfl⟩
      simp only [outHandles, allVars, List.map_cons, List.flatten_cons, List.map_append,
        List.mem_append, List.mem_map]
      exact Or.inl ⟨o, ho, rfl⟩
    unfold traceOutputGroups
    obtain ⟨a1, a2⟩ := traceOutputs_handles op first block g 0 second s
      { l with outvars_map := l.outvars_map.touch first }
    have htr := traceOutputs_tracked op first block g 0 second s
      { l with outvars_map := l.outvars_map.touch first }
    generalize traceOutputs op first block g 0 second s
      { l with outvars_map := l.outvars_map.touch first } = out at a1 a2 htr ⊢
    cases out with
    | mk s1 r1 =>
      simp only at a1 a2 htr
      have hst1 : ∀ x, s1.store x = s.store x ∨ some x ∈ outHandles s ((first, second) :: t) := by
        intro x
        rcases a1 x with h1 | ⟨o, ho, h1⟩
        · exact Or.inl h1
        · exact Or.inr (hmem1 _ ⟨o, ho, h1.symm⟩)
      cases r1 with
      | error e1 => exact ⟨hst1, fun l1 h => by simp at h⟩
      | ok l2 =>
        simp only
        obtain ⟨b1, b2⟩ := ih s1 l2
        have hmem2 : ∀ a, a ∈ outHandles s1 t → a ∈ outHandles s ((first, second) :: t) := by
          intro a ha
          simp only [outHandles, allVars, List.map_cons, List.flatten_cons, List.map_append,
            List.mem_append, List.mem_map] at ha ⊢
          obtain ⟨o, ho, h1⟩ := ha
          exact Or.inr ⟨o, ho, by rw [← h1, (htr.fields o).2.1]⟩
        constructor
        · intro x
          rcases b1 x with h1 | h1
          · rw [h1]
            exact hst1 x
          · exact Or.inr (hmem2 _ h1)
        · intro l1 h a ha
          rcases b2 l1 h a ha with h1 | h1
          · rcases a2 l2 rfl a h1 with h2 | h2
            · exact Or.inl (handles_touch _ _ _ h2)
            · exact Or.inr (hmem1 _ h2)
          · exact Or.inr (hmem2 _ h1)


theorem dispatch_store (env : Env) (op : OpId) (place : Place) (l : Locals) (s : State)
    (x : VariableId) (hx : isOutputOf l.outvars_map x = false) :
    (dispatch env op place l s).store x = s.store x := by
  simp [dispatch, runOnContext, hx]

/-- The effect of a `Tracer::Trace` call with gradients on the data store, whether it
returns or throws: a variable that is not the data handle of an output is as it was,
except that an uninitialized gradient buffer of a mapped forward variable may have become
a zero buffer of the dimensions of that forward variable's data. -/
theorem Trace_lazy (env : Env) (s : State) (op : OpId) (inputs outputs : VarBasePtrMap)
    (block : BlockId) (expected_place : Place) (x : VariableId)
    (hx : some x ∉ outHandles s outputs) :
    (Trace env s op inputs outputs block expected_place false).state.store x = s.store x ∨
    ((s.store x).IsInitialized = false ∧
      ∃ X xv t ctx,
        mappedNames (env.GradOpMaker (s.ops op).op_desc_).2 (forwardVar s inputs outputs)
          (descNames (env.GradOpMaker (s.ops op).op_desc_).1) X ∧
        gradHandle s X = some x ∧ (s.vars X).var_ = some xv ∧
        ((Trace env s op inputs outputs block expected_place false).state.store xv).holder
          = some t ∧
        env.Prepare (s.ops op).op_desc_ expected_place = some ctx ∧
        (Trace env s op inputs outputs block expected_place false).state.store x
          = zeroBuffer t.dims ctx.place) := by
  have hfr := traceInputGroups_frame op inputs (traceBegin env s op inputs block)
    ⟨[], [], []⟩
  cases hin : traceInputGroups op inputs (traceBegin env s op inputs block) ⟨[], [], []⟩ with
  | mk s1 r1 =>
    rw [hin] at hfr
    simp only at hfr
    have hs1 : s1.store = s.store := hfr.2.2.1
    have hv1 : s1.vars = s.vars := hfr.2.1
    cases r1 with
    | error e1 =>
      have heq : Trace env s op inputs outputs block expected_place false
          = ⟨s1, .error e1⟩ := by
        unfold Trace
        rw [hin]
      rw [heq]
      exact Or.inl (by rw [hs1])
    | ok l1 =>
      obtain ⟨a1, a2⟩ := traceOutputGroups_handles op block false outputs
        (s1.setOp op { s1.ops op with output_vars_ := outputs }) l1
      have hoh : outHandles (s1.setOp op { s1.ops op with output_vars_ := outputs }) outputs
          = outHandles s outputs := by
        simp [outHandles, hv1]
      rw [hoh] at a1 a2
      cases hout : traceOutputGroups op block false outputs
          (s1.setOp op { s1.ops op with output_vars_ := outputs }) l1 with
      | mk s2 r2 =>
        rw [hout] at a1 a2
        simp only at a1 a2
        have hs2 : s2.store x = s.store x := by
          rcases a1 x with h1 | h1
          · rw [h1, State.setOp_store, hs1]
          · exact absurd h1 hx
        cases r2 with
        | error e2 =>
          have heq : Trace env s op inputs outputs block expected_place false
              = ⟨s2, .error e2⟩ := by
            unfold Trace
            rw [hin]
            simp only
            unfold traceFromOutputs
            rw [hout]
          rw [heq]
          exact Or.inl hs2
        | ok l2 =>
          have hl := Trace_linked env s op inputs outputs block false s1 s2 l1 l2 hin hout
          have heq := Trace_of_phases env s op inputs outputs block expected_place
            false s1 s2 l1 l2 hin hout
          by_cases hk : env.isOperatorWithKernel (s.ops op).op_desc_ = true
          · cases hg : GetExpectedPlace s2 expected_place inputs with
            | error e3 =>
              rw [if_pos hk] at heq
              rw [heq]
              unfold traceRun
              rw [hg]
              exact Or.inl hs2
            | ok place =>
              have hplace : place = expected_place :=
                ((GetExpectedPlace_ok_iff s2 expected_place place inputs).1 hg).1
              subst hplace
              obtain ⟨-, -, p3, -, -⟩ := Trace_grad_phases env s op inputs outputs block
                place s1 s2 l1 l2 place hin hout hk hg
              obtain ⟨q1, -, -, -, q5, q6⟩ := Trace_wiring_start env s op inputs outputs
                block false s1 s2 l1 l2 place hin hout
              have hnot : isOutputOf l2.outvars_map x = false := by
                cases hc : isOutputOf l2.outvars_map x with
                | false => rfl
                | true =>
                  rcases a2 l2 rfl (some x) ((isOutputOf_iff _ _).1 hc) with h1 | h1
                  · rw [traceInputGroups_outvars op inputs _ _ l1 (by rw [hin])] at h1
                    obtain ⟨kv, hkv, -⟩ := h1
                    cases hkv
                  · exact absurd h1 hx
              have hd : (dispatch env op place l2 s2).store x = s.store x := by
                rw [dispatch_store env op place l2 s2 x hnot, hs2]
              have hlz := traceGrad_lazy env op block l2.vars
                (env.Prepare (s2.ops op).op_desc_ place) (dispatch env op place l2 s2)
              rw [q1, q6] at hlz
              have hop : (s2.ops op).op_desc_ = (s.ops op).op_desc_ := by
                rw [hl.op_eq]
                simp
              rw [hop] at hlz
              rw [p3, hop]
              rcases hlz.store x with h1 | ⟨hu, X, xv, t, ctx, m1, m2, m3, m4, m5, m6⟩
              · left
                rw [h1]
                exact hd
              · right
                rw [hd] at hu
                refine ⟨hu, X, xv, t, ctx, m1, ?_, ?_, m4, m5, m6⟩
                · rw [← gradHandle_of_fields q5 X]
                  exact m2
                · rw [← (q5 X).1]
                  exact m3
          · rw [if_neg hk] at heq
            rw [heq]
            exact Or.inl hs2

/-! ## Lazy zero-initialisation in `Tracer::PyTrace` -/

theorem pyTraceInputs_store (env : Env) (op : OpId) (vs : List VarId) (s : State) :
    (pyTraceInputs env op vs s).store = s.store := by
  induction vs generalizing s with
  | nil => rfl
  | cons v t ih =>
    unfold pyTraceInputs
    rw [ih]
    rfl

theorem pyTrackOutputs_store (env : Env) (op : OpId) (g : Bool) (i : Nat) (vs : List VarId)
    (s : State) : (pyTrackOutputs env op g i vs s).store = s.store := by
  induction vs generalizing s i with
  | nil => rfl
  | cons v t ih =>
    unfold pyTrackOutputs
    rw [ih]
    rfl

theorem pyTraceLink_store (env : Env) (s : State) (op : OpId) (inputs : List VarId)
    (g : Bool) : (pyTraceLink env s op inputs g).store = (pyApplied env s op inputs).store := by
  unfold pyTraceLink
  rw [pyTrackOutputs_store, pyTraceInputs_store]

theorem pyPushForward_lazy (env : Env) (op : OpId) (mapped : VarId → Prop)
    (dev_ctx : Option DeviceContext) (vs : List VarId) (s : State) :
    LazyInit mapped dev_ctx s (pyPushForward env op vs s) := by
  induction vs generalizing s with
  | nil => exact LazyInit.refl_lazy _ _ _
  | cons v t ih =>
    unfold pyPushForward
    have hp : LazyInit mapped dev_ctx s
        (pushGradInput s op 0 (env.GradVarName env.kFwdInp) (s.vars v).var_) :=
      LazyInit.of_store rfl rfl
    exact hp.trans_lazy (ih _)

theorem pyPushOutGrads_lazy (env : Env) (op : OpId) (vs : List VarId) (s : State) :
    LazyInit (fun X => X ∈ vs) (env.DeviceContextPoolGet Place.CPUPlace) s
      (pyPushOutGrads env op vs s).state := by
  induction vs generalizing s with
  | nil => exact LazyInit.refl_lazy _ _ _
  | cons v t ih =>
    have htl : ∀ X, X ∈ t → X ∈ v :: t := fun X hX => List.mem_cons_of_mem _ hX
    unfold pyPushOutGrads
    cases hg : (s.vars v).grads_ with
    | none => exact LazyInit.refl_lazy _ _ _
    | some g =>
      simp only
      cases hgv : (s.vars g).var_ with
      | none => exact LazyInit.of_store rfl rfl
      | some gv =>
        simp only
        have hgh : gradHandle s v = some gv := by simp [gradHandle, hg, hgv]
        cases hin : (s.store gv).IsInitialized with
        | true =>
          simp only [Bool.not_true, Bool.false_eq_true, if_false]
          have hp : LazyInit (fun X => X ∈ v :: t) (env.DeviceContextPoolGet Place.CPUPlace) s
              (pushGradInput s op 0 (env.GradVarName env.kFwdInp) (some gv)) :=
            LazyInit.of_store rfl rfl
          exact hp.trans_lazy ((ih _).mono htl)
        | false =>
          simp only [Bool.not_false, if_true]
          cases hiv : InitVar s.store (s.vars v).var_ (some gv)
              (env.DeviceContextPoolGet Place.CPUPlace) with
          | error e => exact LazyInit.of_store rfl rfl
          | ok store =>
            simp only
            have hp : LazyInit (fun X => X ∈ v :: t) (env.DeviceContextPoolGet Place.CPUPlace) s
                { pushGradInput s op 0 (env.GradVarName env.kFwdInp) (some gv) with
                  store := store } :=
              LazyInit.initVar rfl (List.mem_cons_self _ _) hgh hin hiv
            exact hp.trans_lazy ((ih _).mono htl)

theorem pyPushInGrads_lazy (env : Env) (op : OpId) (vs : List VarId) (s : State) :
    LazyInit (fun X => X ∈ vs) (env.DeviceContextPoolGet Place.CPUPlace) s
      (pyPushInGrads env op vs s).state := by
  induction vs generalizing s with
  | nil => exact LazyInit.refl_lazy _ _ _
  | cons v t ih =>
    have htl : ∀ X, X ∈ t → X ∈ v :: t := fun X hX => List.mem_cons_of_mem _ hX
    unfold pyPushInGrads
    cases hg : (s.vars v).grads_ with
    | none => exact LazyInit.refl_lazy _ _ _
    | some g =>
      simp only
      cases hgv : (s.vars g).var_ with
      | none => exact LazyInit.of_store rfl rfl
      | some gv =>
        simp only
        have hgh : gradHandle s v = some gv := by simp [gradHandle, hg, hgv]
        cases hin : (s.store gv).IsInitialized with
        | true =>
          simp only [Bool.not_true, Bool.false_eq_true, if_false]
          have hp : LazyInit (fun X => X ∈ v :: t) (env.DeviceContextPoolGet Place.CPUPlace) s
              (pushGradOutput s op 0 (env.GradVarName env.kFwdOut) (some gv)) :=
            LazyInit.of_store rfl rfl
          exact hp.trans_lazy ((ih _).mono htl)
        | false =>
          simp only [Bool.not_false, if_true]
          cases hiv : InitVar s.store (s.vars v).var_ (some gv)
              (env.DeviceContextPoolGet Place.CPUPlace) with
          | error e => exact LazyInit.of_store rfl rfl
          | ok store =>
            simp only
            have hp : LazyInit (fun X => X ∈ v :: t) (env.DeviceContextPoolGet Place.CPUPlace) s
                { pushGradOutput s op 0 (env.GradVarName env.kFwdOut) (some gv) with
                  store := store } :=
              LazyInit.initVar rfl (List.mem_cons_self _ _) hgh hin hiv
            exact hp.trans_lazy ((ih _).mono htl)

theorem pyPushOutGrads_init (env : Env) (op : OpId) (vs : List VarId) (s : State)
    (hok : (pyPushOutGrads env op vs s).result = .ok ()) :
    ∀ v ∈ vs, ∃ gv, gradHandle s v = some gv ∧
      ((pyPushOutGrads env op vs s).state.store gv).IsInitialized = true := by
  induction vs generalizing s with
  | nil =>
    intro v hv
    cases hv
  | cons w t ih =>
    unfold pyPushOutGrads at hok ⊢
    cases hg : (s.vars w).grads_ with
    | none => simp [hg] at hok
    | some g =>
      simp only [hg] at hok ⊢
      cases hgv : (s.vars g).var_ with
      | none => simp [hgv] at hok
      | some gv =>
        simp only [hgv] at hok ⊢
        have hgh : gradHandle s w = some gv := by simp [gradHandle, hg, hgv]
        cases hin : (s.store gv).IsInitialized with
        | true =>
          simp only [hin, Bool.not_true, Bool.false_eq_true, if_false] at hok ⊢
          have hl := pyPushOutGrads_lazy env op t
            (pushGradInput s op 0 (env.GradVarName env.kFwdInp) (some gv))
          intro v hv
          rcases List.mem_cons.1 hv with h1 | h1
          · subst h1
            exact ⟨gv, hgh, hl.stays hin⟩
          · exact ih _ hok v h1
        | false =>
          simp only [hin, Bool.not_false, if_true] at hok ⊢
          cases hiv : InitVar s.store (s.vars w).var_ (some gv)
              (env.DeviceContextPoolGet Place.CPUPlace) with
          | error e => simp [hiv] at hok
          | ok store =>
            simp only [hiv] at hok ⊢
            have hl := pyPushOutGrads_lazy env op t
              { pushGradInput s op 0 (env.GradVarName env.kFwdInp) (some gv) with
                store := store }
            intro v hv
            rcases List.mem_cons.1 hv with h1 | h1
            · subst h1
              exact ⟨gv, hgh, hl.stays (InitVar_ok hiv).1⟩
            · exact ih _ hok v h1

theorem pyPushInGrads_init (env : Env) (op : OpId) (vs : List VarId) (s : State)
    (hok : (pyPushInGrads env op vs s).result = .ok ()) :
    ∀ v ∈ vs, ∃ gv, gradHandle s v = some gv ∧
      ((pyPushInGrads env op vs s).state.store gv).IsInitialized = true := by
  induction vs generalizing s with
  | nil =>
    intro v hv
    cases hv
  | cons w t ih =>
    unfold pyPushInGrads at hok ⊢
    cases hg : (s.vars w).grads_ with
    | none => simp [hg] at hok
    | some g =>
      simp only [hg] at hok ⊢
      cases hgv : (s.vars g).var_ with
      | none => simp [hgv] at hok
      | some gv =>
        simp only [hgv] at hok ⊢
        have hgh : gradHandle s w = some gv := by simp [gradHandle, hg, hgv]
        cases hin : (s.store gv).IsInitialized with
        | true =>
          simp only [hin, Bool.not_true, Bool.false_eq_true, if_false] at hok ⊢
          have hl := pyPushInGrads_lazy env op t
            (pushGradOutput s op 0 (env.GradVarName env.kFwdOut) (some gv))
          intro v hv
          rcases List.mem_cons.1 hv with h1 | h1
          · subst h1
            exact ⟨gv, hgh, hl.stays hin⟩
          · exact ih _ hok v h1
        | false =>
          simp only [hin, Bool.not_false, if_true] at hok ⊢
          cases hiv : InitVar s.store (s.vars w).var_ (some gv)
              (env.DeviceContextPoolGet Place.CPUPlace) with
          | error e => simp [hiv] at hok
          | ok store =>
            simp only [hiv] at hok ⊢
            have hl := pyPushInGrads_lazy env op t
              { pushGradOutput s op 0 (env.GradVarName env.kFwdOut) (some gv) with
                store := store }
            intro v hv
            rcases List.mem_cons.1 hv with h1 | h1
            · subst h1
              exact ⟨gv, hgh, hl.stays (InitVar_ok hiv).1⟩
            · exact ih _ hok v h1

theorem pyTraceGrad_lazy (env : Env) (op : OpId) (inputs outputs : List VarId) (s : State) :
    LazyInit (fun X => X ∈ outputs ++ inputs) (env.DeviceContextPoolGet Place.CPUPlace) s
      (pyTraceGrad env op inputs outputs s).state := by
  unfold pyTraceGrad
  simp only
  have h0 : LazyInit (fun X => X ∈ outputs ++ inputs)
      (env.DeviceContextPoolGet Place.CPUPlace) s
      (s.setOp op { s.ops op with
        grad_input_vars_ :=
          modifyAt (fun m => m.touch (env.GradVarName env.kFwdInp)) 0
            (resize (s.ops op).grad_input_vars_ 1 [])
        grad_output_vars_ :=
          modifyAt (fun m => m.touch (env.GradVarName env.kFwdOut)) 0
            (resize (s.ops op).grad_output_vars_ 1 []) }) := LazyInit.of_store rfl rfl
  have h1 := (h0.trans_lazy (pyPushForward_lazy env op _ _ inputs _)).trans_lazy
    (pyPushForward_lazy env op (fun X => X ∈ outputs ++ inputs)
      (env.DeviceContextPoolGet Place.CPUPlace) outputs _)
  have h2 := pyPushOutGrads_lazy env op outputs
    (pyPushForward env op outputs (pyPushForward env op inputs
      (s.setOp op { s.ops op with
        grad_input_vars_ :=
          modifyAt (fun m => m.touch (env.GradVarName env.kFwdInp)) 0
            (resize (s.ops op).grad_input_vars_ 1 [])
        grad_output_vars_ :=
          modifyAt (fun m => m.touch (env.GradVarName env.kFwdOut)) 0
            (resize (s.ops op).grad_output_vars_ 1 []) })))
  generalize pyPushOutGrads env op outputs
    (pyPushForward env op outputs (pyPushForward env op inputs
      (s.setOp op { s.ops op with
        grad_input_vars_ :=
          modifyAt (fun m => m.touch (env.GradVarName env.kFwdInp)) 0
            (resize (s.ops op).grad_input_vars_ 1 [])
        grad_output_vars_ :=
          modifyAt (fun m => m.touch (env.GradVarName env.kFwdOut)) 0
            (resize (s.ops op).grad_output_vars_ 1 []) }))) = out at h2 ⊢
  cases out with
  | mk s2 r2 =>
    simp only at h2
    have h3 := h1.trans_lazy (h2.mono (fun X hX => List.mem_append_left _ hX))
    cases r2 with
    | error e => exact h3
    | ok u =>
      simp only
      exact h3.trans_lazy
        ((pyPushInGrads_lazy env op inputs s2).mono (fun X hX => List.mem_append_right _ hX))

theorem pyTraceGrad_init (env : Env) (op : OpId) (inputs outputs : List VarId) (s : State)
    (hok : (pyTraceGrad env op inputs outputs s).result = .ok ()) :
    ∀ v ∈ outputs ++ inputs, ∃ gv, gradHandle s v = some gv ∧
      ((pyTraceGrad env op inputs outputs s).state.store gv).IsInitialized = true := by
  unfold pyTraceGrad at hok ⊢
  simp only at hok ⊢
  have h1 : (pyPushForward env op outputs (pyPushForward env op inputs
      (s.setOp op { s.ops op with
        grad_input_vars_ :=
          modifyAt (fun m => m.touch (env.GradVarName env.kFwdInp)) 0
            (resize (s.ops op).grad_input_vars_ 1 [])
        grad_output_vars_ :=
          modifyAt (fun m => m.touch (env.GradVarName env.kFwdOut)) 0
            (resize (s.ops op).grad_output_vars_ 1 []) }))).vars = s.vars :=
    ((pyPushForward_lazy env op (fun _ => True) none outputs _).vars.trans
      (pyPushForward_lazy env op (fun _ => True) none inputs _).vars).trans rfl
  have h2 := pyPushOutGrads_lazy env op outputs
    (pyPushForward env op outputs (pyPushForward env op inputs
      (s.setOp op { s.ops op with
        grad_input_vars_ :=
          modifyAt (fun m => m.touch (env.GradVarName env.kFwdInp)) 0
            (resize (s.ops op).grad_input_vars_ 1 [])
        grad_output_vars_ :=
          modifyAt (fun m => m.touch (env.GradVarName env.kFwdOut)) 0
            (resize (s.ops op).grad_output_vars_ 1 []) })))
  have h3 := pyPushOutGrads_init env op outputs
    (pyPushForward env op outputs (pyPushForward env op inputs
      (s.setOp op { s.ops op with
        grad_input_vars_ :=
          modifyAt (fun m => m.touch (env.GradVarName env.kFwdInp)) 0
            (resize (s.ops op).grad_input_vars_ 1 [])
        grad_output_vars_ :=
          modifyAt (fun m => m.touch (env.GradVarName env.kFwdOut)) 0
            (resize (s.ops op).grad_output_vars_ 1 []) })))
  generalize pyPushForward env op outputs (pyPushForward env op inputs
      (s.setOp op { s.ops op with
        grad_input_vars_ :=
          modifyAt (fun m => m.touch (env.GradVarName env.kFwdInp)) 0
            (resize (s.ops op).grad_input_vars_ 1 [])
        grad_output_vars_ :=
          modifyAt (fun m => m.touch (env.GradVarName env.kFwdOut)) 0
            (resize (s.ops op).grad_output_vars_ 1 []) })) = sp at hok h1 h2 h3 ⊢
  generalize hout : pyPushOutGrads env op outputs sp = out at hok h2 h3 ⊢
  cases out with
  | mk s2 r2 =>
    cases r2 with
    | error e => simp at hok
    | ok u =>
      simp only at hok h2 h3 ⊢
      have h4 := pyPushInGrads_lazy env op inputs s2
      have h5 := pyPushInGrads_init env op inputs s2 hok
      intro v hv
      rcases List.mem_append.1 hv with hv1 | hv1
      · obtain ⟨gv, g1, g2⟩ := h3 trivial v hv1
        exact ⟨gv, by rw [← gradHandle_congr h1]; exact g1, h4.stays g2⟩
      · obtain ⟨gv, g1, g2⟩ := h5 v hv1
        exact ⟨gv, by rw [← gradHandle_congr (h2.vars.trans h1)]; exact g1, g2⟩

/-- The effect of a `Tracer::PyTrace` call with gradients on the data store, whether it
returns or throws: a variable that the callback left as it was is as it was, except that
an uninitialized gradient buffer of an output or input may have become a zero buffer of
the dimensions of that variable's data. -/
theorem PyTrace_lazy (env : Env) (s : State) (op : OpId) (inputs : List VarId)
    (x : VariableId) (hx : (pyApplied env s op inputs).store x = s.store x) :
    (PyTrace env s op inputs false).state.store x = s.store x ∨
    ((s.store x).IsInitialized = false ∧
      ∃ X xv t ctx, X ∈ pyOutputs env s op inputs ++ inputs ∧
        gradHandle s X = some x ∧ (s.vars X).var_ = some xv ∧
        ((PyTrace env s op inputs false).state.store xv).holder = some t ∧
        env.DeviceContextPoolGet Place.CPUPlace = some ctx ∧
        (PyTrace env s op inputs false).state.store x = zeroBuffer t.dims ctx.place) := by
  have hl := pyTraceGrad_lazy env op inputs (pyOutputs env s op inputs)
    (pyTraceLink env s op inputs false)
  have hf := pyTraceLink_fields env s op inputs false
  have hst : (PyTrace env s op inputs false).state
      = (pyTraceGrad env op inputs (pyOutputs env s op inputs)
          (pyTraceLink env s op inputs false)).state := by
    unfold PyTrace
    simp only [Bool.false_eq_true, if_false]
    generalize pyTraceGrad env op inputs (pyOutputs env s op inputs)
      (pyTraceLink env s op inputs false) = out
    cases out with
    | mk s1 r1 => cases r1 <;> rfl
  rw [hst]
  have hlx : (pyTraceLink env s op inputs false).store x = s.store x := by
    rw [pyTraceLink_store]
    exact hx
  rcases hl.store x with h1 | ⟨hu, X, xv, t, ctx, m1, m2, m3, m4, m5, m6⟩
  · exact Or.inl (h1.trans hlx)
  · rw [hlx] at hu
    refine Or.inr ⟨hu, X, xv, t, ctx, m1, ?_, ?_, m4, m5, m6⟩
    · rw [← gradHandle_of_fields hf X]
      exact m2
    · rw [← (hf X).1]
      exact m3

theorem PyTrace_init (env : Env) (s : State) (op : OpId) (inputs r : List VarId)
    (hok : (PyTrace env s op inputs false).result = .ok r) :
    ∀ v ∈ pyOutputs env s op inputs ++ inputs, ∃ gv, gradHandle s v = some gv ∧
      ((PyTrace env s op inputs false).state.store gv).IsInitialized = true := by
  have hf := pyTraceLink_fields env s op inputs false
  have hi := pyTraceGrad_init env op inputs (pyOutputs env s op inputs)
    (pyTraceLink env s op inputs false)
  unfold PyTrace at hok ⊢
  simp only [Bool.false_eq_true, if_false] at hok ⊢
  generalize pyTraceGrad env op inputs (pyOutputs env s op inputs)
    (pyTraceLink env s op inputs false) = out at hok hi ⊢
  cases out with
  | mk s1 r1 =>
    cases r1 with
    | error e => simp at hok
    | ok u =>
      intro v hv
      obtain ⟨gv, g1, g2⟩ := hi rfl v hv
      exact ⟨gv, by rw [← gradHandle_of_fields hf v]; exact g1, g2⟩

/-! ## Claims C13 and C17 -/

/-- Claim C13, as the code has it. After a Trace call with stopGradient = false that
returns, the gradient buffer of a forward Variable registered for a backward name, if it
was uninitialized when the call started and is not the data handle of an output, is a
zero buffer: initialized, of element type `float` whatever the element type of the
forward data, every element zero, on the place of the device context, and of the
dimensions of the data of a mapped forward Variable that has this gradient buffer (the
Variable itself when no other mapped Variable shares the buffer). The same holds after a
TraceCustom call with stopGradient = false that returns, for the gradient buffers of the
outputs and inputs that the callback left alone. A variable that is not the gradient
buffer of a Variable mapped by the call (and is not written by the forward part) keeps
its contents, so an uninitialized one stays uninitialized. -/
theorem C13_lazy_zero_init (env : Env) (s : State) :
    (∀ (op : OpId) (inputs outputs : VarBasePtrMap) (block : BlockId) (expected_place : Place)
        (r : List String),
      (Trace env s op inputs outputs block expected_place false).result = .ok r →
      ∀ (X : VarId) (x : VariableId),
        mappedNames (env.GradOpMaker (s.ops op).op_desc_).2 (forwardVar s inputs outputs)
          (descNames (env.GradOpMaker (s.ops op).op_desc_).1) X →
        gradHandle s X = some x → (s.store x).IsInitialized = false →
        some x ∉ outHandles s outputs →
        ∃ Y yv t ctx,
          mappedNames (env.GradOpMaker (s.ops op).op_desc_).2 (forwardVar s inputs outputs)
            (descNames (env.GradOpMaker (s.ops op).op_desc_).1) Y ∧
          gradHandle s Y = some x ∧ (s.vars Y).var_ = some yv ∧
          ((Trace env s op inputs outputs block expected_place false).state.store yv).holder
            = some t ∧
          env.Prepare (s.ops op).op_desc_ expected_place = some ctx ∧
          (Trace env s op inputs outputs block expected_place false).state.store x
            = zeroBuffer t.dims ctx.place) ∧
    (∀ (op : OpId) (inputs r : List VarId),
      (PyTrace env s op inputs false).result = .ok r →
      ∀ (X : VarId) (x : VariableId), X ∈ pyOutputs env s op inputs ++ inputs →
        gradHandle s X = some x → (s.store x).IsInitialized = false →
        (pyApplied env s op inputs).store x = s.store x →
        ∃ Y yv t ctx, Y ∈ pyOutputs env s op inputs ++ inputs ∧
          gradHandle s Y = some x ∧ (s.vars Y).var_ = some yv ∧
          ((PyTrace env s op inputs false).state.store yv).holder = some t ∧
          env.DeviceContextPoolGet Place.CPUPlace = some ctx ∧
          (PyTrace env s op inputs false).state.store x = zeroBuffer t.dims ctx.place) ∧
    (∀ (op : OpId) (inputs outputs : VarBasePtrMap) (block : BlockId) (expected_place : Place)
        (x : VariableId),
      some x ∉ outHandles s outputs →
      (∀ X, mappedNames (env.GradOpMaker (s.ops op).op_desc_).2 (forwardVar s inputs outputs)
          (descNames (env.GradOpMaker (s.ops op).op_desc_).1) X → gradHandle s X ≠ some x) →
      (Trace env s op inputs outputs block expected_place false).state.store x = s.store x) ∧
    (∀ (op : OpId) (inputs : List VarId) (x : VariableId),
      (pyApplied env s op inputs).store x = s.store x →
      (∀ X ∈ pyOutputs env s op inputs ++ inputs, gradHandle s X ≠ some x) →
      (PyTrace env s op inputs false).state.store x = s.store x) := by
  refine ⟨?_, ?_, ?_, ?_⟩
  · intro op inputs outputs block expected_place r hok X x hm hg hu hx
    rcases Trace_lazy env s op inputs outputs block expected_place x hx with
      h1 | ⟨-, Y, yv, t, ctx, m1, m2, m3, m4, m5, m6⟩
    · exfalso
      obtain ⟨-, -, -, w4, w⟩ := Trace_wired env s op inputs outputs block expected_place r hok
      obtain ⟨n, hn, fwd, hf, hX⟩ := hm
      have hinit : ((Trace env s op inputs outputs block expected_place false).state.store
          x).IsInitialized = true := by
        simp only [descNames, List.mem_flatten, List.mem_map] at hn
        obtain ⟨l, ⟨d, hd, rfl⟩, hnl⟩ := hn
        rcases List.mem_append.1 hnl with h2 | h2
        · obtain ⟨X1, gv, a, b, c⟩ := ((w d hd).1 n h2).2 fwd hf
          rw [hX] at a
          injection a with a1
          subst a1
          rw [w4, hg] at b
          injection b with b1
          subst b1
          exact c
        · obtain ⟨fwd1, X1, gv, a0, a, b, c⟩ := (w d hd).2 n h2
          rw [hf] at a0
          injection a0 with a01
          subst a01
          rw [hX] at a
          injection a with a1
          subst a1
          rw [w4, hg] at b
          injection b with b1
          subst b1
          exact c
      rw [h1, hu] at hinit
      cases hinit
    · exact ⟨Y, yv, t, ctx, m1, m2, m3, m4, m5, m6⟩
  · intro op inputs r hok X x hm hg hu hx
    rcases PyTrace_lazy env s op inputs x hx with
      h1 | ⟨-, Y, yv, t, ctx, m1, m2, m3, m4, m5, m6⟩
    · exfalso
      obtain ⟨gv, g1, g2⟩ := PyTrace_init env s op inputs r hok X hm
      rw [hg] at g1
      injection g1 with g3
      subst g3
      rw [h1, hu] at g2
      cases g2
    · exact ⟨Y, yv, t, ctx, m1, m2, m3, m4, m5, m6⟩
  · intro op inputs outputs block expected_place x hx hno
    rcases Trace_lazy env s op inputs outputs block expected_place x hx with
      h1 | ⟨-, Y, yv, t, ctx, m1, m2, -⟩
    · exact h1
    · exact absurd m2 (hno Y m1)
  · intro op inputs x hx hno
    rcases PyTrace_lazy env s op inputs x hx with h1 | ⟨-, Y, yv, t, ctx, m1, m2, -⟩
    · exact h1
    · exact absurd m2 (hno Y m1)

/-- Scenario B, `relu(x) -> y` with gradients: the gradient buffer of `x` (variable 100)
is uninitialized before the call and a zero buffer after it. -/
theorem C13_lazy_zero_init_witness :
    ∃ Y yv t ctx,
      mappedNames (demoEnv.GradOpMaker (demoState.ops 0).op_desc_).2
        (forwardVar demoState [("X", [0])] [("Out", [1])])
        (descNames (demoEnv.GradOpMaker (demoState.ops 0).op_desc_).1) Y ∧
      gradHandle demoState Y = some 100 ∧ (demoState.vars Y).var_ = some yv ∧
      ((Trace demoEnv demoState 0 [("X", [0])] [("Out", [1])] 0 Place.CPUPlace
        false).state.store yv).holder = some t ∧
      demoEnv.Prepare (demoState.ops 0).op_desc_ Place.CPUPlace = some ctx ∧
      (Trace demoEnv demoState 0 [("X", [0])] [("Out", [1])] 0 Place.CPUPlace
        false).state.store 100 = zeroBuffer t.dims ctx.place :=
  (C13_lazy_zero_init demoEnv demoState).1 0 [("X", [0])] [("Out", [1])] 0 Place.CPUPlace
    ["Out"] (by decide) 0 100
    ⟨"x@GRAD", by decide, "x", by decide, by decide⟩ (by decide) (by decide) (by decide)

/-- Scenario B with the data of `x` held as `double`: the call returns, the data of `x`
still has element type `double`, and the gradient buffer of `x`, uninitialized before the
call, has element type `float` after it. -/
theorem C13_counterexample :
    (Trace demoEnv doubleState 0 [("X", [0])] [("Out", [1])] 0 Place.CPUPlace false).result
      = .ok ["Out"] ∧
    (doubleState.vars 0).var_ = some 0 ∧ gradHandle doubleState 0 = some 100 ∧
    (doubleState.store 100).IsInitialized = false ∧
    dtypeOf (Trace demoEnv doubleState 0 [("X", [0])] [("Out", [1])] 0 Place.CPUPlace
      false).state.store 0 = some DataType.FP64 ∧
    dtypeOf (Trace demoEnv doubleState 0 [("X", [0])] [("Out", [1])] 0 Place.CPUPlace
      false).state.store 100 = some DataType.FP32 := by
  decide

/-- Claim C17, as the code has it. The gradient wiring of Trace and of TraceCustom leaves
every initialized variable of the data store as it is: zero-filling happens only on the
uninitialized branch. Over a whole call with stopGradient = false, whether it returns or
throws, a variable that is initialized when the call starts is unchanged provided the
forward part does not write it: for Trace it must not be the data handle of an output of
the call, for TraceCustom the callback must leave it as it was. -/
theorem C17_no_reset (env : Env) (s : State) :
    (∀ (op : OpId) (block : BlockId) (vars : StrMap VarId) (dev_ctx : Option DeviceContext)
        (x : VariableId), (s.store x).IsInitialized = true →
      (traceGrad env op block vars dev_ctx s).state.store x = s.store x) ∧
    (∀ (op : OpId) (inputs outputs : List VarId) (x : VariableId),
      (s.store x).IsInitialized = true →
      (pyTraceGrad env op inputs outputs s).state.store x = s.store x) ∧
    (∀ (op : OpId) (inputs outputs : VarBasePtrMap) (block : BlockId) (expected_place : Place)
        (x : VariableId), (s.store x).IsInitialized = true →
      some x ∉ outHandles s outputs →
      (Trace env s op inputs outputs block expected_place false).state.store x = s.store x) ∧
    (∀ (op : OpId) (inputs : List VarId) (x : VariableId),
      (s.store x).IsInitialized = true →
      (pyApplied env s op inputs).store x = s.store x →
      (PyTrace env s op inputs false).state.store x = s.store x) := by
  refine ⟨?_, ?_, ?_, ?_⟩
  · intro op block vars dev_ctx x hx
    exact (traceGrad_lazy env op block vars dev_ctx s).initialized hx
  · intro op inputs outputs x hx
    exact (pyTraceGrad_lazy env op inputs outputs s).initialized hx
  · intro op inputs outputs block expected_place x hi hx
    rcases Trace_lazy env s op inputs outputs block expected_place x hx with h1 | ⟨hu, -⟩
    · exact h1
    · rw [hi] at hu
      cases hu
  · intro op inputs x hi hx
    rcases PyTrace_lazy env s op inputs x hx with h1 | ⟨hu, -⟩
    · exact h1
    · rw [hi] at hu
      cases hu

/-- Scenario E followed by scenario B: the custom layer over `x` and `y` initializes the
gradient buffer of `x` (variable 100); `relu(x) -> y` traced afterwards with gradients
maps that buffer again and leaves it as it was. -/
theorem C17_no_reset_witness :
    (Trace demoEnv (PyTrace demoEnv demoState 3 [0, 1] false).state 0 [("X", [0])]
      [("Out", [1])] 0 Place.CPUPlace false).state.store 100
      = (PyTrace demoEnv demoState 3 [0, 1] false).state.store 100 :=
  (C17_no_reset demoEnv (PyTrace demoEnv demoState 3 [0, 1] false).state).2.2.1 0
    [("X", [0])] [("Out", [1])] 0 Place.CPUPlace 100 (by decide) (by decide)

/-- Scenario E first: after the custom layer over `x` and `y`, the gradient buffer of `x`
(variable 100) is initialized. A Trace call with gradients that lists the gradient
variable of `x` as its output returns, and its forward kernel has overwritten the
buffer. -/
theorem C17_counterexample :
    gradHandle (PyTrace oddEnv demoState 3 [0, 1] false).state 0 = some 100 ∧
    ((PyTrace oddEnv demoState 3 [0, 1] false).state.store 100).IsInitialized = true ∧
    (Trace oddEnv (PyTrace oddEnv demoState 3 [0, 1] false).state 2 [("X", [1])]
      [("Out", [100])] 0 Place.CPUPlace false).result = .ok ["X"] ∧
    (Trace oddEnv (PyTrace oddEnv demoState 3 [0, 1] false).state 2 [("X", [1])]
      [("Out", [100])] 0 Place.CPUPlace false).state.store 100
      ≠ (PyTrace oddEnv demoState 3 [0, 1] false).state.store 100 := by
  decide

/-! ## Gradient wiring over a list that is wired in two parts -/

theorem gradInputNames_append (env : Env) (op : OpId) (block : BlockId) (i : Nat)
    (first : String) (grad_to_var : StrMap String) (vars : StrMap VarId)
    (dev_ctx : Option DeviceContext) (a b : List String) (s : State) (saved : List String) :
    gradInputNames env op block i first grad_to_var vars dev_ctx (a ++ b) s saved =
      match gradInputNames env op block i first grad_to_var vars dev_ctx a s saved with
      | ⟨s1, .error e⟩ => ⟨s1, .error e⟩
      | ⟨s1, .ok saved1⟩ =>
        gradInputNames env op block i first grad_to_var vars dev_ctx b s1 saved1 := by
  induction a generalizing s saved with
  | nil => simp [gradInputNames]
  | cons n t ih =>
    simp only [List.cons_append, gradInputNames]
    cases grad_to_var.find n with
    | none =>
      simp only
      cases vars.find n with
      | none => rfl
      | some fwd => exact ih _ _
    | some fwd_name =>
      simp only
      cases gradVarOf (s.setBlock block (env.FindRecursiveOrCreateVar (s.blocks block) n))
          vars fwd_name dev_ctx with
      | mk s2 r2 =>
        cases r2 with
        | error e => rfl
        | ok gv => exact ih _ _

theorem gradOutputNames_append (env : Env) (op : OpId) (block : BlockId) (i : Nat)
    (first : String) (grad_to_var : StrMap String) (vars : StrMap VarId)
    (dev_ctx : Option DeviceContext) (a b : List String) (s : State) :
    gradOutputNames env op block i first grad_to_var vars dev_ctx (a ++ b) s =
      match gradOutputNames env op block i first grad_to_var vars dev_ctx a s with
      | ⟨s1, .error e⟩ => ⟨s1, .error e⟩
      | ⟨s1, .ok _⟩ =>
        gradOutputNames env op block i first grad_to_var vars dev_ctx b s1 := by
  induction a generalizing s with
  | nil => simp [gradOutputNames]
  | cons n t ih =>
    simp only [List.cons_append, gradOutputNames]
    cases grad_to_var.find n with
    | none => rfl
    | some fwd_name =>
      simp only
      cases gradVarOf (s.setBlock block (env.FindRecursiveOrCreateVar (s.blocks block) n))
          vars fwd_name dev_ctx with
      | mk s2 r2 =>
        cases r2 with
        | error e => rfl
        | ok gv => exact ih _

theorem gradInputGroups_append (env : Env) (op : OpId) (block : BlockId) (i : Nat)
    (grad_to_var : StrMap String) (vars : StrMap VarId) (dev_ctx : Option DeviceContext)
    (a b : StrMap (List String)) (s : State) (saved : List String) :
    gradInputGroups env op block i grad_to_var vars dev_ctx (a ++ b) s saved =
      match gradInputGroups env op block i grad_to_var vars dev_ctx a s saved with
      | ⟨s1, .error e⟩ => ⟨s1, .error e⟩
      | ⟨s1, .ok saved1⟩ =>
        gradInputGroups env op block i grad_to_var vars dev_ctx b s1 saved1 := by
  induction a generalizing s saved with
  | nil => simp [gradInputGroups]
  | cons e t ih =>
    obtain ⟨first, second⟩ := e
    simp only [List.cons_append, gradInputGroups]
    cases gradInputNames env op block i first grad_to_var vars dev_ctx second
        (s.setOp op { s.ops op with
          grad_input_vars_ := modifyAt (fun m => m.touch first) i (s.ops op).grad_input_vars_ })
        saved with
    | mk s2 r2 =>
      cases r2 with
      | error e => rfl
      | ok saved1 => exact ih _ _

theorem gradOutputGroups_append (env : Env) (op : OpId) (block : BlockId) (i : Nat)
    (grad_to_var : StrMap String) (vars : StrMap VarId) (dev_ctx : Option DeviceContext)
    (a b : StrMap (List String)) (s : State) :
    gradOutputGroups env op block i grad_to_var vars dev_ctx (a ++ b) s =
      match gradOutputGroups env op block i grad_to_var vars dev_ctx a s with
      | ⟨s1, .error e⟩ => ⟨s1, .error e⟩
      | ⟨s1, .ok _⟩ => gradOutputGroups env op block i grad_to_var vars dev_ctx b s1 := by
  induction a generalizing s with
  | nil => simp [gradOutputGroups]
  | cons e t ih =>
    obtain ⟨first, second⟩ := e
    simp only [List.cons_append, gradOutputGroups]
    cases gradOutputNames env op block i first grad_to_var vars dev_ctx second
        (s.setOp op { s.ops op with
          grad_output_vars_ :=
            modifyAt (fun m => m.touch first) i (s.ops op).grad_output_vars_ }) with
    | mk s2 r2 =>
      cases r2 with
      | error e => rfl
      | ok u => exact ih _

theorem gradOpDescs_append (env : Env) (op : OpId) (block : BlockId)
    (grad_to_var : StrMap String) (vars : StrMap VarId) (dev_ctx : Option DeviceContext)
    (i : Nat) (a b : List OpDesc) (s : State) (saved : List String) :
    gradOpDescs env op block grad_to_var vars dev_ctx i (a ++ b) s saved =
      match gradOpDescs env op block grad_to_var vars dev_ctx i a s saved with
      | ⟨s1, .error e⟩ => ⟨s1, .error e⟩
      | ⟨s1, .ok saved1⟩ =>
        gradOpDescs env op block grad_to_var vars dev_ctx (i + a.length) b s1 saved1 := by
  induction a generalizing s saved i with
  | nil => simp [gradOpDescs]
  | cons d t ih =>
    simp only [List.cons_append, gradOpDescs, List.length_cons]
    cases gradInputGroups env op block i grad_to_var vars dev_ctx d.inputs s saved with
    | mk s1 r1 =>
      cases r1 with
      | error e => rfl
      | ok saved1 =>
        simp only
        cases gradOutputGroups env op block i grad_to_var vars dev_ctx d.outputs s1 with
        | mk s2 r2 =>
          cases r2 with
          | error e => rfl
          | ok u =>
            simp only
            have h := ih (i + 1) s2 saved1
            have e : i + 1 + t.length = i + (t.length + 1) := by omega
            rw [e] at h
            exact h

/-! ## Gradient wiring that passes, and its first failure -/

theorem gradientReady_lift {mapped : VarId → Prop} {dev_ctx : Option DeviceContext}
    {s s1 : State} (hl : LazyInit mapped dev_ctx s s1) (find : String → Option VarId)
    (fwd : String) (h : gradientReady s find fwd = true) :
    gradientReady s1 find fwd = true := by
  unfold gradientReady at h ⊢
  cases hf : find fwd with
  | none => simp [hf] at h
  | some X =>
    simp only [hf] at h ⊢
    rw [gradHandle_congr hl.vars, hl.vars]
    cases hg : gradHandle s X with
    | none => simp [hg] at h
    | some gv =>
      simp only [hg, Bool.or_eq_true] at h ⊢
      rcases h with h1 | h1
      · exact Or.inl (hl.stays h1)
      · right
        cases hx : (s.vars X).var_ with
        | none => simp [hx] at h1
        | some xv =>
          simp only [hx] at h1 ⊢
          exact hl.stays h1

theorem gradVarOf_succeeds (s : State) (vars : StrMap VarId) (fwd_name : String)
    (dev_ctx : Option DeviceContext) (hr : gradientReady s vars.find fwd_name = true)
    (hd : dev_ctx.isSome = true) :
    ∃ s1 gv, gradVarOf s vars fwd_name dev_ctx = ⟨s1, .ok gv⟩ := by
  unfold gradientReady at hr
  unfold gradVarOf
  cases hf : vars.find fwd_name with
  | none => simp [hf] at hr
  | some X =>
    simp only [hf] at hr ⊢
    unfold gradHandle at hr
    cases hg : (s.vars X).grads_ with
    | none => simp [hg] at hr
    | some g =>
      simp only [hg] at hr ⊢
      cases hgv : (s.vars g).var_ with
      | none => simp [hgv] at hr
      | some gv =>
        simp only [hgv, Bool.or_eq_true] at hr ⊢
        cases hin : (s.store gv).IsInitialized with
        | true => exact ⟨s, gv, by simp⟩
        | false =>
          simp only [Bool.not_false, if_true]
          rcases hr with h1 | h1
          · rw [hin] at h1
            cases h1
          · cases hx : (s.vars X).var_ with
            | none => simp [hx] at h1
            | some xv =>
              simp only [hx] at h1
              cases hdev : dev_ctx with
              | none => simp [hdev] at hd
              | some ctx =>
                unfold InitVar
                simp only
                cases ht : (s.store xv).holder with
                | none => simp [Variable.IsInitialized, ht] at h1
                | some t => exact ⟨_, gv, rfl⟩

theorem inputWirable_mono {g : StrMap String} {find : String → Option VarId}
    {r1 r2 : String → Bool} (hr : ∀ fwd, r1 fwd = true → r2 fwd = true) {n : String}
    (h : inputWirable g find r1 n = true) : inputWirable g find r2 n = true := by
  unfold inputWirable at h ⊢
  cases hf : g.find n with
  | none => simpa [hf] using h
  | some fwd =>
    simp only [hf] at h ⊢
    exact hr fwd h

theorem outputWirable_mono {g : StrMap String} {r1 r2 : String → Bool}
    (hr : ∀ fwd, r1 fwd = true → r2 fwd = true) {n : String}
    (h : outputWirable g r1 n = true) : outputWirable g r2 n = true := by
  unfold outputWirable at h ⊢
  cases hf : g.find n with
  | none => simp [hf] at h
  | some fwd =>
    simp only [hf] at h ⊢
    exact hr fwd h

theorem gradInputNames_succeeds (env : Env) (op : OpId) (block : BlockId) (i : Nat)
    (first : String) (grad_to_var : StrMap String) (vars : StrMap VarId)
    (dev_ctx : Option DeviceContext) (names : List String) (s : State) (saved : List String)
    (hd : dev_ctx.isSome = true)
    (hall : ∀ n ∈ names,
      inputWirable grad_to_var vars.find (gradientReady s vars.find) n = true) :
    ∃ s1 r, gradInputNames env op block i first grad_to_var vars dev_ctx names s saved
      = ⟨s1, .ok r⟩ := by
  induction names generalizing s saved with
  | nil => exact ⟨s, saved, rfl⟩
  | cons n t ih =>
    have hn := hall n (List.mem_cons_self _ _)
    have hrest : ∀ (s1 : State), LazyInit (fun _ => True) dev_ctx s s1 → ∀ m ∈ t,
        inputWirable grad_to_var vars.find (gradientReady s1 vars.find) m = true :=
      fun s1 hl m hm => inputWirable_mono (fun fwd h => gradientReady_lift hl vars.find fwd h)
        (hall m (List.mem_cons_of_mem _ hm))
    have hb : LazyInit (fun _ => True) dev_ctx s
        (s.setBlock block (env.FindRecursiveOrCreateVar (s.blocks block) n)) :=
      LazyInit.of_store rfl rfl
    unfold inputWirable at hn
    simp only [gradInputNames]
    cases hf : grad_to_var.find n with
    | none =>
      simp only [hf] at hn ⊢
      cases hv : vars.find n with
      | none => simp [hv] at hn
      | some fwd =>
        simp only
        have hp : LazyInit (fun _ => True) dev_ctx s
            (pushGradInput (s.setBlock block (env.FindRecursiveOrCreateVar (s.blocks block) n))
              op i first
              ((s.setBlock block (env.FindRecursiveOrCreateVar (s.blocks block) n)).vars
                fwd).var_) := LazyInit.of_store rfl rfl
        exact ih _ _ (hrest _ hp)
    | some fwd_name =>
      simp only [hf] at hn ⊢
      obtain ⟨s2, gv, hg⟩ := gradVarOf_succeeds
        (s.setBlock block (env.FindRecursiveOrCreateVar (s.blocks block) n)) vars fwd_name
        dev_ctx (gradientReady_lift hb vars.find fwd_name hn) hd
      have hl := gradVarOf_lazy
        (s.setBlock block (env.FindRecursiveOrCreateVar (s.blocks block) n)) vars fwd_name
        dev_ctx
      rw [hg] at hl ⊢
      simp only at hl ⊢
      have hp : LazyInit (fun _ => True) dev_ctx s2 (pushGradInput s2 op i first (some gv)) :=
        LazyInit.of_store rfl rfl
      exact ih _ _ (hrest _ ((hb.trans_lazy (hl.mono (fun _ _ => trivial))).trans_lazy hp))

theorem gradOutputNames_succeeds (env : Env) (op : OpId) (block : BlockId) (i : Nat)
    (first : String) (grad_to_var : StrMap String) (vars : StrMap VarId)
    (dev_ctx : Option DeviceContext) (names : List String) (s : State)
    (hd : dev_ctx.isSome = true)
    (hall : ∀ n ∈ names, outputWirable grad_to_var (gradientReady s vars.find) n = true) :
    ∃ s1 r, gradOutputNames env op block i first grad_to_var vars dev_ctx names s
      = ⟨s1, .ok r⟩ := by
  induction names generalizing s with
  | nil => exact ⟨s, (), rfl⟩
  | cons n t ih =>
    have hn := hall n (List.mem_cons_self _ _)
    have hrest : ∀ (s1 : State), LazyInit (fun _ => True) dev_ctx s s1 → ∀ m ∈ t,
        outputWirable grad_to_var (gradientReady s1 vars.find) m = true :=
      fun s1 hl m hm => outputWirable_mono (fun fwd h => gradientReady_lift hl vars.find fwd h)
        (hall m (List.mem_cons_of_mem _ hm))
    have hb : LazyInit (fun _ => True) dev_ctx s
        (s.setBlock block (env.FindRecursiveOrCreateVar (s.blocks block) n)) :=
      LazyInit.of_store rfl rfl
    unfold outputWirable at hn
    simp only [gradOutputNames]
    cases hf : grad_to_var.find n with
    | none => simp [hf] at hn
    | some fwd_name =>
      simp only [hf] at hn ⊢
      obtain ⟨s2, gv, hg⟩ := gradVarOf_succeeds
        (s.setBlock block (env.FindRecursiveOrCreateVar (s.blocks block) n)) vars fwd_name
        dev_ctx (gradientReady_lift hb vars.find fwd_name hn) hd
      have hl := gradVarOf_lazy
        (s.setBlock block (env.FindRecursiveOrCreateVar (s.blocks block) n)) vars fwd_name
        dev_ctx
      rw [hg] at hl ⊢
      simp only at hl ⊢
      have hp : LazyInit (fun _ => True) dev_ctx s2 (pushGradOutput s2 op i first (some gv)) :=
        LazyInit.of_store rfl rfl
      exact ih _ (hrest _ ((hb.trans_lazy (hl.mono (fun _ _ => trivial))).trans_lazy hp))

theorem gradInputGroups_succeeds (env : Env) (op : OpId) (block : BlockId) (i : Nat)
    (grad_to_var : StrMap String) (vars : StrMap VarId) (dev_ctx : Option DeviceContext)
    (groups : StrMap (List String)) (s : State) (saved : List String)
    (hd : dev_ctx.isSome = true)
    (hall : ∀ n ∈ allNames groups,
      inputWirable grad_to_var vars.find (gradientReady s vars.find) n = true) :
    ∃ s1 r, gradInputGroups env op block i grad_to_var vars dev_ctx groups s saved
      = ⟨s1, .ok r⟩ := by
  induction groups generalizing s saved with
  | nil => exact ⟨s, saved, rfl⟩
  | cons e t ih =>
    obtain ⟨first, second⟩ := e
    have ht : LazyInit (fun _ => True) dev_ctx s
        (s.setOp op { s.ops op with
          grad_input_vars_ :=
            modifyAt (fun m => m.touch first) i (s.ops op).grad_input_vars_ }) :=
      LazyInit.of_store rfl rfl
    obtain ⟨s2, r2, h2⟩ := gradInputNames_succeeds env op block i first grad_to_var vars
      dev_ctx second
      (s.setOp op { s.ops op with
        grad_input_vars_ := modifyAt (fun m => m.touch first) i (s.ops op).grad_input_vars_ })
      saved hd (fun n hn => inputWirable_mono
        (fun fwd h => gradientReady_lift ht vars.find fwd h)
        (hall n (by simp [allNames, hn])))
    have hl := gradInputNames_lazy env op block i first grad_to_var vars dev_ctx second
      (s.setOp op { s.ops op with
        grad_input_vars_ := modifyAt (fun m => m.touch first) i (s.ops op).grad_input_vars_ })
      saved
    rw [h2] at hl
    simp only at hl
    simp only [gradInputGroups]
    rw [h2]
    simp only
    refine ih s2 r2 (fun n hn => inputWirable_mono
      (fun fwd h => gradientReady_lift (ht.trans_lazy (hl.mono (fun _ _ => trivial)))
        vars.find fwd h) (hall n ?_))
    simp only [allNames, List.map_cons, List.flatten_cons, List.mem_append]
    exact Or.inr hn

theorem gradOutputGroups_succeeds (env : Env) (op : OpId) (block : BlockId) (i : Nat)
    (grad_to_var : StrMap String) (vars : StrMap VarId) (dev_ctx : Option DeviceContext)
    (groups : StrMap (List String)) (s : State) (hd : dev_ctx.isSome = true)
    (hall : ∀ n ∈ allNames groups,
      outputWirable grad_to_var (gradientReady s vars.find) n = true) :
    ∃ s1 r, gradOutputGroups env op block i grad_to_var vars dev_ctx groups s
      = ⟨s1, .ok r⟩ := by
  induction groups generalizing s with
  | nil => exact ⟨s, (), rfl⟩
  | cons e t ih =>
    obtain ⟨first, second⟩ := e
    have ht : LazyInit (fun _ => True) dev_ctx s
        (s.setOp op { s.ops op with
          grad_output_vars_ :=
            modifyAt (fun m => m.touch first) i (s.ops op).grad_output_vars_ }) :=
      LazyInit.of_store rfl rfl
    obtain ⟨s2, r2, h2⟩ := gradOutputNames_succeeds env op block i first grad_to_var vars
      dev_ctx second
      (s.setOp op { s.ops op with
        grad_output_vars_ :=
          modifyAt (fun m => m.touch first) i (s.ops op).grad_output_vars_ })
      hd (fun n hn => outputWirable_mono
        (fun fwd h => gradientReady_lift ht vars.find fwd h)
        (hall n (by simp [allNames, hn])))
    have hl := gradOutputNames_lazy env op block i first grad_to_var vars dev_ctx second
      (s.setOp op { s.ops op with
        grad_output_vars_ :=
          modifyAt (fun m => m.touch first) i (s.ops op).grad_output_vars_ })
    rw [h2] at hl
    simp only at hl
    simp only [gradOutputGroups]
    rw [h2]
    simp only
    refine ih s2 (fun n hn => outputWirable_mono
      (fun fwd h => gradientReady_lift (ht.trans_lazy (hl.mono (fun _ _ => trivial)))
        vars.find fwd h) (hall n ?_))
    simp only [allNames, List.map_cons, List.flatten_cons, List.mem_append]
    exact Or.inr hn

theorem descWirable_iff (g : StrMap String) (find : String → Option VarId)
    (ready : String → Bool) (d : OpDesc) :
    descWirable g find ready d = true ↔
      (∀ n ∈ allNames d.inputs, inputWirable g find ready n = true) ∧
      (∀ n ∈ allNames d.outputs, outputWirable g ready n = true) := by
  simp [descWirable, List.all_eq_true]

theorem descWirable_mono {g : StrMap String} {find : String → Option VarId}
    {r1 r2 : String → Bool} (hr : ∀ fwd, r1 fwd = true → r2 fwd = true) {d : OpDesc}
    (h : descWirable g find r1 d = true) : descWirable g find r2 d = true := by
  rw [descWirable_iff] at h ⊢
  exact ⟨fun n hn => inputWirable_mono hr (h.1 n hn),
    fun n hn => outputWirable_mono hr (h.2 n hn)⟩

theorem gradOpDescs_succeeds (env : Env) (op : OpId) (block : BlockId)
    (grad_to_var : StrMap String) (vars : StrMap VarId) (dev_ctx : Option DeviceContext)
    (i : Nat) (descs : List OpDesc) (s : State) (saved : List String)
    (hd : dev_ctx.isSome = true)
    (hall : ∀ d ∈ descs,
      descWirable grad_to_var vars.find (gradientReady s vars.find) d = true) :
    ∃ s1 r, gradOpDescs env op block grad_to_var vars dev_ctx i descs s saved
      = ⟨s1, .ok r⟩ := by
  induction descs generalizing s saved i with
  | nil => exact ⟨s, saved, rfl⟩
  | cons d t ih =>
    obtain ⟨hin, hout⟩ := (descWirable_iff _ _ _ d).1 (hall d (List.mem_cons_self _ _))
    obtain ⟨sa, ra, ha⟩ := gradInputGroups_succeeds env op block i grad_to_var vars dev_ctx
      d.inputs s saved hd hin
    have hla := gradInputGroups_lazy env op block i grad_to_var vars dev_ctx d.inputs s saved
    rw [ha] at hla
    simp only at hla
    obtain ⟨sb, rb, hb⟩ := gradOutputGroups_succeeds env op block i grad_to_var vars dev_ctx
      d.outputs sa hd (fun n hn => outputWirable_mono
        (fun fwd h => gradientReady_lift hla vars.find fwd h) (hout n hn))
    have hlb := gradOutputGroups_lazy env op block i grad_to_var vars dev_ctx d.outputs sa
    rw [hb] at hlb
    simp only at hlb
    simp only [gradOpDescs]
    rw [ha]
    simp only
    rw [hb]
    simp only
    exact ih (i + 1) sb ra (fun d1 hd1 => descWirable_mono
      (fun fwd h => gradientReady_lift
        ((hla.mono (fun _ _ => trivial)).trans_lazy (hlb.mono (fun _ _ => trivial)))
        vars.find fwd h) (hall d1 (List.mem_cons_of_mem _ hd1)))


theorem gradOutputNames_missing (env : Env) (op : OpId) (block : BlockId) (i : Nat)
    (first : String) (grad_to_var : StrMap String) (vars : StrMap VarId)
    (dev_ctx : Option DeviceContext) (npre : List String) (n : String) (npost : List String)
    (s : State) (hd : dev_ctx.isSome = true)
    (hpre : ∀ m ∈ npre, outputWirable grad_to_var (gradientReady s vars.find) m = true)
    (hn : grad_to_var.find n = none) :
    (gradOutputNames env op block i first grad_to_var vars dev_ctx (npre ++ n :: npost)
      s).result = .error (.MissingGradientMapping (s.ops op).op_desc_.type) := by
  obtain ⟨s1, r, h⟩ := gradOutputNames_succeeds env op block i first grad_to_var vars dev_ctx
    npre s hd hpre
  have hfr := gradOutputNames_frame env op block i first grad_to_var vars dev_ctx npre s
  rw [h] at hfr
  simp only at hfr
  rw [gradOutputNames_append, h]
  simp only [gradOutputNames, hn]
  rw [← hfr.op_desc]
  rfl

theorem gradInputNames_dangling (env : Env) (op : OpId) (block : BlockId) (i : Nat)
    (first : String) (grad_to_var : StrMap String) (vars : StrMap VarId)
    (dev_ctx : Option DeviceContext) (npre : List String) (n : String) (npost : List String)
    (s : State) (saved : List String) (hd : dev_ctx.isSome = true)
    (hpre : ∀ m ∈ npre,
      inputWirable grad_to_var vars.find (gradientReady s vars.find) m = true)
    (hn : grad_to_var.find n = none) (hv : vars.find n = none) :
    (gradInputNames env op block i first grad_to_var vars dev_ctx (npre ++ n :: npost)
      s saved).result = .error .DanglingGradientReference := by
  obtain ⟨s1, r, h⟩ := gradInputNames_succeeds env op block i first grad_to_var vars dev_ctx
    npre s saved hd hpre
  rw [gradInputNames_append, h]
  simp only [gradInputNames, hn, hv]

theorem gradOutputGroups_missing (env : Env) (op : OpId) (block : BlockId) (i : Nat)
    (grad_to_var : StrMap String) (vars : StrMap VarId) (dev_ctx : Option DeviceContext)
    (gpre : StrMap (List String)) (key : String) (npre : List String) (n : String)
    (npost : List String) (gpost : StrMap (List String)) (s : State)
    (hd : dev_ctx.isSome = true)
    (hgpre : ∀ m ∈ allNames gpre,
      outputWirable grad_to_var (gradientReady s vars.find) m = true)
    (hpre : ∀ m ∈ npre, outputWirable grad_to_var (gradientReady s vars.find) m = true)
    (hn : grad_to_var.find n = none) :
    (gradOutputGroups env op block i grad_to_var vars dev_ctx
      (gpre ++ (key, npre ++ n :: npost) :: gpost) s).result
      = .error (.MissingGradientMapping (s.ops op).op_desc_.type) := by
  obtain ⟨s1, r, h⟩ := gradOutputGroups_succeeds env op block i grad_to_var vars dev_ctx
    gpre s hd hgpre
  have hfr := gradOutputGroups_frame env op block i grad_to_var vars dev_ctx gpre s
  have hl := gradOutputGroups_lazy env op block i grad_to_var vars dev_ctx gpre s
  rw [h] at hfr hl
  simp only at hfr hl
  have ht : LazyInit (fun _ => True) dev_ctx s1
      (s1.setOp op { s1.ops op with
        grad_output_vars_ :=
          modifyAt (fun m => m.touch key) i (s1.ops op).grad_output_vars_ }) :=
    LazyInit.of_store rfl rfl
  have hm := gradOutputNames_missing env op block i key grad_to_var vars dev_ctx npre n npost
    (s1.setOp op { s1.ops op with
      grad_output_vars_ :=
        modifyAt (fun m => m.touch key) i (s1.ops op).grad_output_vars_ }) hd
    (fun m hmem => outputWirable_mono
      (fun fwd hh => gradientReady_lift ((hl.mono (fun _ _ => trivial)).trans_lazy ht)
        vars.find fwd hh) (hpre m hmem)) hn
  rw [gradOutputGroups_append, h]
  simp only [gradOutputGroups]
  generalize gradOutputNames env op block i key grad_to_var vars dev_ctx (npre ++ n :: npost)
    (s1.setOp op { s1.ops op with
      grad_output_vars_ :=
        modifyAt (fun m => m.touch key) i (s1.ops op).grad_output_vars_ }) = out at hm ⊢
  cases out with
  | mk s2 r2 =>
    simp only at hm
    subst hm
    simp only [State.setOp_ops_self]
    rw [hfr.op_desc]

theorem gradInputGroups_dangling (env : Env) (op : OpId) (block : BlockId) (i : Nat)
    (grad_to_var : StrMap String) (vars : StrMap VarId) (dev_ctx : Option DeviceContext)
    (gpre : StrMap (List String)) (key : String) (npre : List String) (n : String)
    (npost : List String) (gpost : StrMap (List String)) (s : State) (saved : List String)
    (hd : dev_ctx.isSome = true)
    (hgpre : ∀ m ∈ allNames gpre,
      inputWirable grad_to_var vars.find (gradientReady s vars.find) m = true)
    (hpre : ∀ m ∈ npre,
      inputWirable grad_to_var vars.find (gradientReady s vars.find) m = true)
    (hn : grad_to_var.find n = none) (hv : vars.find n = none) :
    (gradInputGroups env op block i grad_to_var vars dev_ctx
      (gpre ++ (key, npre ++ n :: npost) :: gpost) s saved).result
      = .error .DanglingGradientReference := by
  obtain ⟨s1, r, h⟩ := gradInputGroups_succeeds env op block i grad_to_var vars dev_ctx
    gpre s saved hd hgpre
  have hl := gradInputGroups_lazy env op block i grad_to_var vars dev_ctx gpre s saved
  rw [h] at hl
  simp only at hl
  have ht : LazyInit (fun _ => True) dev_ctx s1
      (s1.setOp op { s1.ops op with
        grad_input_vars_ :=
          modifyAt (fun m => m.touch key) i (s1.ops op).grad_input_vars_ }) :=
    LazyInit.of_store rfl rfl
  have hm := gradInputNames_dangling env op block i key grad_to_var vars dev_ctx npre n npost
    (s1.setOp op { s1.ops op with
      grad_input_vars_ :=
        modifyAt (fun m => m.touch key) i (s1.ops op).grad_input_vars_ }) r hd
    (fun m hmem => inputWirable_mono
      (fun fwd hh => gradientReady_lift ((hl.mono (fun _ _ => trivial)).trans_lazy ht)
        vars.find fwd hh) (hpre m hmem)) hn hv
  rw [gradInputGroups_append, h]
  simp only [gradInputGroups]
  generalize gradInputNames env op block i key grad_to_var vars dev_ctx (npre ++ n :: npost)
    (s1.setOp op { s1.ops op with
      grad_input_vars_ :=
        modifyAt (fun m => m.touch key) i (s1.ops op).grad_input_vars_ }) r = out at hm ⊢
  cases out with
  | mk s2 r2 =>
    simp only at hm
    subst hm
    rfl

theorem gradOpDescs_missing (env : Env) (op : OpId) (block : BlockId)
    (grad_to_var : StrMap String) (vars : StrMap VarId) (dev_ctx : Option DeviceContext)
    (i : Nat) (pre : List OpDesc) (d : OpDesc) (post : List OpDesc)
    (gpre : StrMap (List String)) (key : String) (npre : List String) (n : String)
    (npost : List String) (gpost : StrMap (List String)) (s : State) (saved : List String)
    (hd : dev_ctx.isSome = true)
    (hdpre : ∀ d1 ∈ pre,
      descWirable grad_to_var vars.find (gradientReady s vars.find) d1 = true)
    (hin : ∀ m ∈ allNames d.inputs,
      inputWirable grad_to_var vars.find (gradientReady s vars.find) m = true)
    (hout : d.outputs = gpre ++ (key, npre ++ n :: npost) :: gpost)
    (hgpre : ∀ m ∈ allNames gpre,
      outputWirable grad_to_var (gradientReady s vars.find) m = true)
    (hpre : ∀ m ∈ npre, outputWirable grad_to_var (gradientReady s vars.find) m = true)
    (hn : grad_to_var.find n = none) :
    (gradOpDescs env op block grad_to_var vars dev_ctx i (pre ++ d :: post) s saved).result
      = .error (.MissingGradientMapping (s.ops op).op_desc_.type) := by
  obtain ⟨s1, r, h⟩ := gradOpDescs_succeeds env op block grad_to_var vars dev_ctx i pre s
    saved hd hdpre
  have hfr := gradOpDescs_frame env op block grad_to_var vars dev_ctx i pre s saved
  have hl := gradOpDescs_lazy env op block grad_to_var vars dev_ctx i pre s saved
  rw [h] at hfr hl
  simp only at hfr hl
  obtain ⟨sa, ra, ha⟩ := gradInputGroups_succeeds env op block (i + pre.length) grad_to_var
    vars dev_ctx d.inputs s1 r hd (fun m hm => inputWirable_mono
      (fun fwd hh => gradientReady_lift hl vars.find fwd hh) (hin m hm))
  have hfa := gradInputGroups_frame env op block (i + pre.length) grad_to_var vars dev_ctx
    d.inputs s1 r
  have hla := gradInputGroups_lazy env op block (i + pre.length) grad_to_var vars dev_ctx
    d.inputs s1 r
  rw [ha] at hfa hla
  simp only at hfa hla
  have hlift : ∀ fwd, gradientReady s vars.find fwd = true →
      gradientReady sa vars.find fwd = true :=
    fun fwd hh => gradientReady_lift
      ((hl.mono (fun _ _ => trivial)).trans_lazy (hla.mono (fun _ _ => trivial)))
      vars.find fwd hh
  have hm := gradOutputGroups_missing env op block (i + pre.length) grad_to_var vars dev_ctx
    gpre key npre n npost gpost sa hd
    (fun m hmem => outputWirable_mono hlift (hgpre m hmem))
    (fun m hmem => outputWirable_mono hlift (hpre m hmem)) hn
  rw [gradOpDescs_append, h]
  simp only [gradOpDescs]
  rw [ha]
  simp only
  rw [hout]
  generalize gradOutputGroups env op block (i + pre.length) grad_to_var vars dev_ctx
    (gpre ++ (key, npre ++ n :: npost) :: gpost) sa = out at hm ⊢
  cases out with
  | mk s2 r2 =>
    simp only at hm
    subst hm
    simp only
    rw [hfa.op_desc, hfr.op_desc]

theorem gradOpDescs_dangling (env : Env) (op : OpId) (block : BlockId)
    (grad_to_var : StrMap String) (vars : StrMap VarId) (dev_ctx : Option DeviceContext)
    (i : Nat) (pre : List OpDesc) (d : OpDesc) (post : List OpDesc)
    (gpre : StrMap (List String)) (key : String) (npre : List String) (n : String)
    (npost : List String) (gpost : StrMap (List String)) (s : State) (saved : List String)
    (hd : dev_ctx.isSome = true)
    (hdpre : ∀ d1 ∈ pre,
      descWirable grad_to_var vars.find (gradientReady s vars.find) d1 = true)
    (hin : d.inputs = gpre ++ (key, npre ++ n :: npost) :: gpost)
    (hgpre : ∀ m ∈ allNames gpre,
      inputWirable grad_to_var vars.find (gradientReady s vars.find) m = true)
    (hpre : ∀ m ∈ npre,
      inputWirable grad_to_var vars.find (gradientReady s vars.find) m = true)
    (hn : grad_to_var.find n = none) (hv : vars.find n = none) :
    (gradOpDescs env op block grad_to_var vars dev_ctx i (pre ++ d :: post) s saved).result
      = .error .DanglingGradientReference := by
  obtain ⟨s1, r, h⟩ := gradOpDescs_succeeds env op block grad_to_var vars dev_ctx i pre s
    saved hd hdpre
  have hl := gradOpDescs_lazy env op block grad_to_var vars dev_ctx i pre s saved
  rw [h] at hl
  simp only at hl
  have hlift : ∀ fwd, gradientReady s vars.find fwd = true →
      gradientReady s1 vars.find fwd = true :=
    fun fwd hh => gradientReady_lift hl vars.find fwd hh
  have hm := gradInputGroups_dangling env op block (i + pre.length) grad_to_var vars dev_ctx
    gpre key npre n npost gpost s1 r hd
    (fun m hmem => inputWirable_mono hlift (hgpre m hmem))
    (fun m hmem => inputWirable_mono hlift (hpre m hmem)) hn hv
  rw [gradOpDescs_append, h]
  simp only [gradOpDescs]
  rw [hin]
  generalize gradInputGroups env op block (i + pre.length) grad_to_var vars dev_ctx
    (gpre ++ (key, npre ++ n :: npost) :: gpost) s1 r = out at hm ⊢
  cases out with
  | mk s2 r2 =>
    simp only at hm
    subst hm
    rfl


theorem traceGrad_missing (env : Env) (op : OpId) (block : BlockId) (vars : StrMap VarId)
    (dev_ctx : Option DeviceContext) (s : State) (pre : List OpDesc) (d : OpDesc)
    (post : List OpDesc) (gpre : StrMap (List String)) (key : String) (npre : List String)
    (n : String) (npost : List String) (gpost : StrMap (List String))
    (hfresh : (s.ops op).grad_op_descs_ = []) (hd : dev_ctx.isSome = true)
    (hdescs : (env.GradOpMaker (s.ops op).op_desc_).1 = pre ++ d :: post)
    (hdpre : ∀ d1 ∈ pre, descWirable (env.GradOpMaker (s.ops op).op_desc_).2 vars.find
      (gradientReady s vars.find) d1 = true)
    (hin : ∀ m ∈ allNames d.inputs, inputWirable (env.GradOpMaker (s.ops op).op_desc_).2
      vars.find (gradientReady s vars.find) m = true)
    (hout : d.outputs = gpre ++ (key, npre ++ n :: npost) :: gpost)
    (hgpre : ∀ m ∈ allNames gpre, outputWirable (env.GradOpMaker (s.ops op).op_desc_).2
      (gradientReady s vars.find) m = true)
    (hpre : ∀ m ∈ npre, outputWirable (env.GradOpMaker (s.ops op).op_desc_).2
      (gradientReady s vars.find) m = true)
    (hn : (env.GradOpMaker (s.ops op).op_desc_).2.find n = none) :
    (traceGrad env op block vars dev_ctx s).result
      = .error (.MissingGradientMapping (s.ops op).op_desc_.type) := by
  unfold traceGrad CreateGradOp
  simp only [hfresh, List.isEmpty_nil, if_true, List.nil_append]
  rw [hdescs]
  have h := gradOpDescs_missing env op block (env.GradOpMaker (s.ops op).op_desc_).2 vars
    dev_ctx 0 pre d post gpre key npre n npost gpost
    (s.setOp op { s.ops op with
      grad_op_descs_ := pre ++ d :: post
      grad_input_vars_ := resize (s.ops op).grad_input_vars_ (pre ++ d :: post).length []
      grad_output_vars_ := resize (s.ops op).grad_output_vars_ (pre ++ d :: post).length [] })
    [] hd hdpre hin hout hgpre hpre hn
  rw [h]
  simp

theorem traceGrad_dangling (env : Env) (op : OpId) (block : BlockId) (vars : StrMap VarId)
    (dev_ctx : Option DeviceContext) (s : State) (pre : List OpDesc) (d : OpDesc)
    (post : List OpDesc) (gpre : StrMap (List String)) (key : String) (npre : List String)
    (n : String) (npost : List String) (gpost : StrMap (List String))
    (hfresh : (s.ops op).grad_op_descs_ = []) (hd : dev_ctx.isSome = true)
    (hdescs : (env.GradOpMaker (s.ops op).op_desc_).1 = pre ++ d :: post)
    (hdpre : ∀ d1 ∈ pre, descWirable (env.GradOpMaker (s.ops op).op_desc_).2 vars.find
      (gradientReady s vars.find) d1 = true)
    (hin : d.inputs = gpre ++ (key, npre ++ n :: npost) :: gpost)
    (hgpre : ∀ m ∈ allNames gpre, inputWirable (env.GradOpMaker (s.ops op).op_desc_).2
      vars.find (gradientReady s vars.find) m = true)
    (hpre : ∀ m ∈ npre, inputWirable (env.GradOpMaker (s.ops op).op_desc_).2
      vars.find (gradientReady s vars.find) m = true)
    (hn : (env.GradOpMaker (s.ops op).op_desc_).2.find n = none)
    (hv : vars.find n = none) :
    (traceGrad env op block vars dev_ctx s).result = .error .DanglingGradientReference := by
  unfold traceGrad CreateGradOp
  simp only [hfresh, List.isEmpty_nil, if_true, List.nil_append]
  rw [hdescs]
  exact gradOpDescs_dangling env op block (env.GradOpMaker (s.ops op).op_desc_).2 vars
    dev_ctx 0 pre d post gpre key npre n npost gpost
    (s.setOp op { s.ops op with
      grad_op_descs_ := pre ++ d :: post
      grad_input_vars_ := resize (s.ops op).grad_input_vars_ (pre ++ d :: post).length []
      grad_output_vars_ := resize (s.ops op).grad_output_vars_ (pre ++ d :: post).length [] })
    [] hd hdpre hin hgpre hpre hn hv

/-! ## The start of the gradient wiring of `Tracer::Trace` -/

theorem traceOutputs_materialised (op : OpId) (first : String) (block : BlockId) (g : Bool)
    (i : Nat) (vs : List VarId) (s s1 : State) (l l1 : Locals)
    (h : traceOutputs op first block g i vs s l = ⟨s1, .ok l1⟩) (out : VarId)
    (hout : out ∈ vs)
    (hty : (s.blocks block).vars (s.vars out).name = some VarType.LOD_TENSOR)
    (xv : VariableId) (hx : (s.vars out).var_ = some xv) :
    (s1.store xv).IsInitialized = true := by
  induction vs generalizing s l i with
  | nil => cases hout
  | cons o t ih =>
    have hfield : ∀ (S : State), S.vars = s.vars → ∀ w,
        ((S.setVar o ((s.vars o).TrackPreOp op first i g)).vars w).name = (s.vars w).name ∧
        ((S.setVar o ((s.vars o).TrackPreOp op first i g)).vars w).var_
          = (s.vars w).var_ := by
      intro S hS w
      by_cases hw : w = o
      · subst hw
        simp [State.setVar, VarBase.TrackPreOp]
      · simp [State.setVar, Function.update_noteq hw, hS]
    unfold traceOutputs at h
    simp only at h
    cases hb : (s.blocks block).vars (s.vars o).name with
    | none => simp [hb] at h
    | some ty =>
      simp only [hb] at h
      by_cases hlod : ty = VarType.LOD_TENSOR
      · simp only [hlod, if_true] at h
        cases hv : (s.vars o).var_ with
        | none => simp [hv] at h
        | some v =>
          simp only [hv] at h
          rcases List.mem_cons.1 hout with h1 | h1
          · subst h1
            rw [hv] at hx
            injection hx with hx1
            subst hx1
            have htr := traceOutputs_tracked op first block g (i + 1) t
              ((s.setVariable v (s.store v).GetMutable).setVar out
                ((s.vars out).TrackPreOp op first i g))
              { l with
                outvars_map := l.outvars_map.push first (some v)
                vars := l.vars.set (s.vars out).name out }
            rw [h] at htr
            have hinit : (((s.setVariable v (s.store v).GetMutable).setVar out
                ((s.vars out).TrackPreOp op first i g)).store v).IsInitialized = true := by
              simp [State.setVariable, GetMutable_initialized]
            rw [htr.store_of_initialized v hinit]
            exact hinit
          · refine ih (i + 1) _ _ h h1 ?_ ?_
            · rw [(hfield (s.setVariable v (s.store v).GetMutable) rfl out).1]
              exact hty
            · rw [(hfield (s.setVariable v (s.store v).GetMutable) rfl out).2]
              exact hx
      · simp only [hlod, if_false] at h
        rcases List.mem_cons.1 hout with h1 | h1
        · subst h1
          rw [hb] at hty
          injection hty with h2
          exact absurd h2 hlod
        · refine ih (i + 1) _ _ h h1 ?_ ?_
          · rw [(hfield s rfl out).1]
            exact hty
          · rw [(hfield s rfl out).2]
            exact hx

theorem traceOutputGroups_materialised (op : OpId) (block : BlockId) (g : Bool)
    (groups : VarBasePtrMap) (s s1 : State) (l l1 : Locals)
    (h : traceOutputGroups op block g groups s l = ⟨s1, .ok l1⟩) (out : VarId)
    (hout : out ∈ allVars groups)
    (hty : (s.blocks block).vars (s.vars out).name = some VarType.LOD_TENSOR)
    (xv : VariableId) (hx : (s.vars out).var_ = some xv) :
    (s1.store xv).IsInitialized = true := by
  induction groups generalizing s l with
  | nil => cases hout
  | cons e t ih =>
    obtain ⟨first, second⟩ := e
    unfold traceOutputGroups at h
    have htr := traceOutputs_tracked op first block g 0 second s
      { l with outvars_map := l.outvars_map.touch first }
    cases hn : traceOutputs op first block g 0 second s
        { l with outvars_map := l.outvars_map.touch first } with
    | mk s2 r2 =>
      rw [hn] at h htr
      cases r2 with
      | error e => simp at h
      | ok l2 =>
        simp only at h htr
        have htr2 := traceOutputGroups_tracked op block g t s2 l2
        rw [h] at htr2
        simp only at htr2
        have hmem : out ∈ second ∨ out ∈ allVars t := by
          simpa [allVars] using hout
        rcases hmem with h1 | h1
        · have hinit := traceOutputs_materialised op first block g 0 second s s2 _ l2 hn out
            h1 hty xv hx
          rw [htr2.store_of_initialized xv hinit]
          exact hinit
        · refine ih s2 l2 h h1 ?_ ?_
          · rw [htr.2.1, (htr.fields out).1]
            exact hty
          · rw [(htr.fields out).2.1]
            exact hx

theorem runOnContext_keeps
    (f : KernelRun → (VariableId → Variable) → VariableId → Variable)
    (hf : ∀ run store x, (store x).IsInitialized = true →
      (f run store x).IsInitialized = true)
    (run : KernelRun) (store : VariableId → Variable) (x : VariableId)
    (hx : (store x).IsInitialized = true) :
    (runOnContext f run store x).IsInitialized = true := by
  unfold runOnContext
  split
  · exact hf run store x hx
  · exact hx

theorem Trace_starts_wiring (env : Env) (s : State) (op : OpId)
    (inputs outputs : VarBasePtrMap) (block : BlockId) (expected_place : Place)
    (hw : WiringStarts env s op inputs outputs block expected_place) :
    ∃ s1 s2 l1 l2,
      traceInputGroups op inputs (traceBegin env s op inputs block) ⟨[], [], []⟩
        = ⟨s1, .ok l1⟩ ∧
      traceOutputGroups op block false outputs
        (s1.setOp op { s1.ops op with output_vars_ := outputs }) l1 = ⟨s2, .ok l2⟩ ∧
      GetExpectedPlace s2 expected_place inputs = .ok expected_place ∧
      ∀ fwd, gradReadyAtStart env s op inputs outputs block fwd = true →
        gradientReady (dispatch env op expected_place l2 s2) l2.vars.find fwd = true := by
  have hdata : ∀ v ∈ allVars inputs, carriesData s v = true := by
    intro v hv
    simp [carriesData, hw.inputs_on_place v hv]
  obtain ⟨s1, s2, l1, l2, hin, hout⟩ := Trace_reaches env s op inputs outputs block false
    (fun v hv => var_ne_none_of_carriesData (hdata v hv)) hw.outputs_ready
  have hl := Trace_linked env s op inputs outputs block false s1 s2 l1 l2 hin hout
  have hgep : GetExpectedPlace s2 expected_place inputs = .ok expected_place := by
    rw [GetExpectedPlace_congr s s2 expected_place inputs (fun v _ => hl.tensorPlace_all v)]
    exact (GetExpectedPlace_ok_iff s expected_place expected_place inputs).2
      ⟨rfl, hw.inputs_on_place⟩
  obtain ⟨-, -, -, -, q5, q6⟩ := Trace_wiring_start env s op inputs outputs block false
    s1 s2 l1 l2 expected_place hin hout
  have hfr := traceInputGroups_frame op inputs (traceBegin env s op inputs block)
    ⟨[], [], []⟩
  rw [hin] at hfr
  simp only at hfr
  have hstay2 : ∀ x, (s.store x).IsInitialized = true → (s2.store x).IsInitialized = true := by
    intro x hx
    rcases hl.store x with h1 | h1
    · rw [h1]
      exact hx
    · rw [h1]
      exact GetMutable_initialized _
  have hkeep : ∀ x, (s2.store x).IsInitialized = true →
      ((dispatch env op expected_place l2 s2).store x).IsInitialized = true := by
    intro x hx
    simp only [dispatch]
    exact runOnContext_keeps env.func (fun run store y hy => (hw.keeps run store y hy).2) _ _ x
      (runOnContext_keeps env.RuntimeInferShape
        (fun run store y hy => (hw.keeps run store y hy).1) _ _ x hx)
  refine ⟨s1, s2, l1, l2, hin, hout, hgep, fun fwd hr => ?_⟩
  unfold gradReadyAtStart at hr
  unfold gradientReady
  rw [q6]
  cases hf : forwardVar s inputs outputs fwd with
  | none => simp [hf] at hr
  | some X =>
    simp only [hf] at hr ⊢
    rw [gradHandle_of_fields q5 X]
    cases hg : gradHandle s X with
    | none => simp [hg] at hr
    | some gv =>
      simp only [hg, Bool.or_eq_true] at hr ⊢
      rcases hr with h1 | h1
      · exact Or.inl (hkeep gv (hstay2 gv h1))
      · right
        rw [(q5 X).1]
        cases hx : (s.vars X).var_ with
        | none => simp [hx] at h1
        | some xv =>
          simp only [hx, Bool.or_eq_true, Bool.and_eq_true, decide_eq_true_eq] at h1 ⊢
          rcases h1 with h2 | ⟨h2, h3⟩
          · exact hkeep xv (hstay2 xv h2)
          · apply hkeep
            refine traceOutputGroups_materialised op block false outputs _ s2 l1 l2 hout X h2
              ?_ xv ?_
            · simp only [State.setOp_blocks, State.setOp_vars]
              rw [hfr.2.2.2, hfr.2.1]
              simpa [traceBegin, State.setBlock] using h3
            · simp only [State.setOp_vars]
              rw [hfr.2.1]
              exact hx


/-- When every step before the gradient wiring passes and every name that is wired before
the output name `n` is wired without failure, an unregistered `n` makes the call fail
with MissingGradientMapping. -/
theorem Trace_first_missing (env : Env) (s : State) (op : OpId)
    (inputs outputs : VarBasePtrMap) (block : BlockId) (expected_place : Place)
    (pre : List OpDesc) (d : OpDesc) (post : List OpDesc) (gpre : StrMap (List String))
    (key : String) (npre : List String) (n : String) (npost : List String)
    (gpost : StrMap (List String))
    (hw : WiringStarts env s op inputs outputs block expected_place)
    (hdescs : (env.GradOpMaker (s.ops op).op_desc_).1 = pre ++ d :: post)
    (hout : d.outputs = gpre ++ (key, npre ++ n :: npost) :: gpost)
    (hdpre : ∀ d1 ∈ pre, descWirable (env.GradOpMaker (s.ops op).op_desc_).2
      (forwardVar s inputs outputs) (gradReadyAtStart env s op inputs outputs block) d1 = true)
    (hin : ∀ m ∈ allNames d.inputs, inputWirable (env.GradOpMaker (s.ops op).op_desc_).2
      (forwardVar s inputs outputs) (gradReadyAtStart env s op inputs outputs block) m = true)
    (hpre : ∀ m ∈ allNames gpre ++ npre, outputWirable (env.GradOpMaker (s.ops op).op_desc_).2
      (gradReadyAtStart env s op inputs outputs block) m = true)
    (hn : (env.GradOpMaker (s.ops op).op_desc_).2.find n = none) :
    (Trace env s op inputs outputs block expected_place false).result
      = .error (.MissingGradientMapping (s.ops op).op_desc_.type) := by
  obtain ⟨s1, s2, l1, l2, hin1, hout1, hgep, hready⟩ :=
    Trace_starts_wiring env s op inputs outputs block expected_place hw
  have hl := Trace_linked env s op inputs outputs block false s1 s2 l1 l2 hin1 hout1
  obtain ⟨p1, -⟩ := Trace_grad_phases env s op inputs outputs block expected_place
    s1 s2 l1 l2 expected_place hin1 hout1 hw.kernel hgep
  obtain ⟨q1, q2, -, -, -, q6⟩ := Trace_wiring_start env s op inputs outputs block false
    s1 s2 l1 l2 expected_place hin1 hout1
  have hop : (s2.ops op).op_desc_ = (s.ops op).op_desc_ := by
    rw [hl.op_eq]
    simp
  rw [q6] at hready
  have h := traceGrad_missing env op block l2.vars
    (env.Prepare (s2.ops op).op_desc_ expected_place) (dispatch env op expected_place l2 s2)
    pre d post gpre key npre n npost gpost (by rw [q2]; exact hw.fresh)
    (by rw [hop]; exact hw.device) (by rw [q1]; exact hdescs)
    (by
      rw [q1, q6]
      exact fun d1 hd1 => descWirable_mono hready (hdpre d1 hd1))
    (by
      rw [q1, q6]
      exact fun m hm => inputWirable_mono hready (hin m hm))
    hout
    (by
      rw [q1, q6]
      exact fun m hm => outputWirable_mono hready (hpre m (List.mem_append_left _ hm)))
    (by
      rw [q1, q6]
      exact fun m hm => outputWirable_mono hready (hpre m (List.mem_append_right _ hm)))
    (by rw [q1]; exact hn)
  rw [q1] at h
  rw [p1]
  exact h

/-- When every step before the gradient wiring passes and every name that is wired before
the input name `n` is wired without failure, an `n` that is neither a gradient name nor
the name of a forward variable makes the call fail with DanglingGradientReference. -/
theorem Trace_first_dangling (env : Env) (s : State) (op : OpId)
    (inputs outputs : VarBasePtrMap) (block : BlockId) (expected_place : Place)
    (pre : List OpDesc) (d : OpDesc) (post : List OpDesc) (gpre : StrMap (List String))
    (key : String) (npre : List String) (n : String) (npost : List String)
    (gpost : StrMap (List String))
    (hw : WiringStarts env s op inputs outputs block expected_place)
    (hdescs : (env.GradOpMaker (s.ops op).op_desc_).1 = pre ++ d :: post)
    (hin : d.inputs = gpre ++ (key, npre ++ n :: npost) :: gpost)
    (hdpre : ∀ d1 ∈ pre, descWirable (env.GradOpMaker (s.ops op).op_desc_).2
      (forwardVar s inputs outputs) (gradReadyAtStart env s op inputs outputs block) d1 = true)
    (hpre : ∀ m ∈ allNames gpre ++ npre, inputWirable (env.GradOpMaker (s.ops op).op_desc_).2
      (forwardVar s inputs outputs) (gradReadyAtStart env s op inputs outputs block) m = true)
    (hn : (env.GradOpMaker (s.ops op).op_desc_).2.find n = none)
    (hv : ∀ v ∈ allVars inputs ++ allVars outputs, (s.vars v).name ≠ n) :
    (Trace env s op inputs outputs block expected_place false).result
      = .error .DanglingGradientReference := by
  obtain ⟨s1, s2, l1, l2, hin1, hout1, hgep, hready⟩ :=
    Trace_starts_wiring env s op inputs outputs block expected_place hw
  have hl := Trace_linked env s op inputs outputs block false s1 s2 l1 l2 hin1 hout1
  obtain ⟨p1, -⟩ := Trace_grad_phases env s op inputs outputs block expected_place
    s1 s2 l1 l2 expected_place hin1 hout1 hw.kernel hgep
  obtain ⟨q1, q2, -, -, -, q6⟩ := Trace_wiring_start env s op inputs outputs block false
    s1 s2 l1 l2 expected_place hin1 hout1
  have hop : (s2.ops op).op_desc_ = (s.ops op).op_desc_ := by
    rw [hl.op_eq]
    simp
  rw [q6] at hready
  rw [p1]
  exact traceGrad_dangling env op block l2.vars
    (env.Prepare (s2.ops op).op_desc_ expected_place) (dispatch env op expected_place l2 s2)
    pre d post gpre key npre n npost gpost (by rw [q2]; exact hw.fresh)
    (by rw [hop]; exact hw.device) (by rw [q1]; exact hdescs)
    (by
      rw [q1, q6]
      exact fun d1 hd1 => descWirable_mono hready (hdpre d1 hd1))
    hin
    (by
      rw [q1, q6]
      exact fun m hm => inputWirable_mono hready (hpre m (List.mem_append_left _ hm)))
    (by
      rw [q1, q6]
      exact fun m hm => inputWirable_mono hready (hpre m (List.mem_append_right _ hm)))
    (by rw [q1]; exact hn)
    (by rw [q6]; exact forwardVar_none.2 hv)

/-! ## Claims C11 and C12 -/

/-- Claim C11, as the code has it, for a Trace call with stopGradient = false. First:
when every step before the gradient wiring passes (`WiringStarts`) and every name that
is wired before the output name `n` is wired without failure (the descriptors before
the one of `n`, the inputs of that descriptor, the output groups before the one of `n`
and the names before `n` in its group), an `n` that is not registered in the
gradient-to-forward-variable map makes the call fail with MissingGradientMapping,
carrying the type of the forward operation. Second: whatever the earlier steps do, an
unregistered output name makes the call fail. Third: the failure is
MissingGradientMapping only for such a name; a step that fails earlier, such as a
dangling input name of the same descriptor, is the one reported. Fourth: when the call
returns, every backward output name is registered, its forward name is that of an input
or output Variable of the call, and the gradient buffer of that Variable is among the
mapped outputs stored for the descriptor under the group name. -/
theorem C11_missing_mapping (env : Env) (s : State) (op : OpId)
    (inputs outputs : VarBasePtrMap) (block : BlockId) (expected_place : Place) :
    (∀ (pre : List OpDesc) (d : OpDesc) (post : List OpDesc) (gpre : StrMap (List String))
        (key : String) (npre : List String) (n : String) (npost : List String)
        (gpost : StrMap (List String)),
      WiringStarts env s op inputs outputs block expected_place →
      (env.GradOpMaker (s.ops op).op_desc_).1 = pre ++ d :: post →
      d.outputs = gpre ++ (key, npre ++ n :: npost) :: gpost →
      (∀ d1 ∈ pre, descWirable (env.GradOpMaker (s.ops op).op_desc_).2
        (forwardVar s inputs outputs) (gradReadyAtStart env s op inputs outputs block) d1
          = true) →
      (∀ m ∈ allNames d.inputs, inputWirable (env.GradOpMaker (s.ops op).op_desc_).2
        (forwardVar s inputs outputs) (gradReadyAtStart env s op inputs outputs block) m
          = true) →
      (∀ m ∈ allNames gpre ++ npre, outputWirable (env.GradOpMaker (s.ops op).op_desc_).2
        (gradReadyAtStart env s op inputs outputs block) m = true) →
      (env.GradOpMaker (s.ops op).op_desc_).2.find n = none →
      (Trace env s op inputs outputs block expected_place false).result
        = .error (.MissingGradientMapping (s.ops op).op_desc_.type)) ∧
    (∀ d ∈ (env.GradOpMaker (s.ops op).op_desc_).1, ∀ e ∈ d.outputs, ∀ n ∈ e.2,
      (env.GradOpMaker (s.ops op).op_desc_).2.find n = none →
      ∃ err, (Trace env s op inputs outputs block expected_place false).result
        = .error err) ∧
    (∀ t, (Trace env s op inputs outputs block expected_place false).result
        = .error (.MissingGradientMapping t) →
      t = (s.ops op).op_desc_.type ∧
      ∃ d ∈ (env.GradOpMaker (s.ops op).op_desc_).1, ∃ e ∈ d.outputs, ∃ n ∈ e.2,
        (env.GradOpMaker (s.ops op).op_desc_).2.find n = none) ∧
    (∀ r, (Trace env s op inputs outputs block expected_place false).result = .ok r →
      ∀ i d, (env.GradOpMaker (s.ops op).op_desc_).1[i]? = some d →
      ∀ e ∈ d.outputs, ∀ n ∈ e.2,
        ∃ fwd X gv, (env.GradOpMaker (s.ops op).op_desc_).2.find n = some fwd ∧
          forwardVar s inputs outputs fwd = some X ∧ gradHandle s X = some gv ∧
          some gv ∈ ((Trace env s op inputs outputs block expected_place false).state.ops
            op).gradOut i e.1) := by
  refine ⟨fun pre d post gpre key npre n npost gpost hw hdescs hout hdpre hin hpre hn =>
      Trace_first_missing env s op inputs outputs block expected_place pre d post gpre key
        npre n npost gpost hw hdescs hout hdpre hin hpre hn,
    fun d hd e he n hn hf => ?_, fun t ht => ?_, fun r hr i d hd e he n hn => ?_⟩
  · cases hres : (Trace env s op inputs outputs block expected_place false).result with
    | error err => exact ⟨err, rfl⟩
    | ok r =>
      obtain ⟨-, -, -, -, w⟩ := Trace_wired env s op inputs outputs block expected_place r hres
      obtain ⟨fwd, X, gv, h1, -⟩ := (w d hd).2 n (mem_allNames.2 ⟨e, he, hn⟩)
      rw [hf] at h1
      cases h1
  · rcases (Trace_wiring_source env s op inputs outputs block expected_place false _ ht
      rfl).2 with ⟨h1, -⟩ | ⟨h1, d, hd, n, hn, hf⟩
    · cases h1
    · injection h1 with h2
      obtain ⟨e, he, hne⟩ := mem_allNames.1 hn
      exact ⟨h2, d, hd, e, he, n, hne, hf⟩
  · obtain ⟨-, -, w3, w4, w⟩ := Trace_wired env s op inputs outputs block expected_place r hr
    obtain ⟨fwd, X, gv, h1, h2, h3, -⟩ :=
      (w d (List.getElem?_mem hd)).2 n (mem_allNames.2 ⟨e, he, hn⟩)
    rw [w4] at h3
    refine ⟨fwd, X, gv, h1, h2, h3, ?_⟩
    rw [w3]
    apply List.mem_append_right
    simp only [wiredOutputs, hd]
    refine List.mem_map.2 ⟨n, mem_namesUnder he hn, ?_⟩
    simp [resolveOutput, h1, h2, h3]

/-- The call `add(x, y) -> z` with two backward descriptors, the output `x@GRAD` of the
first one not being registered: every earlier step passes and the call fails with
MissingGradientMapping for `add`; scenario B, `relu(x) -> y` with its own backward
descriptor: the call returns and the gradient buffer of `x` is the mapped output. -/
theorem C11_missing_mapping_witness :
    (Trace oddEnv demoState 1 [("X", [0]), ("Y", [1])] [("Out", [2])] 0 Place.CPUPlace
      false).result = .error (.MissingGradientMapping (demoState.ops 1).op_desc_.type) ∧
    ∃ fwd X gv, (demoEnv.GradOpMaker (demoState.ops 0).op_desc_).2.find "x@GRAD" = some fwd ∧
      forwardVar demoState [("X", [0])] [("Out", [1])] fwd = some X ∧
      gradHandle demoState X = some gv ∧
      some gv ∈ ((Trace demoEnv demoState 0 [("X", [0])] [("Out", [1])] 0 Place.CPUPlace
        false).state.ops 0).gradOut 0 "X@GRAD" :=
  ⟨(C11_missing_mapping oddEnv demoState 1 [("X", [0]), ("Y", [1])] [("Out", [2])] 0
      Place.CPUPlace).1 []
      { type := "add_grad"
        inputs := [("Out@GRAD", ["z@GRAD"])]
        outputs := [("X@GRAD", ["x@GRAD"])] }
      [{ type := "add_grad_grad", inputs := [("Out", ["q"])], outputs := [] }]
      [] "X@GRAD" [] "x@GRAD" [] []
      ⟨by decide, by decide, by decide, fun _ _ _ h => ⟨h, rfl⟩, by decide, by decide⟩
      (by decide) (by decide) (by decide) (by decide) (by decide) (by decide),
    (C11_missing_mapping demoEnv demoState 0 [("X", [0])] [("Out", [1])] 0
      Place.CPUPlace).2.2.2 ["Out"] (by decide) 0 _ rfl ("X@GRAD", ["x@GRAD"]) (by decide)
      "x@GRAD" (by decide)⟩

/-- In this call the backward descriptor of `relu` has the output name `x@GRAD`, which is
not registered, and the input name `q`, which names nothing; the input is looked up
first, and the call fails with DanglingGradientReference, not with
MissingGradientMapping. -/
theorem C11_counterexample :
    (oddEnv.GradOpMaker (demoState.ops 0).op_desc_).1
      = [{ type := "relu_grad"
           inputs := [("Out", ["q"])]
           outputs := [("X@GRAD", ["x@GRAD"])] }] ∧
    (oddEnv.GradOpMaker (demoState.ops 0).op_desc_).2.find "x@GRAD" = none ∧
    (Trace oddEnv demoState 0 [("X", [0])] [("Out", [1])] 0 Place.CPUPlace false).result
      = .error .DanglingGradientReference := by
  decide

/-- Claim C12, as the code has it, for a Trace call with stopGradient = false. First:
when every step before the gradient wiring passes (`WiringStarts`) and every name that
is wired before the input name `n` is wired without failure (the descriptors before the
one of `n`, the input groups before the one of `n` and the names before `n` in its
group), an `n` that is neither a registered gradient name nor the name of an input or
output Variable of the call makes the call fail with DanglingGradientReference. Second:
whatever the earlier steps do, such a name makes the call fail. Third: the failure is
DanglingGradientReference only for such a name; a step that fails earlier, such as an
unregistered output name of an earlier descriptor, is the one reported. Fourth: when the
call returns, every input name that is not a gradient name is the name of an input or
output Variable of the call, and the data handle of that Variable (not its gradient
buffer) is among the mapped inputs stored for the descriptor under the group name. -/
theorem C12_dangling_reference (env : Env) (s : State) (op : OpId)
    (inputs outputs : VarBasePtrMap) (block : BlockId) (expected_place : Place) :
    (∀ (pre : List OpDesc) (d : OpDesc) (post : List OpDesc) (gpre : StrMap (List String))
        (key : String) (npre : List String) (n : String) (npost : List String)
        (gpost : StrMap (List String)),
      WiringStarts env s op inputs outputs block expected_place →
      (env.GradOpMaker (s.ops op).op_desc_).1 = pre ++ d :: post →
      d.inputs = gpre ++ (key, npre ++ n :: npost) :: gpost →
      (∀ d1 ∈ pre, descWirable (env.GradOpMaker (s.ops op).op_desc_).2
        (forwardVar s inputs outputs) (gradReadyAtStart env s op inputs outputs block) d1
          = true) →
      (∀ m ∈ allNames gpre ++ npre, inputWirable (env.GradOpMaker (s.ops op).op_desc_).2
        (forwardVar s inputs outputs) (gradReadyAtStart env s op inputs outputs block) m
          = true) →
      (env.GradOpMaker (s.ops op).op_desc_).2.find n = none →
      (∀ v ∈ allVars inputs ++ allVars outputs, (s.vars v).name ≠ n) →
      (Trace env s op inputs outputs block expected_place false).result
        = .error .DanglingGradientReference) ∧
    (∀ d ∈ (env.GradOpMaker (s.ops op).op_desc_).1, ∀ e ∈ d.inputs, ∀ n ∈ e.2,
      (env.GradOpMaker (s.ops op).op_desc_).2.find n = none →
      (∀ v ∈ allVars inputs ++ allVars outputs, (s.vars v).name ≠ n) →
      ∃ err, (Trace env s op inputs outputs block expected_place false).result
        = .error err) ∧
    ((Trace env s op inputs outputs block expected_place false).result
        = .error .DanglingGradientReference →
      ∃ d ∈ (env.GradOpMaker (s.ops op).op_desc_).1, ∃ e ∈ d.inputs, ∃ n ∈ e.2,
        (env.GradOpMaker (s.ops op).op_desc_).2.find n = none ∧
        ∀ v ∈ allVars inputs ++ allVars outputs, (s.vars v).name ≠ n) ∧
    (∀ r, (Trace env s op inputs outputs block expected_place false).result = .ok r →
      ∀ i d, (env.GradOpMaker (s.ops op).op_desc_).1[i]? = some d →
      ∀ e ∈ d.inputs, ∀ n ∈ e.2,
        (env.GradOpMaker (s.ops op).op_desc_).2.find n = none →
        ∃ X ∈ allVars inputs ++ allVars outputs, (s.vars X).name = n ∧
          forwardVar s inputs outputs n = some X ∧
          (s.vars X).var_ ∈ ((Trace env s op inputs outputs block expected_place
            false).state.ops op).gradIn i e.1) := by
  refine ⟨fun pre d post gpre key npre n npost gpost hw hdescs hin hdpre hpre hn hv =>
      Trace_first_dangling env s op inputs outputs block expected_place pre d post gpre key
        npre n npost gpost hw hdescs hin hdpre hpre hn hv,
    fun d hd e he n hn hf hv => ?_, fun ht => ?_, fun r hr i d hd e he n hn hf => ?_⟩
  · cases hres : (Trace env s op inputs outputs block expected_place false).result with
    | error err => exact ⟨err, rfl⟩
    | ok r =>
      obtain ⟨-, -, -, -, w⟩ := Trace_wired env s op inputs outputs block expected_place r hres
      obtain ⟨X, hX⟩ := ((w d hd).1 n (mem_allNames.2 ⟨e, he, hn⟩)).1 hf
      rw [forwardVar_none.2 hv] at hX
      cases hX
  · rcases (Trace_wiring_source env s op inputs outputs block expected_place false _ ht
      rfl).2 with ⟨-, d, hd, n, hn, hf, hv⟩ | ⟨h1, -⟩
    · obtain ⟨e, he, hne⟩ := mem_allNames.1 hn
      exact ⟨d, hd, e, he, n, hne, hf, forwardVar_none.1 hv⟩
    · cases h1
  · obtain ⟨-, w2, -, -, w⟩ := Trace_wired env s op inputs outputs block expected_place r hr
    obtain ⟨X, hX⟩ := ((w d (List.getElem?_mem hd)).1 n (mem_allNames.2 ⟨e, he, hn⟩)).1 hf
    obtain ⟨h1, h2⟩ := forwardVar_some hX
    refine ⟨X, h1, h2, hX, ?_⟩
    rw [w2]
    apply List.mem_append_right
    simp only [wiredInputs, hd]
    refine List.mem_map.2 ⟨n, mem_namesUnder he hn, ?_⟩
    simp [resolveInput, hf, hX]

/-- The call `relu(x) -> y` with a backward descriptor whose input `q` names nothing:
every earlier step passes and the call fails with DanglingGradientReference; scenario B,
`relu(x) -> y` with its own backward descriptor, whose input `y` is the name of the
output: the data handle of `y` is the mapped input. -/
theorem C12_dangling_reference_witness :
    (Trace oddEnv demoState 0 [("X", [0])] [("Out", [1])] 0 Place.CPUPlace false).result
      = .error .DanglingGradientReference ∧
    ∃ X ∈ allVars [("X", [0])] ++ allVars [("Out", [1])], (demoState.vars X).name = "y" ∧
      forwardVar demoState [("X", [0])] [("Out", [1])] "y" = some X ∧
      (demoState.vars X).var_ ∈ ((Trace demoEnv demoState 0 [("X", [0])] [("Out", [1])] 0
        Place.CPUPlace false).state.ops 0).gradIn 0 "Out" :=
  ⟨(C12_dangling_reference oddEnv demoState 0 [("X", [0])] [("Out", [1])] 0
      Place.CPUPlace).1 []
      { type := "relu_grad"
        inputs := [("Out", ["q"])]
        outputs := [("X@GRAD", ["x@GRAD"])] }
      [] [] "Out" [] "q" [] []
      ⟨by decide, by decide, by decide, fun _ _ _ h => ⟨h, rfl⟩, by decide, by decide⟩
      (by decide) (by decide) (by decide) (by decide) (by decide) (by decide),
    (C12_dangling_reference demoEnv demoState 0 [("X", [0])] [("Out", [1])] 0
      Place.CPUPlace).2.2.2 ["Out"] (by decide) 0 _ rfl ("Out", ["y"]) (by decide)
      "y" (by decide) (by decide)⟩

/-- In this call `add(x, y) -> z` has two backward descriptors; the output `x@GRAD` of
the first one is not registered and the input `q` of the second one names nothing. The
first descriptor is wired first, and the call fails with MissingGradientMapping, not with
DanglingGradientReference. -/
theorem C12_counterexample :
    (oddEnv.GradOpMaker (demoState.ops 1).op_desc_).1
      = [{ type := "add_grad"
           inputs := [("Out@GRAD", ["z@GRAD"])]
           outputs := [("X@GRAD", ["x@GRAD"])] },
         { type := "add_grad_grad"
           inputs := [("Out", ["q"])]
           outputs := [] }] ∧
    (oddEnv.GradOpMaker (demoState.ops 1).op_desc_).2.find "q" = none ∧
    (∀ v ∈ allVars [("X", [0]), ("Y", [1])] ++ allVars [("Out", [2])],
      (demoState.vars v).name ≠ "q") ∧
    (Trace oddEnv demoState 1 [("X", [0]), ("Y", [1])] [("Out", [2])] 0 Place.CPUPlace
      false).result = .error (.MissingGradientMapping "add") := by
  decide

end paddle.imperative
